import Mathlib

/-! # Command-line option resolution of `slangc` (`source/slang/options.cpp`)

A shallow embedding of `Slang::OptionsParser` and of `OptionsParser::parse`,
followed by theorems about it.

Conventions of the embedding.

* `char const*` tokens and `Slang::String` values are Lean `String`s; the
  character level operations (`arg[0]`, `argStr[1]`, `arg + 2`, `EndsWith`)
  work on the list of characters `String.data`.
* C `int` fields are `Int` (the sentinel `-1` is kept as it is).  No count in
  this file can overflow before the token list itself has `2^31` entries.
* `argCursor`/`argEnd` are the list of tokens that are still to be read.
* The compile request (`Slang::CompileRequest`, `slang.h`) and the diagnostic
  sink live in headers that are not part of `options.cpp`; their part of the
  state is a record, and each API entry point the parser calls is a function
  on that record.
* `SLANG_RELEASE_ASSERT` failing stops the process: every function that can
  reach it returns an `Option`, `none` standing for the failed assertion.
-/

namespace Slang

/-! ## Enumerations of `slang.h` and `profile.h` -/

/-- Result codes used by `options.cpp`: `SLANG_OK` is the only success. -/
inductive SlangResult
  | SLANG_OK
  | SLANG_FAIL
  | SLANG_E_INVALID_ARG
  deriving DecidableEq, Repr

/-- The macro `SLANG_SUCCEEDED`. -/
def SLANG_SUCCEEDED (r : SlangResult) : Bool := r == .SLANG_OK

/-- Source languages (`SlangSourceLanguage`). -/
inductive SlangSourceLanguage
  | SLANG_SOURCE_LANGUAGE_UNKNOWN
  | SLANG_SOURCE_LANGUAGE_SLANG
  | SLANG_SOURCE_LANGUAGE_HLSL
  | SLANG_SOURCE_LANGUAGE_GLSL
  deriving DecidableEq, Repr

/-- Modelled from the spec: `profile.h` is missing.  A profile id is the
unknown id, one of the five GLSL stage profiles that `findGlslProfileFromPath`
names, or any other id of the registry. -/
inductive SlangProfileID
  | SLANG_PROFILE_UNKNOWN
  | GLSL_Fragment
  | GLSL_Geometry
  | GLSL_TessControl
  | GLSL_TessEval
  | GLSL_Compute
  | registered (id : Nat)
  deriving DecidableEq, Repr

/-- Code generation targets (`SlangCompileTarget`), as far as `options.cpp`
names them. -/
inductive SlangCompileTarget
  | SLANG_TARGET_UNKNOWN
  | SLANG_TARGET_NONE
  | SLANG_GLSL
  | SLANG_GLSL_VULKAN
  | SLANG_HLSL
  | SLANG_SPIRV
  | SLANG_SPIRV_ASM
  | SLANG_DXBC
  | SLANG_DXBC_ASM
  | SLANG_DXIL
  | SLANG_DXIL_ASM
  deriving DecidableEq, Repr

/-- Pass-through back ends (`SlangPassThrough`). -/
inductive SlangPassThrough
  | SLANG_PASS_THROUGH_NONE
  | SLANG_PASS_THROUGH_FXC
  | SLANG_PASS_THROUGH_DXC
  | SLANG_PASS_THROUGH_GLSLANG
  deriving DecidableEq, Repr

/-- Matrix layout modes (`SlangMatrixLayoutMode`). -/
inductive SlangMatrixLayoutMode
  | SLANG_MATRIX_LAYOUT_MODE_UNKNOWN
  | kMatrixLayoutMode_RowMajor
  | kMatrixLayoutMode_ColumnMajor
  deriving DecidableEq, Repr

/-- Container formats (`SlangContainerFormat`). -/
inductive SlangContainerFormat
  | SLANG_CONTAINER_FORMAT_NONE
  | SLANG_CONTAINER_FORMAT_SLANG_MODULE
  deriving DecidableEq, Repr

/-- Modelled from the spec: `slang.h` is missing; the compile flag set by
`-no-mangle` is one bit of the flag word. -/
def SLANG_COMPILE_FLAG_NO_MANGLING : Nat := 8

/-- Modelled from the spec: `slang.h` is missing; the compile flag set by
`-no-codegen` is another bit of the flag word. -/
def SLANG_COMPILE_FLAG_NO_CODEGEN : Nat := 16

/-- Modelled from the spec: `slang.h` is missing; the per-target flag set by
`-parameter-blocks-use-register-spaces`. -/
def SLANG_TARGET_FLAG_PARAMETER_BLOCKS_USE_REGISTER_SPACES : Nat := 16

/-! ## Diagnostics -/

/-- The diagnostics `options.cpp` raises, each with the arguments it is given. -/
inductive Diagnostic
  | expectedArgumentForOption (option : String)
  | cannotDeduceSourceLanguage (path : String)
  | unknownCodeGenerationTarget (name : String)
  | unknownProfile (name : String)
  | unknownPassThroughTarget (name : String)
  | unknownCommandLineOption (arg : String)
  | noProfileSpecified
  | multipleEntryPointsNeedMulitpleProfiles
  | explicitOutputPathsAndMultipleTargets
  | tooManyOutputPathsSpecified (outputPathCount entryPointCount : Nat)
  | noOutputPathSpecifiedForEntryPoint (name : String)
  | cannotDeduceOutputFormatFromPath (path : String)
  | outputPathsImplyDifferentFormats (first other : String)
  | multipleTranslationUnitsNeedEntryPoints
  deriving DecidableEq, Repr

/-- Modelled from the spec: the table of diagnostic severities is missing.
Every diagnostic of the taxonomy is an error, except
`ExplicitOutputPathsAndMultipleTargets`, a warning. -/
def Diagnostic.isError : Diagnostic → Bool
  | .explicitOutputPathsAndMultipleTargets => false
  | _ => true

/-- Modelled from the spec: the diagnostic sink is missing.  It accumulates
an error count and the diagnostics it was given, in order. -/
structure DiagnosticSink where
  errorCount : Nat := 0
  diagnostics : List Diagnostic := []
  deriving DecidableEq, Repr

/-- Modelled from the spec: `DiagnosticSink::diagnose` records the diagnostic
and counts it when it is an error. -/
def DiagnosticSink.diagnose (sink : DiagnosticSink) (d : Diagnostic) : DiagnosticSink :=
  { errorCount := if d.isError then sink.errorCount + 1 else sink.errorCount
    diagnostics := sink.diagnostics ++ [d] }

/-- Modelled from the spec: `DiagnosticSink::GetErrorCount`. -/
def DiagnosticSink.GetErrorCount (sink : DiagnosticSink) : Nat := sink.errorCount

/-! ## The compile request -/

/-- A translation unit of the request: its language and its source files. -/
structure TranslationUnitRequest where
  sourceLanguage : SlangSourceLanguage
  sourceFiles : List String := []
  deriving DecidableEq, Repr

/-- An entry point of the request. -/
structure EntryPointRequest where
  translationUnitIndex : Int
  name : String
  profile : SlangProfileID
  outputPath : String := ""
  deriving DecidableEq, Repr

/-- A code generation target of the request. -/
structure TargetRequest where
  target : SlangCompileTarget
  targetFlags : Nat := 0
  matrixLayoutMode : SlangMatrixLayoutMode := .SLANG_MATRIX_LAYOUT_MODE_UNKNOWN
  deriving DecidableEq, Repr

/-- Modelled from the spec: `Slang::CompileRequest` is missing.  The record
holds what the request-building API of section 6 of the specification can
register, and the fields `options.cpp` reads or writes directly. -/
structure CompileRequest where
  compileFlags : Nat := 0
  shouldDumpIR : Bool := false
  shouldValidateIR : Bool := false
  shouldSkipCodegen : Bool := false
  translationUnits : List TranslationUnitRequest := []
  entryPoints : List EntryPointRequest := []
  targets : List TargetRequest := []
  passThrough : SlangPassThrough := .SLANG_PASS_THROUGH_NONE
  preprocessorDefinitions : List (String × String) := []
  searchDirectories : List String := []
  containerFormat : SlangContainerFormat := .SLANG_CONTAINER_FORMAT_NONE
  containerOutputPath : String := ""
  mSink : DiagnosticSink := {}
  mDiagnosticOutput : List Diagnostic := []
  deriving DecidableEq, Repr

/-- Modelled from the spec: register a translation unit (language → index).
The new unit is appended and its position is returned. -/
def spAddTranslationUnit (req : CompileRequest) (language : SlangSourceLanguage) :
    Int × CompileRequest :=
  ((req.translationUnits.length : Int),
    { req with translationUnits := req.translationUnits ++ [{ sourceLanguage := language }] })

/-- Modelled from the spec: append a source file to a unit. -/
def spAddTranslationUnitSourceFile (req : CompileRequest) (translationUnitIndex : Int)
    (path : String) : CompileRequest :=
  let addFile := fun (u : TranslationUnitRequest) =>
    { u with sourceFiles := u.sourceFiles ++ [path] }
  { req with
    translationUnits := List.modify addFile translationUnitIndex.toNat req.translationUnits }

/-- Modelled from the spec: register an entry point (unit index, name,
profile) → index.  The new entry point is appended and its position is
returned. -/
def spAddEntryPoint (req : CompileRequest) (translationUnitIndex : Int) (name : String)
    (profile : SlangProfileID) : Int × CompileRequest :=
  ((req.entryPoints.length : Int),
    { req with entryPoints := req.entryPoints ++
        [{ translationUnitIndex := translationUnitIndex, name := name, profile := profile }] })

/-- Modelled from the spec: set the global code generation target; the
request then has this one target. -/
def spSetCodeGenTarget (req : CompileRequest) (target : SlangCompileTarget) : CompileRequest :=
  { req with targets := [{ target := target }] }

/-- Modelled from the spec: set per-target flags. -/
def spSetTargetFlags (req : CompileRequest) (targetIndex : Nat) (flags : Nat) : CompileRequest :=
  let setFlags := fun (t : TargetRequest) => { t with targetFlags := flags }
  { req with targets := List.modify setFlags targetIndex req.targets }

/-- Modelled from the spec: set matrix layout per target. -/
def spSetTargetMatrixLayoutMode (req : CompileRequest) (targetIndex : Nat)
    (mode : SlangMatrixLayoutMode) : CompileRequest :=
  let setMode := fun (t : TargetRequest) => { t with matrixLayoutMode := mode }
  { req with targets := List.modify setMode targetIndex req.targets }

/-- Modelled from the spec: set the pass-through back end. -/
def spSetPassThrough (req : CompileRequest) (passThrough : SlangPassThrough) : CompileRequest :=
  { req with passThrough := passThrough }

/-- Modelled from the spec: add a preprocessor define. -/
def spAddPreprocessorDefine (req : CompileRequest) (key value : String) : CompileRequest :=
  { req with preprocessorDefinitions := req.preprocessorDefinitions ++ [(key, value)] }

/-- Modelled from the spec: add a search path. -/
def spAddSearchPath (req : CompileRequest) (path : String) : CompileRequest :=
  { req with searchDirectories := req.searchDirectories ++ [path] }

/-- Modelled from the spec: set the output-container format. -/
def spSetOutputContainerFormat (req : CompileRequest) (format : SlangContainerFormat) :
    CompileRequest :=
  { req with containerFormat := format }

/-- Modelled from the spec: set the compile flags of the request. -/
def spSetCompileFlags (req : CompileRequest) (flags : Nat) : CompileRequest :=
  { req with compileFlags := flags }

/-! ## Strings -/

/-- `String::EndsWith`: the characters of `suffix` are the last characters of
`path`. -/
def EndsWith (path suffix : String) : Bool := suffix.data.isSuffixOf path.data

/-! ## `struct OptionsParser` -/

/-- `OptionsParser::RawTranslationUnit`. -/
structure RawTranslationUnit where
  sourceLanguage : SlangSourceLanguage
  implicitProfile : SlangProfileID
  translationUnitIndex : Int
  deriving DecidableEq, Repr

/-- `OptionsParser::RawEntryPoint`, with the defaults of the source. -/
structure RawEntryPoint where
  name : String
  profileID : SlangProfileID := .SLANG_PROFILE_UNKNOWN
  translationUnitIndex : Int := -1
  outputPathIndex : Int := -1
  deriving DecidableEq, Repr

/-- `OptionsParser::RawOutputPath`. -/
structure RawOutputPath where
  path : String
  target : SlangCompileTarget
  deriving DecidableEq, Repr

/-- `struct OptionsParser`: the fields of the source with their initial
values.  `requestImpl` is the request the parser writes to (`compileRequest`
is the same object); the sink is `requestImpl.mSink`. -/
structure OptionsParser where
  requestImpl : CompileRequest := {}
  rawTranslationUnits : List RawTranslationUnit := []
  rawEntryPoints : List RawEntryPoint := []
  inputPathCount : Int := 0
  slangTranslationUnit : Int := -1
  translationUnitCount : Int := 0
  currentTranslationUnitIndex : Int := -1
  currentProfileID : SlangProfileID := .SLANG_PROFILE_UNKNOWN
  profileOptionCount : Int := 0
  flags : Nat := 0
  targetFlags : Nat := 0
  rawOutputPaths : List RawOutputPath := []
  chosenTarget : SlangCompileTarget := .SLANG_TARGET_NONE
  deriving DecidableEq, Repr

/-- `sink->diagnose(...)` on the sink of the parser's request. -/
def OptionsParser.diagnose (p : OptionsParser) (d : Diagnostic) : OptionsParser :=
  { p with requestImpl := { p.requestImpl with mSink := p.requestImpl.mSink.diagnose d } }

/-- `OptionsParser::addTranslationUnit`.  `none` is the failed
`SLANG_RELEASE_ASSERT`. -/
def addTranslationUnit (p : OptionsParser) (language : SlangSourceLanguage)
    (implicitProfile : SlangProfileID) : Option (Int × OptionsParser) :=
  let r := spAddTranslationUnit p.requestImpl language
  let translationUnitIndex := r.1
  if translationUnitIndex.toNat = p.rawTranslationUnits.length then
    let rawTranslationUnit : RawTranslationUnit :=
      { sourceLanguage := language
        implicitProfile := implicitProfile
        translationUnitIndex := translationUnitIndex }
    some (translationUnitIndex,
      { p with requestImpl := r.2
               rawTranslationUnits := p.rawTranslationUnits ++ [rawTranslationUnit] })
  else
    none

/-- `OptionsParser::addInputSlangPath`. -/
def addInputSlangPath (p : OptionsParser) (path : String) : Option OptionsParser :=
  let created : Option OptionsParser :=
    if p.slangTranslationUnit = -1 then
      match addTranslationUnit { p with translationUnitCount := p.translationUnitCount + 1 }
          .SLANG_SOURCE_LANGUAGE_SLANG .SLANG_PROFILE_UNKNOWN with
      | none => none
      | some (index, p1) => some { p1 with slangTranslationUnit := index }
    else
      some p
  match created with
  | none => none
  | some p1 =>
    some { p1 with
      requestImpl := spAddTranslationUnitSourceFile p1.requestImpl p1.slangTranslationUnit path
      currentTranslationUnitIndex := p1.slangTranslationUnit }

/-- `OptionsParser::addInputForeignShaderPath`. -/
def addInputForeignShaderPath (p : OptionsParser) (path : String)
    (language : SlangSourceLanguage) (implicitProfile : SlangProfileID) :
    Option OptionsParser :=
  match addTranslationUnit { p with translationUnitCount := p.translationUnitCount + 1 }
      language implicitProfile with
  | none => none
  | some (index, p1) =>
    some { p1 with
      currentTranslationUnitIndex := index
      requestImpl := spAddTranslationUnitSourceFile p1.requestImpl index path }

/-- The table `entries` of `findGlslProfileFromPath`, in its order. -/
def glslProfileEntries : List (String × SlangProfileID) :=
  [ (".frag", .GLSL_Fragment),
    (".geom", .GLSL_Geometry),
    (".tesc", .GLSL_TessControl),
    (".tese", .GLSL_TessEval),
    (".comp", .GLSL_Compute) ]

/-- `OptionsParser::findGlslProfileFromPath`: the first entry of the table
whose extension ends the path. -/
def findGlslProfileFromPath (path : String) : SlangProfileID :=
  match glslProfileEntries.find? (fun entry => EndsWith path entry.1) with
  | some entry => entry.2
  | none => .SLANG_PROFILE_UNKNOWN

/-- `OptionsParser::findSourceLanguageFromPath`: the language and the value
left in `*profileOut`. -/
def findSourceLanguageFromPath (path : String) : SlangSourceLanguage × SlangProfileID :=
  if EndsWith path ".hlsl" || EndsWith path ".fx" then
    (.SLANG_SOURCE_LANGUAGE_HLSL, .SLANG_PROFILE_UNKNOWN)
  else if EndsWith path ".glsl" then
    (.SLANG_SOURCE_LANGUAGE_GLSL, .SLANG_PROFILE_UNKNOWN)
  else
    let profile := findGlslProfileFromPath path
    if profile ≠ .SLANG_PROFILE_UNKNOWN then
      (.SLANG_SOURCE_LANGUAGE_GLSL, profile)
    else
      (.SLANG_SOURCE_LANGUAGE_UNKNOWN, .SLANG_PROFILE_UNKNOWN)

/-- `OptionsParser::addInputPath`: the result code and the parser after the
call. -/
def addInputPath (p : OptionsParser) (inPath : String) : Option (SlangResult × OptionsParser) :=
  let p := { p with inputPathCount := p.inputPathCount + 1 }
  let path := inPath
  if EndsWith path ".slang" then
    match addInputSlangPath p path with
    | none => none
    | some p1 => some (.SLANG_OK, p1)
  else
    let r := findSourceLanguageFromPath path
    let sourceLanguage := r.1
    let profileID := r.2
    if sourceLanguage = .SLANG_SOURCE_LANGUAGE_UNKNOWN then
      some (.SLANG_FAIL, p.diagnose (.cannotDeduceSourceLanguage inPath))
    else
      match addInputForeignShaderPath p path sourceLanguage profileID with
      | none => none
      | some p1 => some (.SLANG_OK, p1)

/-- The `CASE(EXT, TARGET)` lines of `addOutputPath(char const*)`, in their
order. -/
def outputPathCases : List (String × SlangCompileTarget) :=
  [ (".hlsl", .SLANG_HLSL),
    (".fx", .SLANG_HLSL),
    (".dxbc", .SLANG_DXBC),
    (".dxbc.asm", .SLANG_DXBC_ASM),
    (".glsl", .SLANG_GLSL),
    (".vert", .SLANG_GLSL),
    (".frag", .SLANG_GLSL),
    (".geom", .SLANG_GLSL),
    (".tesc", .SLANG_GLSL),
    (".tese", .SLANG_GLSL),
    (".comp", .SLANG_GLSL),
    (".spv", .SLANG_SPIRV),
    (".spv.asm", .SLANG_SPIRV_ASM) ]

/-- `OptionsParser::addOutputPath(String const&, SlangCompileTarget)`. -/
def addOutputPathWithTarget (p : OptionsParser) (path : String) (target : SlangCompileTarget) :
    OptionsParser :=
  let rawOutputPath : RawOutputPath := { path := path, target := target }
  { p with rawOutputPaths := p.rawOutputPaths ++ [rawOutputPath] }

/-- `OptionsParser::addOutputPath(char const*)`, for a path that is not null:
the first `CASE` whose extension ends the path, then `.slang-module`, then the
unknown format. -/
def addOutputPath (p : OptionsParser) (inPath : String) : OptionsParser :=
  let path := inPath
  match outputPathCases.find? (fun c => EndsWith path c.1) with
  | some c => addOutputPathWithTarget p path c.2
  | none =>
    if EndsWith path ".slang-module" then
      { p with requestImpl :=
          { spSetOutputContainerFormat p.requestImpl .SLANG_CONTAINER_FORMAT_SLANG_MODULE with
            containerOutputPath := path } }
    else
      addOutputPathWithTarget p path .SLANG_TARGET_UNKNOWN

/-- `tryReadCommandLineArgumentRaw`: the result code, the sink, `*argOut` and
the cursor after the call. -/
def tryReadCommandLineArgumentRaw (sink : DiagnosticSink) (option : String) :
    List String → SlangResult × DiagnosticSink × Option String × List String
  | [] => (.SLANG_FAIL, sink.diagnose (.expectedArgumentForOption option), none, [])
  | arg :: cursor => (.SLANG_OK, sink, some arg, cursor)

/-- The names `-backend`/`-target` accept, in the order of the comparisons of
the source (`spriv` is spelled as there). -/
def codeGenTargetNames : List (String × SlangCompileTarget) :=
  [ ("glsl", .SLANG_GLSL),
    ("glsl_vk", .SLANG_GLSL_VULKAN),
    ("hlsl", .SLANG_HLSL),
    ("spriv", .SLANG_SPIRV),
    ("dxbc", .SLANG_DXBC),
    ("dxbc-assembly", .SLANG_DXBC_ASM),
    ("spirv", .SLANG_SPIRV),
    ("spirv-assembly", .SLANG_SPIRV_ASM),
    ("dxil", .SLANG_DXIL),
    ("dxil-assembly", .SLANG_DXIL_ASM),
    ("none", .SLANG_TARGET_NONE) ]

/-- The names `-pass-through` accepts. -/
def passThroughNames : List (String × SlangPassThrough) :=
  [ ("fxc", .SLANG_PASS_THROUGH_FXC),
    ("dxc", .SLANG_PASS_THROUGH_DXC),
    ("glslang", .SLANG_PASS_THROUGH_GLSLANG) ]

/-- The search for `=` in the `-D` branch: the two strings handed to
`spAddPreprocessorDefine`. -/
def splitDefine (defineStr : String) : String × String :=
  match defineStr.data.span (fun c => c != '=') with
  | (_, []) => (defineStr, "")
  | (name, _ :: value) => (String.mk name, String.mk value)

/-- How the argument loop of `parse` ends. -/
inductive ScanResult
  /-- The loop ran to `argEnd` (or left through `break`); the second field
  is the local `defaultMatrixLayoutMode`. -/
  | finished (p : OptionsParser) (defaultMatrixLayoutMode : SlangMatrixLayoutMode)
  /-- A `return` inside the loop. -/
  | returned (result : SlangResult) (p : OptionsParser)
  /-- `SLANG_RELEASE_ASSERT` failed. -/
  | asserted
  deriving DecidableEq, Repr

/-- `SLANG_RETURN_ON_FAIL(tryReadCommandLineArgument...(sink, arg, ...))` when
the cursor is at `argEnd`. -/
def missingArgument (p : OptionsParser) (option : String) : ScanResult :=
  let r := tryReadCommandLineArgumentRaw p.requestImpl.mSink option []
  .returned r.1 { p with requestImpl := { p.requestImpl with mSink := r.2.1 } }

/-- The loop of the `--` branch: `addInputPath` on every remaining token,
returning at the first failure. -/
def addInputPaths : List String → OptionsParser → Option (SlangResult × OptionsParser)
  | [], p => some (.SLANG_OK, p)
  | arg :: cursor, p =>
    match addInputPath p arg with
    | none => none
    | some (.SLANG_OK, p1) => addInputPaths cursor p1
    | some (r, p1) => some (r, p1)

/-- The `while (argCursor != argEnd)` loop of `OptionsParser::parse`.  The
list is what lies between `argCursor` and `argEnd`; a branch that reads the
value of its option takes it from the head of that list.  `arg` also stands
for `argStr`, the same characters as a `String`. -/
def parseArgs (spFindProfile : String → SlangProfileID) :
    List String → OptionsParser → SlangMatrixLayoutMode → ScanResult
  | [], p, m => .finished p m
  | arg :: cursor, p, m =>
    if arg.data.head? = some '-' then
      if arg = "-no-mangle" then
        parseArgs spFindProfile cursor
          { p with flags := p.flags ||| SLANG_COMPILE_FLAG_NO_MANGLING } m
      else if arg = "-no-codegen" then
        parseArgs spFindProfile cursor
          { p with flags := p.flags ||| SLANG_COMPILE_FLAG_NO_CODEGEN } m
      else if arg = "-dump-ir" then
        parseArgs spFindProfile cursor
          { p with requestImpl := { p.requestImpl with shouldDumpIR := true } } m
      else if arg = "-validate-ir" then
        parseArgs spFindProfile cursor
          { p with requestImpl := { p.requestImpl with shouldValidateIR := true } } m
      else if arg = "-skip-codegen" then
        parseArgs spFindProfile cursor
          { p with requestImpl := { p.requestImpl with shouldSkipCodegen := true } } m
      else if arg = "-parameter-blocks-use-register-spaces" then
        parseArgs spFindProfile cursor
          { p with targetFlags :=
              p.targetFlags ||| SLANG_TARGET_FLAG_PARAMETER_BLOCKS_USE_REGISTER_SPACES } m
      else if arg = "-backend" ∨ arg = "-target" then
        match cursor with
        | [] => missingArgument p arg
        | name :: cursor =>
          match codeGenTargetNames.lookup name with
          | none => .returned .SLANG_FAIL (p.diagnose (.unknownCodeGenerationTarget name))
          | some target =>
            parseArgs spFindProfile cursor
              { p with chosenTarget := target
                       requestImpl := spSetCodeGenTarget p.requestImpl target } m
      else if arg = "-profile" then
        match cursor with
        | [] => missingArgument p arg
        | name :: cursor =>
          let profileID := spFindProfile name
          if profileID = .SLANG_PROFILE_UNKNOWN then
            .returned .SLANG_FAIL (p.diagnose (.unknownProfile name))
          else
            parseArgs spFindProfile cursor
              { p with currentProfileID := profileID
                       profileOptionCount := p.profileOptionCount + 1 } m
      else if arg = "-entry" then
        match cursor with
        | [] => missingArgument p arg
        | name :: cursor =>
          let outputPathCount : Int := p.rawOutputPaths.length
          let currentOutputPathIndex := outputPathCount - 1
          let entry : RawEntryPoint :=
            { name := name
              translationUnitIndex := p.currentTranslationUnitIndex
              outputPathIndex := currentOutputPathIndex
              profileID := p.currentProfileID }
          parseArgs spFindProfile cursor { p with rawEntryPoints := p.rawEntryPoints ++ [entry] } m
      else if arg = "-pass-through" then
        match cursor with
        | [] => missingArgument p arg
        | name :: cursor =>
          match passThroughNames.lookup name with
          | none => .returned .SLANG_FAIL (p.diagnose (.unknownPassThroughTarget name))
          | some passThrough =>
            parseArgs spFindProfile cursor
              { p with requestImpl := spSetPassThrough p.requestImpl passThrough } m
      else if arg.data[1]? = some 'D' then
        if arg.data.drop 2 = [] then
          match cursor with
          | [] => missingArgument p arg
          | defineStr :: cursor =>
            let kv := splitDefine defineStr
            parseArgs spFindProfile cursor
              { p with requestImpl := spAddPreprocessorDefine p.requestImpl kv.1 kv.2 } m
        else
          let kv := splitDefine (String.mk (arg.data.drop 2))
          parseArgs spFindProfile cursor
            { p with requestImpl := spAddPreprocessorDefine p.requestImpl kv.1 kv.2 } m
      else if arg.data[1]? = some 'I' then
        if arg.data.drop 2 = [] then
          match cursor with
          | [] => missingArgument p arg
          | includeDirStr :: cursor =>
            parseArgs spFindProfile cursor
              { p with requestImpl := spAddSearchPath p.requestImpl includeDirStr } m
        else
          parseArgs spFindProfile cursor
            { p with requestImpl :=
                spAddSearchPath p.requestImpl (String.mk (arg.data.drop 2)) } m
      else if arg = "-o" then
        match cursor with
        | [] => missingArgument p arg
        | outputPath :: cursor => parseArgs spFindProfile cursor (addOutputPath p outputPath) m
      else if arg = "-matrix-layout-row-major" then
        parseArgs spFindProfile cursor p .kMatrixLayoutMode_RowMajor
      else if arg = "-matrix-layout-column-major" then
        parseArgs spFindProfile cursor p .kMatrixLayoutMode_ColumnMajor
      else if arg = "--" then
        match addInputPaths cursor p with
        | none => .asserted
        | some (.SLANG_OK, p1) => .finished p1 m
        | some (r, p1) => .returned r p1
      else
        .returned .SLANG_FAIL (p.diagnose (.unknownCommandLineOption arg))
    else
      match addInputPath p arg with
      | none => .asserted
      | some (.SLANG_OK, p1) => parseArgs spFindProfile cursor p1 m
      | some (r, p1) => .returned r p1

/-! ## The passes of `parse` after the argument loop -/

/-- How a pass after the loop ends: it falls through to the next pass, or it
leaves `parse` with a `return`. -/
inductive PassResult
  | continued (p : OptionsParser)
  | returned (result : SlangResult) (p : OptionsParser)
  deriving DecidableEq, Repr

/-- The body of the loop over `rawTranslationUnits` that adds implicit entry
points. -/
def addImplicitEntryPoint (p : OptionsParser) (rawTranslationUnit : RawTranslationUnit) :
    OptionsParser :=
  if rawTranslationUnit.sourceLanguage = .SLANG_SOURCE_LANGUAGE_SLANG then
    p
  else
    let entryPointName := "main"
    let entryPointProfile :=
      if p.currentProfileID ≠ .SLANG_PROFILE_UNKNOWN then
        p.currentProfileID
      else if rawTranslationUnit.implicitProfile ≠ .SLANG_PROFILE_UNKNOWN then
        rawTranslationUnit.implicitProfile
      else
        .SLANG_PROFILE_UNKNOWN
    let entry : RawEntryPoint :=
      { name := entryPointName
        translationUnitIndex := rawTranslationUnit.translationUnitIndex
        profileID := entryPointProfile }
    { p with rawEntryPoints := p.rawEntryPoints ++ [entry] }

/-- Implicit entry points: `if(rawEntryPoints.Count() == 0)` and its loop. -/
def addImplicitEntryPoints (p : OptionsParser) : OptionsParser :=
  if p.rawEntryPoints.length = 0 then
    p.rawTranslationUnits.foldl addImplicitEntryPoint p
  else
    p

/-- Profile backfill: `if( rawEntryPoints.Count() != 0 )` and its body. -/
def applyProfiles (p : OptionsParser) : PassResult :=
  if p.rawEntryPoints.length ≠ 0 then
    let anyEntryPointWithoutProfile :=
      p.rawEntryPoints.any (fun entryPoint => entryPoint.profileID == .SLANG_PROFILE_UNKNOWN)
    if anyEntryPointWithoutProfile ∧ p.currentProfileID = .SLANG_PROFILE_UNKNOWN then
      .returned .SLANG_E_INVALID_ARG (p.diagnose .noProfileSpecified)
    else if anyEntryPointWithoutProfile ∧ p.profileOptionCount > 1
        ∧ p.rawEntryPoints.length > 1 then
      .returned .SLANG_E_INVALID_ARG (p.diagnose .multipleEntryPointsNeedMulitpleProfiles)
    else
      let apply := fun (e : RawEntryPoint) =>
        if e.profileID = .SLANG_PROFILE_UNKNOWN then { e with profileID := p.currentProfileID }
        else e
      .continued { p with rawEntryPoints := p.rawEntryPoints.map apply }
  else
    .continued p

/-- The check for explicit output paths together with several targets. -/
def checkOutputPathsAndTargets (p : OptionsParser) : OptionsParser :=
  if p.rawOutputPaths.length ≠ 0 ∧ p.requestImpl.targets.length > 1 then
    p.diagnose .explicitOutputPathsAndMultipleTargets
  else
    p

/-- Association of output paths with entry points: the first `if`/`else`
chain inside `if (rawOutputPaths.Count() != 0)`. -/
def associateOutputPaths (p : OptionsParser) : OptionsParser :=
  if p.rawEntryPoints.length = 1 ∧ p.rawOutputPaths.length = 1 then
    let assign := fun (e : RawEntryPoint) => { e with outputPathIndex := 0 }
    { p with rawEntryPoints := List.modify assign 0 p.rawEntryPoints }
  else if p.rawOutputPaths.length > p.rawEntryPoints.length then
    p.diagnose (.tooManyOutputPathsSpecified p.rawOutputPaths.length p.rawEntryPoints.length)
  else
    match p.rawEntryPoints.find? (fun entryPoint => entryPoint.outputPathIndex < 0) with
    | some entryPoint => p.diagnose (.noOutputPathSpecifiedForEntryPoint entryPoint.name)
    | none => p

/-- Target consistency: the `switch (chosenTarget)`; `first` is
`rawOutputPaths[0]`. -/
def inferTarget (p : OptionsParser) (first : RawOutputPath) : OptionsParser :=
  match p.chosenTarget with
  | .SLANG_TARGET_NONE | .SLANG_TARGET_UNKNOWN =>
    match p.rawOutputPaths.find? (fun o => o.target == .SLANG_TARGET_UNKNOWN) with
    | some rawOutputPath => p.diagnose (.cannotDeduceOutputFormatFromPath rawOutputPath.path)
    | none =>
      let target := first.target
      let p1 := { p with requestImpl := spSetCodeGenTarget p.requestImpl target }
      match p1.rawOutputPaths.find? (fun o => o.target != target) with
      | some rawOutputPath =>
        p1.diagnose (.outputPathsImplyDifferentFormats first.path rawOutputPath.path)
      | none => p1
  | _ => p

/-- Output reconciliation: `if (rawOutputPaths.Count() != 0)` and its body. -/
def reconcileOutputPaths (p : OptionsParser) : OptionsParser :=
  match p.rawOutputPaths with
  | [] => p
  | first :: _ => inferTarget (associateOutputPaths p) first

/-- Per-target flags: `if(targetFlags)`. -/
def applyTargetFlags (p : OptionsParser) : OptionsParser :=
  if p.targetFlags ≠ 0 then
    { p with requestImpl := spSetTargetFlags p.requestImpl 0 p.targetFlags }
  else
    p

/-- Default matrix layout: the loop over the targets of the request. -/
def applyMatrixLayoutMode (p : OptionsParser) (defaultMatrixLayoutMode : SlangMatrixLayoutMode) :
    OptionsParser :=
  if defaultMatrixLayoutMode ≠ .SLANG_MATRIX_LAYOUT_MODE_UNKNOWN then
    let targetCount := p.requestImpl.targets.length
    let setMode := fun (req : CompileRequest) (tt : Nat) =>
      spSetTargetMatrixLayoutMode req tt defaultMatrixLayoutMode
    { p with requestImpl := (List.range targetCount).foldl setMode p.requestImpl }
  else
    p

/-- Translation-unit backfill: the first loop of the last block of `parse` and
the check that follows it. -/
def attachTranslationUnits (p : OptionsParser) : PassResult :=
  let anyEntryPointWithoutTranslationUnit :=
    p.rawEntryPoints.any (fun entryPoint => entryPoint.translationUnitIndex == -1)
  let attach := fun (entryPoint : RawEntryPoint) =>
    if entryPoint.translationUnitIndex ≠ -1 then entryPoint
    else { entryPoint with translationUnitIndex := 0 }
  let p1 := { p with rawEntryPoints := p.rawEntryPoints.map attach }
  if anyEntryPointWithoutTranslationUnit ∧ p1.translationUnitCount ≠ 1 then
    .returned .SLANG_FAIL (p1.diagnose .multipleTranslationUnitsNeedEntryPoints)
  else
    .continued p1

/-- The body of the loop that places the entry points in the request.  `none`
is a read of `rawOutputPaths` outside its bounds. -/
def placeEntryPoint (p : OptionsParser) (entryPoint : RawEntryPoint) : Option OptionsParser :=
  let r := spAddEntryPoint p.requestImpl entryPoint.translationUnitIndex entryPoint.name
    entryPoint.profileID
  let entryPointIndex := r.1
  if entryPoint.outputPathIndex ≥ 0 then
    match p.rawOutputPaths[entryPoint.outputPathIndex.toNat]? with
    | none => none
    | some rawOutputPath =>
      let setPath := fun (e : EntryPointRequest) => { e with outputPath := rawOutputPath.path }
      let entryPoints := List.modify setPath entryPointIndex.toNat r.2.entryPoints
      some { p with requestImpl := { r.2 with entryPoints := entryPoints } }
  else
    some { p with requestImpl := r.2 }

/-- The loop that places the entry points in the request. -/
def placeEntryPoints : List RawEntryPoint → OptionsParser → Option OptionsParser
  | [], p => some p
  | entryPoint :: rest, p =>
    match placeEntryPoint p entryPoint with
    | none => none
    | some p1 => placeEntryPoints rest p1

/-- `OptionsParser::parse` from the end of the argument loop on. -/
def resolve (p : OptionsParser) (defaultMatrixLayoutMode : SlangMatrixLayoutMode) :
    Option (SlangResult × OptionsParser) :=
  let p := { p with requestImpl := spSetCompileFlags p.requestImpl p.flags }
  let p := addImplicitEntryPoints p
  match applyProfiles p with
  | .returned r p => some (r, p)
  | .continued p =>
    let p := checkOutputPathsAndTargets p
    let p := reconcileOutputPaths p
    let p := applyTargetFlags p
    let p := applyMatrixLayoutMode p defaultMatrixLayoutMode
    match attachTranslationUnits p with
    | .returned r p => some (r, p)
    | .continued p =>
      match placeEntryPoints p.rawEntryPoints p with
      | none => none
      | some p =>
        some (if p.requestImpl.mSink.GetErrorCount = 0 then .SLANG_OK else .SLANG_FAIL, p)

/-- `OptionsParser::parse`: the result code and the parser when it returns;
`none` when the call does not return (a failed `SLANG_RELEASE_ASSERT`, a read
outside `rawOutputPaths`). -/
def OptionsParser.parse (spFindProfile : String → SlangProfileID) (p : OptionsParser)
    (argv : List String) : Option (SlangResult × OptionsParser) :=
  let p := { p with flags := p.requestImpl.compileFlags }
  match parseArgs spFindProfile argv p .SLANG_MATRIX_LAYOUT_MODE_UNKNOWN with
  | .asserted => none
  | .returned r p => some (r, p)
  | .finished p m => resolve p m

/-- `parseOptions`: a new parser on the request, then `parse`; when the sink
holds an error, what it has rendered is put in `mDiagnosticOutput`.  The
result code and the request are returned. -/
def parseOptions (spFindProfile : String → SlangProfileID) (compileRequest : CompileRequest)
    (argv : List String) : Option (SlangResult × CompileRequest) :=
  let parser : OptionsParser := { requestImpl := compileRequest }
  match parser.parse spFindProfile argv with
  | none => none
  | some (res, p) =>
    let req := p.requestImpl
    if req.mSink.GetErrorCount > 0 then
      some (res, { req with mDiagnosticOutput := req.mSink.diagnostics })
    else
      some (res, req)

/-! ## Definitions used to state the theorems -/

/-- The foreign suffixes of input paths, each with the language and the
implicit profile it stands for. -/
def foreignSuffixes : List (String × SlangSourceLanguage × SlangProfileID) :=
  [ (".hlsl", .SLANG_SOURCE_LANGUAGE_HLSL, .SLANG_PROFILE_UNKNOWN),
    (".fx", .SLANG_SOURCE_LANGUAGE_HLSL, .SLANG_PROFILE_UNKNOWN),
    (".glsl", .SLANG_SOURCE_LANGUAGE_GLSL, .SLANG_PROFILE_UNKNOWN),
    (".frag", .SLANG_SOURCE_LANGUAGE_GLSL, .GLSL_Fragment),
    (".geom", .SLANG_SOURCE_LANGUAGE_GLSL, .GLSL_Geometry),
    (".tesc", .SLANG_SOURCE_LANGUAGE_GLSL, .GLSL_TessControl),
    (".tese", .SLANG_SOURCE_LANGUAGE_GLSL, .GLSL_TessEval),
    (".comp", .SLANG_SOURCE_LANGUAGE_GLSL, .GLSL_Compute) ]

/-- The nine suffixes of input paths: the native one and the foreign ones. -/
def inputSuffixes : List String :=
  [".slang", ".hlsl", ".fx", ".glsl", ".frag", ".geom", ".tesc", ".tese", ".comp"]

/-- The translation units the specification describes for a sequence of input
paths, by language and implicit profile, in the order of first encounter: one
unit for each foreign input before the first `.slang` input, then (when there
is a `.slang` input) the one native unit, then one unit for each later
foreign input; later `.slang` inputs add nothing. -/
def expectedUnits (paths : List String) : List (SlangSourceLanguage × SlangProfileID) :=
  let foreign := fun (path : String) => !EndsWith path ".slang"
  (paths.takeWhile foreign).map findSourceLanguageFromPath ++
    match paths.dropWhile foreign with
    | [] => []
    | _ :: rest =>
      (.SLANG_SOURCE_LANGUAGE_SLANG, .SLANG_PROFILE_UNKNOWN) ::
        (rest.filter foreign).map findSourceLanguageFromPath

/-- The raw translation unit with a given position, language and implicit
profile. -/
def numberedUnit (iu : Nat × SlangSourceLanguage × SlangProfileID) : RawTranslationUnit :=
  { sourceLanguage := iu.2.1, implicitProfile := iu.2.2, translationUnitIndex := iu.1 }

/-- What holds of the parser at every iteration of the argument loop, when
the request had no translation unit at the start: the request and the parser
hold the same number of units, `translationUnitCount` is that number, unit `i`
carries index `i`, every recorded unit index is `-1` or the index of a unit,
every recorded output path index is `-1` or the index of an output path, and
`currentProfileID` is unknown exactly when no `-profile` was counted. -/
structure ScanInv (p : OptionsParser) : Prop where
  request_units : p.requestImpl.translationUnits.length = p.rawTranslationUnits.length
  unit_count : p.translationUnitCount = p.rawTranslationUnits.length
  unit_index : p.rawTranslationUnits.map (fun u => u.translationUnitIndex) =
    (List.range p.rawTranslationUnits.length).map Int.ofNat
  slang_unit : p.slangTranslationUnit = -1 ∨
    (0 ≤ p.slangTranslationUnit ∧ p.slangTranslationUnit < p.rawTranslationUnits.length)
  current_unit : p.currentTranslationUnitIndex = -1 ∨
    (0 ≤ p.currentTranslationUnitIndex ∧
      p.currentTranslationUnitIndex < p.rawTranslationUnits.length)
  entry_unit : ∀ e ∈ p.rawEntryPoints, e.translationUnitIndex = -1 ∨
    (0 ≤ e.translationUnitIndex ∧ e.translationUnitIndex < p.rawTranslationUnits.length)
  entry_output : ∀ e ∈ p.rawEntryPoints,
    -1 ≤ e.outputPathIndex ∧ e.outputPathIndex < p.rawOutputPaths.length
  profile_count : 0 ≤ p.profileOptionCount ∧
    (p.currentProfileID = .SLANG_PROFILE_UNKNOWN ↔ p.profileOptionCount = 0)

/-- A property of the parser that every step of the argument loop keeps: one
field for each kind of change the loop makes. -/
structure ScanClosed (I : OptionsParser → Prop) : Prop where
  flags : ∀ (p : OptionsParser) (f : Nat), I p → I { p with flags := f }
  targetFlags : ∀ (p : OptionsParser) (f : Nat), I p → I { p with targetFlags := f }
  request : ∀ (p : OptionsParser) (r : CompileRequest), I p →
    r.translationUnits = p.requestImpl.translationUnits →
    r.entryPoints = p.requestImpl.entryPoints →
    r.targets = p.requestImpl.targets →
    r.mSink = p.requestImpl.mSink → I { p with requestImpl := r }
  target : ∀ (p : OptionsParser) (t : SlangCompileTarget), I p →
    I { p with chosenTarget := t, requestImpl := spSetCodeGenTarget p.requestImpl t }
  profile : ∀ (p : OptionsParser) (profileID : SlangProfileID), I p →
    profileID ≠ .SLANG_PROFILE_UNKNOWN →
    I { p with currentProfileID := profileID, profileOptionCount := p.profileOptionCount + 1 }
  entry : ∀ (p : OptionsParser) (name : String), I p →
    I { p with rawEntryPoints := p.rawEntryPoints ++
      [{ name := name
         translationUnitIndex := p.currentTranslationUnitIndex
         outputPathIndex := (p.rawOutputPaths.length : Int) - 1
         profileID := p.currentProfileID }] }
  output : ∀ (p : OptionsParser) (path : String), I p → I (addOutputPath p path)
  input : ∀ (p : OptionsParser) (path : String) (r : SlangResult) (p1 : OptionsParser), I p →
    addInputPath p path = some (r, p1) → I p1
  diagnose : ∀ (p : OptionsParser) (d : Diagnostic), I p → I (p.diagnose d)

/-- What holds of the result of the argument loop started on parser `p` with
a property `I` that the loop keeps: `I` holds at the end, the loop never
returns success early, an early return has diagnosed exactly one error, a
loop that runs to the end has diagnosed nothing, no entry point was registered
with the request, and the assertion fails only inside an `addInputPath`
called on a parser with `I`. -/
def ScanPost (I : OptionsParser → Prop) (p : OptionsParser) : ScanResult → Prop
  | .finished p1 _ =>
    I p1 ∧ p1.requestImpl.mSink = p.requestImpl.mSink ∧
      p1.requestImpl.entryPoints = p.requestImpl.entryPoints
  | .returned r p1 =>
    r = .SLANG_FAIL ∧ I p1 ∧
      (∃ d, d.isError = true ∧ p1.requestImpl.mSink = p.requestImpl.mSink.diagnose d) ∧
      p1.requestImpl.entryPoints = p.requestImpl.entryPoints
  | .asserted => ∃ q path, I q ∧ addInputPath q path = none

/-- The entry point the specification gives a foreign translation unit when
no `-entry` was given: its name is `main`, it is bound to the unit, its
profile is the global profile if there is one and the implicit profile of the
unit otherwise, and it has no output path. -/
def implicitEntryPoint (currentProfileID : SlangProfileID) (u : RawTranslationUnit) :
    RawEntryPoint :=
  { name := "main"
    profileID :=
      if currentProfileID ≠ .SLANG_PROFILE_UNKNOWN then currentProfileID else u.implicitProfile
    translationUnitIndex := u.translationUnitIndex
    outputPathIndex := -1 }

/-- The entry points the specification synthesizes for a list of translation
units: one for each unit that is not native, in the order of the units. -/
def implicitEntryPointsFor (currentProfileID : SlangProfileID)
    (units : List RawTranslationUnit) : List RawEntryPoint :=
  (units.filter (fun u => u.sourceLanguage != .SLANG_SOURCE_LANGUAGE_SLANG)).map
    (implicitEntryPoint currentProfileID)

/-- The diagnostics of the output reconciliation pass and of the check that
precedes it. -/
def Diagnostic.isOutputDiagnostic : Diagnostic → Bool
  | .explicitOutputPathsAndMultipleTargets => true
  | .tooManyOutputPathsSpecified _ _ => true
  | .noOutputPathSpecifiedForEntryPoint _ => true
  | .cannotDeduceOutputFormatFromPath _ => true
  | .outputPathsImplyDifferentFormats _ _ => true
  | _ => false

/-- The passes between profile backfill and translation-unit backfill, in the
order `parse` runs them. -/
def outputPasses (p : OptionsParser) (defaultMatrixLayoutMode : SlangMatrixLayoutMode) :
    OptionsParser :=
  applyMatrixLayoutMode
    (applyTargetFlags (reconcileOutputPaths (checkOutputPathsAndTargets p)))
    defaultMatrixLayoutMode

/-- What the passes between profile backfill and translation-unit backfill
leave alone, from parser `p` to parser `q`: the fields of the parser other
than `rawEntryPoints` and `requestImpl`, the name, profile and unit of every
entry point, the entry points and translation units of the request; and the
sink only gains output diagnostics. -/
structure OutputStep (p q : OptionsParser) : Prop where
  rawOutputPaths : q.rawOutputPaths = p.rawOutputPaths
  rawTranslationUnits : q.rawTranslationUnits = p.rawTranslationUnits
  translationUnitCount : q.translationUnitCount = p.translationUnitCount
  currentProfileID : q.currentProfileID = p.currentProfileID
  profileOptionCount : q.profileOptionCount = p.profileOptionCount
  chosenTarget : q.chosenTarget = p.chosenTarget
  names : q.rawEntryPoints.map (fun e => e.name) = p.rawEntryPoints.map (fun e => e.name)
  profiles : q.rawEntryPoints.map (fun e => e.profileID) =
    p.rawEntryPoints.map (fun e => e.profileID)
  units : q.rawEntryPoints.map (fun e => e.translationUnitIndex) =
    p.rawEntryPoints.map (fun e => e.translationUnitIndex)
  requestEntryPoints : q.requestImpl.entryPoints = p.requestImpl.entryPoints
  requestUnits : q.requestImpl.translationUnits = p.requestImpl.translationUnits
  diagnostics : ∃ ds, q.requestImpl.mSink.diagnostics = p.requestImpl.mSink.diagnostics ++ ds ∧
    ∀ d ∈ ds, d.isOutputDiagnostic = true
  errorCount : p.requestImpl.mSink.errorCount ≤ q.requestImpl.mSink.errorCount

/-- The entry point the request holds for a raw entry point once the last
loop of `parse` has placed it: its unit, name and profile, and the path of
its output when it has one. -/
def registeredEntryPoint (rawOutputPaths : List RawOutputPath) (e : RawEntryPoint) :
    EntryPointRequest :=
  { translationUnitIndex := e.translationUnitIndex
    name := e.name
    profile := e.profileID
    outputPath :=
      if e.outputPathIndex ≥ 0 then
        match rawOutputPaths[e.outputPathIndex.toNat]? with
        | some rawOutputPath => rawOutputPath.path
        | none => ""
      else "" }

/-- One item of a command line, as the flag table of the specification lists
them: an option together with the value it takes, or a bare input path. -/
inductive CommandLineItem
  /-- A flag that takes no value. -/
  | flag (arg : String)
  /-- `-backend NAME` or `-target NAME`. -/
  | target (arg name : String)
  /-- `-profile NAME`. -/
  | profile (name : String)
  /-- `-entry NAME`. -/
  | entry (name : String)
  /-- `-pass-through NAME`. -/
  | passThrough (name : String)
  /-- `-DNAME[=VALUE]` or `-IPATH`, in one token. -/
  | joined (arg : String)
  /-- `-D NAME[=VALUE]` or `-I PATH`, in two tokens. -/
  | spaced (arg value : String)
  /-- `-o PATH`. -/
  | output (path : String)
  /-- A bare token: an input path. -/
  | input (path : String)
  deriving DecidableEq, Repr

/-- The tokens of an item. -/
def CommandLineItem.tokens : CommandLineItem → List String
  | .flag arg => [arg]
  | .target arg name => [arg, name]
  | .profile name => ["-profile", name]
  | .entry name => ["-entry", name]
  | .passThrough name => ["-pass-through", name]
  | .joined arg => [arg]
  | .spaced arg value => [arg, value]
  | .output path => ["-o", path]
  | .input path => [path]

/-- The tokens of a list of items. -/
def tokensOf (items : List CommandLineItem) : List String :=
  items.flatMap CommandLineItem.tokens

/-- The flags of the specification's table that take no value. -/
def simpleFlags : List String :=
  [ "-no-mangle", "-no-codegen", "-dump-ir", "-validate-ir", "-skip-codegen",
    "-parameter-blocks-use-register-spaces",
    "-matrix-layout-row-major", "-matrix-layout-column-major" ]

/-- An item that the specification accepts: a known flag, a value from the
table of its option, a profile the registry knows, an input path that does
not start with `-` and has a known suffix. -/
def CommandLineItem.WellFormed (spFindProfile : String → SlangProfileID) :
    CommandLineItem → Prop
  | .flag arg => arg ∈ simpleFlags
  | .target arg name =>
    (arg = "-backend" ∨ arg = "-target") ∧ (codeGenTargetNames.lookup name).isSome = true
  | .profile name => spFindProfile name ≠ .SLANG_PROFILE_UNKNOWN
  | .entry _ => True
  | .passThrough name => (passThroughNames.lookup name).isSome = true
  | .joined arg =>
    arg.data.head? = some '-' ∧ (arg.data[1]? = some 'D' ∨ arg.data[1]? = some 'I') ∧
      arg.data.drop 2 ≠ []
  | .spaced arg _ => arg = "-D" ∨ arg = "-I"
  | .output _ => True
  | .input path =>
    path.data.head? ≠ some '-' ∧
      (EndsWith path ".slang" = true ∨
        (findSourceLanguageFromPath path).1 ≠ .SLANG_SOURCE_LANGUAGE_UNKNOWN)

/-- The names given to the `-profile` options of a command line, in order. -/
def profileNames (items : List CommandLineItem) : List String :=
  items.filterMap (fun i => match i with
    | .profile name => some name
    | _ => none)

/-- The value of the last `-profile` option, unknown when there is none. -/
def lastProfile (spFindProfile : String → SlangProfileID) (items : List CommandLineItem) :
    SlangProfileID :=
  match (profileNames items).getLast? with
  | some name => spFindProfile name
  | none => .SLANG_PROFILE_UNKNOWN

/-- The names given to the `-entry` options of a command line, in order. -/
def entryNames (items : List CommandLineItem) : List String :=
  items.filterMap (fun i => match i with
    | .entry name => some name
    | _ => none)

/-- The paths given to the `-o` options of a command line, in order, without
the container paths (those that end in `.slang-module`). -/
def outputPathsOf (items : List CommandLineItem) : List String :=
  items.filterMap (fun i => match i with
    | .output path => if EndsWith path ".slang-module" then none else some path
    | _ => none)

/-- The input paths of a command line, in order. -/
def inputPathsOf (items : List CommandLineItem) : List String :=
  items.filterMap (fun i => match i with
    | .input path => some path
    | _ => none)

/-- The position of the native unit for a sequence of input paths with a
`.slang` input: the number of foreign inputs before the first `.slang` one. -/
def nativeUnitIndex (paths : List String) : Nat :=
  (paths.takeWhile (fun path => !EndsWith path ".slang")).length

/-- The unit the most recent input path touched: none (`-1`) without input,
the native unit when the last input ends in `.slang`, and the newest unit
otherwise. -/
def touchedUnit (paths : List String) : Int :=
  match paths.getLast? with
  | none => -1
  | some path =>
    if EndsWith path ".slang" then (nativeUnitIndex paths : Int)
    else ((expectedUnits paths).length : Int) - 1

/-- The parser after the loop has read the items `items` from a new parser:
`ScanInv`, and each field the later passes read is what the items say. -/
structure Tracks (spFindProfile : String → SlangProfileID) (items : List CommandLineItem)
    (p : OptionsParser) : Prop where
  inv : ScanInv p
  profile : p.currentProfileID = lastProfile spFindProfile items
  profileCount : p.profileOptionCount = (profileNames items).length
  outputs : p.rawOutputPaths.map (fun o => o.path) = outputPathsOf items
  units : p.rawTranslationUnits.map (fun u => (u.sourceLanguage, u.implicitProfile)) =
    expectedUnits (inputPathsOf items)
  slang : p.slangTranslationUnit =
    if (inputPathsOf items).any (fun path => EndsWith path ".slang") then
      (nativeUnitIndex (inputPathsOf items) : Int)
    else -1
  current : p.currentTranslationUnitIndex = touchedUnit (inputPathsOf items)
  entries : p.rawEntryPoints.map (fun e => e.name) = entryNames items

/-- Parser `q` agrees with parser `p` on every field the later passes read,
and on the sink, the entry points and the translation units of the request. -/
structure SameTracked (p q : OptionsParser) : Prop where
  requestUnits : q.requestImpl.translationUnits = p.requestImpl.translationUnits
  sink : q.requestImpl.mSink = p.requestImpl.mSink
  requestEntryPoints : q.requestImpl.entryPoints = p.requestImpl.entryPoints
  rawTranslationUnits : q.rawTranslationUnits = p.rawTranslationUnits
  translationUnitCount : q.translationUnitCount = p.translationUnitCount
  slangTranslationUnit : q.slangTranslationUnit = p.slangTranslationUnit
  currentTranslationUnitIndex : q.currentTranslationUnitIndex = p.currentTranslationUnitIndex
  rawEntryPoints : q.rawEntryPoints = p.rawEntryPoints
  rawOutputPaths : q.rawOutputPaths = p.rawOutputPaths
  profileOptionCount : q.profileOptionCount = p.profileOptionCount
  currentProfileID : q.currentProfileID = p.currentProfileID

/-- The token list `args` is the command line made of the items `items`:
either the tokens of well-formed items, or the tokens of well-formed items,
then `--`, then input paths with a known suffix (which may start with `-`). -/
def Reads (spFindProfile : String → SlangProfileID) (args : List String)
    (items : List CommandLineItem) : Prop :=
  (args = tokensOf items ∧ ∀ i ∈ items, i.WellFormed spFindProfile) ∨
  ∃ pre paths, args = tokensOf pre ++ "--" :: paths ∧
    items = pre ++ paths.map CommandLineItem.input ∧
    (∀ i ∈ pre, i.WellFormed spFindProfile) ∧
    ∀ path ∈ paths, EndsWith path ".slang" = true ∨
      (findSourceLanguageFromPath path).1 ≠ .SLANG_SOURCE_LANGUAGE_UNKNOWN

/-- The parser when profile backfill starts: `resolve` has passed the compile
flags to the request and added the implicit entry points. -/
def beforeProfileBackfill (p : OptionsParser) : OptionsParser :=
  addImplicitEntryPoints { p with requestImpl := spSetCompileFlags p.requestImpl p.flags }

/-- The diagnostics of profile backfill. -/
def Diagnostic.isProfileDiagnostic : Diagnostic → Bool
  | .noProfileSpecified => true
  | .multipleEntryPointsNeedMulitpleProfiles => true
  | _ => false

/-- The records the `-entry` options among `items` get when `items` are read
after the items `done`: each has the name, the value of the last `-profile`
before it, the unit the last input path before it touched and the index of the
last non-container `-o` path before it. -/
def entryRecords (spFindProfile : String → SlangProfileID) :
    List CommandLineItem → List CommandLineItem → List RawEntryPoint
  | _, [] => []
  | done, i :: rest =>
    (match i with
     | .entry name =>
       [{ name := name
          translationUnitIndex := touchedUnit (inputPathsOf done)
          outputPathIndex := ((outputPathsOf done).length : Int) - 1
          profileID := lastProfile spFindProfile done }]
     | _ => []) ++ entryRecords spFindProfile (done ++ [i]) rest

/-- A profile registry for the examples: it knows `ps_5_0` and `vs_5_0` and no
other name. -/
def exampleProfiles : String → SlangProfileID := fun name =>
  if name = "ps_5_0" then .registered 1
  else if name = "vs_5_0" then .registered 2
  else .SLANG_PROFILE_UNKNOWN

/-- The sink after the diagnostics `ds` have been given to it, in order. -/
def DiagnosticSink.diagnoseAll (sink : DiagnosticSink) (ds : List Diagnostic) : DiagnosticSink :=
  ds.foldl DiagnosticSink.diagnose sink

/-- What the check for output paths together with several targets diagnoses,
for a list of output paths and a list of targets. -/
def multipleTargetsDiagnostics (outputs : List RawOutputPath) (targets : List TargetRequest) :
    List Diagnostic :=
  if outputs.length ≠ 0 ∧ targets.length > 1 then [.explicitOutputPathsAndMultipleTargets]
  else []

/-- What the association of output paths with entry points diagnoses, for a
list of entry points and a list of output paths: nothing without output path
and nothing for one entry point with one output path; the two counts when
there are more output paths than entry points; otherwise the name of the
first entry point without output path, when there is one. -/
def associationDiagnostics (entries : List RawEntryPoint) (outputs : List RawOutputPath) :
    List Diagnostic :=
  if outputs.length = 0 then []
  else if entries.length = 1 ∧ outputs.length = 1 then []
  else if outputs.length > entries.length then
    [.tooManyOutputPathsSpecified outputs.length entries.length]
  else
    match entries.find? (fun entryPoint => entryPoint.outputPathIndex < 0) with
    | some entryPoint => [.noOutputPathSpecifiedForEntryPoint entryPoint.name]
    | none => []

/-- What target consistency diagnoses, for the chosen target and a list of
output paths: nothing without output path or with a chosen target other than
`SLANG_TARGET_NONE` and `SLANG_TARGET_UNKNOWN`; otherwise the first path with
an unknown target, when there is one, and else the first path together with
the first path whose target differs from the first one's, when there is one. -/
def targetDiagnostics (chosenTarget : SlangCompileTarget) (outputs : List RawOutputPath) :
    List Diagnostic :=
  match outputs with
  | [] => []
  | first :: _ =>
    match chosenTarget with
    | .SLANG_TARGET_NONE | .SLANG_TARGET_UNKNOWN =>
      match outputs.find? (fun o => o.target == .SLANG_TARGET_UNKNOWN) with
      | some rawOutputPath => [.cannotDeduceOutputFormatFromPath rawOutputPath.path]
      | none =>
        match outputs.find? (fun o => o.target != first.target) with
        | some rawOutputPath =>
          [.outputPathsImplyDifferentFormats first.path rawOutputPath.path]
        | none => []
    | _ => []

/-- The target that target consistency gives the request, for the chosen
target and a list of output paths: that of the first output path, when the
chosen target is `SLANG_TARGET_NONE` or `SLANG_TARGET_UNKNOWN`, there is an
output path and no output path has an unknown target; none otherwise. -/
def inferredTarget (chosenTarget : SlangCompileTarget) (outputs : List RawOutputPath) :
    Option SlangCompileTarget :=
  match outputs with
  | [] => none
  | first :: _ =>
    match chosenTarget with
    | .SLANG_TARGET_NONE | .SLANG_TARGET_UNKNOWN =>
      match outputs.find? (fun o => o.target == .SLANG_TARGET_UNKNOWN) with
      | some _ => none
      | none => some first.target
    | _ => none

/-- What translation-unit backfill diagnoses, for a list of entry points and
the number of translation units. -/
def translationUnitDiagnostics (entries : List RawEntryPoint) (translationUnitCount : Int) :
    List Diagnostic :=
  if entries.any (fun entryPoint => entryPoint.translationUnitIndex == -1) ∧
      translationUnitCount ≠ 1 then
    [.multipleTranslationUnitsNeedEntryPoints]
  else []

/-- The diagnostics `parse` raises from the check for several targets on, for
a parser `q` that profile backfill has left. -/
def outputDiagnostics (q : OptionsParser) : List Diagnostic :=
  multipleTargetsDiagnostics q.rawOutputPaths q.requestImpl.targets ++
    associationDiagnostics q.rawEntryPoints q.rawOutputPaths ++
    targetDiagnostics q.chosenTarget q.rawOutputPaths ++
    translationUnitDiagnostics q.rawEntryPoints q.translationUnitCount

/-- What translation-unit backfill does to one entry point: an entry point
without unit is bound to unit 0. -/
def backfillTranslationUnit (entryPoint : RawEntryPoint) : RawEntryPoint :=
  if entryPoint.translationUnitIndex ≠ -1 then entryPoint
  else { entryPoint with translationUnitIndex := 0 }

/-- The diagnostic is `tooManyOutputPathsSpecified` (TooManyOutputPaths). -/
def Diagnostic.isTooManyOutputPaths : Diagnostic → Bool
  | .tooManyOutputPathsSpecified _ _ => true
  | _ => false

/-- The diagnostic is `noOutputPathSpecifiedForEntryPoint` (MissingOutputPath). -/
def Diagnostic.isMissingOutputPath : Diagnostic → Bool
  | .noOutputPathSpecifiedForEntryPoint _ => true
  | _ => false

/-- The diagnostic is `cannotDeduceOutputFormatFromPath`
(CannotInferTargetFromPath). -/
def Diagnostic.isCannotInferTarget : Diagnostic → Bool
  | .cannotDeduceOutputFormatFromPath _ => true
  | _ => false

/-- The diagnostic is `outputPathsImplyDifferentFormats`
(InconsistentOutputTargets). -/
def Diagnostic.isInconsistentTargets : Diagnostic → Bool
  | .outputPathsImplyDifferentFormats _ _ => true
  | _ => false

/-- The target an output path implies: that of the first `CASE` of
`addOutputPath` whose extension ends the path, unknown when there is none. -/
def impliedTarget (path : String) : SlangCompileTarget :=
  match outputPathCases.find? (fun c => EndsWith path c.1) with
  | some c => c.2
  | none => .SLANG_TARGET_UNKNOWN

/-- The records of the `-o` options of a command line, in order, without the
container paths: each path with the target it implies. -/
def outputRecords (items : List CommandLineItem) : List RawOutputPath :=
  (outputPathsOf items).map (fun path => { path := path, target := impliedTarget path })

/-- The targets the `-target` and `-backend` options of a command line name,
in order. -/
def targetsOf (items : List CommandLineItem) : List SlangCompileTarget :=
  items.filterMap (fun i => match i with
    | .target _ name => codeGenTargetNames.lookup name
    | _ => none)

/-- The target of the last `-target` or `-backend` option,
`SLANG_TARGET_NONE` when there is none. -/
def chosenTargetOf (items : List CommandLineItem) : SlangCompileTarget :=
  match (targetsOf items).getLast? with
  | some t => t
  | none => .SLANG_TARGET_NONE

/-- The parser after the loop has read the items `items` from a parser whose
request had the targets `targets0`: the chosen target, the targets of the
request and the output paths are what the items say. -/
structure TracksTargets (targets0 : List TargetRequest) (items : List CommandLineItem)
    (p : OptionsParser) : Prop where
  chosen : p.chosenTarget = chosenTargetOf items
  targets : p.requestImpl.targets =
    if targetsOf items = [] then targets0 else [{ target := chosenTargetOf items }]
  outputs : p.rawOutputPaths = outputRecords items

/-- The parser after the loop has read the items `items` from a new parser on
a request with the targets `targets0`. -/
def Scanned (spFindProfile : String → SlangProfileID) (targets0 : List TargetRequest)
    (items : List CommandLineItem) (p : OptionsParser) : Prop :=
  Tracks spFindProfile items p ∧ TracksTargets targets0 items p

/-- The items that change none of the fields the later passes read: flags,
`-pass-through`, `-D` and `-I`. -/
def CommandLineItem.isPlain : CommandLineItem → Bool
  | .flag _ => true
  | .passThrough _ => true
  | .joined _ => true
  | .spaced _ _ => true
  | _ => false

/-- Parser `q` agrees with parser `p` on the tracked fields, on the chosen
target and on the targets of the request. -/
structure PlainStep (p q : OptionsParser) : Prop where
  same : SameTracked p q
  chosenTarget : q.chosenTarget = p.chosenTarget
  targets : q.requestImpl.targets = p.requestImpl.targets

/-- A relation between the items read and the parser that every step of the
argument loop keeps: one field for each kind of item. -/
structure ItemClosed (spFindProfile : String → SlangProfileID)
    (R : List CommandLineItem → OptionsParser → Prop) : Prop where
  units : ∀ (items : List CommandLineItem) (p : OptionsParser), R items p →
    p.requestImpl.translationUnits.length = p.rawTranslationUnits.length
  plain : ∀ (items : List CommandLineItem) (p q : OptionsParser) (i : CommandLineItem),
    R items p → PlainStep p q → i.isPlain = true → R (items ++ [i]) q
  target : ∀ (items : List CommandLineItem) (p : OptionsParser) (arg name : String)
    (t : SlangCompileTarget), R items p → codeGenTargetNames.lookup name = some t →
    R (items ++ [.target arg name])
      { p with chosenTarget := t, requestImpl := spSetCodeGenTarget p.requestImpl t }
  profile : ∀ (items : List CommandLineItem) (p : OptionsParser) (name : String), R items p →
    spFindProfile name ≠ .SLANG_PROFILE_UNKNOWN →
    R (items ++ [.profile name])
      { p with currentProfileID := spFindProfile name
               profileOptionCount := p.profileOptionCount + 1 }
  entry : ∀ (items : List CommandLineItem) (p : OptionsParser) (name : String), R items p →
    R (items ++ [.entry name])
      { p with rawEntryPoints := p.rawEntryPoints ++
          [{ name := name
             translationUnitIndex := p.currentTranslationUnitIndex
             outputPathIndex := (p.rawOutputPaths.length : Int) - 1
             profileID := p.currentProfileID }] }
  output : ∀ (items : List CommandLineItem) (p : OptionsParser) (path : String), R items p →
    R (items ++ [.output path]) (addOutputPath p path)
  input : ∀ (items : List CommandLineItem) (p p1 : OptionsParser) (path : String), R items p →
    addInputPath p path = some (.SLANG_OK, p1) → R (items ++ [.input path]) p1

/-- The translation units of a command line: those `expectedUnits` describes
for its input paths, unit `i` with index `i`. -/
def unitRecords (items : List CommandLineItem) : List RawTranslationUnit :=
  ((expectedUnits (inputPathsOf items)).enum).map numberedUnit

/-- The entry points of a command line at the start of profile backfill: the
records of its `-entry` options, or without one the implicit entry points of
its units. -/
def entryPointsOf (spFindProfile : String → SlangProfileID) (items : List CommandLineItem) :
    List RawEntryPoint :=
  if entryRecords spFindProfile [] items = [] then
    implicitEntryPointsFor (lastProfile spFindProfile items) (unitRecords items)
  else entryRecords spFindProfile [] items

/-- The specification's account of `--`: `addInputPath` folded over the
remaining tokens, in order, from parser `p`; once a call has failed, or its
assertion has, the tokens after it are left alone. -/
def foldInputPaths (paths : List String) (p : OptionsParser) :
    Option (SlangResult × OptionsParser) :=
  paths.foldl (fun acc path =>
    match acc with
    | some (.SLANG_OK, q) => addInputPath q path
    | other => other) (some (.SLANG_OK, p))

/-- The invariant of the specification on unit indices: every entry point of
the parser whose `translationUnitIndex` is not `-1` has the index of an
existing unit, from 0 up to, not including, `translationUnitCount`. -/
def EntryUnitsInRange (p : OptionsParser) : Prop :=
  ∀ e ∈ p.rawEntryPoints, e.translationUnitIndex ≠ -1 →
    0 ≤ e.translationUnitIndex ∧ e.translationUnitIndex < p.translationUnitCount

/-! # Theorems -/

/-! ## Suffixes -/

theorem EndsWith_iff (path suffix : String) :
    EndsWith path suffix = true ↔ suffix.data <:+ path.data := by
  unfold EndsWith
  exact List.isSuffixOf_iff_suffix

theorem EndsWith_exclusive {path a b : String}
    (hab : ¬ a.data <:+ b.data) (hba : ¬ b.data <:+ a.data)
    (ha : EndsWith path a = true) : EndsWith path b = false := by
  cases hb : EndsWith path b with
  | false => rfl
  | true =>
    rw [EndsWith_iff] at ha hb
    rcases List.suffix_or_suffix_of_suffix ha hb with h | h
    · exact absurd h hab
    · exact absurd h hba

theorem inputSuffixes_not_suffix :
    ∀ a ∈ inputSuffixes, ∀ b ∈ inputSuffixes, a ≠ b → ¬ a.data <:+ b.data := by
  decide

theorem inputSuffixes_exclusive (path a : String) (ha : a ∈ inputSuffixes)
    (h : EndsWith path a = true) :
    ∀ b ∈ inputSuffixes, b ≠ a → EndsWith path b = false := by
  intro b hb hne
  exact EndsWith_exclusive (inputSuffixes_not_suffix a ha b hb (Ne.symm hne))
    (inputSuffixes_not_suffix b hb a ha hne) h

theorem findSourceLanguageFromPath_of_suffix (path : String)
    (e : String × SlangSourceLanguage × SlangProfileID) (he : e ∈ foreignSuffixes)
    (h : EndsWith path e.1 = true) :
    EndsWith path ".slang" = false ∧ findSourceLanguageFromPath path = e.2 ∧
      e.2.1 ≠ .SLANG_SOURCE_LANGUAGE_UNKNOWN := by
  simp only [foreignSuffixes, List.mem_cons, List.mem_singleton, List.not_mem_nil, or_false] at he
  rcases he with rfl | rfl | rfl | rfl | rfl | rfl | rfl | rfl
  all_goals
    simp only at h
    have hx := inputSuffixes_exclusive path _ (by decide) h
    simp [inputSuffixes] at hx
    simp [findSourceLanguageFromPath, findGlslProfileFromPath, glslProfileEntries, h, hx]

theorem findSourceLanguageFromPath_of_no_suffix (path : String)
    (h : ∀ s ∈ inputSuffixes, EndsWith path s = false) :
    findSourceLanguageFromPath path =
      (.SLANG_SOURCE_LANGUAGE_UNKNOWN, .SLANG_PROFILE_UNKNOWN) := by
  simp [inputSuffixes] at h
  simp [findSourceLanguageFromPath, findGlslProfileFromPath, glslProfileEntries, h]

theorem modify_length_append {α : Type} (f : α → α) (l : List α) (a : α) :
    List.modify f l.length (l ++ [a]) = l ++ [f a] := by
  induction l with
  | nil => rfl
  | cons x xs ih => simpa using ih

/-! ## `addInputPath` -/

theorem addInputPath_foreign (p : OptionsParser) (path : String)
    (language : SlangSourceLanguage) (profile : SlangProfileID)
    (hs : EndsWith path ".slang" = false)
    (hf : findSourceLanguageFromPath path = (language, profile))
    (hl : language ≠ .SLANG_SOURCE_LANGUAGE_UNKNOWN)
    (hreq : p.requestImpl.translationUnits.length = p.rawTranslationUnits.length) :
    addInputPath p path = some (.SLANG_OK,
      { p with
        inputPathCount := p.inputPathCount + 1
        translationUnitCount := p.translationUnitCount + 1
        currentTranslationUnitIndex := p.rawTranslationUnits.length
        rawTranslationUnits := p.rawTranslationUnits ++
          [{ sourceLanguage := language, implicitProfile := profile,
             translationUnitIndex := p.rawTranslationUnits.length }]
        requestImpl := { p.requestImpl with
          translationUnits := p.requestImpl.translationUnits ++
            [{ sourceLanguage := language, sourceFiles := [path] }] } }) := by
  simp [addInputPath, hs, hf, hl, addInputForeignShaderPath, addTranslationUnit,
    spAddTranslationUnit, hreq, spAddTranslationUnitSourceFile]
  rw [← hreq, modify_length_append]
  rfl

theorem addInputPath_unknown (p : OptionsParser) (path : String)
    (hs : EndsWith path ".slang" = false)
    (hf : (findSourceLanguageFromPath path).1 = .SLANG_SOURCE_LANGUAGE_UNKNOWN) :
    addInputPath p path = some (.SLANG_FAIL,
      ({ p with inputPathCount := p.inputPathCount + 1 } : OptionsParser).diagnose
        (.cannotDeduceSourceLanguage path)) := by
  simp [addInputPath, hs, hf]

theorem addInputPath_slang_first (p : OptionsParser) (path : String)
    (hs : EndsWith path ".slang" = true) (hnone : p.slangTranslationUnit = -1)
    (hreq : p.requestImpl.translationUnits.length = p.rawTranslationUnits.length) :
    addInputPath p path = some (.SLANG_OK,
      { p with
        inputPathCount := p.inputPathCount + 1
        translationUnitCount := p.translationUnitCount + 1
        slangTranslationUnit := p.rawTranslationUnits.length
        currentTranslationUnitIndex := p.rawTranslationUnits.length
        rawTranslationUnits := p.rawTranslationUnits ++
          [{ sourceLanguage := .SLANG_SOURCE_LANGUAGE_SLANG
             implicitProfile := .SLANG_PROFILE_UNKNOWN
             translationUnitIndex := p.rawTranslationUnits.length }]
        requestImpl := { p.requestImpl with
          translationUnits := p.requestImpl.translationUnits ++
            [{ sourceLanguage := .SLANG_SOURCE_LANGUAGE_SLANG, sourceFiles := [path] }] } }) := by
  simp [addInputPath, hs, hnone, addInputSlangPath, addTranslationUnit,
    spAddTranslationUnit, hreq, spAddTranslationUnitSourceFile]
  rw [← hreq, modify_length_append]
  rfl

theorem addInputPath_slang_next (p : OptionsParser) (path : String)
    (hs : EndsWith path ".slang" = true) (hsome : p.slangTranslationUnit ≠ -1) :
    addInputPath p path = some (.SLANG_OK,
      { p with
        inputPathCount := p.inputPathCount + 1
        currentTranslationUnitIndex := p.slangTranslationUnit
        requestImpl :=
          spAddTranslationUnitSourceFile p.requestImpl p.slangTranslationUnit path }) := by
  simp [addInputPath, hs, hsome, addInputSlangPath]

/-- C2: `addInputPath` classifies a path by its suffix.  On a parser whose
request holds as many translation units as the parser has recorded: a path
ending in `.slang` joins the native unit (created when there is none yet); a
path ending in a foreign suffix adds a new unit with the language and the
implicit profile of that suffix; a path ending in none of the nine suffixes
fails with `cannotDeduceSourceLanguage` naming the path, and no unit is
created. -/
theorem addInputPath_classifies_by_suffix (p : OptionsParser) (path : String)
    (hreq : p.requestImpl.translationUnits.length = p.rawTranslationUnits.length) :
    (EndsWith path ".slang" = true →
      ∃ p1, addInputPath p path = some (.SLANG_OK, p1) ∧
        p1.currentTranslationUnitIndex = p1.slangTranslationUnit ∧
        p1.requestImpl.mSink = p.requestImpl.mSink ∧
        (p.slangTranslationUnit = -1 →
          p1.slangTranslationUnit = p.rawTranslationUnits.length ∧
          p1.translationUnitCount = p.translationUnitCount + 1 ∧
          p1.rawTranslationUnits = p.rawTranslationUnits ++
            [{ sourceLanguage := .SLANG_SOURCE_LANGUAGE_SLANG
               implicitProfile := .SLANG_PROFILE_UNKNOWN
               translationUnitIndex := p.rawTranslationUnits.length }]) ∧
        (p.slangTranslationUnit ≠ -1 →
          p1.slangTranslationUnit = p.slangTranslationUnit ∧
          p1.translationUnitCount = p.translationUnitCount ∧
          p1.rawTranslationUnits = p.rawTranslationUnits ∧
          p1.requestImpl.translationUnits.length = p.requestImpl.translationUnits.length)) ∧
    (∀ e ∈ foreignSuffixes, EndsWith path e.1 = true →
      ∃ p1, addInputPath p path = some (.SLANG_OK, p1) ∧
        p1.rawTranslationUnits = p.rawTranslationUnits ++
          [{ sourceLanguage := e.2.1, implicitProfile := e.2.2
             translationUnitIndex := p.rawTranslationUnits.length }] ∧
        p1.requestImpl.translationUnits = p.requestImpl.translationUnits ++
          [{ sourceLanguage := e.2.1, sourceFiles := [path] }] ∧
        p1.translationUnitCount = p.translationUnitCount + 1 ∧
        p1.currentTranslationUnitIndex = p.rawTranslationUnits.length ∧
        p1.slangTranslationUnit = p.slangTranslationUnit ∧
        p1.requestImpl.mSink = p.requestImpl.mSink) ∧
    ((∀ s ∈ inputSuffixes, EndsWith path s = false) →
      ∃ p1, addInputPath p path = some (.SLANG_FAIL, p1) ∧
        p1.requestImpl.mSink =
          p.requestImpl.mSink.diagnose (.cannotDeduceSourceLanguage path) ∧
        p1.rawTranslationUnits = p.rawTranslationUnits ∧
        p1.requestImpl.translationUnits = p.requestImpl.translationUnits ∧
        p1.translationUnitCount = p.translationUnitCount ∧
        p1.slangTranslationUnit = p.slangTranslationUnit) := by
  refine ⟨?_, ?_, ?_⟩
  · intro hs
    by_cases hnone : p.slangTranslationUnit = -1
    · refine ⟨_, addInputPath_slang_first p path hs hnone hreq, rfl, rfl, ?_, ?_⟩
      · intro _
        exact ⟨rfl, rfl, rfl⟩
      · intro h
        exact absurd hnone h
    · refine ⟨_, addInputPath_slang_next p path hs hnone, rfl, rfl, ?_, ?_⟩
      · intro h
        exact absurd h hnone
      · intro _
        refine ⟨rfl, rfl, rfl, ?_⟩
        simp [spAddTranslationUnitSourceFile]
  · intro e he h
    obtain ⟨hs, hf, hl⟩ := findSourceLanguageFromPath_of_suffix path e he h
    exact ⟨_, addInputPath_foreign p path e.2.1 e.2.2 hs hf hl hreq, rfl, rfl, rfl, rfl, rfl, rfl⟩
  · intro h
    have hs : EndsWith path ".slang" = false := h _ (by decide)
    have hf := findSourceLanguageFromPath_of_no_suffix path h
    refine ⟨_, addInputPath_unknown p path hs (by rw [hf]), rfl, rfl, rfl, rfl, rfl⟩

/-- C2, at `shader.frag` on a new parser: one GLSL unit with the fragment
profile. -/
theorem addInputPath_classifies_by_suffix_witness :
    ({} : OptionsParser).requestImpl.translationUnits.length =
        ({} : OptionsParser).rawTranslationUnits.length ∧
      ∃ p1, addInputPath {} "shader.frag" = some (.SLANG_OK, p1) ∧
        p1.rawTranslationUnits =
          [{ sourceLanguage := .SLANG_SOURCE_LANGUAGE_GLSL, implicitProfile := .GLSL_Fragment
             translationUnitIndex := 0 }] :=
  ⟨rfl, by
    obtain ⟨p1, h1, h2, _⟩ :=
      (addInputPath_classifies_by_suffix {} "shader.frag" rfl).2.1
        (".frag", .SLANG_SOURCE_LANGUAGE_GLSL, .GLSL_Fragment) (by decide) (by decide)
    exact ⟨p1, h1, h2⟩⟩

/-! ## Accumulation of translation units -/

theorem expectedUnits_cons_foreign (path : String) (rest : List String)
    (h : EndsWith path ".slang" = false) :
    expectedUnits (path :: rest) = findSourceLanguageFromPath path :: expectedUnits rest := by
  simp [expectedUnits, h]

theorem expectedUnits_cons_slang (path : String) (rest : List String)
    (h : EndsWith path ".slang" = true) :
    expectedUnits (path :: rest) =
      (.SLANG_SOURCE_LANGUAGE_SLANG, .SLANG_PROFILE_UNKNOWN) ::
        (rest.filter (fun path => !EndsWith path ".slang")).map findSourceLanguageFromPath := by
  simp [expectedUnits, h]

theorem expectedUnits_length (paths : List String) :
    (expectedUnits paths).length =
      (paths.filter (fun path => !EndsWith path ".slang")).length +
        (if paths.any (fun path => EndsWith path ".slang") then 1 else 0) := by
  induction paths with
  | nil => rfl
  | cons path rest ih =>
    cases h : EndsWith path ".slang" with
    | false =>
      rw [expectedUnits_cons_foreign path rest h]
      simp [h, ih]
      omega
    | true =>
      rw [expectedUnits_cons_slang path rest h]
      simp [h]

theorem addInputPath_units_step (p : OptionsParser) (path : String)
    (hreq : p.requestImpl.translationUnits.length = p.rawTranslationUnits.length)
    (hok : EndsWith path ".slang" = true ∨
      (findSourceLanguageFromPath path).1 ≠ .SLANG_SOURCE_LANGUAGE_UNKNOWN) :
    ∃ p1, addInputPath p path = some (.SLANG_OK, p1) ∧
      p1.requestImpl.translationUnits.length = p1.rawTranslationUnits.length ∧
      p1.rawTranslationUnits = p.rawTranslationUnits ++
        (if EndsWith path ".slang" = true then
          (if p.slangTranslationUnit = -1 then
            [numberedUnit (p.rawTranslationUnits.length,
              .SLANG_SOURCE_LANGUAGE_SLANG, .SLANG_PROFILE_UNKNOWN)]
          else [])
        else [numberedUnit (p.rawTranslationUnits.length, findSourceLanguageFromPath path)]) ∧
      p1.translationUnitCount - p1.rawTranslationUnits.length =
        p.translationUnitCount - p.rawTranslationUnits.length ∧
      (p1.slangTranslationUnit = -1 ↔
        (p.slangTranslationUnit = -1 ∧ EndsWith path ".slang" = false)) := by
  cases hs : EndsWith path ".slang" with
  | true =>
    by_cases hnone : p.slangTranslationUnit = -1
    · refine ⟨_, addInputPath_slang_first p path hs hnone hreq, ?_, ?_, ?_, ?_⟩
      · simp [hreq]
      · simp [hnone, numberedUnit]
      · simp
      · simp
    · refine ⟨_, addInputPath_slang_next p path hs hnone, ?_, ?_, ?_, ?_⟩
      · simp [spAddTranslationUnitSourceFile, hreq]
      · simp [hnone]
      · rfl
      · simp [hnone]
  | false =>
    have hl : (findSourceLanguageFromPath path).1 ≠ .SLANG_SOURCE_LANGUAGE_UNKNOWN := by
      rcases hok with h | h
      · rw [hs] at h
        exact absurd h (by decide)
      · exact h
    refine ⟨_, addInputPath_foreign p path (findSourceLanguageFromPath path).1
      (findSourceLanguageFromPath path).2 hs rfl hl hreq, ?_, ?_, ?_, ?_⟩
    · simp [hreq]
    · simp [numberedUnit]
    · simp
    · simp

theorem addInputPaths_units (paths : List String) :
    ∀ p : OptionsParser,
      p.requestImpl.translationUnits.length = p.rawTranslationUnits.length →
      (∀ path ∈ paths, EndsWith path ".slang" = true ∨
        (findSourceLanguageFromPath path).1 ≠ .SLANG_SOURCE_LANGUAGE_UNKNOWN) →
      ∃ p1, addInputPaths paths p = some (.SLANG_OK, p1) ∧
        p1.rawTranslationUnits = p.rawTranslationUnits ++
          ((if p.slangTranslationUnit = -1 then expectedUnits paths
            else (paths.filter (fun path => !EndsWith path ".slang")).map
              findSourceLanguageFromPath).enumFrom p.rawTranslationUnits.length).map
            numberedUnit ∧
        p1.translationUnitCount - p1.rawTranslationUnits.length =
          p.translationUnitCount - p.rawTranslationUnits.length ∧
        p1.requestImpl.translationUnits.length = p1.rawTranslationUnits.length := by
  induction paths with
  | nil =>
    intro p hreq _
    refine ⟨p, rfl, ?_, rfl, hreq⟩
    by_cases h : p.slangTranslationUnit = -1 <;> simp [h, expectedUnits]
  | cons path rest ih =>
    intro p hreq hall
    have hrest : ∀ q ∈ rest, EndsWith q ".slang" = true ∨
        (findSourceLanguageFromPath q).1 ≠ .SLANG_SOURCE_LANGUAGE_UNKNOWN :=
      fun q hq => hall q (List.mem_cons_of_mem _ hq)
    obtain ⟨q, hq, hqreq, hqraw, hqcnt, hqsl⟩ :=
      addInputPath_units_step p path hreq (hall path (List.mem_cons_self _ _))
    obtain ⟨p1, h1, h2, h3, h4⟩ := ih q hqreq hrest
    refine ⟨p1, ?_, ?_, ?_, h4⟩
    · simp only [addInputPaths, hq]
      exact h1
    · rw [h2, hqraw]
      cases hs : EndsWith path ".slang" with
      | true =>
        by_cases hnone : p.slangTranslationUnit = -1
        · have hq1 : q.slangTranslationUnit ≠ -1 := by
            intro h
            have := hqsl.mp h
            simp [hs] at this
          simp [hnone, hq1, expectedUnits_cons_slang path rest hs, List.enumFrom_cons]
        · have hq1 : q.slangTranslationUnit ≠ -1 := by
            intro h
            exact hnone (hqsl.mp h).1
          simp [hnone, hq1, hs]
      | false =>
        by_cases hnone : p.slangTranslationUnit = -1
        · have hq1 : q.slangTranslationUnit = -1 := hqsl.mpr ⟨hnone, hs⟩
          simp [hnone, hq1, hs, expectedUnits_cons_foreign path rest hs, List.enumFrom_cons]
        · have hq1 : q.slangTranslationUnit ≠ -1 := by
            intro h
            exact hnone (hqsl.mp h).1
          simp [hnone, hq1, hs, List.enumFrom_cons]
    · rw [h3, hqcnt]

/-- C3: from a new parser on a request without translation units, a sequence
of input paths that all classify gives the units `expectedUnits` describes:
one per foreign input and one shared native unit, in the order of first
encounter; unit `i` carries index `i`, `translationUnitCount` is the length of
the list, and inputs that are all `.slang` (at least one) give one unit. -/
theorem translationUnits_of_input_paths (req : CompileRequest) (paths : List String)
    (hfresh : req.translationUnits = [])
    (hall : ∀ path ∈ paths, EndsWith path ".slang" = true ∨
      (findSourceLanguageFromPath path).1 ≠ .SLANG_SOURCE_LANGUAGE_UNKNOWN) :
    ∃ p, addInputPaths paths { requestImpl := req } = some (.SLANG_OK, p) ∧
      p.rawTranslationUnits.map (fun u => (u.sourceLanguage, u.implicitProfile)) =
        expectedUnits paths ∧
      p.rawTranslationUnits.map (fun u => u.translationUnitIndex) =
        (List.range p.rawTranslationUnits.length).map Int.ofNat ∧
      p.translationUnitCount = p.rawTranslationUnits.length ∧
      p.rawTranslationUnits.length =
        (paths.filter (fun path => !EndsWith path ".slang")).length +
          (if paths.any (fun path => EndsWith path ".slang") then 1 else 0) ∧
      (paths ≠ [] → (∀ path ∈ paths, EndsWith path ".slang" = true) →
        p.rawTranslationUnits.length = 1) := by
  obtain ⟨p, h1, h2, h3, _⟩ :=
    addInputPaths_units paths { requestImpl := req } (by simp [hfresh]) hall
  simp only [List.nil_append, if_true, List.length_nil] at h2
  have hkinds : p.rawTranslationUnits.map (fun u => (u.sourceLanguage, u.implicitProfile)) =
      expectedUnits paths := by
    rw [h2, List.map_map]
    have : ((fun u : RawTranslationUnit => (u.sourceLanguage, u.implicitProfile)) ∘ numberedUnit)
        = Prod.snd := by
      funext iu
      rfl
    rw [this, List.enumFrom_map_snd]
  have hlen : p.rawTranslationUnits.length = (expectedUnits paths).length := by
    rw [← hkinds, List.length_map]
  have hlen2 := expectedUnits_length paths
  refine ⟨p, h1, hkinds, ?_, ?_, ?_, ?_⟩
  · rw [hlen, h2, List.map_map]
    have : ((fun u : RawTranslationUnit => u.translationUnitIndex) ∘ numberedUnit)
        = Int.ofNat ∘ Prod.fst := by
      funext iu
      rfl
    rw [this, ← List.map_map, List.enumFrom_map_fst]
    simp [List.range_eq_range']
  · have h3a : p.translationUnitCount - (p.rawTranslationUnits.length : Int) = 0 := by
      simpa using h3
    omega
  · rw [hlen, hlen2]
  · intro hne hslang
    rw [hlen, hlen2]
    have hf : paths.filter (fun path => !EndsWith path ".slang") = [] := by
      rw [List.filter_eq_nil_iff]
      intro a ha
      simp [hslang a ha]
    have ha : paths.any (fun path => EndsWith path ".slang") = true := by
      cases paths with
      | nil => exact absurd rfl hne
      | cons a rest => simp [hslang a (List.mem_cons_self _ _)]
    simp [hf, ha]

/-- C3, at `x.hlsl`, `y.glsl` on a new parser: two units, HLSL then GLSL. -/
theorem translationUnits_of_input_paths_witness :
    ({} : CompileRequest).translationUnits = [] ∧
      ∃ p, addInputPaths ["x.hlsl", "y.glsl"] {} = some (.SLANG_OK, p) ∧
        p.rawTranslationUnits.map (fun u => (u.sourceLanguage, u.implicitProfile)) =
          [(.SLANG_SOURCE_LANGUAGE_HLSL, .SLANG_PROFILE_UNKNOWN),
           (.SLANG_SOURCE_LANGUAGE_GLSL, .SLANG_PROFILE_UNKNOWN)] ∧
        p.translationUnitCount = 2 :=
  ⟨rfl, by
    obtain ⟨p, h1, h2, _, h4, h5, _⟩ :=
      translationUnits_of_input_paths {} ["x.hlsl", "y.glsl"] rfl (by decide)
    refine ⟨p, h1, ?_, ?_⟩
    · rw [h2]
      decide
    · rw [h4, h5]
      decide⟩

/-! ## The argument loop -/

theorem ScanInv_new (req : CompileRequest) (h : req.translationUnits = []) :
    ScanInv { requestImpl := req, flags := req.compileFlags } := by
  constructor <;> simp [h]

/-- A change of the parser that touches none of the fields `ScanInv` speaks
of keeps it. -/
theorem ScanInv_of_eq {p q : OptionsParser} (h : ScanInv p)
    (h1 : q.requestImpl.translationUnits = p.requestImpl.translationUnits)
    (h2 : q.rawTranslationUnits = p.rawTranslationUnits)
    (h3 : q.translationUnitCount = p.translationUnitCount)
    (h4 : q.slangTranslationUnit = p.slangTranslationUnit)
    (h5 : q.currentTranslationUnitIndex = p.currentTranslationUnitIndex)
    (h6 : q.rawEntryPoints = p.rawEntryPoints)
    (h7 : q.rawOutputPaths = p.rawOutputPaths)
    (h8 : q.profileOptionCount = p.profileOptionCount)
    (h9 : q.currentProfileID = p.currentProfileID) : ScanInv q := by
  obtain ⟨a1, a2, a3, a4, a5, a6, a7, a8⟩ := h
  constructor
  · rw [h1, h2]; exact a1
  · rw [h3, h2]; exact a2
  · rw [h2]; exact a3
  · rw [h4, h2]; exact a4
  · rw [h5, h2]; exact a5
  · rw [h6, h2]; exact a6
  · rw [h6, h7]; exact a7
  · rw [h8, h9]; exact a8

theorem ScanInv_diagnose {p : OptionsParser} (h : ScanInv p) (d : Diagnostic) :
    ScanInv (p.diagnose d) :=
  ScanInv_of_eq h rfl rfl rfl rfl rfl rfl rfl rfl rfl

theorem addOutputPath_cases (p : OptionsParser) (path : String) :
    (∃ target, addOutputPath p path = addOutputPathWithTarget p path target) ∨
    addOutputPath p path =
      { p with requestImpl :=
          { spSetOutputContainerFormat p.requestImpl .SLANG_CONTAINER_FORMAT_SLANG_MODULE with
            containerOutputPath := path } } := by
  simp only [addOutputPath]
  split
  · exact Or.inl ⟨_, rfl⟩
  · split
    · exact Or.inr rfl
    · exact Or.inl ⟨_, rfl⟩

theorem ScanInv_addOutputPath {p : OptionsParser} (h : ScanInv p) (path : String) :
    ScanInv (addOutputPath p path) := by
  rcases addOutputPath_cases p path with ⟨target, ht⟩ | hc
  · rw [ht]
    obtain ⟨a1, a2, a3, a4, a5, a6, a7, a8⟩ := h
    constructor <;> try assumption
    intro e he
    have := a7 e he
    simp [addOutputPathWithTarget] at this ⊢
    omega
  · rw [hc]
    exact ScanInv_of_eq h rfl rfl rfl rfl rfl rfl rfl rfl rfl

theorem addOutputPath_frame (p : OptionsParser) (path : String) :
    (addOutputPath p path).requestImpl.mSink = p.requestImpl.mSink ∧
    (addOutputPath p path).requestImpl.entryPoints = p.requestImpl.entryPoints ∧
    (addOutputPath p path).requestImpl.targets = p.requestImpl.targets ∧
    (addOutputPath p path).rawEntryPoints = p.rawEntryPoints ∧
    (addOutputPath p path).currentProfileID = p.currentProfileID ∧
    (addOutputPath p path).profileOptionCount = p.profileOptionCount ∧
    (addOutputPath p path).chosenTarget = p.chosenTarget := by
  rcases addOutputPath_cases p path with ⟨target, ht⟩ | hc
  · rw [ht]
    simp [addOutputPathWithTarget]
  · rw [hc]
    simp [spSetOutputContainerFormat]

/-- `ScanInv` after one more unit was appended by `addInputPath`. -/
theorem ScanInv_addUnit {p q : OptionsParser} (h : ScanInv p) (u : RawTranslationUnit)
    (t : TranslationUnitRequest)
    (hu : u.translationUnitIndex = p.rawTranslationUnits.length)
    (h1 : q.requestImpl.translationUnits = p.requestImpl.translationUnits ++ [t])
    (h2 : q.rawTranslationUnits = p.rawTranslationUnits ++ [u])
    (h3 : q.translationUnitCount = p.translationUnitCount + 1)
    (h4 : q.slangTranslationUnit = p.slangTranslationUnit ∨
      q.slangTranslationUnit = p.rawTranslationUnits.length)
    (h5 : q.currentTranslationUnitIndex = p.rawTranslationUnits.length)
    (h6 : q.rawEntryPoints = p.rawEntryPoints)
    (h7 : q.rawOutputPaths = p.rawOutputPaths)
    (h8 : q.profileOptionCount = p.profileOptionCount)
    (h9 : q.currentProfileID = p.currentProfileID) : ScanInv q := by
  obtain ⟨a1, a2, a3, a4, a5, a6, a7, a8⟩ := h
  constructor
  · rw [h1, h2]
    simp [a1]
  · rw [h3, h2, a2]
    simp
  · rw [h2]
    simp [List.range_succ, a3, hu]
  · rw [h2]
    simp only [List.length_append, List.length_singleton, Nat.cast_add, Nat.cast_one]
    rcases h4 with h4 | h4
    · rw [h4]
      omega
    · rw [h4]
      omega
  · rw [h5, h2]
    simp only [List.length_append, List.length_singleton, Nat.cast_add, Nat.cast_one]
    omega
  · rw [h6, h2]
    intro e he
    have := a6 e he
    simp only [List.length_append, List.length_singleton, Nat.cast_add, Nat.cast_one]
    omega
  · rw [h6, h7]
    exact a7
  · rw [h8, h9]
    exact a8

theorem addInputPath_spec (p : OptionsParser) (path : String) (h : ScanInv p) :
    ∃ r p1, addInputPath p path = some (r, p1) ∧ ScanInv p1 ∧
      p1.requestImpl.entryPoints = p.requestImpl.entryPoints ∧
      p1.requestImpl.targets = p.requestImpl.targets ∧
      p1.rawEntryPoints = p.rawEntryPoints ∧
      p1.rawOutputPaths = p.rawOutputPaths ∧
      ((r = .SLANG_OK ∧ p1.requestImpl.mSink = p.requestImpl.mSink) ∨
       (r = .SLANG_FAIL ∧ p1.requestImpl.mSink =
          p.requestImpl.mSink.diagnose (.cannotDeduceSourceLanguage path))) := by
  have hreq := h.request_units
  cases hs : EndsWith path ".slang" with
  | true =>
    by_cases hnone : p.slangTranslationUnit = -1
    · refine ⟨_, _, addInputPath_slang_first p path hs hnone hreq, ?_, rfl, rfl, rfl, rfl,
        Or.inl ⟨rfl, rfl⟩⟩
      exact ScanInv_addUnit h _ _ rfl rfl rfl rfl (Or.inr rfl) rfl rfl rfl rfl rfl
    · refine ⟨_, _, addInputPath_slang_next p path hs hnone, ?_, rfl, rfl, rfl, rfl,
        Or.inl ⟨rfl, rfl⟩⟩
      obtain ⟨a1, a2, a3, a4, a5, a6, a7, a8⟩ := h
      constructor <;> try assumption
      simp [spAddTranslationUnitSourceFile, a1]
  | false =>
    by_cases hl : (findSourceLanguageFromPath path).1 = .SLANG_SOURCE_LANGUAGE_UNKNOWN
    · refine ⟨_, _, addInputPath_unknown p path hs hl, ?_, rfl, rfl, rfl, rfl, Or.inr ⟨rfl, rfl⟩⟩
      exact ScanInv_of_eq h rfl rfl rfl rfl rfl rfl rfl rfl rfl
    · refine ⟨_, _, addInputPath_foreign p path (findSourceLanguageFromPath path).1
        (findSourceLanguageFromPath path).2 hs rfl hl hreq, ?_, rfl, rfl, rfl, rfl,
        Or.inl ⟨rfl, rfl⟩⟩
      exact ScanInv_addUnit h _ _ rfl rfl rfl rfl (Or.inl rfl) rfl rfl rfl rfl rfl

theorem addInputPaths_spec (paths : List String) :
    ∀ p : OptionsParser, ScanInv p →
      ∃ r p1, addInputPaths paths p = some (r, p1) ∧ ScanInv p1 ∧
        p1.requestImpl.entryPoints = p.requestImpl.entryPoints ∧
        ((r = .SLANG_OK ∧ p1.requestImpl.mSink = p.requestImpl.mSink) ∨
         (r = .SLANG_FAIL ∧ ∃ d, d.isError = true ∧
            p1.requestImpl.mSink = p.requestImpl.mSink.diagnose d)) := by
  induction paths with
  | nil =>
    intro p h
    exact ⟨_, _, rfl, h, rfl, Or.inl ⟨rfl, rfl⟩⟩
  | cons path rest ih =>
    intro p h
    obtain ⟨r, p1, h1, h2, h3, _, _, _, h4⟩ := addInputPath_spec p path h
    rcases h4 with ⟨hr, hsink⟩ | ⟨hr, hsink⟩
    · subst hr
      obtain ⟨r2, p2, g1, g2, g3, g4⟩ := ih p1 h2
      refine ⟨r2, p2, ?_, g2, ?_, ?_⟩
      · simp only [addInputPaths, h1]
        exact g1
      · rw [g3, h3]
      · rw [← hsink]
        exact g4
    · subst hr
      refine ⟨_, p1, ?_, h2, h3, Or.inr ⟨rfl, .cannotDeduceSourceLanguage path, rfl, hsink⟩⟩
      simp only [addInputPaths, h1]

theorem addInputPath_frame (p : OptionsParser) (path : String) (r : SlangResult)
    (p1 : OptionsParser) (h : addInputPath p path = some (r, p1)) :
    p1.requestImpl.entryPoints = p.requestImpl.entryPoints ∧
    p1.requestImpl.targets = p.requestImpl.targets ∧
    p1.rawEntryPoints = p.rawEntryPoints ∧
    p1.rawOutputPaths = p.rawOutputPaths ∧
    p1.currentProfileID = p.currentProfileID ∧
    p1.profileOptionCount = p.profileOptionCount ∧
    p1.chosenTarget = p.chosenTarget ∧
    p1.flags = p.flags ∧
    p1.targetFlags = p.targetFlags ∧
    ((r = .SLANG_OK ∧ p1.requestImpl.mSink = p.requestImpl.mSink) ∨
     (r = .SLANG_FAIL ∧ p1.requestImpl.mSink =
        p.requestImpl.mSink.diagnose (.cannotDeduceSourceLanguage path))) := by
  by_cases hreq : p.requestImpl.translationUnits.length = p.rawTranslationUnits.length
  · cases hs : EndsWith path ".slang" with
    | true =>
      by_cases hnone : p.slangTranslationUnit = -1
      · rw [addInputPath_slang_first p path hs hnone hreq] at h
        simp only [Option.some.injEq, Prod.mk.injEq] at h
        obtain ⟨rfl, rfl⟩ := h
        simp
      · rw [addInputPath_slang_next p path hs hnone] at h
        simp only [Option.some.injEq, Prod.mk.injEq] at h
        obtain ⟨rfl, rfl⟩ := h
        simp [spAddTranslationUnitSourceFile]
    | false =>
      by_cases hl : (findSourceLanguageFromPath path).1 = .SLANG_SOURCE_LANGUAGE_UNKNOWN
      · rw [addInputPath_unknown p path hs hl] at h
        simp only [Option.some.injEq, Prod.mk.injEq] at h
        obtain ⟨rfl, rfl⟩ := h
        simp [OptionsParser.diagnose]
      · rw [addInputPath_foreign p path (findSourceLanguageFromPath path).1
          (findSourceLanguageFromPath path).2 hs rfl hl hreq] at h
        simp only [Option.some.injEq, Prod.mk.injEq] at h
        obtain ⟨rfl, rfl⟩ := h
        simp
  · cases hs : EndsWith path ".slang" with
    | true =>
      by_cases hnone : p.slangTranslationUnit = -1
      · simp [addInputPath, hs, hnone, addInputSlangPath, addTranslationUnit,
          spAddTranslationUnit, hreq] at h
      · rw [addInputPath_slang_next p path hs hnone] at h
        simp only [Option.some.injEq, Prod.mk.injEq] at h
        obtain ⟨rfl, rfl⟩ := h
        simp [spAddTranslationUnitSourceFile]
    | false =>
      by_cases hl : (findSourceLanguageFromPath path).1 = .SLANG_SOURCE_LANGUAGE_UNKNOWN
      · rw [addInputPath_unknown p path hs hl] at h
        simp only [Option.some.injEq, Prod.mk.injEq] at h
        obtain ⟨rfl, rfl⟩ := h
        simp [OptionsParser.diagnose]
      · simp [addInputPath, hs, hl, addInputForeignShaderPath, addTranslationUnit,
          spAddTranslationUnit, hreq] at h

theorem addInputPaths_closed (I : OptionsParser → Prop) (hI : ScanClosed I)
    (paths : List String) :
    ∀ p : OptionsParser, I p →
      match addInputPaths paths p with
      | none => ∃ q path, I q ∧ addInputPath q path = none
      | some (r, p1) =>
        I p1 ∧ p1.requestImpl.entryPoints = p.requestImpl.entryPoints ∧
          ((r = .SLANG_OK ∧ p1.requestImpl.mSink = p.requestImpl.mSink) ∨
           (r = .SLANG_FAIL ∧ ∃ d, d.isError = true ∧
              p1.requestImpl.mSink = p.requestImpl.mSink.diagnose d)) := by
  induction paths with
  | nil =>
    intro p h
    show I p ∧ p.requestImpl.entryPoints = p.requestImpl.entryPoints ∧ _
    exact ⟨h, rfl, Or.inl ⟨rfl, rfl⟩⟩
  | cons path rest ih =>
    intro p h
    cases hstep : addInputPath p path with
    | none =>
      simp only [addInputPaths, hstep]
      exact ⟨p, path, h, hstep⟩
    | some rp =>
      obtain ⟨r, p1⟩ := rp
      have hI1 := hI.input p path r p1 h hstep
      obtain ⟨f1, _, _, _, _, _, _, _, _, f2⟩ := addInputPath_frame p path r p1 hstep
      rcases f2 with ⟨rfl, hsink⟩ | ⟨rfl, hsink⟩
      · have hcons : addInputPaths (path :: rest) p = addInputPaths rest p1 := by
          simp only [addInputPaths, hstep]
        rw [hcons]
        have := ih p1 hI1
        cases hrest : addInputPaths rest p1 with
        | none =>
          rw [hrest] at this
          exact this
        | some rp2 =>
          rw [hrest] at this
          obtain ⟨g1, g2, g3⟩ := this
          refine ⟨g1, by rw [g2, f1], ?_⟩
          rw [← hsink]
          exact g3
      · have hcons : addInputPaths (path :: rest) p = some (.SLANG_FAIL, p1) := by
          simp only [addInputPaths, hstep]
        rw [hcons]
        exact ⟨hI1, f1, Or.inr ⟨rfl, .cannotDeduceSourceLanguage path, rfl, hsink⟩⟩

theorem addInputPaths_closed_none {I : OptionsParser → Prop} (hI : ScanClosed I)
    {paths : List String} {p : OptionsParser} (h : I p) (hnone : addInputPaths paths p = none) :
    ∃ q path, I q ∧ addInputPath q path = none := by
  have := addInputPaths_closed I hI paths p h
  rw [hnone] at this
  exact this

theorem addInputPaths_closed_some {I : OptionsParser → Prop} (hI : ScanClosed I)
    {paths : List String} {p p1 : OptionsParser} {r : SlangResult} (h : I p)
    (hsome : addInputPaths paths p = some (r, p1)) :
    I p1 ∧ p1.requestImpl.entryPoints = p.requestImpl.entryPoints ∧
      ((r = .SLANG_OK ∧ p1.requestImpl.mSink = p.requestImpl.mSink) ∨
       (r = .SLANG_FAIL ∧ ∃ d, d.isError = true ∧
          p1.requestImpl.mSink = p.requestImpl.mSink.diagnose d)) := by
  have := addInputPaths_closed I hI paths p h
  rw [hsome] at this
  exact this

theorem ScanPost_of_eq {I : OptionsParser → Prop} {p q : OptionsParser} {r : ScanResult}
    (h1 : q.requestImpl.mSink = p.requestImpl.mSink)
    (h2 : q.requestImpl.entryPoints = p.requestImpl.entryPoints)
    (h : ScanPost I q r) : ScanPost I p r := by
  cases r with
  | finished p1 m =>
    simp only [ScanPost] at h ⊢
    rw [← h1, ← h2]
    exact h
  | returned r p1 =>
    simp only [ScanPost] at h ⊢
    rw [← h1, ← h2]
    exact h
  | asserted => exact h

theorem ScanPost_missingArgument {I : OptionsParser → Prop} (hI : ScanClosed I)
    {p : OptionsParser} (h : I p) (option : String) :
    ScanPost I p (missingArgument p option) :=
  ⟨rfl, hI.diagnose p (.expectedArgumentForOption option) h,
    ⟨.expectedArgumentForOption option, rfl, rfl⟩, rfl⟩

theorem ScanPost_diagnose {I : OptionsParser → Prop} (hI : ScanClosed I)
    {p : OptionsParser} (h : I p) (d : Diagnostic) (hd : d.isError = true) :
    ScanPost I p (.returned .SLANG_FAIL (p.diagnose d)) :=
  ⟨rfl, hI.diagnose p d h, ⟨d, hd, rfl⟩, rfl⟩

/-- The argument loop keeps every property that each of its steps keeps. -/
theorem parseArgs_closed (I : OptionsParser → Prop) (hI : ScanClosed I)
    (spFindProfile : String → SlangProfileID) (args : List String)
    (p : OptionsParser) (m : SlangMatrixLayoutMode) (h : I p) :
    ScanPost I p (parseArgs spFindProfile args p m) := by
  induction args, p, m using parseArgs.induct spFindProfile
  all_goals (try unfold parseArgs)
  all_goals (try simp only [*, if_true, if_false, not_false_eq_true, not_true_eq_false])
  all_goals (try exact ⟨h, rfl, rfl⟩)
  all_goals (try exact ScanPost_missingArgument hI h _)
  all_goals (try exact ScanPost_diagnose hI h _ rfl)
  all_goals try (
    have ih := ‹I _ → ScanPost I _ _›
    first
    | exact ScanPost_of_eq rfl rfl (ih (hI.flags _ _ h))
    | exact ScanPost_of_eq rfl rfl (ih (hI.targetFlags _ _ h))
    | exact ScanPost_of_eq rfl rfl (ih (hI.request _ _ h rfl rfl rfl rfl))
    | exact ScanPost_of_eq rfl rfl (ih (hI.target _ _ h))
    | exact ScanPost_of_eq rfl rfl (ih h)
    | exact ScanPost_of_eq rfl rfl (ih (hI.entry _ _ h))
    | exact ScanPost_of_eq (addOutputPath_frame _ _).1 (addOutputPath_frame _ _).2.1
        (ih (hI.output _ _ h)))
  case case12 =>
    split
    · exact ScanPost_diagnose hI h _ rfl
    · rename_i hne
      exact absurd ‹spFindProfile _ = SlangProfileID.SLANG_PROFILE_UNKNOWN› hne
  case case13 =>
    have ih := ‹I _ → ScanPost I _ _›
    have hne : spFindProfile _ ≠ SlangProfileID.SLANG_PROFILE_UNKNOWN :=
      ‹¬ _ = SlangProfileID.SLANG_PROFILE_UNKNOWN›
    exact ScanPost_of_eq rfl rfl (ih (hI.profile _ _ h hne))
  case case29 =>
    exact addInputPaths_closed_none hI h ‹addInputPaths _ _ = none›
  case case30 =>
    obtain ⟨h2, h3, h4⟩ := addInputPaths_closed_some hI h ‹addInputPaths _ _ = some _›
    rcases h4 with ⟨_, h4⟩ | ⟨h4, _⟩
    · exact ⟨h2, h4, h3⟩
    · exact absurd h4 (by decide)
  case case31 =>
    have hne := ‹_ = SlangResult.SLANG_OK → False›
    obtain ⟨h2, h3, h4⟩ := addInputPaths_closed_some hI h ‹addInputPaths _ _ = some _›
    rcases h4 with ⟨h4, _⟩ | ⟨h4, h5⟩
    · exact absurd h4 hne
    · exact ⟨h4, h2, h5, h3⟩
  case case33 =>
    exact ⟨_, _, h, ‹addInputPath _ _ = none›⟩
  case case34 =>
    have ih := ‹I _ → ScanPost I _ _›
    have hsome := ‹addInputPath _ _ = some _›
    obtain ⟨f1, _, _, _, _, _, _, _, _, f2⟩ := addInputPath_frame _ _ _ _ hsome
    rcases f2 with ⟨_, hsink⟩ | ⟨h4, _⟩
    · exact ScanPost_of_eq hsink f1 (ih (hI.input _ _ _ _ h hsome))
    · exact absurd h4 (by decide)
  case case35 =>
    have hne := ‹_ = SlangResult.SLANG_OK → False›
    have hsome := ‹addInputPath _ _ = some _›
    obtain ⟨f1, _, _, _, _, _, _, _, _, f2⟩ := addInputPath_frame _ _ _ _ hsome
    rcases f2 with ⟨h4, _⟩ | ⟨h4, hsink⟩
    · exact absurd h4 hne
    · exact ⟨h4, hI.input _ _ _ _ h hsome, ⟨.cannotDeduceSourceLanguage _, rfl, hsink⟩, f1⟩

theorem ScanInv_profile {p : OptionsParser} (h : ScanInv p) (profileID : SlangProfileID)
    (hne : profileID ≠ .SLANG_PROFILE_UNKNOWN) :
    ScanInv { p with currentProfileID := profileID
                     profileOptionCount := p.profileOptionCount + 1 } := by
  obtain ⟨a1, a2, a3, a4, a5, a6, a7, a8⟩ := h
  constructor <;> try assumption
  simp only
  constructor
  · omega
  · constructor
    · intro h
      exact absurd h hne
    · intro h
      omega

theorem ScanInv_entry {p : OptionsParser} (h : ScanInv p) (name : String) :
    ScanInv { p with rawEntryPoints := p.rawEntryPoints ++
      [{ name := name
         translationUnitIndex := p.currentTranslationUnitIndex
         outputPathIndex := (p.rawOutputPaths.length : Int) - 1
         profileID := p.currentProfileID }] } := by
  obtain ⟨a1, a2, a3, a4, a5, a6, a7, a8⟩ := h
  constructor <;> try assumption
  · intro e he
    simp only [List.mem_append, List.mem_singleton] at he
    rcases he with he | rfl
    · exact a6 e he
    · exact a5
  · intro e he
    simp only [List.mem_append, List.mem_singleton] at he
    rcases he with he | rfl
    · exact a7 e he
    · simp only
      omega

theorem ScanClosed_true : ScanClosed (fun _ => True) := by
  constructor <;> intros <;> trivial

theorem ScanClosed_ScanInv : ScanClosed ScanInv where
  flags := fun _ _ h => ScanInv_of_eq h rfl rfl rfl rfl rfl rfl rfl rfl rfl
  targetFlags := fun _ _ h => ScanInv_of_eq h rfl rfl rfl rfl rfl rfl rfl rfl rfl
  request := fun _ _ h h1 _ _ _ => ScanInv_of_eq h h1 rfl rfl rfl rfl rfl rfl rfl rfl
  target := fun _ _ h => ScanInv_of_eq h rfl rfl rfl rfl rfl rfl rfl rfl rfl
  profile := fun _ _ h hne => ScanInv_profile h _ hne
  entry := fun _ _ h => ScanInv_entry h _
  output := fun _ _ h => ScanInv_addOutputPath h _
  input := fun p path r p1 h hstep => by
    obtain ⟨r2, p2, h1, h2, _⟩ := addInputPath_spec p path h
    rw [h1] at hstep
    simp only [Option.some.injEq, Prod.mk.injEq] at hstep
    obtain ⟨rfl, rfl⟩ := hstep
    exact h2
  diagnose := fun _ d h => ScanInv_diagnose h d

/-- The argument loop on a parser with `ScanInv`: the assertion holds
throughout, and `ScanInv` holds of the parser the loop ends with. -/
theorem parseArgs_ScanInv (spFindProfile : String → SlangProfileID) (args : List String)
    (p : OptionsParser) (m : SlangMatrixLayoutMode) (h : ScanInv p) :
    (∃ p1 m1, parseArgs spFindProfile args p m = .finished p1 m1 ∧ ScanInv p1 ∧
      p1.requestImpl.mSink = p.requestImpl.mSink ∧
      p1.requestImpl.entryPoints = p.requestImpl.entryPoints) ∨
    (∃ p1, parseArgs spFindProfile args p m = .returned .SLANG_FAIL p1 ∧ ScanInv p1 ∧
      (∃ d, d.isError = true ∧ p1.requestImpl.mSink = p.requestImpl.mSink.diagnose d) ∧
      p1.requestImpl.entryPoints = p.requestImpl.entryPoints) := by
  have := parseArgs_closed ScanInv ScanClosed_ScanInv spFindProfile args p m h
  cases hres : parseArgs spFindProfile args p m with
  | finished p1 m1 =>
    rw [hres] at this
    exact Or.inl ⟨p1, m1, rfl, this⟩
  | returned r p1 =>
    rw [hres] at this
    obtain ⟨rfl, h2⟩ := this
    exact Or.inr ⟨p1, rfl, h2⟩
  | asserted =>
    rw [hres] at this
    obtain ⟨q, path, hq, hnone⟩ := this
    obtain ⟨_, _, h1, _⟩ := addInputPath_spec q path hq
    rw [h1] at hnone
    exact absurd hnone (by simp)

/-! ## The exit contract -/

theorem errorCount_diagnose_pos (sink : DiagnosticSink) (d : Diagnostic)
    (hd : d.isError = true) : (sink.diagnose d).GetErrorCount ≠ 0 := by
  simp [DiagnosticSink.diagnose, DiagnosticSink.GetErrorCount, hd]

theorem applyProfiles_returned (p p1 : OptionsParser) (r : SlangResult)
    (h : applyProfiles p = .returned r p1) :
    r = .SLANG_E_INVALID_ARG ∧
      (p1 = p.diagnose .noProfileSpecified ∨
       p1 = p.diagnose .multipleEntryPointsNeedMulitpleProfiles) := by
  unfold applyProfiles at h
  split at h
  · simp only at h
    split at h
    · simp only [PassResult.returned.injEq] at h
      exact ⟨h.1.symm, Or.inl h.2.symm⟩
    · split at h
      · simp only [PassResult.returned.injEq] at h
        exact ⟨h.1.symm, Or.inr h.2.symm⟩
      · exact absurd h (by simp)
  · exact absurd h (by simp)

theorem attachTranslationUnits_returned (p p1 : OptionsParser) (r : SlangResult)
    (h : attachTranslationUnits p = .returned r p1) :
    r = .SLANG_FAIL ∧
      p1.requestImpl.mSink =
        p.requestImpl.mSink.diagnose .multipleTranslationUnitsNeedEntryPoints := by
  unfold attachTranslationUnits at h
  simp only at h
  split at h
  · simp only [PassResult.returned.injEq] at h
    obtain ⟨rfl, rfl⟩ := h
    exact ⟨rfl, rfl⟩
  · exact absurd h (by simp)

theorem resolve_success_iff (p : OptionsParser) (m : SlangMatrixLayoutMode)
    (r : SlangResult) (p1 : OptionsParser) (h : resolve p m = some (r, p1)) :
    r = .SLANG_OK ↔ p1.requestImpl.mSink.GetErrorCount = 0 := by
  unfold resolve at h
  simp only at h
  split at h
  · rename_i r0 q hq
    simp only [Option.some.injEq, Prod.mk.injEq] at h
    obtain ⟨rfl, rfl⟩ := h
    obtain ⟨hr, hq1⟩ := applyProfiles_returned _ _ _ hq
    subst hr
    have hpos : q.requestImpl.mSink.GetErrorCount ≠ 0 := by
      rcases hq1 with rfl | rfl <;> exact errorCount_diagnose_pos _ _ rfl
    constructor
    · intro h
      exact absurd h (by decide)
    · intro h
      exact absurd h hpos
  · split at h
    · rename_i r0 q hq
      simp only [Option.some.injEq, Prod.mk.injEq] at h
      obtain ⟨rfl, rfl⟩ := h
      obtain ⟨hr, hq1⟩ := attachTranslationUnits_returned _ _ _ hq
      subst hr
      have hpos : q.requestImpl.mSink.GetErrorCount ≠ 0 := by
        rw [hq1]
        exact errorCount_diagnose_pos _ _ rfl
      constructor
      · intro h
        exact absurd h (by decide)
      · intro h
        exact absurd h hpos
    · split at h
      · exact absurd h (by simp)
      · simp only [Option.some.injEq, Prod.mk.injEq] at h
        obtain ⟨hr, hp⟩ := h
        subst hp
        rw [← hr]
        split
        · simp [*]
        · simp [*]

theorem parse_success_iff (spFindProfile : String → SlangProfileID) (p0 : OptionsParser)
    (argv : List String) (r : SlangResult) (p : OptionsParser)
    (h : p0.parse spFindProfile argv = some (r, p)) :
    r = .SLANG_OK ↔ p.requestImpl.mSink.GetErrorCount = 0 := by
  unfold OptionsParser.parse at h
  simp only at h
  have hscan := parseArgs_closed (fun _ => True) ScanClosed_true spFindProfile argv
    { p0 with flags := p0.requestImpl.compileFlags } .SLANG_MATRIX_LAYOUT_MODE_UNKNOWN trivial
  split at h
  · exact absurd h (by simp)
  · rename_i r0 q hq
    simp only [Option.some.injEq, Prod.mk.injEq] at h
    obtain ⟨rfl, rfl⟩ := h
    rw [hq] at hscan
    obtain ⟨rfl, _, ⟨d, hd, hsink⟩, _⟩ := hscan
    have hpos : q.requestImpl.mSink.GetErrorCount ≠ 0 := by
      rw [hsink]
      exact errorCount_diagnose_pos _ _ hd
    constructor
    · intro h
      exact absurd h (by decide)
    · intro h
      exact absurd h hpos
  · exact resolve_success_iff _ _ _ _ h

/-! ## The passes after the loop -/

theorem foldl_addImplicitEntryPoint (units : List RawTranslationUnit) :
    ∀ p : OptionsParser, units.foldl addImplicitEntryPoint p =
      { p with rawEntryPoints :=
          p.rawEntryPoints ++ implicitEntryPointsFor p.currentProfileID units } := by
  induction units with
  | nil =>
    intro p
    simp [implicitEntryPointsFor]
  | cons u rest ih =>
    intro p
    rw [List.foldl_cons, ih]
    by_cases hu : u.sourceLanguage = .SLANG_SOURCE_LANGUAGE_SLANG
    · simp [addImplicitEntryPoint, hu, implicitEntryPointsFor]
    · have e1 : (addImplicitEntryPoint p u).currentProfileID = p.currentProfileID := by
        simp [addImplicitEntryPoint, hu]
      have e2 : (addImplicitEntryPoint p u).rawEntryPoints =
          p.rawEntryPoints ++ [implicitEntryPoint p.currentProfileID u] := by
        simp only [addImplicitEntryPoint, hu, if_false, implicitEntryPoint]
        congr 2
        by_cases h1 : p.currentProfileID = .SLANG_PROFILE_UNKNOWN
        · by_cases h2 : u.implicitProfile = .SLANG_PROFILE_UNKNOWN <;> simp [h1, h2]
        · simp [h1]
      rw [e1, e2]
      simp [addImplicitEntryPoint, hu, implicitEntryPointsFor]

/-- What the implicit entry point pass does: it changes `rawEntryPoints`
only, and only when that list is empty. -/
theorem addImplicitEntryPoints_eq (p : OptionsParser) :
    addImplicitEntryPoints p =
      { p with rawEntryPoints :=
          if p.rawEntryPoints = [] then
            implicitEntryPointsFor p.currentProfileID p.rawTranslationUnits
          else p.rawEntryPoints } := by
  unfold addImplicitEntryPoints
  by_cases h : p.rawEntryPoints = []
  · simp [h, foldl_addImplicitEntryPoint]
  · have : p.rawEntryPoints.length ≠ 0 := by
      intro h0
      exact h (List.length_eq_zero.mp h0)
    simp [h, this]

/-- Two parsers that differ at most in the request, the sink included. -/
theorem diagnose_fields (p : OptionsParser) (d : Diagnostic) :
    (p.diagnose d).rawEntryPoints = p.rawEntryPoints ∧
    (p.diagnose d).rawOutputPaths = p.rawOutputPaths ∧
    (p.diagnose d).rawTranslationUnits = p.rawTranslationUnits ∧
    (p.diagnose d).translationUnitCount = p.translationUnitCount ∧
    (p.diagnose d).currentProfileID = p.currentProfileID ∧
    (p.diagnose d).profileOptionCount = p.profileOptionCount ∧
    (p.diagnose d).chosenTarget = p.chosenTarget ∧
    (p.diagnose d).requestImpl.entryPoints = p.requestImpl.entryPoints ∧
    (p.diagnose d).requestImpl.mSink.diagnostics = p.requestImpl.mSink.diagnostics ++ [d] :=
  ⟨rfl, rfl, rfl, rfl, rfl, rfl, rfl, rfl, rfl⟩

theorem checkOutputPathsAndTargets_cases (p : OptionsParser) :
    checkOutputPathsAndTargets p = p ∨
    checkOutputPathsAndTargets p = p.diagnose .explicitOutputPathsAndMultipleTargets := by
  unfold checkOutputPathsAndTargets
  split
  · exact Or.inr rfl
  · exact Or.inl rfl

theorem associateOutputPaths_cases (p : OptionsParser) :
    (p.rawEntryPoints.length = 1 ∧ p.rawOutputPaths.length = 1 ∧
      associateOutputPaths p = { p with
        rawEntryPoints :=
          List.modify (fun e => { e with outputPathIndex := 0 }) 0 p.rawEntryPoints }) ∨
    (¬ (p.rawEntryPoints.length = 1 ∧ p.rawOutputPaths.length = 1) ∧
      p.rawOutputPaths.length > p.rawEntryPoints.length ∧
      associateOutputPaths p = p.diagnose
        (.tooManyOutputPathsSpecified p.rawOutputPaths.length p.rawEntryPoints.length)) ∨
    (¬ (p.rawEntryPoints.length = 1 ∧ p.rawOutputPaths.length = 1) ∧
      ¬ p.rawOutputPaths.length > p.rawEntryPoints.length ∧
      ∃ e, p.rawEntryPoints.find? (fun entryPoint => entryPoint.outputPathIndex < 0) = some e ∧
        associateOutputPaths p = p.diagnose (.noOutputPathSpecifiedForEntryPoint e.name)) ∨
    (¬ (p.rawEntryPoints.length = 1 ∧ p.rawOutputPaths.length = 1) ∧
      ¬ p.rawOutputPaths.length > p.rawEntryPoints.length ∧
      p.rawEntryPoints.find? (fun entryPoint => entryPoint.outputPathIndex < 0) = none ∧
      associateOutputPaths p = p) := by
  unfold associateOutputPaths
  split
  · rename_i h
    exact Or.inl ⟨h.1, h.2, rfl⟩
  · rename_i h
    split
    · rename_i h2
      exact Or.inr (Or.inl ⟨h, h2, rfl⟩)
    · rename_i h2
      split
      · rename_i e he
        exact Or.inr (Or.inr (Or.inl ⟨h, h2, e, he, rfl⟩))
      · rename_i he
        exact Or.inr (Or.inr (Or.inr ⟨h, h2, he, rfl⟩))

theorem inferTarget_cases (p : OptionsParser) (first : RawOutputPath) :
    inferTarget p first = p ∨
    (∃ path, inferTarget p first = p.diagnose (.cannotDeduceOutputFormatFromPath path)) ∨
    inferTarget p first =
      { p with requestImpl := spSetCodeGenTarget p.requestImpl first.target } ∨
    (∃ path, inferTarget p first =
      ({ p with requestImpl := spSetCodeGenTarget p.requestImpl first.target } :
        OptionsParser).diagnose (.outputPathsImplyDifferentFormats first.path path)) := by
  have body : ∀ q : OptionsParser, q =
      (match p.rawOutputPaths.find? (fun o => o.target == .SLANG_TARGET_UNKNOWN) with
      | some rawOutputPath => p.diagnose (.cannotDeduceOutputFormatFromPath rawOutputPath.path)
      | none =>
        match p.rawOutputPaths.find? (fun o => o.target != first.target) with
        | some rawOutputPath =>
          ({ p with requestImpl := spSetCodeGenTarget p.requestImpl first.target } :
            OptionsParser).diagnose
            (.outputPathsImplyDifferentFormats first.path rawOutputPath.path)
        | none => { p with requestImpl := spSetCodeGenTarget p.requestImpl first.target }) →
      q = p ∨
      (∃ path, q = p.diagnose (.cannotDeduceOutputFormatFromPath path)) ∨
      q = { p with requestImpl := spSetCodeGenTarget p.requestImpl first.target } ∨
      (∃ path, q =
        ({ p with requestImpl := spSetCodeGenTarget p.requestImpl first.target } :
          OptionsParser).diagnose (.outputPathsImplyDifferentFormats first.path path)) := by
    intro q hq
    split at hq
    · exact Or.inr (Or.inl ⟨_, hq⟩)
    · split at hq
      · exact Or.inr (Or.inr (Or.inr ⟨_, hq⟩))
      · exact Or.inr (Or.inr (Or.inl hq))
  unfold inferTarget
  split
  · exact body _ rfl
  · exact body _ rfl
  · exact Or.inl rfl

theorem OutputStep.refl (p : OptionsParser) : OutputStep p p :=
  ⟨rfl, rfl, rfl, rfl, rfl, rfl, rfl, rfl, rfl, rfl, rfl, ⟨[], by simp, by simp⟩, le_refl _⟩

theorem OutputStep.trans {p q r : OptionsParser} (h1 : OutputStep p q) (h2 : OutputStep q r) :
    OutputStep p r := by
  obtain ⟨a1, a2, a3, a4, a5, a6, a7, a8, a9, a10, a11, ⟨ds1, a12, a13⟩, a14⟩ := h1
  obtain ⟨b1, b2, b3, b4, b5, b6, b7, b8, b9, b10, b11, ⟨ds2, b12, b13⟩, b14⟩ := h2
  refine ⟨b1.trans a1, b2.trans a2, b3.trans a3, b4.trans a4, b5.trans a5, b6.trans a6,
    b7.trans a7, b8.trans a8, b9.trans a9, b10.trans a10, b11.trans a11,
    ⟨ds1 ++ ds2, ?_, ?_⟩, le_trans a14 b14⟩
  · rw [b12, a12, List.append_assoc]
  · intro d hd
    rcases List.mem_append.mp hd with hd | hd
    · exact a13 d hd
    · exact b13 d hd

theorem OutputStep.diagnose (p : OptionsParser) (d : Diagnostic)
    (hd : d.isOutputDiagnostic = true) : OutputStep p (p.diagnose d) := by
  refine ⟨rfl, rfl, rfl, rfl, rfl, rfl, rfl, rfl, rfl, rfl, rfl, ⟨[d], rfl, ?_⟩, ?_⟩
  · intro d1 hd1
    rw [List.mem_singleton.mp hd1]
    exact hd
  · simp only [OptionsParser.diagnose, DiagnosticSink.diagnose]
    split <;> omega

theorem OutputStep.request (p : OptionsParser) (r : CompileRequest)
    (h1 : r.entryPoints = p.requestImpl.entryPoints)
    (h2 : r.translationUnits = p.requestImpl.translationUnits)
    (h3 : r.mSink = p.requestImpl.mSink) : OutputStep p { p with requestImpl := r } := by
  refine ⟨rfl, rfl, rfl, rfl, rfl, rfl, rfl, rfl, rfl, h1, h2, ⟨[], ?_, by simp⟩, ?_⟩
  · simp [h3]
  · simp [h3]

theorem modify_zero_map {α β : Type} (f : α → α) (g : α → β) (l : List α)
    (h : ∀ a, g (f a) = g a) : (List.modify f 0 l).map g = l.map g := by
  cases l with
  | nil => rfl
  | cons a rest => simp [List.modify, h]

theorem checkOutputPathsAndTargets_step (p : OptionsParser) :
    OutputStep p (checkOutputPathsAndTargets p) := by
  rcases checkOutputPathsAndTargets_cases p with h | h
  · rw [h]
    exact OutputStep.refl p
  · rw [h]
    exact OutputStep.diagnose p _ rfl

theorem associateOutputPaths_step (p : OptionsParser) :
    OutputStep p (associateOutputPaths p) := by
  rcases associateOutputPaths_cases p with ⟨_, _, h⟩ | ⟨_, _, h⟩ | ⟨_, _, e, _, h⟩ | ⟨_, _, _, h⟩
  · rw [h]
    refine ⟨rfl, rfl, rfl, rfl, rfl, rfl, ?_, ?_, ?_, rfl, rfl, ⟨[], by simp, by simp⟩,
      le_refl _⟩
    · exact modify_zero_map _ _ _ (fun _ => rfl)
    · exact modify_zero_map _ _ _ (fun _ => rfl)
    · exact modify_zero_map _ _ _ (fun _ => rfl)
  · rw [h]
    exact OutputStep.diagnose p _ rfl
  · rw [h]
    exact OutputStep.diagnose p _ rfl
  · rw [h]
    exact OutputStep.refl p

theorem inferTarget_step (p : OptionsParser) (first : RawOutputPath) :
    OutputStep p (inferTarget p first) := by
  rcases inferTarget_cases p first with h | ⟨path, h⟩ | h | ⟨path, h⟩
  · rw [h]
    exact OutputStep.refl p
  · rw [h]
    exact OutputStep.diagnose p _ rfl
  · rw [h]
    exact OutputStep.request p _ rfl rfl rfl
  · rw [h]
    exact (OutputStep.request p (spSetCodeGenTarget p.requestImpl first.target) rfl rfl rfl).trans
      (OutputStep.diagnose _ (.outputPathsImplyDifferentFormats first.path path) rfl)

theorem reconcileOutputPaths_step (p : OptionsParser) :
    OutputStep p (reconcileOutputPaths p) := by
  unfold reconcileOutputPaths
  split
  · exact OutputStep.refl p
  · exact (associateOutputPaths_step p).trans (inferTarget_step _ _)

theorem applyTargetFlags_step (p : OptionsParser) : OutputStep p (applyTargetFlags p) := by
  unfold applyTargetFlags
  split
  · exact OutputStep.request p _ rfl rfl rfl
  · exact OutputStep.refl p

theorem foldl_spSetTargetMatrixLayoutMode (mode : SlangMatrixLayoutMode) (l : List Nat) :
    ∀ req : CompileRequest,
      (l.foldl (fun req tt => spSetTargetMatrixLayoutMode req tt mode) req).entryPoints =
        req.entryPoints ∧
      (l.foldl (fun req tt => spSetTargetMatrixLayoutMode req tt mode) req).translationUnits =
        req.translationUnits ∧
      (l.foldl (fun req tt => spSetTargetMatrixLayoutMode req tt mode) req).mSink =
        req.mSink := by
  induction l with
  | nil =>
    intro req
    exact ⟨rfl, rfl, rfl⟩
  | cons a rest ih =>
    intro req
    simp only [List.foldl_cons]
    obtain ⟨h1, h2, h3⟩ := ih (spSetTargetMatrixLayoutMode req a mode)
    exact ⟨h1, h2, h3⟩

theorem applyMatrixLayoutMode_step (p : OptionsParser) (m : SlangMatrixLayoutMode) :
    OutputStep p (applyMatrixLayoutMode p m) := by
  unfold applyMatrixLayoutMode
  split
  · obtain ⟨h1, h2, h3⟩ := foldl_spSetTargetMatrixLayoutMode m
      (List.range p.requestImpl.targets.length) p.requestImpl
    exact OutputStep.request p _ h1 h2 h3
  · exact OutputStep.refl p

theorem outputPasses_step (p : OptionsParser) (m : SlangMatrixLayoutMode) :
    OutputStep p (outputPasses p m) :=
  (((checkOutputPathsAndTargets_step p).trans (reconcileOutputPaths_step _)).trans
    (applyTargetFlags_step _)).trans (applyMatrixLayoutMode_step _ m)

theorem placeEntryPoint_some (p p1 : OptionsParser) (e : RawEntryPoint)
    (h : placeEntryPoint p e = some p1) :
    p1 = { p with requestImpl := { p.requestImpl with
      entryPoints := p.requestImpl.entryPoints ++ [registeredEntryPoint p.rawOutputPaths e] } } := by
  unfold placeEntryPoint at h
  simp only [spAddEntryPoint] at h
  split at h
  · rename_i hge
    split at h
    · exact absurd h (by simp)
    · rename_i o ho
      simp only [Option.some.injEq] at h
      rw [← h]
      simp only [Int.toNat_ofNat, modify_length_append, registeredEntryPoint, hge, if_true, ho]
  · rename_i hge
    simp only [Option.some.injEq] at h
    rw [← h]
    simp only [registeredEntryPoint, hge, if_false]

theorem placeEntryPoint_isSome (p : OptionsParser) (e : RawEntryPoint)
    (h : e.outputPathIndex < p.rawOutputPaths.length) :
    ∃ p1, placeEntryPoint p e = some p1 := by
  unfold placeEntryPoint
  simp only [spAddEntryPoint]
  split
  · rename_i hge
    have hlt : e.outputPathIndex.toNat < p.rawOutputPaths.length := by omega
    rw [List.getElem?_eq_getElem hlt]
    exact ⟨_, rfl⟩
  · exact ⟨_, rfl⟩

theorem placeEntryPoints_some (es : List RawEntryPoint) :
    ∀ p p1 : OptionsParser, placeEntryPoints es p = some p1 →
      p1 = { p with requestImpl := { p.requestImpl with
        entryPoints := p.requestImpl.entryPoints ++
          es.map (registeredEntryPoint p.rawOutputPaths) } } := by
  induction es with
  | nil =>
    intro p p1 h
    simp only [placeEntryPoints, Option.some.injEq] at h
    rw [← h]
    simp
  | cons e rest ih =>
    intro p p1 h
    simp only [placeEntryPoints] at h
    split at h
    · exact absurd h (by simp)
    · rename_i q hq
      have hq1 := placeEntryPoint_some p q e hq
      have := ih q p1 h
      rw [this, hq1]
      simp

theorem placeEntryPoints_isSome (es : List RawEntryPoint) :
    ∀ p : OptionsParser, (∀ e ∈ es, e.outputPathIndex < p.rawOutputPaths.length) →
      ∃ p1, placeEntryPoints es p = some p1 := by
  induction es with
  | nil =>
    intro p _
    exact ⟨p, rfl⟩
  | cons e rest ih =>
    intro p h
    obtain ⟨q, hq⟩ := placeEntryPoint_isSome p e (h e (List.mem_cons_self _ _))
    have hq1 := placeEntryPoint_some p q e hq
    have hout : q.rawOutputPaths = p.rawOutputPaths := by rw [hq1]
    obtain ⟨p1, hp1⟩ := ih q (by
      intro e1 he1
      rw [hout]
      exact h e1 (List.mem_cons_of_mem _ he1))
    refine ⟨p1, ?_⟩
    simp only [placeEntryPoints, hq]
    exact hp1

theorem applyProfiles_continued (p q : OptionsParser) (h : applyProfiles p = .continued q) :
    q = { p with rawEntryPoints := p.rawEntryPoints.map (fun e =>
      if e.profileID = .SLANG_PROFILE_UNKNOWN then { e with profileID := p.currentProfileID }
      else e) } ∧
    ((∃ e ∈ p.rawEntryPoints, e.profileID = .SLANG_PROFILE_UNKNOWN) →
      p.currentProfileID ≠ .SLANG_PROFILE_UNKNOWN) := by
  unfold applyProfiles at h
  split at h
  · simp only at h
    split at h
    · exact absurd h (by simp)
    · rename_i h1
      split at h
      · exact absurd h (by simp)
      · simp only [PassResult.continued.injEq] at h
        refine ⟨h.symm, ?_⟩
        rintro ⟨e, he, hu⟩ hcp
        apply h1
        refine ⟨?_, hcp⟩
        simp only [List.any_eq_true, beq_iff_eq]
        exact ⟨e, he, hu⟩
  · rename_i h0
    simp only [PassResult.continued.injEq] at h
    have hnil : p.rawEntryPoints = [] := by
      cases hp : p.rawEntryPoints with
      | nil => rfl
      | cons a l =>
        rw [hp] at h0
        simp at h0
    constructor
    · have hm : ∀ F : RawEntryPoint → RawEntryPoint, p.rawEntryPoints.map F = p.rawEntryPoints := by
        intro F
        rw [hnil]
        rfl
      rw [← h, hm]
    · rintro ⟨e, he, _⟩
      rw [hnil] at he
      exact absurd he (List.not_mem_nil e)

theorem attachTranslationUnits_continued (p q : OptionsParser)
    (h : attachTranslationUnits p = .continued q) :
    q = { p with rawEntryPoints := p.rawEntryPoints.map (fun entryPoint =>
      if entryPoint.translationUnitIndex ≠ -1 then entryPoint
      else { entryPoint with translationUnitIndex := 0 }) } ∧
    ((∃ e ∈ p.rawEntryPoints, e.translationUnitIndex = -1) → p.translationUnitCount = 1) := by
  unfold attachTranslationUnits at h
  simp only at h
  split at h
  · exact absurd h (by simp)
  · rename_i h1
    simp only [PassResult.continued.injEq] at h
    refine ⟨h.symm, ?_⟩
    rintro ⟨e, he, hu⟩
    by_contra hne
    apply h1
    refine ⟨?_, hne⟩
    simp only [List.any_eq_true, beq_iff_eq]
    exact ⟨e, he, hu⟩

theorem outputPasses_rawEntryPoints (p : OptionsParser) (m : SlangMatrixLayoutMode) :
    (outputPasses p m).rawEntryPoints =
      if p.rawEntryPoints.length = 1 ∧ p.rawOutputPaths.length = 1 then
        List.modify (fun e => { e with outputPathIndex := 0 }) 0 p.rawEntryPoints
      else p.rawEntryPoints := by
  have e1 : ∀ q : OptionsParser, (applyMatrixLayoutMode q m).rawEntryPoints = q.rawEntryPoints := by
    intro q
    unfold applyMatrixLayoutMode
    split <;> rfl
  have e2 : ∀ q : OptionsParser, (applyTargetFlags q).rawEntryPoints = q.rawEntryPoints := by
    intro q
    unfold applyTargetFlags
    split <;> rfl
  have e3 : ∀ (q : OptionsParser) (first : RawOutputPath),
      (inferTarget q first).rawEntryPoints = q.rawEntryPoints := by
    intro q first
    rcases inferTarget_cases q first with h | ⟨path, h⟩ | h | ⟨path, h⟩ <;> rw [h] <;> rfl
  have e4 : (checkOutputPathsAndTargets p).rawEntryPoints = p.rawEntryPoints ∧
      (checkOutputPathsAndTargets p).rawOutputPaths = p.rawOutputPaths := by
    rcases checkOutputPathsAndTargets_cases p with h | h <;> rw [h] <;> exact ⟨rfl, rfl⟩
  unfold outputPasses
  rw [e1, e2]
  unfold reconcileOutputPaths
  rw [e4.2]
  split
  · rename_i hnil
    rw [e4.1]
    simp [hnil]
  · rw [e3]
    rcases associateOutputPaths_cases (checkOutputPathsAndTargets p) with
      ⟨h1, h2, h⟩ | ⟨h1, _, h⟩ | ⟨h1, _, e, _, h⟩ | ⟨h1, _, _, h⟩
    · rw [h]
      rw [e4.1] at h1
      rw [e4.2] at h2
      simp [h1, h2, e4.1]
    · rw [h]
      rw [e4.1, e4.2] at h1
      simp only [h1, if_false]
      exact e4.1
    · rw [h]
      rw [e4.1, e4.2] at h1
      simp only [h1, if_false]
      exact e4.1
    · rw [h]
      rw [e4.1, e4.2] at h1
      simp only [h1, if_false]
      exact e4.1

theorem resolve_eq (p : OptionsParser) (m : SlangMatrixLayoutMode) :
    resolve p m =
      match applyProfiles (addImplicitEntryPoints
          { p with requestImpl := spSetCompileFlags p.requestImpl p.flags }) with
      | .returned r q => some (r, q)
      | .continued q =>
        match attachTranslationUnits (outputPasses q m) with
        | .returned r q => some (r, q)
        | .continued q =>
          match placeEntryPoints q.rawEntryPoints q with
          | none => none
          | some q =>
            some (if q.requestImpl.mSink.GetErrorCount = 0 then .SLANG_OK else .SLANG_FAIL, q) :=
  rfl

theorem modify_zero_forall {α : Type} (f : α → α) (P : α → Prop) (l : List α)
    (h : ∀ a ∈ l, P a) (hf : ∀ a, P (f a)) : ∀ a ∈ List.modify f 0 l, P a := by
  cases l with
  | nil =>
    intro a ha
    exact absurd ha (List.not_mem_nil a)
  | cons b rest =>
    intro a ha
    simp only [List.modify, List.modifyTailIdx, List.modifyHead, List.mem_cons] at ha
    rcases ha with rfl | ha
    · exact hf b
    · exact h a (List.mem_cons_of_mem _ ha)

/-- From a parser whose entry points all have an output path index below the
number of output paths, the passes after the loop return. -/
theorem resolve_isSome (p : OptionsParser) (m : SlangMatrixLayoutMode)
    (h : ∀ e ∈ p.rawEntryPoints, e.outputPathIndex < p.rawOutputPaths.length) :
    ∃ r p1, resolve p m = some (r, p1) := by
  rw [resolve_eq]
  have h1 : ∀ e ∈ (addImplicitEntryPoints
      { p with requestImpl := spSetCompileFlags p.requestImpl p.flags }).rawEntryPoints,
      e.outputPathIndex < p.rawOutputPaths.length := by
    rw [addImplicitEntryPoints_eq]
    simp only
    split
    · intro e he
      simp only [implicitEntryPointsFor, List.mem_map] at he
      obtain ⟨u, _, rfl⟩ := he
      simp only [implicitEntryPoint]
      omega
    · exact h
  have h1out : (addImplicitEntryPoints
      { p with requestImpl := spSetCompileFlags p.requestImpl p.flags }).rawOutputPaths =
      p.rawOutputPaths := by
    rw [addImplicitEntryPoints_eq]
  cases hq : applyProfiles (addImplicitEntryPoints
      { p with requestImpl := spSetCompileFlags p.requestImpl p.flags }) with
  | returned r q => exact ⟨r, q, rfl⟩
  | continued q =>
    simp only
    obtain ⟨hqeq, _⟩ := applyProfiles_continued _ _ hq
    have h2out : q.rawOutputPaths = p.rawOutputPaths := by
      rw [hqeq]
      exact h1out
    have h2 : ∀ e ∈ q.rawEntryPoints, e.outputPathIndex < p.rawOutputPaths.length := by
      rw [hqeq]
      intro e he
      simp only [List.mem_map] at he
      obtain ⟨e0, he0, rfl⟩ := he
      have := h1 e0 he0
      split <;> exact this
    have h3out : (outputPasses q m).rawOutputPaths = p.rawOutputPaths := by
      rw [(outputPasses_step q m).rawOutputPaths, h2out]
    have h3 : ∀ e ∈ (outputPasses q m).rawEntryPoints,
        e.outputPathIndex < p.rawOutputPaths.length := by
      rw [outputPasses_rawEntryPoints]
      split
      · rename_i hone
        apply modify_zero_forall _ _ _ h2
        intro a
        simp only
        rw [← h2out, hone.2]
        decide
      · exact h2
    cases hq2 : attachTranslationUnits (outputPasses q m) with
    | returned r q2 => exact ⟨r, q2, rfl⟩
    | continued q2 =>
      simp only
      obtain ⟨hq2eq, _⟩ := attachTranslationUnits_continued _ _ hq2
      have h4out : q2.rawOutputPaths = p.rawOutputPaths := by
        rw [hq2eq]
        exact h3out
      have h4 : ∀ e ∈ q2.rawEntryPoints, e.outputPathIndex < q2.rawOutputPaths.length := by
        rw [h4out, hq2eq]
        intro e he
        simp only [List.mem_map] at he
        obtain ⟨e0, he0, rfl⟩ := he
        have := h3 e0 he0
        split <;> exact this
      obtain ⟨q3, hq3⟩ := placeEntryPoints_isSome q2.rawEntryPoints q2 h4
      rw [hq3]
      exact ⟨_, _, rfl⟩

/-- The whole of `parse` returns when it is called as `parseOptions` calls it
(a new parser) on a request without translation units. -/
theorem parse_isSome (spFindProfile : String → SlangProfileID) (req : CompileRequest)
    (argv : List String) (hreq : req.translationUnits = []) :
    ∃ r p, ({ requestImpl := req } : OptionsParser).parse spFindProfile argv = some (r, p) := by
  unfold OptionsParser.parse
  simp only
  rcases parseArgs_ScanInv spFindProfile argv { requestImpl := req, flags := req.compileFlags }
    .SLANG_MATRIX_LAYOUT_MODE_UNKNOWN (ScanInv_new req hreq) with
    ⟨p1, m1, h1, hinv, _, _⟩ | ⟨p1, h1, _⟩
  · rw [h1]
    simp only
    apply resolve_isSome
    intro e he
    exact (hinv.entry_output e he).2
  · rw [h1]
    exact ⟨_, _, rfl⟩

/-- C1: `parse` returns success if and only if the error count of the sink is
zero when it returns, whatever the parser and the request it starts from; and
on a new parser over a request without translation units it does return. -/
theorem parse_success_iff_no_error (spFindProfile : String → SlangProfileID)
    (argv : List String) :
    (∀ (p0 : OptionsParser) (r : SlangResult) (p : OptionsParser),
      p0.parse spFindProfile argv = some (r, p) →
        (r = .SLANG_OK ↔ p.requestImpl.mSink.GetErrorCount = 0)) ∧
    (∀ req : CompileRequest, req.translationUnits = [] →
      ∃ r p, ({ requestImpl := req } : OptionsParser).parse spFindProfile argv = some (r, p) ∧
        (r = .SLANG_OK ↔ p.requestImpl.mSink.GetErrorCount = 0)) := by
  refine ⟨fun p0 r p h => parse_success_iff spFindProfile p0 argv r p h, ?_⟩
  intro req hreq
  obtain ⟨r, p, h⟩ := parse_isSome spFindProfile req argv hreq
  exact ⟨r, p, h, parse_success_iff spFindProfile _ argv r p h⟩

/-- C1, at `a.frag b.frag -o x.foo` on a new request: `parse` returns, with
failure and two errors in the sink. -/
theorem parse_success_iff_no_error_witness :
    ({} : CompileRequest).translationUnits = [] ∧
      ∃ r p, ({ requestImpl := {} } : OptionsParser).parse
          (fun _ => .SLANG_PROFILE_UNKNOWN) ["a.frag", "b.frag", "-o", "x.foo"] = some (r, p) ∧
        (r = .SLANG_OK ↔ p.requestImpl.mSink.GetErrorCount = 0) :=
  ⟨rfl, (parse_success_iff_no_error (fun _ => .SLANG_PROFILE_UNKNOWN)
    ["a.frag", "b.frag", "-o", "x.foo"]).2 {} rfl⟩

/-- The three ways the passes after the loop return. -/
theorem resolve_some_cases (p : OptionsParser) (m : SlangMatrixLayoutMode) (r : SlangResult)
    (p1 : OptionsParser) (h : resolve p m = some (r, p1)) :
    applyProfiles (addImplicitEntryPoints
        { p with requestImpl := spSetCompileFlags p.requestImpl p.flags }) = .returned r p1 ∨
    (∃ q, applyProfiles (addImplicitEntryPoints
        { p with requestImpl := spSetCompileFlags p.requestImpl p.flags }) = .continued q ∧
      attachTranslationUnits (outputPasses q m) = .returned r p1) ∨
    (∃ q q2, applyProfiles (addImplicitEntryPoints
        { p with requestImpl := spSetCompileFlags p.requestImpl p.flags }) = .continued q ∧
      attachTranslationUnits (outputPasses q m) = .continued q2 ∧
      placeEntryPoints q2.rawEntryPoints q2 = some p1 ∧
      r = if p1.requestImpl.mSink.GetErrorCount = 0 then .SLANG_OK else .SLANG_FAIL) := by
  rw [resolve_eq] at h
  split at h
  · rename_i r0 q hq
    simp only [Option.some.injEq, Prod.mk.injEq] at h
    obtain ⟨rfl, rfl⟩ := h
    exact Or.inl hq
  · rename_i q hq
    split at h
    · rename_i r0 q2 hq2
      simp only [Option.some.injEq, Prod.mk.injEq] at h
      obtain ⟨rfl, rfl⟩ := h
      exact Or.inr (Or.inl ⟨q, hq, hq2⟩)
    · rename_i q2 hq2
      split at h
      · exact absurd h (by simp)
      · rename_i q3 hq3
        simp only [Option.some.injEq, Prod.mk.injEq] at h
        obtain ⟨hr, rfl⟩ := h
        exact Or.inr (Or.inr ⟨q, q2, hq, hq2, hq3, hr.symm⟩)

/-- The two ways `parse` returns: from inside the loop, or from the passes
after it. -/
theorem parse_some_cases (spFindProfile : String → SlangProfileID) (p0 : OptionsParser)
    (argv : List String) (r : SlangResult) (p : OptionsParser)
    (h : p0.parse spFindProfile argv = some (r, p)) :
    parseArgs spFindProfile argv { p0 with flags := p0.requestImpl.compileFlags }
        .SLANG_MATRIX_LAYOUT_MODE_UNKNOWN = .returned r p ∨
    ∃ p1 m, parseArgs spFindProfile argv { p0 with flags := p0.requestImpl.compileFlags }
        .SLANG_MATRIX_LAYOUT_MODE_UNKNOWN = .finished p1 m ∧ resolve p1 m = some (r, p) := by
  unfold OptionsParser.parse at h
  simp only at h
  split at h
  · exact absurd h (by simp)
  · rename_i r0 q hq
    simp only [Option.some.injEq, Prod.mk.injEq] at h
    obtain ⟨rfl, rfl⟩ := h
    exact Or.inl hq
  · rename_i q m hq
    exact Or.inr ⟨q, m, hq, h⟩

/-- When the passes after the loop return success, every entry point has a
known profile, and the request has gained one entry point for each, with that
profile. -/
theorem resolve_ok_profiles (p : OptionsParser) (m : SlangMatrixLayoutMode)
    (p1 : OptionsParser) (h : resolve p m = some (.SLANG_OK, p1)) :
    (∀ e ∈ p1.rawEntryPoints, e.profileID ≠ .SLANG_PROFILE_UNKNOWN) ∧
    p1.requestImpl.entryPoints = p.requestImpl.entryPoints ++
      p1.rawEntryPoints.map (registeredEntryPoint p1.rawOutputPaths) := by
  rcases resolve_some_cases p m _ p1 h with h1 | ⟨q, _, h2⟩ | ⟨q, q2, hq, hq2, hq3, _⟩
  · exact absurd (applyProfiles_returned _ _ _ h1).1 (by decide)
  · exact absurd (attachTranslationUnits_returned _ _ _ h2).1 (by decide)
  · obtain ⟨hqeq, hcp⟩ := applyProfiles_continued _ _ hq
    obtain ⟨hq2eq, _⟩ := attachTranslationUnits_continued _ _ hq2
    have hp1 := placeEntryPoints_some _ _ _ hq3
    have hstep := outputPasses_step q m
    -- the profiles after profile backfill
    have hqprof : ∀ x ∈ q.rawEntryPoints.map (fun e => e.profileID),
        x ≠ .SLANG_PROFILE_UNKNOWN := by
      intro x hx
      rw [hqeq] at hx
      simp only [List.map_map, List.mem_map, Function.comp] at hx
      obtain ⟨e, he, rfl⟩ := hx
      split
      · rename_i hu
        exact hcp ⟨e, he, hu⟩
      · rename_i hu
        exact hu
    have hq2prof : q2.rawEntryPoints.map (fun e => e.profileID) =
        q.rawEntryPoints.map (fun e => e.profileID) := by
      rw [hq2eq, ← hstep.profiles]
      simp only [List.map_map]
      apply List.map_congr_left
      intro e _
      simp only [Function.comp]
      split <;> rfl
    have hrawEq : p1.rawEntryPoints = q2.rawEntryPoints := by rw [hp1]
    have hreq : q2.requestImpl.entryPoints = p.requestImpl.entryPoints := by
      rw [hq2eq]
      simp only
      rw [hstep.requestEntryPoints, hqeq, addImplicitEntryPoints_eq]
      rfl
    constructor
    · intro e he
      apply hqprof
      rw [← hq2prof, ← hrawEq]
      exact List.mem_map_of_mem _ he
    · rw [hp1]
      simp only
      rw [hreq]

/-- C6: when `parse` returns success, no entry point of the resolved list has
an unknown profile, and every entry point that `parse` registered with the
request (one for each entry point of the list, after those the request held
before) has a known profile. -/
theorem parse_ok_profiles_known (spFindProfile : String → SlangProfileID)
    (p0 : OptionsParser) (argv : List String) (p : OptionsParser)
    (h : p0.parse spFindProfile argv = some (.SLANG_OK, p)) :
    (∀ e ∈ p.rawEntryPoints, e.profileID ≠ .SLANG_PROFILE_UNKNOWN) ∧
    ∃ added, p.requestImpl.entryPoints = p0.requestImpl.entryPoints ++ added ∧
      added.length = p.rawEntryPoints.length ∧
      ∀ e ∈ added, e.profile ≠ .SLANG_PROFILE_UNKNOWN := by
  rcases parse_some_cases spFindProfile p0 argv _ p h with hret | ⟨p1, m, hscan, hres⟩
  · have := parseArgs_closed (fun _ => True) ScanClosed_true spFindProfile argv
      { p0 with flags := p0.requestImpl.compileFlags } .SLANG_MATRIX_LAYOUT_MODE_UNKNOWN trivial
    rw [hret] at this
    exact absurd this.1 (by decide)
  · have hpost := parseArgs_closed (fun _ => True) ScanClosed_true spFindProfile argv
      { p0 with flags := p0.requestImpl.compileFlags } .SLANG_MATRIX_LAYOUT_MODE_UNKNOWN trivial
    rw [hscan] at hpost
    obtain ⟨_, _, hentries⟩ := hpost
    obtain ⟨hprof, hreq⟩ := resolve_ok_profiles p1 m p hres
    refine ⟨hprof, p.rawEntryPoints.map (registeredEntryPoint p.rawOutputPaths), ?_, ?_, ?_⟩
    · rw [hreq, hentries]
    · simp
    · intro e he
      simp only [List.mem_map] at he
      obtain ⟨e0, he0, rfl⟩ := he
      exact hprof e0 he0

/-- C6, at the single input `shader.frag` on a new parser: `parse` succeeds
and the one entry point has the GLSL fragment profile. -/
theorem parse_ok_profiles_known_witness :
    ∃ p, ({} : OptionsParser).parse (fun _ => .SLANG_PROFILE_UNKNOWN) ["shader.frag"] =
        some (.SLANG_OK, p) ∧
      (∀ e ∈ p.rawEntryPoints, e.profileID ≠ .SLANG_PROFILE_UNKNOWN) ∧
      ∃ added, p.requestImpl.entryPoints = ({} : OptionsParser).requestImpl.entryPoints ++ added ∧
        added.length = p.rawEntryPoints.length ∧
        ∀ e ∈ added, e.profile ≠ .SLANG_PROFILE_UNKNOWN :=
  ⟨_, rfl, parse_ok_profiles_known (fun _ => .SLANG_PROFILE_UNKNOWN) {} ["shader.frag"] _ rfl⟩

/-- C10: translation-unit backfill on any parser `p`.  With an entry point
without unit and `translationUnitCount = 1`, every such entry point is bound
to unit 0, the others keep their unit, and nothing else changes (no
diagnostic).  With an entry point without unit and `translationUnitCount ≠ 1`,
the pass returns `SLANG_FAIL` after `multipleTranslationUnitsNeedEntryPoints`.
With no entry point without unit, the parser is unchanged.  In `resolve`, a
return from this pass is the result of the whole resolution, and the request
holds the entry points it held before. -/
theorem attachTranslationUnits_backfill (p : OptionsParser) :
    ((∃ e ∈ p.rawEntryPoints, e.translationUnitIndex = -1) → p.translationUnitCount = 1 →
      attachTranslationUnits p = .continued { p with
        rawEntryPoints := p.rawEntryPoints.map (fun e =>
          if e.translationUnitIndex = -1 then { e with translationUnitIndex := 0 } else e) }) ∧
    ((∃ e ∈ p.rawEntryPoints, e.translationUnitIndex = -1) → p.translationUnitCount ≠ 1 →
      ∃ q, attachTranslationUnits p = .returned .SLANG_FAIL q ∧
        q.requestImpl.mSink =
          p.requestImpl.mSink.diagnose .multipleTranslationUnitsNeedEntryPoints ∧
        q.requestImpl.entryPoints = p.requestImpl.entryPoints) ∧
    ((∀ e ∈ p.rawEntryPoints, e.translationUnitIndex ≠ -1) →
      attachTranslationUnits p = .continued p) ∧
    (∀ (p0 q0 q : OptionsParser) (m : SlangMatrixLayoutMode) (r : SlangResult),
      applyProfiles (addImplicitEntryPoints
        { p0 with requestImpl := spSetCompileFlags p0.requestImpl p0.flags }) = .continued q0 →
      outputPasses q0 m = p → attachTranslationUnits p = .returned r q →
      resolve p0 m = some (r, q) ∧ q.requestImpl.entryPoints = p0.requestImpl.entryPoints) := by
  have hmap : p.rawEntryPoints.map (fun entryPoint =>
        if entryPoint.translationUnitIndex ≠ -1 then entryPoint
        else { entryPoint with translationUnitIndex := 0 }) =
      p.rawEntryPoints.map (fun e =>
        if e.translationUnitIndex = -1 then { e with translationUnitIndex := 0 } else e) := by
    apply List.map_congr_left
    intro e _
    by_cases h : e.translationUnitIndex = -1 <;> simp [h]
  refine ⟨?_, ?_, ?_, ?_⟩
  · rintro ⟨e, he, hu⟩ hone
    have hany : p.rawEntryPoints.any (fun entryPoint => entryPoint.translationUnitIndex == -1) =
        true := by
      simp only [List.any_eq_true, beq_iff_eq]
      exact ⟨e, he, hu⟩
    unfold attachTranslationUnits
    simp only [hany, hone, ne_eq, not_true_eq_false, and_false, if_false]
    rw [← hmap]
  · rintro ⟨e, he, hu⟩ hne
    have hany : p.rawEntryPoints.any (fun entryPoint => entryPoint.translationUnitIndex == -1) =
        true := by
      simp only [List.any_eq_true, beq_iff_eq]
      exact ⟨e, he, hu⟩
    unfold attachTranslationUnits
    simp only [hany, hne, ne_eq, not_false_eq_true, and_self, if_true]
    exact ⟨_, rfl, rfl, rfl⟩
  · intro hall
    have hany : p.rawEntryPoints.any (fun entryPoint => entryPoint.translationUnitIndex == -1) =
        false := by
      rw [List.any_eq_false]
      intro e he
      simp only [beq_iff_eq]
      exact hall e he
    have hid : p.rawEntryPoints.map (fun entryPoint =>
        if entryPoint.translationUnitIndex ≠ -1 then entryPoint
        else { entryPoint with translationUnitIndex := 0 }) = p.rawEntryPoints := by
      conv_rhs => rw [← List.map_id p.rawEntryPoints]
      apply List.map_congr_left
      intro e he
      simp [hall e he]
    unfold attachTranslationUnits
    simp only [hany, hid]
    simp
  · intro p0 q0 q m r hq0 hp hret
    subst hp
    constructor
    · rw [resolve_eq, hq0]
      simp only [hret]
    · obtain ⟨_, hsink⟩ := attachTranslationUnits_returned _ _ _ hret
      have hstep := outputPasses_step q0 m
      obtain ⟨hq0eq, _⟩ := applyProfiles_continued _ _ hq0
      have h1 : q.requestImpl.entryPoints = (outputPasses q0 m).requestImpl.entryPoints := by
        unfold attachTranslationUnits at hret
        simp only at hret
        split at hret
        · simp only [PassResult.returned.injEq] at hret
          rw [← hret.2]
          rfl
        · exact absurd hret (by simp)
      rw [h1, hstep.requestEntryPoints, hq0eq, addImplicitEntryPoints_eq]
      rfl

/-- C10, at a parser with the one entry point `f` without unit: with one
translation unit `f` is bound to unit 0; with two the pass returns
`SLANG_FAIL`. -/
theorem attachTranslationUnits_backfill_witness :
    (∃ e ∈ ({ rawEntryPoints := [{ name := "f" }], translationUnitCount := 1 } :
        OptionsParser).rawEntryPoints, e.translationUnitIndex = -1) ∧
    attachTranslationUnits { rawEntryPoints := [{ name := "f" }], translationUnitCount := 1 } =
      .continued { rawEntryPoints := [{ name := "f", translationUnitIndex := 0 }]
                   translationUnitCount := 1 } ∧
    ∃ q, attachTranslationUnits { rawEntryPoints := [{ name := "f" }], translationUnitCount := 2 } =
      .returned .SLANG_FAIL q ∧
      q.requestImpl.mSink =
        ({} : DiagnosticSink).diagnose .multipleTranslationUnitsNeedEntryPoints ∧
      q.requestImpl.entryPoints = [] :=
  ⟨⟨{ name := "f" }, List.mem_singleton.mpr rfl, rfl⟩,
    (attachTranslationUnits_backfill
      { rawEntryPoints := [{ name := "f" }], translationUnitCount := 1 }).1
      ⟨{ name := "f" }, List.mem_singleton.mpr rfl, rfl⟩ rfl,
    (attachTranslationUnits_backfill
      { rawEntryPoints := [{ name := "f" }], translationUnitCount := 2 }).2.1
      ⟨{ name := "f" }, List.mem_singleton.mpr rfl, rfl⟩ (by decide)⟩

/-! ## Command lines as lists of items -/

theorem expectedUnits_append_singleton (paths : List String) (path : String) :
    expectedUnits (paths ++ [path]) = expectedUnits paths ++
      (if EndsWith path ".slang" = true then
        (if paths.any (fun q => EndsWith q ".slang") = true then []
         else [(.SLANG_SOURCE_LANGUAGE_SLANG, .SLANG_PROFILE_UNKNOWN)])
       else [findSourceLanguageFromPath path]) := by
  induction paths with
  | nil =>
    cases h : EndsWith path ".slang" <;> simp [expectedUnits, h]
  | cons a rest ih =>
    cases ha : EndsWith a ".slang" with
    | true =>
      rw [List.cons_append, expectedUnits_cons_slang a _ ha, expectedUnits_cons_slang a _ ha]
      cases h : EndsWith path ".slang" <;> simp [h, ha, List.filter_append]
    | false =>
      rw [List.cons_append, expectedUnits_cons_foreign a _ ha, expectedUnits_cons_foreign a _ ha,
        ih]
      simp [ha]

theorem expectedUnits_no_slang (paths : List String)
    (h : paths.any (fun q => EndsWith q ".slang") = false) :
    (expectedUnits paths).length = paths.length ∧ nativeUnitIndex paths = paths.length := by
  induction paths with
  | nil => exact ⟨rfl, rfl⟩
  | cons a rest ih =>
    simp only [List.any_cons, Bool.or_eq_false_iff] at h
    obtain ⟨ih1, ih2⟩ := ih h.2
    rw [expectedUnits_cons_foreign a rest h.1]
    simp only [nativeUnitIndex] at ih2 ⊢
    simp [h.1, ih1, ih2]

theorem nativeUnitIndex_append_singleton (paths : List String) (path : String)
    (h : paths.any (fun q => EndsWith q ".slang") = true) :
    nativeUnitIndex (paths ++ [path]) = nativeUnitIndex paths := by
  induction paths with
  | nil => simp at h
  | cons a rest ih =>
    cases ha : EndsWith a ".slang" with
    | true => simp [nativeUnitIndex, ha]
    | false =>
      simp only [List.any_cons, ha, Bool.false_or] at h
      have := ih h
      simp only [nativeUnitIndex] at this ⊢
      simp [ha, this]

theorem nativeUnitIndex_lt (paths : List String)
    (h : paths.any (fun q => EndsWith q ".slang") = true) :
    nativeUnitIndex paths < (expectedUnits paths).length := by
  induction paths with
  | nil => simp at h
  | cons a rest ih =>
    cases ha : EndsWith a ".slang" with
    | true =>
      rw [expectedUnits_cons_slang a rest ha]
      simp [nativeUnitIndex, ha]
    | false =>
      simp only [List.any_cons, ha, Bool.false_or] at h
      have := ih h
      rw [expectedUnits_cons_foreign a rest ha]
      simp only [nativeUnitIndex] at this ⊢
      simp [ha, this]

theorem Tracks_new (spFindProfile : String → SlangProfileID) (req : CompileRequest)
    (h : req.translationUnits = []) :
    Tracks spFindProfile [] { requestImpl := req, flags := req.compileFlags } :=
  ⟨ScanInv_new req h, rfl, rfl, rfl, rfl, rfl, rfl, rfl⟩

/-- An item that is no `-profile`, `-entry`, `-o` or input path, read by a
step that leaves the tracked fields alone. -/
theorem Tracks_other {spFindProfile : String → SlangProfileID} {items : List CommandLineItem}
    {p q : OptionsParser} (ht : Tracks spFindProfile items p) (i : CommandLineItem)
    (i1 : profileNames [i] = []) (i2 : entryNames [i] = []) (i3 : outputPathsOf [i] = [])
    (i4 : inputPathsOf [i] = [])
    (h1 : q.requestImpl.translationUnits = p.requestImpl.translationUnits)
    (h2 : q.rawTranslationUnits = p.rawTranslationUnits)
    (h3 : q.translationUnitCount = p.translationUnitCount)
    (h4 : q.slangTranslationUnit = p.slangTranslationUnit)
    (h5 : q.currentTranslationUnitIndex = p.currentTranslationUnitIndex)
    (h6 : q.rawEntryPoints = p.rawEntryPoints)
    (h7 : q.rawOutputPaths = p.rawOutputPaths)
    (h8 : q.profileOptionCount = p.profileOptionCount)
    (h9 : q.currentProfileID = p.currentProfileID) :
    Tracks spFindProfile (items ++ [i]) q := by
  obtain ⟨a1, a2, a3, a4, a5, a6, a7, a8⟩ := ht
  have e1 : profileNames (items ++ [i]) = profileNames items := by
    simp only [profileNames, List.filterMap_append] at i1 ⊢
    rw [i1, List.append_nil]
  have e2 : entryNames (items ++ [i]) = entryNames items := by
    simp only [entryNames, List.filterMap_append] at i2 ⊢
    rw [i2, List.append_nil]
  have e3 : outputPathsOf (items ++ [i]) = outputPathsOf items := by
    simp only [outputPathsOf, List.filterMap_append] at i3 ⊢
    rw [i3, List.append_nil]
  have e4 : inputPathsOf (items ++ [i]) = inputPathsOf items := by
    simp only [inputPathsOf, List.filterMap_append] at i4 ⊢
    rw [i4, List.append_nil]
  refine ⟨ScanInv_of_eq a1 h1 h2 h3 h4 h5 h6 h7 h8 h9, ?_, ?_, ?_, ?_, ?_, ?_, ?_⟩
  · rw [h9, a2, lastProfile, lastProfile, e1]
  · rw [h8, a3, e1]
  · rw [h7, a4, e3]
  · rw [h2, a5, e4]
  · rw [h4, a6, e4]
  · rw [h5, a7, e4]
  · rw [h6, a8, e2]

theorem second_char_ne (arg name : String) (c : Char) (h : arg.data[1]? = some c)
    (hn : name.data[1]? ≠ some c) : arg ≠ name := by
  rintro rfl
  exact hn h

/-- The options `parseArgs` compares a token with. -/
theorem named_options_second_char (arg : String) (c : Char) (h : arg.data[1]? = some c)
    (hc : c = 'D' ∨ c = 'I') :
    arg ≠ "-no-mangle" ∧ arg ≠ "-no-codegen" ∧ arg ≠ "-dump-ir" ∧ arg ≠ "-validate-ir" ∧
    arg ≠ "-skip-codegen" ∧ arg ≠ "-parameter-blocks-use-register-spaces" ∧
    arg ≠ "-backend" ∧ arg ≠ "-target" ∧ arg ≠ "-profile" ∧ arg ≠ "-entry" ∧
    arg ≠ "-pass-through" ∧ arg ≠ "-o" ∧ arg ≠ "-matrix-layout-row-major" ∧
    arg ≠ "-matrix-layout-column-major" ∧ arg ≠ "--" := by
  rcases hc with rfl | rfl <;>
    refine ⟨?_, ?_, ?_, ?_, ?_, ?_, ?_, ?_, ?_, ?_, ?_, ?_, ?_, ?_, ?_⟩ <;>
    exact second_char_ne arg _ _ h (by decide)

theorem SameTracked.rfl_of (p q : OptionsParser)
    (a1 : q.requestImpl.translationUnits = p.requestImpl.translationUnits)
    (a2 : q.requestImpl.mSink = p.requestImpl.mSink)
    (a3 : q.requestImpl.entryPoints = p.requestImpl.entryPoints)
    (a4 : q.rawTranslationUnits = p.rawTranslationUnits)
    (a5 : q.translationUnitCount = p.translationUnitCount)
    (a6 : q.slangTranslationUnit = p.slangTranslationUnit)
    (a7 : q.currentTranslationUnitIndex = p.currentTranslationUnitIndex)
    (a8 : q.rawEntryPoints = p.rawEntryPoints)
    (a9 : q.rawOutputPaths = p.rawOutputPaths)
    (a10 : q.profileOptionCount = p.profileOptionCount)
    (a11 : q.currentProfileID = p.currentProfileID) : SameTracked p q :=
  ⟨a1, a2, a3, a4, a5, a6, a7, a8, a9, a10, a11⟩

theorem parseArgs_flag (spFindProfile : String → SlangProfileID) (arg : String)
    (harg : arg ∈ simpleFlags) (p : OptionsParser) (m : SlangMatrixLayoutMode) :
    ∃ p1 m1, SameTracked p p1 ∧ ∀ rest, parseArgs spFindProfile (arg :: rest) p m =
      parseArgs spFindProfile rest p1 m1 := by
  simp only [simpleFlags, List.mem_cons, List.mem_singleton, List.not_mem_nil, or_false] at harg
  rcases harg with rfl | rfl | rfl | rfl | rfl | rfl | rfl | rfl
  · refine ⟨{ p with flags := p.flags ||| SLANG_COMPILE_FLAG_NO_MANGLING }, m,
      ⟨rfl, rfl, rfl, rfl, rfl, rfl, rfl, rfl, rfl, rfl, rfl⟩, fun rest => ?_⟩
    rw [parseArgs.eq_def]
    simp
  · refine ⟨{ p with flags := p.flags ||| SLANG_COMPILE_FLAG_NO_CODEGEN }, m,
      ⟨rfl, rfl, rfl, rfl, rfl, rfl, rfl, rfl, rfl, rfl, rfl⟩, fun rest => ?_⟩
    rw [parseArgs.eq_def]
    simp
  · refine ⟨{ p with requestImpl := { p.requestImpl with shouldDumpIR := true } }, m,
      ⟨rfl, rfl, rfl, rfl, rfl, rfl, rfl, rfl, rfl, rfl, rfl⟩, fun rest => ?_⟩
    rw [parseArgs.eq_def]
    simp
  · refine ⟨{ p with requestImpl := { p.requestImpl with shouldValidateIR := true } }, m,
      ⟨rfl, rfl, rfl, rfl, rfl, rfl, rfl, rfl, rfl, rfl, rfl⟩, fun rest => ?_⟩
    rw [parseArgs.eq_def]
    simp
  · refine ⟨{ p with requestImpl := { p.requestImpl with shouldSkipCodegen := true } }, m,
      ⟨rfl, rfl, rfl, rfl, rfl, rfl, rfl, rfl, rfl, rfl, rfl⟩, fun rest => ?_⟩
    rw [parseArgs.eq_def]
    simp
  · refine ⟨{ p with targetFlags :=
        p.targetFlags ||| SLANG_TARGET_FLAG_PARAMETER_BLOCKS_USE_REGISTER_SPACES }, m,
      ⟨rfl, rfl, rfl, rfl, rfl, rfl, rfl, rfl, rfl, rfl, rfl⟩, fun rest => ?_⟩
    rw [parseArgs.eq_def]
    simp
  · refine ⟨p, .kMatrixLayoutMode_RowMajor,
      ⟨rfl, rfl, rfl, rfl, rfl, rfl, rfl, rfl, rfl, rfl, rfl⟩, fun rest => ?_⟩
    rw [parseArgs.eq_def]
    simp
  · refine ⟨p, .kMatrixLayoutMode_ColumnMajor,
      ⟨rfl, rfl, rfl, rfl, rfl, rfl, rfl, rfl, rfl, rfl, rfl⟩, fun rest => ?_⟩
    rw [parseArgs.eq_def]
    simp

theorem parseArgs_target (spFindProfile : String → SlangProfileID) (arg name : String)
    (harg : arg = "-backend" ∨ arg = "-target")
    (hname : (codeGenTargetNames.lookup name).isSome = true)
    (p : OptionsParser) (m : SlangMatrixLayoutMode) :
    ∃ p1 m1, SameTracked p p1 ∧ ∀ rest, parseArgs spFindProfile (arg :: name :: rest) p m =
      parseArgs spFindProfile rest p1 m1 := by
  obtain ⟨target, ht⟩ := Option.isSome_iff_exists.mp hname
  refine ⟨{ p with chosenTarget := target
                   requestImpl := spSetCodeGenTarget p.requestImpl target }, m,
    ⟨rfl, rfl, rfl, rfl, rfl, rfl, rfl, rfl, rfl, rfl, rfl⟩, fun rest => ?_⟩
  rcases harg with rfl | rfl
  · rw [parseArgs.eq_def]
    simp [ht]
  · rw [parseArgs.eq_def]
    simp [ht]

theorem parseArgs_passThrough (spFindProfile : String → SlangProfileID) (name : String)
    (hname : (passThroughNames.lookup name).isSome = true)
    (p : OptionsParser) (m : SlangMatrixLayoutMode) :
    ∃ p1 m1, SameTracked p p1 ∧
      ∀ rest, parseArgs spFindProfile ("-pass-through" :: name :: rest) p m =
        parseArgs spFindProfile rest p1 m1 := by
  obtain ⟨passThrough, ht⟩ := Option.isSome_iff_exists.mp hname
  refine ⟨{ p with requestImpl := spSetPassThrough p.requestImpl passThrough }, m,
    ⟨rfl, rfl, rfl, rfl, rfl, rfl, rfl, rfl, rfl, rfl, rfl⟩, fun rest => ?_⟩
  rw [parseArgs.eq_def]
  simp [ht]

theorem parseArgs_joined (spFindProfile : String → SlangProfileID) (arg : String)
    (h0 : arg.data.head? = some '-')
    (h1 : arg.data[1]? = some 'D' ∨ arg.data[1]? = some 'I')
    (h2 : arg.data.drop 2 ≠ [])
    (p : OptionsParser) (m : SlangMatrixLayoutMode) :
    ∃ p1 m1, SameTracked p p1 ∧ ∀ rest, parseArgs spFindProfile (arg :: rest) p m =
      parseArgs spFindProfile rest p1 m1 := by
  rcases h1 with h1 | h1
  · obtain ⟨n1, n2, n3, n4, n5, n6, n7, n8, n9, n10, n11, n12, n13, n14, n15⟩ :=
      named_options_second_char arg 'D' h1 (Or.inl rfl)
    obtain ⟨kv, hkv⟩ : ∃ kv, kv = splitDefine (String.mk (arg.data.drop 2)) := ⟨_, rfl⟩
    refine ⟨{ p with requestImpl := spAddPreprocessorDefine p.requestImpl kv.1 kv.2 }, m,
      ⟨rfl, rfl, rfl, rfl, rfl, rfl, rfl, rfl, rfl, rfl, rfl⟩, fun rest => ?_⟩
    rw [parseArgs.eq_def]
    simp [h0, h1, h2, n1, n2, n3, n4, n5, n6, n7, n8, n9, n10, n11, hkv]
  · obtain ⟨n1, n2, n3, n4, n5, n6, n7, n8, n9, n10, n11, n12, n13, n14, n15⟩ :=
      named_options_second_char arg 'I' h1 (Or.inr rfl)
    refine ⟨{ p with requestImpl := spAddSearchPath p.requestImpl ⟨arg.data.drop 2⟩ }, m,
      ⟨rfl, rfl, rfl, rfl, rfl, rfl, rfl, rfl, rfl, rfl, rfl⟩, fun rest => ?_⟩
    rw [parseArgs.eq_def]
    simp [h0, h1, h2, n1, n2, n3, n4, n5, n6, n7, n8, n9, n10, n11]

theorem parseArgs_spaced (spFindProfile : String → SlangProfileID) (arg value : String)
    (harg : arg = "-D" ∨ arg = "-I")
    (p : OptionsParser) (m : SlangMatrixLayoutMode) :
    ∃ p1 m1, SameTracked p p1 ∧ ∀ rest, parseArgs spFindProfile (arg :: value :: rest) p m =
      parseArgs spFindProfile rest p1 m1 := by
  rcases harg with rfl | rfl
  · obtain ⟨kv, hkv⟩ : ∃ kv, kv = splitDefine value := ⟨_, rfl⟩
    refine ⟨{ p with requestImpl := spAddPreprocessorDefine p.requestImpl kv.1 kv.2 }, m,
      ⟨rfl, rfl, rfl, rfl, rfl, rfl, rfl, rfl, rfl, rfl, rfl⟩, fun rest => ?_⟩
    rw [parseArgs.eq_def]
    simp [hkv]
  · refine ⟨{ p with requestImpl := spAddSearchPath p.requestImpl value }, m,
      ⟨rfl, rfl, rfl, rfl, rfl, rfl, rfl, rfl, rfl, rfl, rfl⟩, fun rest => ?_⟩
    rw [parseArgs.eq_def]
    simp

theorem SameTracked.tracks {spFindProfile : String → SlangProfileID}
    {items : List CommandLineItem} {p q : OptionsParser} (hs : SameTracked p q)
    (ht : Tracks spFindProfile items p) (i : CommandLineItem)
    (i1 : profileNames [i] = []) (i2 : entryNames [i] = []) (i3 : outputPathsOf [i] = [])
    (i4 : inputPathsOf [i] = []) : Tracks spFindProfile (items ++ [i]) q :=
  Tracks_other ht i i1 i2 i3 i4 hs.requestUnits hs.rawTranslationUnits hs.translationUnitCount
    hs.slangTranslationUnit hs.currentTranslationUnitIndex hs.rawEntryPoints hs.rawOutputPaths
    hs.profileOptionCount hs.currentProfileID

theorem Tracks_profile {spFindProfile : String → SlangProfileID}
    {items : List CommandLineItem} {p : OptionsParser} (ht : Tracks spFindProfile items p)
    (name : String) (hne : spFindProfile name ≠ .SLANG_PROFILE_UNKNOWN) :
    Tracks spFindProfile (items ++ [.profile name])
      { p with currentProfileID := spFindProfile name
               profileOptionCount := p.profileOptionCount + 1 } := by
  obtain ⟨a1, a2, a3, a4, a5, a6, a7, a8⟩ := ht
  have e1 : profileNames (items ++ [.profile name]) = profileNames items ++ [name] := by
    simp [profileNames, List.filterMap_append]
  have e2 : entryNames (items ++ [.profile name]) = entryNames items := by
    simp [entryNames, List.filterMap_append]
  have e3 : outputPathsOf (items ++ [.profile name]) = outputPathsOf items := by
    simp [outputPathsOf, List.filterMap_append]
  have e4 : inputPathsOf (items ++ [.profile name]) = inputPathsOf items := by
    simp [inputPathsOf, List.filterMap_append]
  refine ⟨ScanInv_profile a1 _ hne, ?_, ?_, ?_, ?_, ?_, ?_, ?_⟩
  · simp [lastProfile, e1]
  · simp [e1, a3]
  · rw [e3]
    exact a4
  · rw [e4]
    exact a5
  · rw [e4]
    exact a6
  · rw [e4]
    exact a7
  · rw [e2]
    exact a8

theorem Tracks_entry {spFindProfile : String → SlangProfileID}
    {items : List CommandLineItem} {p : OptionsParser} (ht : Tracks spFindProfile items p)
    (name : String) :
    Tracks spFindProfile (items ++ [.entry name])
      { p with rawEntryPoints := p.rawEntryPoints ++
          [{ name := name
             translationUnitIndex := p.currentTranslationUnitIndex
             outputPathIndex := (p.rawOutputPaths.length : Int) - 1
             profileID := p.currentProfileID }] } := by
  obtain ⟨a1, a2, a3, a4, a5, a6, a7, a8⟩ := ht
  have e1 : profileNames (items ++ [.entry name]) = profileNames items := by
    simp [profileNames, List.filterMap_append]
  have e2 : entryNames (items ++ [.entry name]) = entryNames items ++ [name] := by
    simp [entryNames, List.filterMap_append]
  have e3 : outputPathsOf (items ++ [.entry name]) = outputPathsOf items := by
    simp [outputPathsOf, List.filterMap_append]
  have e4 : inputPathsOf (items ++ [.entry name]) = inputPathsOf items := by
    simp [inputPathsOf, List.filterMap_append]
  refine ⟨ScanInv_entry a1 _, ?_, ?_, ?_, ?_, ?_, ?_, ?_⟩
  · rw [lastProfile, e1]
    exact a2
  · rw [e1]
    exact a3
  · rw [e3]
    exact a4
  · rw [e4]
    exact a5
  · rw [e4]
    exact a6
  · rw [e4]
    exact a7
  · simp [e2, a8]

theorem addOutputPath_container (p : OptionsParser) (path : String)
    (h : EndsWith path ".slang-module" = true) :
    addOutputPath p path =
      { p with requestImpl :=
          { spSetOutputContainerFormat p.requestImpl .SLANG_CONTAINER_FORMAT_SLANG_MODULE with
            containerOutputPath := path } } := by
  have hx : ∀ c ∈ outputPathCases, EndsWith path c.1 = false := by
    have key : ∀ c ∈ outputPathCases, ¬ (".slang-module" : String).data <:+ c.1.data ∧
        ¬ c.1.data <:+ (".slang-module" : String).data := by
      decide
    intro c hc
    exact EndsWith_exclusive (key c hc).1 (key c hc).2 h
  have hfind : outputPathCases.find? (fun c => EndsWith path c.1) = none := by
    rw [List.find?_eq_none]
    intro c hc
    simp [hx c hc]
  simp only [addOutputPath, hfind, h, if_true]

theorem addOutputPath_not_container (p : OptionsParser) (path : String)
    (h : EndsWith path ".slang-module" = false) :
    ∃ target, addOutputPath p path = addOutputPathWithTarget p path target := by
  simp only [addOutputPath]
  split
  · exact ⟨_, rfl⟩
  · simp only [h]
    exact ⟨_, rfl⟩

theorem Tracks_output {spFindProfile : String → SlangProfileID}
    {items : List CommandLineItem} {p : OptionsParser} (ht : Tracks spFindProfile items p)
    (path : String) :
    Tracks spFindProfile (items ++ [.output path]) (addOutputPath p path) := by
  obtain ⟨a1, a2, a3, a4, a5, a6, a7, a8⟩ := ht
  have e1 : profileNames (items ++ [.output path]) = profileNames items := by
    simp [profileNames, List.filterMap_append]
  have e2 : entryNames (items ++ [.output path]) = entryNames items := by
    simp [entryNames, List.filterMap_append]
  have e4 : inputPathsOf (items ++ [.output path]) = inputPathsOf items := by
    simp [inputPathsOf, List.filterMap_append]
  have hinv := ScanInv_addOutputPath a1 path
  cases hc : EndsWith path ".slang-module" with
  | true =>
    have e3 : outputPathsOf (items ++ [.output path]) = outputPathsOf items := by
      simp [outputPathsOf, List.filterMap_append, hc]
    rw [addOutputPath_container p path hc] at hinv ⊢
    refine ⟨hinv, ?_, ?_, ?_, ?_, ?_, ?_, ?_⟩
    · rw [lastProfile, e1]
      exact a2
    · rw [e1]
      exact a3
    · rw [e3]
      exact a4
    · rw [e4]
      exact a5
    · rw [e4]
      exact a6
    · rw [e4]
      exact a7
    · rw [e2]
      exact a8
  | false =>
    have e3 : outputPathsOf (items ++ [.output path]) = outputPathsOf items ++ [path] := by
      simp [outputPathsOf, List.filterMap_append, hc]
    obtain ⟨target, htarget⟩ := addOutputPath_not_container p path hc
    rw [htarget] at hinv ⊢
    refine ⟨hinv, ?_, ?_, ?_, ?_, ?_, ?_, ?_⟩
    · rw [lastProfile, e1]
      exact a2
    · rw [e1]
      exact a3
    · simp [addOutputPathWithTarget, e3, a4]
    · rw [e4]
      exact a5
    · rw [e4]
      exact a6
    · rw [e4]
      exact a7
    · rw [e2]
      exact a8

theorem touchedUnit_append_singleton (paths : List String) (path : String) :
    touchedUnit (paths ++ [path]) =
      if EndsWith path ".slang" = true then (nativeUnitIndex (paths ++ [path]) : Int)
      else ((expectedUnits (paths ++ [path])).length : Int) - 1 := by
  simp [touchedUnit]

theorem Tracks_input {spFindProfile : String → SlangProfileID}
    {items : List CommandLineItem} {p : OptionsParser} (ht : Tracks spFindProfile items p)
    (path : String)
    (hok : EndsWith path ".slang" = true ∨
      (findSourceLanguageFromPath path).1 ≠ .SLANG_SOURCE_LANGUAGE_UNKNOWN) :
    ∃ p1, addInputPath p path = some (.SLANG_OK, p1) ∧
      Tracks spFindProfile (items ++ [.input path]) p1 ∧
      p1.rawEntryPoints = p.rawEntryPoints ∧
      p1.requestImpl.mSink = p.requestImpl.mSink ∧
      p1.requestImpl.entryPoints = p.requestImpl.entryPoints := by
  obtain ⟨a1, a2, a3, a4, a5, a6, a7, a8⟩ := ht
  have e1 : profileNames (items ++ [.input path]) = profileNames items := by
    simp [profileNames, List.filterMap_append]
  have e2 : entryNames (items ++ [.input path]) = entryNames items := by
    simp [entryNames, List.filterMap_append]
  have e3 : outputPathsOf (items ++ [.input path]) = outputPathsOf items := by
    simp [outputPathsOf, List.filterMap_append]
  have e4 : inputPathsOf (items ++ [.input path]) = inputPathsOf items ++ [path] := by
    simp [inputPathsOf, List.filterMap_append]
  have hlen : p.rawTranslationUnits.length = (expectedUnits (inputPathsOf items)).length := by
    rw [← a5, List.length_map]
  have hreq := a1.request_units
  cases hs : EndsWith path ".slang" with
  | true =>
    by_cases hnone : p.slangTranslationUnit = -1
    · have hany : (inputPathsOf items).any (fun q => EndsWith q ".slang") = false := by
        cases hany : (inputPathsOf items).any (fun q => EndsWith q ".slang") with
        | false => rfl
        | true =>
          rw [hany] at a6
          simp only [if_true] at a6
          omega
      obtain ⟨n1, n2⟩ := expectedUnits_no_slang _ hany
      have hidx : nativeUnitIndex (inputPathsOf items ++ [path]) = (inputPathsOf items).length := by
        have hall : ∀ q ∈ inputPathsOf items, (!EndsWith q ".slang") = true := by
          intro q hq
          have := List.any_eq_false.mp hany q hq
          simp [this]
        simp only [nativeUnitIndex]
        rw [List.takeWhile_append_of_pos hall]
        simp [hs]
      have hstep := addInputPath_slang_first p path hs hnone hreq
      refine ⟨_, hstep, ⟨ScanClosed_ScanInv.input p path _ _ a1 hstep, ?_, ?_, ?_, ?_, ?_, ?_, ?_⟩,
        rfl, rfl, rfl⟩
      · rw [lastProfile, e1]
        exact a2
      · rw [e1]
        exact a3
      · rw [e3]
        exact a4
      · rw [e4, expectedUnits_append_singleton]
        simp [hs, hany, a5]
      · rw [e4]
        simp only [List.any_append, List.any_cons, hs, Bool.true_or, Bool.or_true, if_true, hidx]
        rw [hlen, n1]
      · rw [e4, touchedUnit_append_singleton]
        simp only [hs, if_true, hidx]
        rw [hlen, n1]
      · rw [e2]
        exact a8
    · have hany : (inputPathsOf items).any (fun q => EndsWith q ".slang") = true := by
        cases hany : (inputPathsOf items).any (fun q => EndsWith q ".slang") with
        | true => rfl
        | false =>
          rw [hany] at a6
          exact absurd a6 hnone
      rw [hany] at a6
      simp only [if_true] at a6
      have hidx := nativeUnitIndex_append_singleton (inputPathsOf items) path hany
      have hstep := addInputPath_slang_next p path hs hnone
      refine ⟨_, hstep, ⟨ScanClosed_ScanInv.input p path _ _ a1 hstep, ?_, ?_, ?_, ?_, ?_, ?_, ?_⟩,
        rfl, rfl, rfl⟩
      · rw [lastProfile, e1]
        exact a2
      · rw [e1]
        exact a3
      · rw [e3]
        exact a4
      · rw [e4, expectedUnits_append_singleton]
        simp [hs, hany, a5]
      · rw [e4]
        simp only [List.any_append, hany, Bool.true_or, if_true, hidx]
        exact a6
      · rw [e4, touchedUnit_append_singleton]
        simp only [hs, if_true, hidx]
        exact a6
      · rw [e2]
        exact a8
  | false =>
    have hl : (findSourceLanguageFromPath path).1 ≠ .SLANG_SOURCE_LANGUAGE_UNKNOWN := by
      rcases hok with h | h
      · rw [hs] at h
        exact absurd h (by decide)
      · exact h
    have hstep := addInputPath_foreign p path (findSourceLanguageFromPath path).1
      (findSourceLanguageFromPath path).2 hs rfl hl hreq
    refine ⟨_, hstep, ⟨ScanClosed_ScanInv.input p path _ _ a1 hstep, ?_, ?_, ?_, ?_, ?_, ?_, ?_⟩,
      rfl, rfl, rfl⟩
    · rw [lastProfile, e1]
      exact a2
    · rw [e1]
      exact a3
    · rw [e3]
      exact a4
    · rw [e4, expectedUnits_append_singleton]
      simp [hs, a5]
    · rw [e4]
      simp only [List.any_append, List.any_cons, hs, List.any_nil, Bool.or_false]
      cases hany : (inputPathsOf items).any (fun q => EndsWith q ".slang") with
      | true =>
        rw [hany] at a6
        simp only [if_true] at a6 ⊢
        rw [nativeUnitIndex_append_singleton _ _ hany]
        exact a6
      | false =>
        rw [hany] at a6
        simp only [Bool.false_eq_true, if_false] at a6 ⊢
        exact a6
    · rw [e4, touchedUnit_append_singleton, expectedUnits_append_singleton]
      simp [hs, hlen]
    · rw [e2]
      exact a8

theorem parseArgs_profile (spFindProfile : String → SlangProfileID) (name : String)
    (hne : spFindProfile name ≠ .SLANG_PROFILE_UNKNOWN) (rest : List String)
    (p : OptionsParser) (m : SlangMatrixLayoutMode) :
    parseArgs spFindProfile ("-profile" :: name :: rest) p m =
      parseArgs spFindProfile rest
        { p with currentProfileID := spFindProfile name
                 profileOptionCount := p.profileOptionCount + 1 } m := by
  rw [parseArgs.eq_def]
  simp [hne]

theorem parseArgs_entry (spFindProfile : String → SlangProfileID) (name : String)
    (rest : List String) (p : OptionsParser) (m : SlangMatrixLayoutMode) :
    parseArgs spFindProfile ("-entry" :: name :: rest) p m =
      parseArgs spFindProfile rest
        { p with rawEntryPoints := p.rawEntryPoints ++
            [{ name := name
               translationUnitIndex := p.currentTranslationUnitIndex
               outputPathIndex := (p.rawOutputPaths.length : Int) - 1
               profileID := p.currentProfileID }] } m := by
  rw [parseArgs.eq_def]
  simp

theorem parseArgs_output (spFindProfile : String → SlangProfileID) (path : String)
    (rest : List String) (p : OptionsParser) (m : SlangMatrixLayoutMode) :
    parseArgs spFindProfile ("-o" :: path :: rest) p m =
      parseArgs spFindProfile rest (addOutputPath p path) m := by
  rw [parseArgs.eq_def]
  simp

theorem parseArgs_input (spFindProfile : String → SlangProfileID) (path : String)
    (rest : List String) (p : OptionsParser) (m : SlangMatrixLayoutMode)
    (h : path.data.head? ≠ some '-') :
    parseArgs spFindProfile (path :: rest) p m =
      match addInputPath p path with
      | none => .asserted
      | some (.SLANG_OK, p1) => parseArgs spFindProfile rest p1 m
      | some (r, p1) => .returned r p1 := by
  rw [parseArgs.eq_def]
  simp [h]

/-- The loop reads one well-formed item and goes on with the tokens after
it; the parser then tracks the items read so far, nothing was diagnosed, and
the list of entry points has grown by exactly the record of the item when it
is a `-entry`. -/
theorem parseArgs_item (spFindProfile : String → SlangProfileID) (i : CommandLineItem)
    (hwf : i.WellFormed spFindProfile) (items : List CommandLineItem) (p : OptionsParser)
    (m : SlangMatrixLayoutMode) (ht : Tracks spFindProfile items p) :
    ∃ p1 m1, Tracks spFindProfile (items ++ [i]) p1 ∧
      p1.requestImpl.mSink = p.requestImpl.mSink ∧
      p1.requestImpl.entryPoints = p.requestImpl.entryPoints ∧
      p1.rawEntryPoints = p.rawEntryPoints ++
        (match i with
         | .entry name =>
           [{ name := name
              translationUnitIndex := p.currentTranslationUnitIndex
              outputPathIndex := (p.rawOutputPaths.length : Int) - 1
              profileID := p.currentProfileID }]
         | _ => []) ∧
      ∀ rest, parseArgs spFindProfile (i.tokens ++ rest) p m =
        parseArgs spFindProfile rest p1 m1 := by
  cases i with
  | flag arg =>
    obtain ⟨p1, m1, hs, heq⟩ := parseArgs_flag spFindProfile arg hwf p m
    exact ⟨p1, m1, hs.tracks ht _ rfl rfl rfl rfl, hs.sink, hs.requestEntryPoints,
      by simp [hs.rawEntryPoints], heq⟩
  | target arg name =>
    obtain ⟨p1, m1, hs, heq⟩ := parseArgs_target spFindProfile arg name hwf.1 hwf.2 p m
    exact ⟨p1, m1, hs.tracks ht _ rfl rfl rfl rfl, hs.sink, hs.requestEntryPoints,
      by simp [hs.rawEntryPoints], heq⟩
  | profile name =>
    exact ⟨_, m, Tracks_profile ht name hwf, rfl, rfl, by simp,
      fun rest => parseArgs_profile spFindProfile name hwf rest p m⟩
  | entry name =>
    exact ⟨_, m, Tracks_entry ht name, rfl, rfl, rfl,
      fun rest => parseArgs_entry spFindProfile name rest p m⟩
  | passThrough name =>
    obtain ⟨p1, m1, hs, heq⟩ := parseArgs_passThrough spFindProfile name hwf p m
    exact ⟨p1, m1, hs.tracks ht _ rfl rfl rfl rfl, hs.sink, hs.requestEntryPoints,
      by simp [hs.rawEntryPoints], heq⟩
  | joined arg =>
    obtain ⟨p1, m1, hs, heq⟩ := parseArgs_joined spFindProfile arg hwf.1 hwf.2.1 hwf.2.2 p m
    exact ⟨p1, m1, hs.tracks ht _ rfl rfl rfl rfl, hs.sink, hs.requestEntryPoints,
      by simp [hs.rawEntryPoints], heq⟩
  | spaced arg value =>
    obtain ⟨p1, m1, hs, heq⟩ := parseArgs_spaced spFindProfile arg value hwf p m
    exact ⟨p1, m1, hs.tracks ht _ rfl rfl rfl rfl, hs.sink, hs.requestEntryPoints,
      by simp [hs.rawEntryPoints], heq⟩
  | output path =>
    exact ⟨_, m, Tracks_output ht path, (addOutputPath_frame p path).1,
      (addOutputPath_frame p path).2.1, by simp [(addOutputPath_frame p path).2.2.2.1],
      fun rest => parseArgs_output spFindProfile path rest p m⟩
  | input path =>
    obtain ⟨p1, hstep, ht1, h1, h2, h3⟩ := Tracks_input ht path hwf.2
    refine ⟨p1, m, ht1, h2, h3, by simp [h1], fun rest => ?_⟩
    simp only [CommandLineItem.tokens, List.singleton_append]
    rw [parseArgs_input spFindProfile path rest p m hwf.1, hstep]

/-- The loop reads a list of well-formed items and goes on with the tokens
after them. -/
theorem parseArgs_items (spFindProfile : String → SlangProfileID)
    (items : List CommandLineItem) :
    ∀ (done : List CommandLineItem) (p : OptionsParser) (m : SlangMatrixLayoutMode),
      Tracks spFindProfile done p → (∀ i ∈ items, i.WellFormed spFindProfile) →
      ∃ p1 m1, Tracks spFindProfile (done ++ items) p1 ∧
        p1.requestImpl.mSink = p.requestImpl.mSink ∧
        p1.requestImpl.entryPoints = p.requestImpl.entryPoints ∧
        ∀ rest, parseArgs spFindProfile (tokensOf items ++ rest) p m =
          parseArgs spFindProfile rest p1 m1 := by
  induction items with
  | nil =>
    intro done p m ht _
    exact ⟨p, m, by simpa using ht, rfl, rfl, fun rest => rfl⟩
  | cons i rest ih =>
    intro done p m ht hwf
    obtain ⟨p1, m1, ht1, h1, h2, _, heq1⟩ :=
      parseArgs_item spFindProfile i (hwf i (List.mem_cons_self _ _)) done p m ht
    obtain ⟨p2, m2, ht2, g1, g2, heq2⟩ :=
      ih (done ++ [i]) p1 m1 ht1 (fun j hj => hwf j (List.mem_cons_of_mem _ hj))
    refine ⟨p2, m2, by simpa using ht2, g1.trans h1, g2.trans h2, fun tail => ?_⟩
    simp only [tokensOf, List.flatMap_cons, List.append_assoc]
    rw [heq1]
    exact heq2 tail

/-- After well-formed items read by a new parser, the loop has reached a
parser that tracks the items, and a `-entry` that follows appends its record. -/
theorem parseArgs_items_entry (spFindProfile : String → SlangProfileID)
    (req : CompileRequest) (items : List CommandLineItem) (name : String) (rest : List String)
    (hreq : req.translationUnits = []) (hwf : ∀ i ∈ items, i.WellFormed spFindProfile) :
    ∃ p m, Tracks spFindProfile items p ∧
      parseArgs spFindProfile (tokensOf items)
        { requestImpl := req, flags := req.compileFlags }
        .SLANG_MATRIX_LAYOUT_MODE_UNKNOWN = .finished p m ∧
      parseArgs spFindProfile (tokensOf items ++ "-entry" :: name :: rest)
        { requestImpl := req, flags := req.compileFlags }
        .SLANG_MATRIX_LAYOUT_MODE_UNKNOWN =
      parseArgs spFindProfile rest
        { p with rawEntryPoints := p.rawEntryPoints ++
            [{ name := name
               profileID := lastProfile spFindProfile items
               translationUnitIndex := touchedUnit (inputPathsOf items)
               outputPathIndex := ((outputPathsOf items).length : Int) - 1 }] } m := by
  obtain ⟨p, m, ht, _, _, heq⟩ := parseArgs_items spFindProfile items []
    { requestImpl := req, flags := req.compileFlags } .SLANG_MATRIX_LAYOUT_MODE_UNKNOWN
    (Tracks_new spFindProfile req hreq) hwf
  simp only [List.nil_append] at ht
  refine ⟨p, m, ht, ?_, ?_⟩
  · have := heq []
    simp only [List.append_nil] at this
    rw [this]
    rfl
  · rw [heq, parseArgs_entry]
    have h1 : p.currentProfileID = lastProfile spFindProfile items := ht.profile
    have h2 : p.currentTranslationUnitIndex = touchedUnit (inputPathsOf items) := ht.current
    have h3 : (p.rawOutputPaths.length : Int) = ((outputPathsOf items).length : Int) := by
      rw [← ht.outputs, List.length_map]
    rw [h1, h2, h3]

theorem wellFormed_input (spFindProfile : String → SlangProfileID) (path : String)
    (h1 : path.data.head? ≠ some '-')
    (h2 : EndsWith path ".slang" = true ∨
      (findSourceLanguageFromPath path).1 ≠ .SLANG_SOURCE_LANGUAGE_UNKNOWN) :
    (CommandLineItem.input path).WellFormed spFindProfile :=
  ⟨h1, h2⟩

/-- C4: after any well-formed items, read by a new parser on a request without
translation units, a `-entry NAME` appends one record at the end of the entry
point list and leaves the earlier records as they are; the record has the
name, the value of the last `-profile` before it (unknown without one), the
unit the last input path before it touched (`-1` without one) and the index
of the last non-container `-o` path before it (`-1` without one).  So
`u.hlsl -entry foo -entry bar` records `foo` and `bar` on unit 0, and
`a.slang b.hlsl c.slang -entry f` binds `f` to unit 0, the native unit. -/
theorem entry_option_appends_record (spFindProfile : String → SlangProfileID) :
    (∀ (req : CompileRequest) (items : List CommandLineItem) (name : String)
        (rest : List String),
      req.translationUnits = [] → (∀ i ∈ items, i.WellFormed spFindProfile) →
      ∃ p m,
        parseArgs spFindProfile (tokensOf items)
          { requestImpl := req, flags := req.compileFlags }
          .SLANG_MATRIX_LAYOUT_MODE_UNKNOWN = .finished p m ∧
        parseArgs spFindProfile (tokensOf items ++ "-entry" :: name :: rest)
          { requestImpl := req, flags := req.compileFlags }
          .SLANG_MATRIX_LAYOUT_MODE_UNKNOWN =
        parseArgs spFindProfile rest
          { p with rawEntryPoints := p.rawEntryPoints ++
              [{ name := name
                 profileID := lastProfile spFindProfile items
                 translationUnitIndex := touchedUnit (inputPathsOf items)
                 outputPathIndex := ((outputPathsOf items).length : Int) - 1 }] } m) ∧
    (∃ p m, parseArgs spFindProfile ["u.hlsl", "-entry", "foo", "-entry", "bar"] {}
        .SLANG_MATRIX_LAYOUT_MODE_UNKNOWN = .finished p m ∧
      p.rawEntryPoints =
        [{ name := "foo", translationUnitIndex := 0 },
         { name := "bar", translationUnitIndex := 0 }]) ∧
    (∃ p m, parseArgs spFindProfile ["a.slang", "b.hlsl", "c.slang", "-entry", "f"] {}
        .SLANG_MATRIX_LAYOUT_MODE_UNKNOWN = .finished p m ∧
      p.rawEntryPoints = [{ name := "f", translationUnitIndex := 0 }] ∧
      p.rawTranslationUnits.map (fun u => u.sourceLanguage) =
        [.SLANG_SOURCE_LANGUAGE_SLANG, .SLANG_SOURCE_LANGUAGE_HLSL]) := by
  refine ⟨?_, ?_, ?_⟩
  · intro req items name rest hreq hwf
    obtain ⟨p, m, _, h1, h2⟩ :=
      parseArgs_items_entry spFindProfile req items name rest hreq hwf
    exact ⟨p, m, h1, h2⟩
  · obtain ⟨p, m, ht, _, h⟩ := parseArgs_items_entry spFindProfile {} [.input "u.hlsl"] "foo"
      ["-entry", "bar"] rfl (by
        intro i hi
        rw [List.mem_singleton.mp hi]
        exact wellFormed_input _ _ (by decide) (by decide))
    have hnil : p.rawEntryPoints = [] := by
      have := ht.entries
      simpa [entryNames] using this
    have hcur : p.currentTranslationUnitIndex = 0 := by
      rw [ht.current]
      decide
    have hprof : p.currentProfileID = .SLANG_PROFILE_UNKNOWN := by
      rw [ht.profile]
      rfl
    have hout : p.rawOutputPaths = [] := by
      have := ht.outputs
      simpa [outputPathsOf] using this
    rw [parseArgs_entry, parseArgs.eq_def] at h
    simp only at h
    have t1 : touchedUnit (inputPathsOf [.input "u.hlsl"]) = 0 := by decide
    have t2 : lastProfile spFindProfile [.input "u.hlsl"] = .SLANG_PROFILE_UNKNOWN := rfl
    have t3 : outputPathsOf [.input "u.hlsl"] = [] := rfl
    refine ⟨_, _, h, ?_⟩
    simp only [hnil, hcur, hprof, hout, t1, t2, t3]
    rfl
  · obtain ⟨p, m, ht, _, h⟩ := parseArgs_items_entry spFindProfile {}
      [.input "a.slang", .input "b.hlsl", .input "c.slang"] "f" [] rfl (by
        intro i hi
        simp only [List.mem_cons, List.mem_singleton, List.not_mem_nil, or_false] at hi
        rcases hi with rfl | rfl | rfl <;>
          exact wellFormed_input _ _ (by decide) (by decide))
    have hnil : p.rawEntryPoints = [] := by
      have := ht.entries
      simpa [entryNames] using this
    have hunits := ht.units
    rw [parseArgs.eq_def] at h
    simp only at h
    have t1 : touchedUnit
        (inputPathsOf [.input "a.slang", .input "b.hlsl", .input "c.slang"]) = 0 := by
      decide
    have t2 : lastProfile spFindProfile
        [.input "a.slang", .input "b.hlsl", .input "c.slang"] = .SLANG_PROFILE_UNKNOWN := rfl
    have t3 : outputPathsOf [.input "a.slang", .input "b.hlsl", .input "c.slang"] = [] := rfl
    have t4 : expectedUnits
        (inputPathsOf [.input "a.slang", .input "b.hlsl", .input "c.slang"]) =
        [(.SLANG_SOURCE_LANGUAGE_SLANG, .SLANG_PROFILE_UNKNOWN),
         (.SLANG_SOURCE_LANGUAGE_HLSL, .SLANG_PROFILE_UNKNOWN)] := by
      decide
    refine ⟨_, _, h, ?_, ?_⟩
    · simp only [hnil, t1, t2, t3]
      rfl
    · have : p.rawTranslationUnits.map (fun u => u.sourceLanguage) =
          (p.rawTranslationUnits.map (fun u => (u.sourceLanguage, u.implicitProfile))).map
            Prod.fst := by
        rw [List.map_map]
        rfl
      simp only
      rw [this, hunits, t4]
      rfl

/-- C4, at `-profile ps_5_0 a.hlsl -o x.spv -entry main` with a registry that
knows every name: the record of `main` has that profile, unit 0 and output
path 0. -/
theorem entry_option_appends_record_witness :
    ({} : CompileRequest).translationUnits = [] ∧
    (∀ i ∈ [CommandLineItem.profile "ps_5_0", .input "a.hlsl", .output "x.spv"],
      i.WellFormed (fun _ => .registered 1)) ∧
    ∃ p m,
      parseArgs (fun _ => .registered 1)
        (tokensOf [CommandLineItem.profile "ps_5_0", .input "a.hlsl", .output "x.spv"])
        { requestImpl := {}, flags := ({} : CompileRequest).compileFlags }
        .SLANG_MATRIX_LAYOUT_MODE_UNKNOWN = .finished p m ∧
      parseArgs (fun _ => .registered 1)
        (tokensOf [CommandLineItem.profile "ps_5_0", .input "a.hlsl", .output "x.spv"] ++
          "-entry" :: "main" :: [])
        { requestImpl := {}, flags := ({} : CompileRequest).compileFlags }
        .SLANG_MATRIX_LAYOUT_MODE_UNKNOWN =
      parseArgs (fun _ => .registered 1) []
        { p with rawEntryPoints := p.rawEntryPoints ++
            [{ name := "main"
               profileID := lastProfile (fun _ => .registered 1)
                 [CommandLineItem.profile "ps_5_0", .input "a.hlsl", .output "x.spv"]
               translationUnitIndex := touchedUnit (inputPathsOf
                 [CommandLineItem.profile "ps_5_0", .input "a.hlsl", .output "x.spv"])
               outputPathIndex := ((outputPathsOf
                 [CommandLineItem.profile "ps_5_0", .input "a.hlsl", .output "x.spv"]).length :
                   Int) - 1 }] } m :=
  have hwf : ∀ i ∈ [CommandLineItem.profile "ps_5_0", .input "a.hlsl", .output "x.spv"],
      i.WellFormed (fun _ => .registered 1) := by
    intro i hi
    simp only [List.mem_cons, List.mem_singleton, List.not_mem_nil, or_false] at hi
    rcases hi with rfl | rfl | rfl
    · simp [CommandLineItem.WellFormed]
    · exact wellFormed_input _ _ (by decide) (by decide)
    · trivial
  ⟨rfl, hwf, (entry_option_appends_record (fun _ => .registered 1)).1 {}
    [.profile "ps_5_0", .input "a.hlsl", .output "x.spv"] "main" [] rfl hwf⟩

theorem Reads_nil (spFindProfile : String → SlangProfileID) : Reads spFindProfile [] [] :=
  Or.inl ⟨rfl, fun _ h => absurd h (List.not_mem_nil _)⟩

theorem Reads_cons {spFindProfile : String → SlangProfileID} {i : CommandLineItem}
    {args cursor : List String} {items : List CommandLineItem}
    (wf : i.WellFormed spFindProfile) (hargs : args = i.tokens ++ cursor)
    (hr : Reads spFindProfile cursor items) : Reads spFindProfile args (i :: items) := by
  rcases hr with ⟨h1, h2⟩ | ⟨pre, paths, h1, h2, h3, h4⟩
  · left
    refine ⟨?_, ?_⟩
    · rw [hargs, h1]
      simp [tokensOf]
    · intro j hj
      rcases List.mem_cons.mp hj with rfl | hj
      · exact wf
      · exact h2 j hj
  · right
    refine ⟨i :: pre, paths, ?_, ?_, ?_, h4⟩
    · rw [hargs, h1]
      simp [tokensOf]
    · rw [h2]
      rfl
    · intro j hj
      rcases List.mem_cons.mp hj with rfl | hj
      · exact wf
      · exact h3 j hj

theorem complete_step {spFindProfile : String → SlangProfileID} {done : List CommandLineItem}
    {i : CommandLineItem} {args cursor : List String} {p1 : OptionsParser}
    (wf : i.WellFormed spFindProfile) (hargs : args = i.tokens ++ cursor)
    (hrec : ∃ items, Reads spFindProfile cursor items ∧
      Tracks spFindProfile ((done ++ [i]) ++ items) p1) :
    ∃ items, Reads spFindProfile args items ∧ Tracks spFindProfile (done ++ items) p1 := by
  obtain ⟨items, hr, ht⟩ := hrec
  exact ⟨i :: items, Reads_cons wf hargs hr, by simpa using ht⟩

theorem addInputPath_ok_classifies (p p1 : OptionsParser) (path : String)
    (h : addInputPath p path = some (.SLANG_OK, p1)) :
    EndsWith path ".slang" = true ∨
      (findSourceLanguageFromPath path).1 ≠ .SLANG_SOURCE_LANGUAGE_UNKNOWN := by
  cases hs : EndsWith path ".slang" with
  | true => exact Or.inl rfl
  | false =>
    right
    intro hl
    rw [addInputPath_unknown p path hs hl] at h
    simp at h

theorem Tracks_inputs {spFindProfile : String → SlangProfileID} (paths : List String) :
    ∀ (done : List CommandLineItem) (p p1 : OptionsParser), Tracks spFindProfile done p →
      addInputPaths paths p = some (.SLANG_OK, p1) →
      Tracks spFindProfile (done ++ paths.map CommandLineItem.input) p1 ∧
      ∀ path ∈ paths, EndsWith path ".slang" = true ∨
        (findSourceLanguageFromPath path).1 ≠ .SLANG_SOURCE_LANGUAGE_UNKNOWN := by
  induction paths with
  | nil =>
    intro done p p1 ht h
    simp only [addInputPaths, Option.some.injEq, Prod.mk.injEq, true_and] at h
    subst h
    exact ⟨by simpa using ht, fun _ h => absurd h (List.not_mem_nil _)⟩
  | cons path rest ih =>
    intro done p p1 ht h
    simp only [addInputPaths] at h
    split at h
    · exact absurd h (by simp)
    · rename_i q hq
      have hc := addInputPath_ok_classifies p q path hq
      obtain ⟨q1, hq1, htq, _⟩ := Tracks_input ht path hc
      rw [hq] at hq1
      simp only [Option.some.injEq, Prod.mk.injEq, true_and] at hq1
      subst hq1
      obtain ⟨g1, g2⟩ := ih (done ++ [.input path]) q p1 htq h
      refine ⟨by simpa using g1, ?_⟩
      intro x hx
      rcases List.mem_cons.mp hx with rfl | hx
      · exact hc
      · exact g2 x hx
    · rename_i r q hne hq
      simp only [Option.some.injEq, Prod.mk.injEq] at h
      exact absurd h.1 hne

theorem two_char_option (arg : String) (c : Char) (h0 : arg.data.head? = some '-')
    (h1 : arg.data[1]? = some c) (h2 : arg.data.drop 2 = []) : arg = ⟨['-', c]⟩ := by
  obtain ⟨l⟩ := arg
  match l, h0, h1, h2 with
  | [a, b], h0, h1, _ =>
    simp only [List.head?_cons, Option.some.injEq] at h0
    simp only [List.getElem?_cons_succ, List.getElem?_cons_zero, Option.some.injEq] at h1
    rw [h0, h1]

theorem parseArgs_reads (spFindProfile : String → SlangProfileID) (args : List String)
    (p : OptionsParser) (m : SlangMatrixLayoutMode) :
    ∀ (done : List CommandLineItem) (p1 : OptionsParser) (m1 : SlangMatrixLayoutMode),
      Tracks spFindProfile done p → parseArgs spFindProfile args p m = .finished p1 m1 →
      ∃ items, Reads spFindProfile args items ∧ Tracks spFindProfile (done ++ items) p1 := by
  induction args, p, m using parseArgs.induct spFindProfile
  all_goals (intro done p1 m1 ht h)
  all_goals (try unfold parseArgs at h)
  all_goals (try simp only [*, if_true, if_false, not_false_eq_true, not_true_eq_false] at h)
  all_goals (try (cases h; done))
  case case1 =>
    injection h with h1 h2
    subst h1
    exact ⟨[], Reads_nil _, by simpa using ht⟩
  case case2 =>
    have ih := ‹∀ (done : List CommandLineItem) (p1 : OptionsParser)
      (m1 : SlangMatrixLayoutMode), Tracks spFindProfile done _ → _ = _ → _›
    refine complete_step (i := .flag _) ?_ rfl ?_
    · simp [CommandLineItem.WellFormed, simpleFlags]
    · refine ih _ _ _ ?_ h
      refine SameTracked.tracks ?_ ht _ ?_ ?_ ?_ ?_
      · exact ⟨rfl, rfl, rfl, rfl, rfl, rfl, rfl, rfl, rfl, rfl, rfl⟩
      all_goals rfl
  case case3 =>
    have ih := ‹∀ (done : List CommandLineItem) (p1 : OptionsParser)
      (m1 : SlangMatrixLayoutMode), Tracks spFindProfile done _ → _ = _ → _›
    refine complete_step (i := .flag _) ?_ rfl ?_
    · simp [CommandLineItem.WellFormed, simpleFlags]
    · refine ih _ _ _ ?_ h
      refine SameTracked.tracks ?_ ht _ ?_ ?_ ?_ ?_
      · exact ⟨rfl, rfl, rfl, rfl, rfl, rfl, rfl, rfl, rfl, rfl, rfl⟩
      all_goals rfl
  case case4 =>
    have ih := ‹∀ (done : List CommandLineItem) (p1 : OptionsParser)
      (m1 : SlangMatrixLayoutMode), Tracks spFindProfile done _ → _ = _ → _›
    refine complete_step (i := .flag _) ?_ rfl ?_
    · simp [CommandLineItem.WellFormed, simpleFlags]
    · refine ih _ _ _ ?_ h
      refine SameTracked.tracks ?_ ht _ ?_ ?_ ?_ ?_
      · exact ⟨rfl, rfl, rfl, rfl, rfl, rfl, rfl, rfl, rfl, rfl, rfl⟩
      all_goals rfl
  case case5 =>
    have ih := ‹∀ (done : List CommandLineItem) (p1 : OptionsParser)
      (m1 : SlangMatrixLayoutMode), Tracks spFindProfile done _ → _ = _ → _›
    refine complete_step (i := .flag _) ?_ rfl ?_
    · simp [CommandLineItem.WellFormed, simpleFlags]
    · refine ih _ _ _ ?_ h
      refine SameTracked.tracks ?_ ht _ ?_ ?_ ?_ ?_
      · exact ⟨rfl, rfl, rfl, rfl, rfl, rfl, rfl, rfl, rfl, rfl, rfl⟩
      all_goals rfl
  case case6 =>
    have ih := ‹∀ (done : List CommandLineItem) (p1 : OptionsParser)
      (m1 : SlangMatrixLayoutMode), Tracks spFindProfile done _ → _ = _ → _›
    refine complete_step (i := .flag _) ?_ rfl ?_
    · simp [CommandLineItem.WellFormed, simpleFlags]
    · refine ih _ _ _ ?_ h
      refine SameTracked.tracks ?_ ht _ ?_ ?_ ?_ ?_
      · exact ⟨rfl, rfl, rfl, rfl, rfl, rfl, rfl, rfl, rfl, rfl, rfl⟩
      all_goals rfl
  case case7 =>
    have ih := ‹∀ (done : List CommandLineItem) (p1 : OptionsParser)
      (m1 : SlangMatrixLayoutMode), Tracks spFindProfile done _ → _ = _ → _›
    refine complete_step (i := .flag _) ?_ rfl ?_
    · simp [CommandLineItem.WellFormed, simpleFlags]
    · refine ih _ _ _ ?_ h
      refine SameTracked.tracks ?_ ht _ ?_ ?_ ?_ ?_
      · exact ⟨rfl, rfl, rfl, rfl, rfl, rfl, rfl, rfl, rfl, rfl, rfl⟩
      all_goals rfl
  case case27 =>
    have ih := ‹∀ (done : List CommandLineItem) (p1 : OptionsParser)
      (m1 : SlangMatrixLayoutMode), Tracks spFindProfile done _ → _ = _ → _›
    refine complete_step (i := .flag _) ?_ rfl ?_
    · simp [CommandLineItem.WellFormed, simpleFlags]
    · refine ih _ _ _ ?_ h
      refine SameTracked.tracks ?_ ht _ ?_ ?_ ?_ ?_
      · exact ⟨rfl, rfl, rfl, rfl, rfl, rfl, rfl, rfl, rfl, rfl, rfl⟩
      all_goals rfl
  case case28 =>
    have ih := ‹∀ (done : List CommandLineItem) (p1 : OptionsParser)
      (m1 : SlangMatrixLayoutMode), Tracks spFindProfile done _ → _ = _ → _›
    refine complete_step (i := .flag _) ?_ rfl ?_
    · simp [CommandLineItem.WellFormed, simpleFlags]
    · refine ih _ _ _ ?_ h
      refine SameTracked.tracks ?_ ht _ ?_ ?_ ?_ ?_
      · exact ⟨rfl, rfl, rfl, rfl, rfl, rfl, rfl, rfl, rfl, rfl, rfl⟩
      all_goals rfl
  case case10 =>
    have ih := ‹∀ (done : List CommandLineItem) (p1 : OptionsParser)
      (m1 : SlangMatrixLayoutMode), Tracks spFindProfile done _ → _ = _ → _›
    have hname := ‹List.lookup _ codeGenTargetNames = some _›
    have harg := ‹_ = "-backend" ∨ _ = "-target"›
    refine complete_step (i := .target _ _) ⟨harg, ?_⟩ rfl ?_
    · rw [hname]
      rfl
    · refine ih _ _ _ ?_ h
      refine SameTracked.tracks ?_ ht _ ?_ ?_ ?_ ?_
      · exact ⟨rfl, rfl, rfl, rfl, rfl, rfl, rfl, rfl, rfl, rfl, rfl⟩
      all_goals rfl
  case case12 =>
    have hu : spFindProfile _ = SlangProfileID.SLANG_PROFILE_UNKNOWN :=
      ‹_ = SlangProfileID.SLANG_PROFILE_UNKNOWN›
    rw [if_pos hu] at h
    cases h
  case case13 =>
    have ih := ‹∀ (done : List CommandLineItem) (p1 : OptionsParser)
      (m1 : SlangMatrixLayoutMode), Tracks spFindProfile done _ → _ = _ → _›
    have hne : ¬ spFindProfile _ = SlangProfileID.SLANG_PROFILE_UNKNOWN :=
      ‹¬ _ = SlangProfileID.SLANG_PROFILE_UNKNOWN›
    refine complete_step (i := .profile _) hne rfl ?_
    refine ih _ _ _ ?_ h
    exact Tracks_profile ht _ hne
  case case15 =>
    have ih := ‹∀ (done : List CommandLineItem) (p1 : OptionsParser)
      (m1 : SlangMatrixLayoutMode), Tracks spFindProfile done _ → _ = _ → _›
    refine complete_step (i := .entry _) trivial rfl ?_
    refine ih _ _ _ ?_ h
    exact Tracks_entry ht _
  case case18 =>
    have ih := ‹∀ (done : List CommandLineItem) (p1 : OptionsParser)
      (m1 : SlangMatrixLayoutMode), Tracks spFindProfile done _ → _ = _ → _›
    have hname := ‹List.lookup _ passThroughNames = some _›
    refine complete_step (i := .passThrough _) ?_ rfl ?_
    · show (List.lookup _ passThroughNames).isSome = true
      rw [hname]
      rfl
    · refine ih _ _ _ ?_ h
      refine SameTracked.tracks ?_ ht _ ?_ ?_ ?_ ?_
      · exact ⟨rfl, rfl, rfl, rfl, rfl, rfl, rfl, rfl, rfl, rfl, rfl⟩
      all_goals rfl
  case case20 =>
    have ih := ‹∀ (done : List CommandLineItem) (p1 : OptionsParser)
      (m1 : SlangMatrixLayoutMode), Tracks spFindProfile done _ → _ = _ → _›
    have harg := two_char_option _ _ ‹_ = some '-'› ‹_ = some 'D'› ‹List.drop 2 _ = []›
    refine complete_step (i := .spaced _ _) ?_ rfl ?_
    · show _ = "-D" ∨ _ = "-I"
      rw [harg]
      decide
    · refine ih _ _ _ ?_ h
      refine SameTracked.tracks ?_ ht _ ?_ ?_ ?_ ?_
      · exact ⟨rfl, rfl, rfl, rfl, rfl, rfl, rfl, rfl, rfl, rfl, rfl⟩
      all_goals rfl
  case case21 =>
    have ih := ‹∀ (done : List CommandLineItem) (p1 : OptionsParser)
      (m1 : SlangMatrixLayoutMode), Tracks spFindProfile done _ → _ = _ → _›
    refine complete_step (i := .joined _) ?_ rfl ?_
    · exact ⟨‹_ = some '-'›, by simp [‹_ = some 'D'›], ‹¬ List.drop 2 _ = []›⟩
    · refine ih _ _ _ ?_ h
      refine SameTracked.tracks ?_ ht _ ?_ ?_ ?_ ?_
      · exact ⟨rfl, rfl, rfl, rfl, rfl, rfl, rfl, rfl, rfl, rfl, rfl⟩
      all_goals rfl
  case case23 =>
    have ih := ‹∀ (done : List CommandLineItem) (p1 : OptionsParser)
      (m1 : SlangMatrixLayoutMode), Tracks spFindProfile done _ → _ = _ → _›
    rw [if_neg (by decide)] at h
    have harg := two_char_option _ _ ‹_ = some '-'› ‹_ = some 'I'› ‹List.drop 2 _ = []›
    refine complete_step (i := .spaced _ _) ?_ rfl ?_
    · show _ = "-D" ∨ _ = "-I"
      rw [harg]
      decide
    · refine ih _ _ _ ?_ h
      refine SameTracked.tracks ?_ ht _ ?_ ?_ ?_ ?_
      · exact ⟨rfl, rfl, rfl, rfl, rfl, rfl, rfl, rfl, rfl, rfl, rfl⟩
      all_goals rfl
  case case24 =>
    have ih := ‹∀ (done : List CommandLineItem) (p1 : OptionsParser)
      (m1 : SlangMatrixLayoutMode), Tracks spFindProfile done _ → _ = _ → _›
    rw [if_neg (by decide)] at h
    refine complete_step (i := .joined _) ?_ rfl ?_
    · exact ⟨‹_ = some '-'›, by simp [‹_ = some 'I'›], ‹¬ List.drop 2 _ = []›⟩
    · refine ih _ _ _ ?_ h
      refine SameTracked.tracks ?_ ht _ ?_ ?_ ?_ ?_
      · exact ⟨rfl, rfl, rfl, rfl, rfl, rfl, rfl, rfl, rfl, rfl, rfl⟩
      all_goals rfl
  case case26 =>
    have ih := ‹∀ (done : List CommandLineItem) (p1 : OptionsParser)
      (m1 : SlangMatrixLayoutMode), Tracks spFindProfile done _ → _ = _ → _›
    refine complete_step (i := .output _) trivial rfl ?_
    refine ih _ _ _ ?_ h
    exact Tracks_output ht _
  case case30 =>
    injection h with h1 h2
    subst h1
    obtain ⟨ht1, hok⟩ := Tracks_inputs _ _ _ _ ht ‹addInputPaths _ _ = some _›
    exact ⟨_, Or.inr ⟨[], _, rfl, rfl, fun _ hi => absurd hi (List.not_mem_nil _), hok⟩,
      by simpa using ht1⟩
  case case34 =>
    have ih := ‹∀ (done : List CommandLineItem) (p1 : OptionsParser)
      (m1 : SlangMatrixLayoutMode), Tracks spFindProfile done _ → _ = _ → _›
    have hadd := ‹addInputPath _ _ = some _›
    have hok := addInputPath_ok_classifies _ _ _ hadd
    obtain ⟨p2, h2, ht2, -⟩ := Tracks_input ht _ hok
    rw [hadd] at h2
    injection h2 with h2
    injection h2 with _ h2
    subst h2
    refine complete_step (i := .input _) ⟨‹¬ _ = some '-'›, hok⟩ rfl ?_
    exact ih _ _ _ ht2 h

/-- A scan that reads the whole command line from a new parser: the command
line is made of items, the parser tracks them, and the sink and the entry
points of the request are those of the start. -/
theorem scan_finished (spFindProfile : String → SlangProfileID) (req : CompileRequest)
    (args : List String) (p : OptionsParser) (m : SlangMatrixLayoutMode)
    (hreq : req.translationUnits = [])
    (hscan : parseArgs spFindProfile args { requestImpl := req, flags := req.compileFlags }
      .SLANG_MATRIX_LAYOUT_MODE_UNKNOWN = .finished p m) :
    ∃ items, Reads spFindProfile args items ∧ Tracks spFindProfile items p ∧
      p.requestImpl.mSink = req.mSink ∧ p.requestImpl.entryPoints = req.entryPoints := by
  obtain ⟨items, hr, ht⟩ := parseArgs_reads spFindProfile args _ _ [] p m
    (Tracks_new spFindProfile req hreq) hscan
  refine ⟨items, hr, by simpa using ht, ?_⟩
  rcases parseArgs_ScanInv spFindProfile args { requestImpl := req, flags := req.compileFlags }
    .SLANG_MATRIX_LAYOUT_MODE_UNKNOWN (ScanInv_new req hreq) with
    ⟨p1, m1, h1, _, h2, h3⟩ | ⟨p1, h1, _⟩
  · rw [hscan] at h1
    injection h1 with h1 _
    subst h1
    exact ⟨h2, h3⟩
  · rw [hscan] at h1
    cases h1

theorem beforeProfileBackfill_eq (p : OptionsParser) :
    beforeProfileBackfill p =
      { p with
        requestImpl := spSetCompileFlags p.requestImpl p.flags
        rawEntryPoints :=
          if p.rawEntryPoints = [] then
            implicitEntryPointsFor p.currentProfileID p.rawTranslationUnits
          else p.rawEntryPoints } := by
  unfold beforeProfileBackfill
  rw [addImplicitEntryPoints_eq]

/-- The three outcomes of profile backfill. -/
theorem applyProfiles_cases (p : OptionsParser) :
    ((∃ e ∈ p.rawEntryPoints, e.profileID = .SLANG_PROFILE_UNKNOWN) ∧
      p.currentProfileID = .SLANG_PROFILE_UNKNOWN ∧
      applyProfiles p = .returned .SLANG_E_INVALID_ARG (p.diagnose .noProfileSpecified)) ∨
    ((∃ e ∈ p.rawEntryPoints, e.profileID = .SLANG_PROFILE_UNKNOWN) ∧
      p.currentProfileID ≠ .SLANG_PROFILE_UNKNOWN ∧
      1 < p.profileOptionCount ∧ 1 < p.rawEntryPoints.length ∧
      applyProfiles p = .returned .SLANG_E_INVALID_ARG
        (p.diagnose .multipleEntryPointsNeedMulitpleProfiles)) ∨
    (¬ ((∃ e ∈ p.rawEntryPoints, e.profileID = .SLANG_PROFILE_UNKNOWN) ∧
        p.currentProfileID = .SLANG_PROFILE_UNKNOWN) ∧
      ¬ ((∃ e ∈ p.rawEntryPoints, e.profileID = .SLANG_PROFILE_UNKNOWN) ∧
        1 < p.profileOptionCount ∧ 1 < p.rawEntryPoints.length) ∧
      applyProfiles p = .continued { p with rawEntryPoints := p.rawEntryPoints.map (fun e =>
        if e.profileID = .SLANG_PROFILE_UNKNOWN then { e with profileID := p.currentProfileID }
        else e) }) := by
  have hany : (p.rawEntryPoints.any (fun entryPoint =>
      entryPoint.profileID == .SLANG_PROFILE_UNKNOWN) = true) ↔
      ∃ e ∈ p.rawEntryPoints, e.profileID = .SLANG_PROFILE_UNKNOWN := by
    simp only [List.any_eq_true, beq_iff_eq]
  unfold applyProfiles
  by_cases h0 : p.rawEntryPoints.length ≠ 0
  · rw [if_pos h0]
    simp only [hany]
    by_cases h1 : (∃ e ∈ p.rawEntryPoints, e.profileID = .SLANG_PROFILE_UNKNOWN) ∧
        p.currentProfileID = .SLANG_PROFILE_UNKNOWN
    · rw [if_pos h1]
      exact Or.inl ⟨h1.1, h1.2, rfl⟩
    · rw [if_neg h1]
      by_cases h2 : (∃ e ∈ p.rawEntryPoints, e.profileID = .SLANG_PROFILE_UNKNOWN) ∧
          p.profileOptionCount > 1 ∧ p.rawEntryPoints.length > 1
      · rw [if_pos h2]
        exact Or.inr (Or.inl ⟨h2.1, fun hc => h1 ⟨h2.1, hc⟩, h2.2.1, h2.2.2, rfl⟩)
      · rw [if_neg h2]
        exact Or.inr (Or.inr ⟨h1, h2, rfl⟩)
  · rw [if_neg h0]
    have hnil : p.rawEntryPoints = [] := by
      apply List.length_eq_zero.mp
      omega
    refine Or.inr (Or.inr ⟨?_, ?_, ?_⟩)
    · rintro ⟨⟨e, he, _⟩, _⟩
      rw [hnil] at he
      exact absurd he (List.not_mem_nil _)
    · rintro ⟨⟨e, he, _⟩, _⟩
      rw [hnil] at he
      exact absurd he (List.not_mem_nil _)
    · obtain ⟨_, _, es, _, _, _, _, _, _, _, _, _, _⟩ := p
      simp only at hnil
      subst hnil
      rfl

theorem attach_map_fields (es : List RawEntryPoint) :
    (es.map (fun entryPoint =>
      if entryPoint.translationUnitIndex ≠ -1 then entryPoint
      else { entryPoint with translationUnitIndex := 0 })).map (fun e => e.name) =
        es.map (fun e => e.name) ∧
    (es.map (fun entryPoint =>
      if entryPoint.translationUnitIndex ≠ -1 then entryPoint
      else { entryPoint with translationUnitIndex := 0 })).map (fun e => e.profileID) =
        es.map (fun e => e.profileID) := by
  constructor <;>
  · rw [List.map_map]
    apply List.map_congr_left
    intro e _
    simp only [Function.comp]
    split <;> rfl

theorem isProfileDiagnostic_of_output (d : Diagnostic) (h : d.isOutputDiagnostic = true) :
    d.isProfileDiagnostic = false := by
  cases d <;> first | rfl | exact absurd h (by decide)

/-- A return from profile backfill is the result of `resolve`. -/
theorem resolve_returned (p : OptionsParser) (m : SlangMatrixLayoutMode) (r : SlangResult)
    (q : OptionsParser) (h : applyProfiles (beforeProfileBackfill p) = .returned r q) :
    resolve p m = some (r, q) := by
  rw [resolve_eq]
  have h1 : applyProfiles (addImplicitEntryPoints
      { p with requestImpl := spSetCompileFlags p.requestImpl p.flags }) = .returned r q := h
  rw [h1]

/-- When profile backfill continues, `resolve` returns; the sink gains no
profile diagnostic, and the names and profiles of the entry points are those
profile backfill left. -/
theorem resolve_continued (p : OptionsParser) (m : SlangMatrixLayoutMode) (q : OptionsParser)
    (hout : ∀ e ∈ p.rawEntryPoints, e.outputPathIndex < p.rawOutputPaths.length)
    (h : applyProfiles (beforeProfileBackfill p) = .continued q) :
    ∃ r p1 ds, resolve p m = some (r, p1) ∧
      p1.requestImpl.mSink.diagnostics = p.requestImpl.mSink.diagnostics ++ ds ∧
      (∀ d ∈ ds, d.isProfileDiagnostic = false) ∧
      p1.rawEntryPoints.map (fun e => e.name) = q.rawEntryPoints.map (fun e => e.name) ∧
      p1.rawEntryPoints.map (fun e => e.profileID) =
        q.rawEntryPoints.map (fun e => e.profileID) := by
  obtain ⟨r, p1, hres⟩ := resolve_isSome p m hout
  have hq := (applyProfiles_continued _ _ h).1
  have hsink : q.requestImpl.mSink = p.requestImpl.mSink := by
    rw [hq, beforeProfileBackfill_eq]
    rfl
  have hstep := outputPasses_step q m
  obtain ⟨ds, hds, hall⟩ := hstep.diagnostics
  rw [hsink] at hds
  rcases resolve_some_cases p m r p1 hres with h1 | ⟨q1, hq1, h2⟩ | ⟨q1, q2, hq1, hq2, hq3, _⟩
  · have h1a : applyProfiles (beforeProfileBackfill p) = .returned r p1 := h1
    rw [h] at h1a
    cases h1a
  · have h1a : applyProfiles (beforeProfileBackfill p) = .continued q1 := hq1
    rw [h] at h1a
    injection h1a with h1a
    subst h1a
    unfold attachTranslationUnits at h2
    simp only at h2
    split at h2
    · simp only [PassResult.returned.injEq] at h2
      obtain ⟨_, rfl⟩ := h2
      refine ⟨r, _, ds ++ [.multipleTranslationUnitsNeedEntryPoints], hres, ?_, ?_, ?_, ?_⟩
      · show (outputPasses q m).requestImpl.mSink.diagnostics ++ [_] = _
        rw [hds, List.append_assoc]
      · intro d hd
        rcases List.mem_append.mp hd with hd | hd
        · exact isProfileDiagnostic_of_output d (hall d hd)
        · rw [List.mem_singleton.mp hd]
          rfl
      · exact (attach_map_fields _).1.trans hstep.names
      · exact (attach_map_fields _).2.trans hstep.profiles
    · exact absurd h2 (by simp)
  · have h1a : applyProfiles (beforeProfileBackfill p) = .continued q1 := hq1
    rw [h] at h1a
    injection h1a with h1a
    subst h1a
    obtain ⟨hq2eq, _⟩ := attachTranslationUnits_continued _ _ hq2
    have hp1 := placeEntryPoints_some _ _ _ hq3
    refine ⟨r, p1, ds, hres, ?_, ?_, ?_, ?_⟩
    · rw [hp1, hq2eq]
      exact hds
    · intro d hd
      exact isProfileDiagnostic_of_output d (hall d hd)
    · rw [hp1, hq2eq]
      exact (attach_map_fields _).1.trans hstep.names
    · rw [hp1, hq2eq]
      exact (attach_map_fields _).2.trans hstep.profiles

/-- C5: after a scan that reads the whole command line from a new parser on a
request without translation units, the command line is made of items, the
entry points the scan recorded are those of its `-entry` options, and unit `i`
of the scan carries index `i`.  With no `-entry` option, the entry points at
the start of profile backfill are one `main` for each unit that is not native,
in the order of the units and bound to the unit, with the value of the last
`-profile` when there is one and the profile the unit's extension implies
(unknown without one) otherwise; the native unit gets none.  With an `-entry`
option, the entry points are those of the scan.  The single input
`shader.frag` gives one entry point `main` with the GLSL fragment profile, on
unit 0, and `parse` registers it with the request. -/
theorem implicit_entry_points_after_scan (spFindProfile : String → SlangProfileID) :
    (∀ (req : CompileRequest) (args : List String) (p : OptionsParser)
        (m : SlangMatrixLayoutMode),
      req.translationUnits = [] →
      parseArgs spFindProfile args { requestImpl := req, flags := req.compileFlags }
        .SLANG_MATRIX_LAYOUT_MODE_UNKNOWN = .finished p m →
      ∃ items, Reads spFindProfile args items ∧
        p.rawEntryPoints.map (fun e => e.name) = entryNames items ∧
        p.rawTranslationUnits.map (fun u => u.translationUnitIndex) =
          (List.range p.rawTranslationUnits.length).map Int.ofNat ∧
        p.rawTranslationUnits.map (fun u => (u.sourceLanguage, u.implicitProfile)) =
          expectedUnits (inputPathsOf items) ∧
        (entryNames items = [] →
          (beforeProfileBackfill p).rawEntryPoints =
            (p.rawTranslationUnits.filter
              (fun u => u.sourceLanguage != .SLANG_SOURCE_LANGUAGE_SLANG)).map
              (fun u =>
                { name := "main"
                  translationUnitIndex := u.translationUnitIndex
                  profileID :=
                    if lastProfile spFindProfile items ≠ .SLANG_PROFILE_UNKNOWN then
                      lastProfile spFindProfile items
                    else u.implicitProfile
                  outputPathIndex := -1 })) ∧
        (entryNames items ≠ [] → (beforeProfileBackfill p).rawEntryPoints = p.rawEntryPoints)) ∧
    (∃ p0 m p, parseArgs spFindProfile ["shader.frag"] {} .SLANG_MATRIX_LAYOUT_MODE_UNKNOWN =
        .finished p0 m ∧
      (beforeProfileBackfill p0).rawEntryPoints =
        [{ name := "main", profileID := .GLSL_Fragment, translationUnitIndex := 0 }] ∧
      ({} : OptionsParser).parse spFindProfile ["shader.frag"] = some (.SLANG_OK, p) ∧
      p.requestImpl.entryPoints =
        [{ translationUnitIndex := 0, name := "main", profile := .GLSL_Fragment,
           outputPath := "" }]) := by
  refine ⟨?_, ?_⟩
  · intro req args p m hreq hscan
    obtain ⟨items, hr, ht, _, _⟩ := scan_finished spFindProfile req args p m hreq hscan
    refine ⟨items, hr, ht.entries, ht.inv.unit_index, ht.units, ?_, ?_⟩
    · intro hnone
      have hnil : p.rawEntryPoints = [] := by
        have := ht.entries
        rw [hnone] at this
        exact List.map_eq_nil_iff.mp this
      rw [beforeProfileBackfill_eq]
      simp only [hnil, if_true, ht.profile]
      rfl
    · intro hsome
      have hne : p.rawEntryPoints ≠ [] := by
        intro hnil
        apply hsome
        rw [← ht.entries, hnil]
        rfl
      rw [beforeProfileBackfill_eq]
      simp only [hne, if_false]
  · exact ⟨_, _, _, rfl, rfl, rfl, rfl⟩

/-- C5, at the inputs `a.hlsl b.slang c.frag` with no option: the scan reads
them, and the theorem applies to its result. -/
theorem implicit_entry_points_after_scan_witness :
    ({} : CompileRequest).translationUnits = [] ∧
    ∃ p m, parseArgs (fun _ => .SLANG_PROFILE_UNKNOWN) ["a.hlsl", "b.slang", "c.frag"]
        { requestImpl := {}, flags := ({} : CompileRequest).compileFlags }
        .SLANG_MATRIX_LAYOUT_MODE_UNKNOWN = .finished p m ∧
      ∃ items, Reads (fun _ => .SLANG_PROFILE_UNKNOWN) ["a.hlsl", "b.slang", "c.frag"] items ∧
        p.rawEntryPoints.map (fun e => e.name) = entryNames items ∧
        p.rawTranslationUnits.map (fun u => u.translationUnitIndex) =
          (List.range p.rawTranslationUnits.length).map Int.ofNat ∧
        p.rawTranslationUnits.map (fun u => (u.sourceLanguage, u.implicitProfile)) =
          expectedUnits (inputPathsOf items) ∧
        (entryNames items = [] →
          (beforeProfileBackfill p).rawEntryPoints =
            (p.rawTranslationUnits.filter
              (fun u => u.sourceLanguage != .SLANG_SOURCE_LANGUAGE_SLANG)).map
              (fun u =>
                { name := "main"
                  translationUnitIndex := u.translationUnitIndex
                  profileID :=
                    if lastProfile (fun _ => .SLANG_PROFILE_UNKNOWN) items ≠
                        .SLANG_PROFILE_UNKNOWN then
                      lastProfile (fun _ => .SLANG_PROFILE_UNKNOWN) items
                    else u.implicitProfile
                  outputPathIndex := -1 })) ∧
        (entryNames items ≠ [] → (beforeProfileBackfill p).rawEntryPoints = p.rawEntryPoints) := by
  obtain ⟨p, m, _, hfin, _⟩ := parseArgs_items_entry (fun _ => .SLANG_PROFILE_UNKNOWN) {}
    [.input "a.hlsl", .input "b.slang", .input "c.frag"] "main" [] rfl (by
      intro i hi
      simp only [List.mem_cons, List.mem_singleton, List.not_mem_nil, or_false] at hi
      rcases hi with rfl | rfl | rfl
      · exact wellFormed_input _ _ (by decide) (by decide)
      · exact wellFormed_input _ _ (by decide) (by decide)
      · exact wellFormed_input _ _ (by decide) (by decide))
  exact ⟨rfl, p, m, hfin, (implicit_entry_points_after_scan (fun _ => .SLANG_PROFILE_UNKNOWN)).1
    {} ["a.hlsl", "b.slang", "c.frag"] p m rfl hfin⟩

theorem parse_of_finished (spFindProfile : String → SlangProfileID) (req : CompileRequest)
    (args : List String) (p : OptionsParser) (m : SlangMatrixLayoutMode)
    (hscan : parseArgs spFindProfile args { requestImpl := req, flags := req.compileFlags }
      .SLANG_MATRIX_LAYOUT_MODE_UNKNOWN = .finished p m) :
    ({ requestImpl := req } : OptionsParser).parse spFindProfile args = resolve p m := by
  show (match parseArgs spFindProfile args { requestImpl := req, flags := req.compileFlags }
      .SLANG_MATRIX_LAYOUT_MODE_UNKNOWN with
    | .asserted => none
    | .returned r p => some (r, p)
    | .finished p m => resolve p m) = _
  rw [hscan]

/-- What `parse` does after a scan that reads the whole command line from a
new parser and tracks the items `items`, by the three outcomes of profile
backfill. -/
theorem parse_of_tracks (spFindProfile : String → SlangProfileID) (req : CompileRequest)
    (args : List String) (p : OptionsParser) (m : SlangMatrixLayoutMode)
    (items : List CommandLineItem)
    (hscan : parseArgs spFindProfile args { requestImpl := req, flags := req.compileFlags }
      .SLANG_MATRIX_LAYOUT_MODE_UNKNOWN = .finished p m)
    (ht : Tracks spFindProfile items p) (hsink : p.requestImpl.mSink = req.mSink)
    (hentries : p.requestImpl.entryPoints = req.entryPoints) :
      (beforeProfileBackfill p).requestImpl.mSink = req.mSink ∧
      (beforeProfileBackfill p).requestImpl.entryPoints = req.entryPoints ∧
      (((∃ e ∈ (beforeProfileBackfill p).rawEntryPoints, e.profileID = .SLANG_PROFILE_UNKNOWN) ∧
          profileNames items = [] ∧
          ({ requestImpl := req } : OptionsParser).parse spFindProfile args =
            some (.SLANG_E_INVALID_ARG,
              (beforeProfileBackfill p).diagnose .noProfileSpecified)) ∨
        ((∃ e ∈ (beforeProfileBackfill p).rawEntryPoints,
            e.profileID = .SLANG_PROFILE_UNKNOWN) ∧
          1 < (profileNames items).length ∧ 1 < (beforeProfileBackfill p).rawEntryPoints.length ∧
          ({ requestImpl := req } : OptionsParser).parse spFindProfile args =
            some (.SLANG_E_INVALID_ARG,
              (beforeProfileBackfill p).diagnose .multipleEntryPointsNeedMulitpleProfiles)) ∨
        (¬ ((∃ e ∈ (beforeProfileBackfill p).rawEntryPoints,
              e.profileID = .SLANG_PROFILE_UNKNOWN) ∧ profileNames items = []) ∧
          ¬ ((∃ e ∈ (beforeProfileBackfill p).rawEntryPoints,
              e.profileID = .SLANG_PROFILE_UNKNOWN) ∧
            1 < (profileNames items).length ∧
            1 < (beforeProfileBackfill p).rawEntryPoints.length) ∧
          ∃ r p1 ds, ({ requestImpl := req } : OptionsParser).parse spFindProfile args =
              some (r, p1) ∧
            p1.requestImpl.mSink.diagnostics = req.mSink.diagnostics ++ ds ∧
            (∀ d ∈ ds, d.isProfileDiagnostic = false) ∧
            p1.rawEntryPoints.map (fun e => e.name) =
              (beforeProfileBackfill p).rawEntryPoints.map (fun e => e.name) ∧
            p1.rawEntryPoints.map (fun e => e.profileID) =
              (beforeProfileBackfill p).rawEntryPoints.map (fun e =>
                if e.profileID = .SLANG_PROFILE_UNKNOWN then lastProfile spFindProfile items
                else e.profileID) ∧
            applyProfiles (beforeProfileBackfill p) = .continued
              { beforeProfileBackfill p with
                rawEntryPoints := (beforeProfileBackfill p).rawEntryPoints.map (fun e =>
                  if e.profileID = .SLANG_PROFILE_UNKNOWN then
                    { e with profileID := lastProfile spFindProfile items }
                  else e) })) := by
  have hparse := parse_of_finished spFindProfile req args p m hscan
  have hq0 := beforeProfileBackfill_eq p
  have hcur : (beforeProfileBackfill p).currentProfileID = p.currentProfileID := by rw [hq0]
  have hcount : (beforeProfileBackfill p).profileOptionCount = p.profileOptionCount := by rw [hq0]
  have hs0 : (beforeProfileBackfill p).requestImpl.mSink = req.mSink := by
    rw [hq0]
    exact hsink
  have he0 : (beforeProfileBackfill p).requestImpl.entryPoints = req.entryPoints := by
    rw [hq0]
    exact hentries
  have hlen : p.profileOptionCount = ((profileNames items).length : Int) := ht.profileCount
  have hnone : p.currentProfileID = .SLANG_PROFILE_UNKNOWN ↔ profileNames items = [] := by
    rw [ht.inv.profile_count.2, hlen, ← List.length_eq_zero]
    omega
  refine ⟨hs0, he0, ?_⟩
  rcases applyProfiles_cases (beforeProfileBackfill p) with
    ⟨hany, hc, happ⟩ | ⟨hany, hc, h1, h2, happ⟩ | ⟨hn1, hn2, happ⟩
  · rw [hcur] at hc
    refine Or.inl ⟨hany, hnone.mp hc, ?_⟩
    rw [hparse]
    exact resolve_returned p m _ _ happ
  · rw [hcount, hlen] at h1
    refine Or.inr (Or.inl ⟨hany, by omega, h2, ?_⟩)
    rw [hparse]
    exact resolve_returned p m _ _ happ
  · refine Or.inr (Or.inr ⟨?_, ?_, ?_⟩)
    · rintro ⟨hany, hc⟩
      exact hn1 ⟨hany, by rw [hcur]; exact hnone.mpr hc⟩
    · rintro ⟨hany, h1, h2⟩
      refine hn2 ⟨hany, ?_, h2⟩
      rw [hcount, hlen]
      omega
    · obtain ⟨r, p1, ds, hres, hds, hall, hnames, hprofs⟩ :=
        resolve_continued p m _ (fun e he => (ht.inv.entry_output e he).2) happ
      refine ⟨r, p1, ds, by rw [hparse]; exact hres, by rw [← hsink]; exact hds, hall, ?_, ?_,
        ?_⟩
      · rw [hnames]
        simp only [List.map_map]
        apply List.map_congr_left
        intro e _
        simp only [Function.comp]
        split <;> rfl
      · rw [hprofs]
        simp only [List.map_map]
        apply List.map_congr_left
        intro e _
        simp only [Function.comp, hcur, ht.profile]
        split <;> rfl
      · rw [happ]
        simp only [hcur, ht.profile]

/-- What `parse` does after a scan that reads the whole command line from a
new parser, by the three outcomes of profile backfill. -/
theorem parse_after_scan (spFindProfile : String → SlangProfileID) (req : CompileRequest)
    (args : List String) (p : OptionsParser) (m : SlangMatrixLayoutMode)
    (hreq : req.translationUnits = [])
    (hscan : parseArgs spFindProfile args { requestImpl := req, flags := req.compileFlags }
      .SLANG_MATRIX_LAYOUT_MODE_UNKNOWN = .finished p m) :
    ∃ items, Reads spFindProfile args items ∧ Tracks spFindProfile items p ∧
      (beforeProfileBackfill p).requestImpl.mSink = req.mSink ∧
      (beforeProfileBackfill p).requestImpl.entryPoints = req.entryPoints ∧
      (((∃ e ∈ (beforeProfileBackfill p).rawEntryPoints, e.profileID = .SLANG_PROFILE_UNKNOWN) ∧
          profileNames items = [] ∧
          ({ requestImpl := req } : OptionsParser).parse spFindProfile args =
            some (.SLANG_E_INVALID_ARG,
              (beforeProfileBackfill p).diagnose .noProfileSpecified)) ∨
        ((∃ e ∈ (beforeProfileBackfill p).rawEntryPoints,
            e.profileID = .SLANG_PROFILE_UNKNOWN) ∧
          1 < (profileNames items).length ∧ 1 < (beforeProfileBackfill p).rawEntryPoints.length ∧
          ({ requestImpl := req } : OptionsParser).parse spFindProfile args =
            some (.SLANG_E_INVALID_ARG,
              (beforeProfileBackfill p).diagnose .multipleEntryPointsNeedMulitpleProfiles)) ∨
        (¬ ((∃ e ∈ (beforeProfileBackfill p).rawEntryPoints,
              e.profileID = .SLANG_PROFILE_UNKNOWN) ∧ profileNames items = []) ∧
          ¬ ((∃ e ∈ (beforeProfileBackfill p).rawEntryPoints,
              e.profileID = .SLANG_PROFILE_UNKNOWN) ∧
            1 < (profileNames items).length ∧
            1 < (beforeProfileBackfill p).rawEntryPoints.length) ∧
          ∃ r p1 ds, ({ requestImpl := req } : OptionsParser).parse spFindProfile args =
              some (r, p1) ∧
            p1.requestImpl.mSink.diagnostics = req.mSink.diagnostics ++ ds ∧
            (∀ d ∈ ds, d.isProfileDiagnostic = false) ∧
            p1.rawEntryPoints.map (fun e => e.name) =
              (beforeProfileBackfill p).rawEntryPoints.map (fun e => e.name) ∧
            p1.rawEntryPoints.map (fun e => e.profileID) =
              (beforeProfileBackfill p).rawEntryPoints.map (fun e =>
                if e.profileID = .SLANG_PROFILE_UNKNOWN then lastProfile spFindProfile items
                else e.profileID) ∧
            applyProfiles (beforeProfileBackfill p) = .continued
              { beforeProfileBackfill p with
                rawEntryPoints := (beforeProfileBackfill p).rawEntryPoints.map (fun e =>
                  if e.profileID = .SLANG_PROFILE_UNKNOWN then
                    { e with profileID := lastProfile spFindProfile items }
                  else e) })) := by
  obtain ⟨items, hr, ht, hsink, hentries⟩ := scan_finished spFindProfile req args p m hreq hscan
  exact ⟨items, hr, ht, parse_of_tracks spFindProfile req args p m items hscan ht hsink hentries⟩

/-- C7: after a scan that reads the whole command line from a new parser on a
request without translation units, `parse` returns, and among the diagnostics
it adds to the sink `noProfileSpecified` occurs if and only if an entry point
at the start of profile backfill (explicit or implicit) has an unknown profile
and the command line has no `-profile` option (the parser counted as many
`-profile` options as the command line has).  When it occurs, the result is
`SLANG_E_INVALID_ARG`, it is the only diagnostic added, the parser returned is
the one profile backfill started from with that diagnostic, and the request
holds the entry points it held before the call. -/
theorem no_profile_specified_iff (spFindProfile : String → SlangProfileID)
    (req : CompileRequest) (args : List String) (p : OptionsParser) (m : SlangMatrixLayoutMode)
    (hreq : req.translationUnits = [])
    (hscan : parseArgs spFindProfile args { requestImpl := req, flags := req.compileFlags }
      .SLANG_MATRIX_LAYOUT_MODE_UNKNOWN = .finished p m) :
    ∃ items r p1 ds, Reads spFindProfile args items ∧
      p.profileOptionCount = (profileNames items).length ∧
      ({ requestImpl := req } : OptionsParser).parse spFindProfile args = some (r, p1) ∧
      p1.requestImpl.mSink.diagnostics = req.mSink.diagnostics ++ ds ∧
      (Diagnostic.noProfileSpecified ∈ ds ↔
        (∃ e ∈ (beforeProfileBackfill p).rawEntryPoints, e.profileID = .SLANG_PROFILE_UNKNOWN) ∧
          profileNames items = []) ∧
      (Diagnostic.noProfileSpecified ∈ ds →
        r = .SLANG_E_INVALID_ARG ∧ ds = [.noProfileSpecified] ∧
        p1 = (beforeProfileBackfill p).diagnose .noProfileSpecified ∧
        p1.requestImpl.entryPoints = req.entryPoints) := by
  obtain ⟨items, hr, ht, hs0, he0, hcases⟩ :=
    parse_after_scan spFindProfile req args p m hreq hscan
  rcases hcases with ⟨hany, hnone, hparse⟩ | ⟨hany, h1, h2, hparse⟩ |
    ⟨hn1, hn2, r, p1, ds, hparse, hds, hall, _, _⟩
  · refine ⟨items, _, _, [.noProfileSpecified], hr, ht.profileCount, hparse, ?_, ?_, ?_⟩
    · show (beforeProfileBackfill p).requestImpl.mSink.diagnostics ++ [_] = _
      rw [hs0]
    · exact ⟨fun _ => ⟨hany, hnone⟩, fun _ => List.mem_singleton.mpr rfl⟩
    · intro _
      exact ⟨rfl, rfl, rfl, he0⟩
  · have hnot : Diagnostic.noProfileSpecified ∉
        [Diagnostic.multipleEntryPointsNeedMulitpleProfiles] := by
      intro hmem
      cases List.mem_singleton.mp hmem
    refine ⟨items, _, _, [.multipleEntryPointsNeedMulitpleProfiles], hr, ht.profileCount, hparse, ?_, ?_, ?_⟩
    · show (beforeProfileBackfill p).requestImpl.mSink.diagnostics ++ [_] = _
      rw [hs0]
    · refine ⟨fun hmem => absurd hmem hnot, ?_⟩
      rintro ⟨_, hnone⟩
      rw [hnone] at h1
      exact absurd h1 (by decide)
    · intro hmem
      exact absurd hmem hnot
  · have hnot : Diagnostic.noProfileSpecified ∉ ds := by
      intro hmem
      exact absurd (hall _ hmem) (by decide)
    refine ⟨items, r, p1, ds, hr, ht.profileCount, hparse, hds, ?_, ?_⟩
    · exact ⟨fun hmem => absurd hmem hnot, fun h => absurd h hn1⟩
    · intro hmem
      exact absurd hmem hnot

/-- C7, at the single input `a.hlsl` with no option: the scan reads it, the
implicit entry point has no profile, and `parse` returns `SLANG_E_INVALID_ARG`
with `noProfileSpecified` as the only diagnostic. -/
theorem no_profile_specified_iff_witness :
    ({} : CompileRequest).translationUnits = [] ∧
    ∃ p m, parseArgs (fun _ => .SLANG_PROFILE_UNKNOWN) ["a.hlsl"]
        { requestImpl := {}, flags := ({} : CompileRequest).compileFlags }
        .SLANG_MATRIX_LAYOUT_MODE_UNKNOWN = .finished p m ∧
      (∃ q, ({ requestImpl := {} } : OptionsParser).parse (fun _ => .SLANG_PROFILE_UNKNOWN)
          ["a.hlsl"] = some (.SLANG_E_INVALID_ARG, q) ∧
        q.requestImpl.mSink.diagnostics = [.noProfileSpecified]) ∧
      ∃ items r p1 ds, Reads (fun _ => .SLANG_PROFILE_UNKNOWN) ["a.hlsl"] items ∧
        p.profileOptionCount = (profileNames items).length ∧
        ({ requestImpl := {} } : OptionsParser).parse (fun _ => .SLANG_PROFILE_UNKNOWN)
          ["a.hlsl"] = some (r, p1) ∧
        p1.requestImpl.mSink.diagnostics = ({} : CompileRequest).mSink.diagnostics ++ ds ∧
        (Diagnostic.noProfileSpecified ∈ ds ↔
          (∃ e ∈ (beforeProfileBackfill p).rawEntryPoints,
            e.profileID = .SLANG_PROFILE_UNKNOWN) ∧ profileNames items = []) ∧
        (Diagnostic.noProfileSpecified ∈ ds →
          r = .SLANG_E_INVALID_ARG ∧ ds = [.noProfileSpecified] ∧
          p1 = (beforeProfileBackfill p).diagnose .noProfileSpecified ∧
          p1.requestImpl.entryPoints = ({} : CompileRequest).entryPoints) :=
  ⟨rfl, _, _, rfl, ⟨_, rfl, rfl⟩,
    no_profile_specified_iff (fun _ => .SLANG_PROFILE_UNKNOWN) {} ["a.hlsl"] _ _ rfl rfl⟩

theorem parseArgs_items_records (spFindProfile : String → SlangProfileID)
    (items : List CommandLineItem) :
    ∀ (done : List CommandLineItem) (p : OptionsParser) (m : SlangMatrixLayoutMode),
      Tracks spFindProfile done p → (∀ i ∈ items, i.WellFormed spFindProfile) →
      ∃ p1 m1, Tracks spFindProfile (done ++ items) p1 ∧
        p1.requestImpl.mSink = p.requestImpl.mSink ∧
        p1.requestImpl.entryPoints = p.requestImpl.entryPoints ∧
        p1.rawEntryPoints = p.rawEntryPoints ++ entryRecords spFindProfile done items ∧
        ∀ rest, parseArgs spFindProfile (tokensOf items ++ rest) p m =
          parseArgs spFindProfile rest p1 m1 := by
  induction items with
  | nil =>
    intro done p m ht _
    exact ⟨p, m, by simpa using ht, rfl, rfl, by simp [entryRecords], fun rest => rfl⟩
  | cons i rest ih =>
    intro done p m ht hwf
    obtain ⟨p1, m1, ht1, h1, h2, h3, heq1⟩ :=
      parseArgs_item spFindProfile i (hwf i (List.mem_cons_self _ _)) done p m ht
    obtain ⟨p2, m2, ht2, g1, g2, g3, heq2⟩ :=
      ih (done ++ [i]) p1 m1 ht1 (fun j hj => hwf j (List.mem_cons_of_mem _ hj))
    have hlen : (p.rawOutputPaths.length : Int) = ((outputPathsOf done).length : Int) := by
      rw [← ht.outputs, List.length_map]
    refine ⟨p2, m2, by simpa using ht2, g1.trans h1, g2.trans h2, ?_, fun tail => ?_⟩
    · rw [g3, h3, List.append_assoc]
      congr 1
      simp only [entryRecords]
      congr 1
      cases i <;> simp only [ht.current, ht.profile, hlen]
    · simp only [tokensOf, List.flatMap_cons, List.append_assoc]
      rw [heq1]
      exact heq2 tail

/-- The scan of a command line made of well-formed items, from a new parser:
it reads the whole line, tracks the items, and records the `-entry` options. -/
theorem scan_items (spFindProfile : String → SlangProfileID) (req : CompileRequest)
    (items : List CommandLineItem) (hreq : req.translationUnits = [])
    (hwf : ∀ i ∈ items, i.WellFormed spFindProfile) :
    ∃ p m, parseArgs spFindProfile (tokensOf items)
        { requestImpl := req, flags := req.compileFlags }
        .SLANG_MATRIX_LAYOUT_MODE_UNKNOWN = .finished p m ∧
      Tracks spFindProfile items p ∧ p.requestImpl.mSink = req.mSink ∧
      p.requestImpl.entryPoints = req.entryPoints ∧
      p.rawEntryPoints = entryRecords spFindProfile [] items := by
  obtain ⟨p, m, ht, h1, h2, h3, heq⟩ := parseArgs_items_records spFindProfile items []
    { requestImpl := req, flags := req.compileFlags } .SLANG_MATRIX_LAYOUT_MODE_UNKNOWN
    (Tracks_new spFindProfile req hreq) hwf
  refine ⟨p, m, ?_, by simpa using ht, h1, h2, by simpa using h3⟩
  have := heq []
  simp only [List.append_nil] at this
  rw [this, parseArgs.eq_def]

/-- C8, as stated, fails at `x.hlsl -entry a -profile ps_5_0 -profile vs_5_0
-entry b`: the scan reads the line, two `-profile` options were given, of the
two entry points only `a` lacks a profile (`b` has that of `vs_5_0`), and
`parse` returns `SLANG_E_INVALID_ARG` with
`multipleEntryPointsNeedMulitpleProfiles` as its one diagnostic. -/
theorem ambiguous_profile_with_one_entry_lacking :
    ∃ p m q,
      parseArgs exampleProfiles
        ["x.hlsl", "-entry", "a", "-profile", "ps_5_0", "-profile", "vs_5_0", "-entry", "b"]
        {} .SLANG_MATRIX_LAYOUT_MODE_UNKNOWN = .finished p m ∧
      p.profileOptionCount = 2 ∧
      (beforeProfileBackfill p).rawEntryPoints =
        [{ name := "a", translationUnitIndex := 0 },
         { name := "b", profileID := .registered 2, translationUnitIndex := 0 }] ∧
      ((beforeProfileBackfill p).rawEntryPoints.filter
        (fun e => e.profileID == .SLANG_PROFILE_UNKNOWN)).length = 1 ∧
      ({} : OptionsParser).parse exampleProfiles
        ["x.hlsl", "-entry", "a", "-profile", "ps_5_0", "-profile", "vs_5_0", "-entry", "b"] =
        some (.SLANG_E_INVALID_ARG, q) ∧
      q.requestImpl.mSink.diagnostics = [.multipleEntryPointsNeedMulitpleProfiles] := by
  have hwf : ∀ i ∈ [CommandLineItem.input "x.hlsl", .entry "a", .profile "ps_5_0",
      .profile "vs_5_0", .entry "b"], i.WellFormed exampleProfiles := by
    intro i hi
    simp only [List.mem_cons, List.mem_singleton, List.not_mem_nil, or_false] at hi
    rcases hi with rfl | rfl | rfl | rfl | rfl
    · exact wellFormed_input _ _ (by decide) (by decide)
    · trivial
    · show exampleProfiles "ps_5_0" ≠ .SLANG_PROFILE_UNKNOWN
      decide
    · show exampleProfiles "vs_5_0" ≠ .SLANG_PROFILE_UNKNOWN
      decide
    · trivial
  obtain ⟨p, m, hscan, ht, hsink, hent, hrec⟩ := scan_items exampleProfiles {}
    [.input "x.hlsl", .entry "a", .profile "ps_5_0", .profile "vs_5_0", .entry "b"] rfl hwf
  have e1 : entryRecords exampleProfiles []
      [.input "x.hlsl", .entry "a", .profile "ps_5_0", .profile "vs_5_0", .entry "b"] =
      [{ name := "a", translationUnitIndex := 0 },
       { name := "b", profileID := .registered 2, translationUnitIndex := 0 }] := by
    decide
  have e2 : profileNames [CommandLineItem.input "x.hlsl", .entry "a", .profile "ps_5_0",
      .profile "vs_5_0", .entry "b"] = ["ps_5_0", "vs_5_0"] := by
    decide
  have hq0 : (beforeProfileBackfill p).rawEntryPoints =
      [{ name := "a", translationUnitIndex := 0 },
       { name := "b", profileID := .registered 2, translationUnitIndex := 0 }] := by
    rw [beforeProfileBackfill_eq]
    simp only [hrec, e1]
    rfl
  have hcount : p.profileOptionCount = 2 := by
    rw [ht.profileCount, e2]
    rfl
  obtain ⟨hs0, _, hcases⟩ := parse_of_tracks exampleProfiles {} _ p m _ hscan ht hsink hent
  rcases hcases with ⟨_, hnone, _⟩ | ⟨_, _, _, hparse⟩ | ⟨_, hn2, _⟩
  · rw [e2] at hnone
    cases hnone
  · refine ⟨p, m, _, hscan, hcount, hq0, ?_, hparse, ?_⟩
    · rw [hq0]
      rfl
    · show (beforeProfileBackfill p).requestImpl.mSink.diagnostics ++ [_] = _
      rw [hs0]
      rfl
  · exfalso
    apply hn2
    rw [hq0, e2]
    exact ⟨⟨_, List.mem_cons_self _ _, rfl⟩, by decide, by decide⟩

/-- C8, amended: after a scan that reads the whole command line from a new
parser on a request without translation units, `parse` returns, and among the
diagnostics it adds to the sink `multipleEntryPointsNeedMulitpleProfiles`
occurs if and only if the command line has more than one `-profile` option
(the parser counted as many as the command line has), at
least one entry point at the start of profile backfill lacks a profile, and
there is more than one entry point.  When it occurs, the result is
`SLANG_E_INVALID_ARG` and it is the only diagnostic added. -/
theorem ambiguous_profile_iff (spFindProfile : String → SlangProfileID)
    (req : CompileRequest) (args : List String) (p : OptionsParser) (m : SlangMatrixLayoutMode)
    (hreq : req.translationUnits = [])
    (hscan : parseArgs spFindProfile args { requestImpl := req, flags := req.compileFlags }
      .SLANG_MATRIX_LAYOUT_MODE_UNKNOWN = .finished p m) :
    ∃ items r p1 ds, Reads spFindProfile args items ∧
      p.profileOptionCount = (profileNames items).length ∧
      ({ requestImpl := req } : OptionsParser).parse spFindProfile args = some (r, p1) ∧
      p1.requestImpl.mSink.diagnostics = req.mSink.diagnostics ++ ds ∧
      (Diagnostic.multipleEntryPointsNeedMulitpleProfiles ∈ ds ↔
        1 < (profileNames items).length ∧
        (∃ e ∈ (beforeProfileBackfill p).rawEntryPoints, e.profileID = .SLANG_PROFILE_UNKNOWN) ∧
        1 < (beforeProfileBackfill p).rawEntryPoints.length) ∧
      (Diagnostic.multipleEntryPointsNeedMulitpleProfiles ∈ ds →
        r = .SLANG_E_INVALID_ARG ∧ ds = [.multipleEntryPointsNeedMulitpleProfiles] ∧
        p1 = (beforeProfileBackfill p).diagnose .multipleEntryPointsNeedMulitpleProfiles) := by
  obtain ⟨items, hr, ht, hs0, he0, hcases⟩ :=
    parse_after_scan spFindProfile req args p m hreq hscan
  rcases hcases with ⟨hany, hnone, hparse⟩ | ⟨hany, h1, h2, hparse⟩ |
    ⟨hn1, hn2, r, p1, ds, hparse, hds, hall, _, _⟩
  · have hnot : Diagnostic.multipleEntryPointsNeedMulitpleProfiles ∉
        [Diagnostic.noProfileSpecified] := by
      intro hmem
      cases List.mem_singleton.mp hmem
    refine ⟨items, _, _, [.noProfileSpecified], hr, ht.profileCount, hparse, ?_, ?_, ?_⟩
    · show (beforeProfileBackfill p).requestImpl.mSink.diagnostics ++ [_] = _
      rw [hs0]
    · refine ⟨fun hmem => absurd hmem hnot, ?_⟩
      rintro ⟨h1, _⟩
      rw [hnone] at h1
      exact absurd h1 (by decide)
    · intro hmem
      exact absurd hmem hnot
  · refine ⟨items, _, _, [.multipleEntryPointsNeedMulitpleProfiles], hr, ht.profileCount, hparse, ?_, ?_, ?_⟩
    · show (beforeProfileBackfill p).requestImpl.mSink.diagnostics ++ [_] = _
      rw [hs0]
    · exact ⟨fun _ => ⟨h1, hany, h2⟩, fun _ => List.mem_singleton.mpr rfl⟩
    · intro _
      exact ⟨rfl, rfl, rfl⟩
  · have hnot : Diagnostic.multipleEntryPointsNeedMulitpleProfiles ∉ ds := by
      intro hmem
      exact absurd (hall _ hmem) (by decide)
    refine ⟨items, r, p1, ds, hr, ht.profileCount, hparse, hds, ?_, ?_⟩
    · exact ⟨fun hmem => absurd hmem hnot, fun h => absurd ⟨h.2.1, h.1, h.2.2⟩ hn2⟩
    · intro hmem
      exact absurd hmem hnot

/-- C8, amended, at `x.hlsl -entry a -profile ps_5_0 -profile vs_5_0`: the
scan reads the line, and the theorem applies to its result. -/
theorem ambiguous_profile_iff_witness :
    ({} : CompileRequest).translationUnits = [] ∧
    ∃ p m, parseArgs exampleProfiles
        ["x.hlsl", "-entry", "a", "-profile", "ps_5_0", "-profile", "vs_5_0"]
        { requestImpl := {}, flags := ({} : CompileRequest).compileFlags }
        .SLANG_MATRIX_LAYOUT_MODE_UNKNOWN = .finished p m ∧
      ∃ items r p1 ds, Reads exampleProfiles
          ["x.hlsl", "-entry", "a", "-profile", "ps_5_0", "-profile", "vs_5_0"] items ∧
        p.profileOptionCount = (profileNames items).length ∧
        ({ requestImpl := {} } : OptionsParser).parse exampleProfiles
          ["x.hlsl", "-entry", "a", "-profile", "ps_5_0", "-profile", "vs_5_0"] =
            some (r, p1) ∧
        p1.requestImpl.mSink.diagnostics = ({} : CompileRequest).mSink.diagnostics ++ ds ∧
        (Diagnostic.multipleEntryPointsNeedMulitpleProfiles ∈ ds ↔
          1 < (profileNames items).length ∧
          (∃ e ∈ (beforeProfileBackfill p).rawEntryPoints,
            e.profileID = .SLANG_PROFILE_UNKNOWN) ∧
          1 < (beforeProfileBackfill p).rawEntryPoints.length) ∧
        (Diagnostic.multipleEntryPointsNeedMulitpleProfiles ∈ ds →
          r = .SLANG_E_INVALID_ARG ∧ ds = [.multipleEntryPointsNeedMulitpleProfiles] ∧
          p1 = (beforeProfileBackfill p).diagnose
            .multipleEntryPointsNeedMulitpleProfiles) := by
  obtain ⟨p, m, hscan, _⟩ := scan_items exampleProfiles {}
    [.input "x.hlsl", .entry "a", .profile "ps_5_0", .profile "vs_5_0"] rfl (by
      intro i hi
      simp only [List.mem_cons, List.mem_singleton, List.not_mem_nil, or_false] at hi
      rcases hi with rfl | rfl | rfl | rfl
      · exact wellFormed_input _ _ (by decide) (by decide)
      · trivial
      · show exampleProfiles "ps_5_0" ≠ .SLANG_PROFILE_UNKNOWN
        decide
      · show exampleProfiles "vs_5_0" ≠ .SLANG_PROFILE_UNKNOWN
        decide)
  exact ⟨rfl, p, m, hscan, ambiguous_profile_iff exampleProfiles {}
    ["x.hlsl", "-entry", "a", "-profile", "ps_5_0", "-profile", "vs_5_0"] p m rfl hscan⟩

/-- C9: after a scan that reads the whole command line from a new parser on a
request without translation units, `parse` returns; when it adds neither
`noProfileSpecified` nor `multipleEntryPointsNeedMulitpleProfiles` to the
sink, profile backfill continues and changes the entry points only in that
every entry point without a profile gets the value of the last `-profile`
option of the command line (the `currentProfileID` of the scan), every other
entry point keeps its profile, and the entry points `parse` returns have these
names and profiles.  So in
`x.hlsl -entry NAME -profile P1 -profile P2`, with `P1` and `P2` known, the
one entry point ends with the profile of `P2` and the sink holds no profile
diagnostic. -/
theorem profile_backfill_uses_last_profile (spFindProfile : String → SlangProfileID) :
    (∀ (req : CompileRequest) (args : List String) (p : OptionsParser)
        (m : SlangMatrixLayoutMode),
      req.translationUnits = [] →
      parseArgs spFindProfile args { requestImpl := req, flags := req.compileFlags }
        .SLANG_MATRIX_LAYOUT_MODE_UNKNOWN = .finished p m →
      ∃ items r p1 ds, Reads spFindProfile args items ∧
        p.currentProfileID = lastProfile spFindProfile items ∧
        ({ requestImpl := req } : OptionsParser).parse spFindProfile args = some (r, p1) ∧
        p1.requestImpl.mSink.diagnostics = req.mSink.diagnostics ++ ds ∧
        (Diagnostic.noProfileSpecified ∉ ds →
          Diagnostic.multipleEntryPointsNeedMulitpleProfiles ∉ ds →
          applyProfiles (beforeProfileBackfill p) = .continued
            { beforeProfileBackfill p with
              rawEntryPoints := (beforeProfileBackfill p).rawEntryPoints.map (fun e =>
                if e.profileID = .SLANG_PROFILE_UNKNOWN then
                  { e with profileID := lastProfile spFindProfile items }
                else e) } ∧
          p1.rawEntryPoints.map (fun e => e.name) =
            (beforeProfileBackfill p).rawEntryPoints.map (fun e => e.name) ∧
          p1.rawEntryPoints.map (fun e => e.profileID) =
            (beforeProfileBackfill p).rawEntryPoints.map (fun e =>
              if e.profileID = .SLANG_PROFILE_UNKNOWN then lastProfile spFindProfile items
              else e.profileID))) ∧
    (∀ name n1 n2 : String, spFindProfile n1 ≠ .SLANG_PROFILE_UNKNOWN →
      spFindProfile n2 ≠ .SLANG_PROFILE_UNKNOWN →
      ∃ r p1, ({} : OptionsParser).parse spFindProfile
          ["x.hlsl", "-entry", name, "-profile", n1, "-profile", n2] = some (r, p1) ∧
        p1.rawEntryPoints.map (fun e => (e.name, e.profileID)) = [(name, spFindProfile n2)] ∧
        ∀ d ∈ p1.requestImpl.mSink.diagnostics, d.isProfileDiagnostic = false) := by
  refine ⟨?_, ?_⟩
  · intro req args p m hreq hscan
    obtain ⟨items, hr, ht, hs0, he0, hcases⟩ :=
      parse_after_scan spFindProfile req args p m hreq hscan
    rcases hcases with ⟨hany, hnone, hparse⟩ | ⟨hany, h1, h2, hparse⟩ |
      ⟨hn1, hn2, r, p1, ds, hparse, hds, hall, hnames, hprofs, happ⟩
    · refine ⟨items, _, _, [.noProfileSpecified], hr, ht.profile, hparse, ?_, ?_⟩
      · show (beforeProfileBackfill p).requestImpl.mSink.diagnostics ++ [_] = _
        rw [hs0]
      · intro hno
        exact absurd (List.mem_singleton.mpr rfl) hno
    · refine ⟨items, _, _, [.multipleEntryPointsNeedMulitpleProfiles], hr, ht.profile, hparse,
        ?_, ?_⟩
      · show (beforeProfileBackfill p).requestImpl.mSink.diagnostics ++ [_] = _
        rw [hs0]
      · intro _ hno
        exact absurd (List.mem_singleton.mpr rfl) hno
    · exact ⟨items, r, p1, ds, hr, ht.profile, hparse, hds, fun _ _ => ⟨happ, hnames, hprofs⟩⟩
  · intro name n1 n2 hk1 hk2
    have hwf : ∀ i ∈ [CommandLineItem.input "x.hlsl", .entry name, .profile n1, .profile n2],
        i.WellFormed spFindProfile := by
      intro i hi
      simp only [List.mem_cons, List.mem_singleton, List.not_mem_nil, or_false] at hi
      rcases hi with rfl | rfl | rfl | rfl
      · exact wellFormed_input _ _ (by decide) (by decide)
      · trivial
      · exact hk1
      · exact hk2
    obtain ⟨p, m, hscan, ht, hsink, hent, hrec⟩ := scan_items spFindProfile {}
      [.input "x.hlsl", .entry name, .profile n1, .profile n2] rfl hwf
    have t1 : touchedUnit (inputPathsOf [CommandLineItem.input "x.hlsl"]) = 0 := by decide
    have e1 : entryRecords spFindProfile []
        [.input "x.hlsl", .entry name, .profile n1, .profile n2] =
        [{ name := name, translationUnitIndex := 0 }] := by
      simp only [entryRecords, List.nil_append, List.append_nil, List.singleton_append, t1]
      rfl
    have e2 : profileNames [CommandLineItem.input "x.hlsl", .entry name, .profile n1,
        .profile n2] = [n1, n2] := rfl
    have e3 : lastProfile spFindProfile [CommandLineItem.input "x.hlsl", .entry name,
        .profile n1, .profile n2] = spFindProfile n2 := rfl
    have hq0 : (beforeProfileBackfill p).rawEntryPoints =
        [{ name := name, translationUnitIndex := 0 }] := by
      rw [beforeProfileBackfill_eq]
      simp only [hrec, e1]
      rfl
    obtain ⟨hs0, _, hcases⟩ := parse_of_tracks spFindProfile {} _ p m _ hscan ht hsink hent
    rcases hcases with ⟨_, hnone, _⟩ | ⟨_, _, h2, _⟩ |
      ⟨_, _, r, p1, ds, hparse, hds, hall, hnames, hprofs, _⟩
    · rw [e2] at hnone
      cases hnone
    · rw [hq0] at h2
      exact absurd h2 (Nat.lt_irrefl 1)
    · refine ⟨r, p1, hparse, ?_, ?_⟩
      · rw [hq0] at hnames hprofs
        rw [e3] at hprofs
        simp only [List.map_cons, List.map_nil, if_true] at hnames hprofs
        match hp : p1.rawEntryPoints, hnames, hprofs with
        | [e], hnames, hprofs =>
          simp only [List.map_cons, List.map_nil, List.cons.injEq, and_true] at hnames hprofs ⊢
          rw [hnames, hprofs]
      · intro d hd
        rw [hds] at hd
        exact hall d (by simpa using hd)

/-- C9, at `-entry main x.hlsl -profile ps_5_0`: the scan reads the line, and
the theorem applies to its result. -/
theorem profile_backfill_uses_last_profile_witness :
    ({} : CompileRequest).translationUnits = [] ∧
    ∃ p m, parseArgs exampleProfiles ["-entry", "main", "x.hlsl", "-profile", "ps_5_0"]
        { requestImpl := {}, flags := ({} : CompileRequest).compileFlags }
        .SLANG_MATRIX_LAYOUT_MODE_UNKNOWN = .finished p m ∧
      ∃ items r p1 ds, Reads exampleProfiles
          ["-entry", "main", "x.hlsl", "-profile", "ps_5_0"] items ∧
        p.currentProfileID = lastProfile exampleProfiles items ∧
        ({ requestImpl := {} } : OptionsParser).parse exampleProfiles
          ["-entry", "main", "x.hlsl", "-profile", "ps_5_0"] = some (r, p1) ∧
        p1.requestImpl.mSink.diagnostics = ({} : CompileRequest).mSink.diagnostics ++ ds ∧
        (Diagnostic.noProfileSpecified ∉ ds →
          Diagnostic.multipleEntryPointsNeedMulitpleProfiles ∉ ds →
          applyProfiles (beforeProfileBackfill p) = .continued
            { beforeProfileBackfill p with
              rawEntryPoints := (beforeProfileBackfill p).rawEntryPoints.map (fun e =>
                if e.profileID = .SLANG_PROFILE_UNKNOWN then
                  { e with profileID := lastProfile exampleProfiles items }
                else e) } ∧
          p1.rawEntryPoints.map (fun e => e.name) =
            (beforeProfileBackfill p).rawEntryPoints.map (fun e => e.name) ∧
          p1.rawEntryPoints.map (fun e => e.profileID) =
            (beforeProfileBackfill p).rawEntryPoints.map (fun e =>
              if e.profileID = .SLANG_PROFILE_UNKNOWN then lastProfile exampleProfiles items
              else e.profileID)) := by
  obtain ⟨p, m, hscan, _⟩ := scan_items exampleProfiles {}
    [.entry "main", .input "x.hlsl", .profile "ps_5_0"] rfl (by
      intro i hi
      simp only [List.mem_cons, List.mem_singleton, List.not_mem_nil, or_false] at hi
      rcases hi with rfl | rfl | rfl
      · trivial
      · exact wellFormed_input _ _ (by decide) (by decide)
      · show exampleProfiles "ps_5_0" ≠ .SLANG_PROFILE_UNKNOWN
        decide)
  exact ⟨rfl, p, m, hscan, (profile_backfill_uses_last_profile exampleProfiles).1 {}
    ["-entry", "main", "x.hlsl", "-profile", "ps_5_0"] p m rfl hscan⟩

theorem diagnoseAll_nil (sink : DiagnosticSink) : sink.diagnoseAll [] = sink := rfl

theorem diagnoseAll_singleton (sink : DiagnosticSink) (d : Diagnostic) :
    sink.diagnoseAll [d] = sink.diagnose d := rfl

theorem diagnoseAll_append (sink : DiagnosticSink) (ds es : List Diagnostic) :
    sink.diagnoseAll (ds ++ es) = (sink.diagnoseAll ds).diagnoseAll es := by
  simp [DiagnosticSink.diagnoseAll, List.foldl_append]

theorem diagnoseAll_diagnostics (ds : List Diagnostic) :
    ∀ sink : DiagnosticSink, (sink.diagnoseAll ds).diagnostics = sink.diagnostics ++ ds := by
  induction ds with
  | nil =>
    intro sink
    simp [DiagnosticSink.diagnoseAll]
  | cons d rest ih =>
    intro sink
    have := ih (sink.diagnose d)
    simp only [DiagnosticSink.diagnoseAll, List.foldl_cons] at this ⊢
    rw [this]
    simp [DiagnosticSink.diagnose]

theorem diagnoseAll_errorCount_le (ds : List Diagnostic) :
    ∀ sink : DiagnosticSink, sink.errorCount ≤ (sink.diagnoseAll ds).errorCount := by
  induction ds with
  | nil =>
    intro sink
    exact le_refl _
  | cons d rest ih =>
    intro sink
    have := ih (sink.diagnose d)
    simp only [DiagnosticSink.diagnoseAll, List.foldl_cons] at this ⊢
    refine le_trans ?_ this
    simp only [DiagnosticSink.diagnose]
    split <;> omega

/-- An error among the diagnostics leaves a positive error count. -/
theorem diagnoseAll_errorCount_pos (ds : List Diagnostic) :
    ∀ (sink : DiagnosticSink) (d : Diagnostic), d ∈ ds → d.isError = true →
      0 < (sink.diagnoseAll ds).errorCount := by
  induction ds with
  | nil =>
    intro sink d hd
    exact absurd hd (List.not_mem_nil _)
  | cons e rest ih =>
    intro sink d hd herr
    show 0 < ((sink.diagnose e).diagnoseAll rest).errorCount
    rcases List.mem_cons.mp hd with rfl | hd
    · refine lt_of_lt_of_le ?_ (diagnoseAll_errorCount_le rest _)
      simp [DiagnosticSink.diagnose, herr]
    · exact ih _ d hd herr

theorem checkOutputPathsAndTargets_eq (p : OptionsParser) :
    (checkOutputPathsAndTargets p).requestImpl.mSink =
      p.requestImpl.mSink.diagnoseAll
        (multipleTargetsDiagnostics p.rawOutputPaths p.requestImpl.targets) ∧
    (checkOutputPathsAndTargets p).requestImpl.targets = p.requestImpl.targets ∧
    (checkOutputPathsAndTargets p).rawEntryPoints = p.rawEntryPoints ∧
    (checkOutputPathsAndTargets p).rawOutputPaths = p.rawOutputPaths ∧
    (checkOutputPathsAndTargets p).chosenTarget = p.chosenTarget := by
  unfold checkOutputPathsAndTargets multipleTargetsDiagnostics
  split
  · exact ⟨rfl, rfl, rfl, rfl, rfl⟩
  · exact ⟨rfl, rfl, rfl, rfl, rfl⟩

theorem associateOutputPaths_eq (p : OptionsParser) (hne : p.rawOutputPaths ≠ []) :
    (associateOutputPaths p).requestImpl.mSink =
      p.requestImpl.mSink.diagnoseAll
        (associationDiagnostics p.rawEntryPoints p.rawOutputPaths) ∧
    (associateOutputPaths p).requestImpl.targets = p.requestImpl.targets ∧
    (associateOutputPaths p).rawOutputPaths = p.rawOutputPaths ∧
    (associateOutputPaths p).chosenTarget = p.chosenTarget := by
  have h0 : ¬ p.rawOutputPaths.length = 0 := fun h => hne (List.length_eq_zero.mp h)
  unfold associateOutputPaths associationDiagnostics
  rw [if_neg h0]
  split
  · exact ⟨rfl, rfl, rfl, rfl⟩
  · split
    · exact ⟨rfl, rfl, rfl, rfl⟩
    · split
      · exact ⟨rfl, rfl, rfl, rfl⟩
      · exact ⟨rfl, rfl, rfl, rfl⟩

theorem inferTarget_eq (p : OptionsParser) (first : RawOutputPath) (rest : List RawOutputPath)
    (h : p.rawOutputPaths = first :: rest) :
    (inferTarget p first).requestImpl.mSink =
      p.requestImpl.mSink.diagnoseAll (targetDiagnostics p.chosenTarget p.rawOutputPaths) ∧
    (inferTarget p first).requestImpl.targets =
      (match inferredTarget p.chosenTarget p.rawOutputPaths with
       | some t => [{ target := t }]
       | none => p.requestImpl.targets) := by
  unfold inferTarget targetDiagnostics inferredTarget
  rw [h]
  simp only
  rw [← h]
  split
  · split
    · exact ⟨rfl, rfl⟩
    · split
      · exact ⟨rfl, rfl⟩
      · exact ⟨rfl, rfl⟩
  · split
    · exact ⟨rfl, rfl⟩
    · split
      · exact ⟨rfl, rfl⟩
      · exact ⟨rfl, rfl⟩
  · exact ⟨rfl, rfl⟩

theorem reconcileOutputPaths_eq (p : OptionsParser) :
    (reconcileOutputPaths p).requestImpl.mSink =
      p.requestImpl.mSink.diagnoseAll
        (associationDiagnostics p.rawEntryPoints p.rawOutputPaths ++
          targetDiagnostics p.chosenTarget p.rawOutputPaths) ∧
    (reconcileOutputPaths p).requestImpl.targets =
      (match inferredTarget p.chosenTarget p.rawOutputPaths with
       | some t => [{ target := t }]
       | none => p.requestImpl.targets) := by
  unfold reconcileOutputPaths
  split
  · rename_i hnil
    rw [hnil]
    exact ⟨rfl, rfl⟩
  · rename_i first rest hcons
    have hne : p.rawOutputPaths ≠ [] := by
      rw [hcons]
      exact List.cons_ne_nil _ _
    obtain ⟨a1, a2, a3, a4⟩ := associateOutputPaths_eq p hne
    obtain ⟨b1, b2⟩ := inferTarget_eq (associateOutputPaths p) first rest (a3.trans hcons)
    rw [b1, b2, a1, a2, a3, a4, diagnoseAll_append]
    exact ⟨rfl, rfl⟩

theorem modify_map_target (f : TargetRequest → TargetRequest) (n : Nat)
    (hf : ∀ t, (f t).target = t.target) :
    ∀ l : List TargetRequest, (List.modify f n l).map (fun t => t.target) =
      l.map (fun t => t.target) := by
  induction n with
  | zero =>
    intro l
    cases l with
    | nil => rfl
    | cons a rest => simp [List.modify, hf]
  | succ k ih =>
    intro l
    cases l with
    | nil => rfl
    | cons a rest =>
      have := ih rest
      simp only [List.modify, List.modifyTailIdx, List.map_cons, List.cons.injEq, true_and]
        at this ⊢
      exact this

theorem foldl_spSetTargetMatrixLayoutMode_targets (mode : SlangMatrixLayoutMode)
    (l : List Nat) :
    ∀ req : CompileRequest,
      (l.foldl (fun req tt => spSetTargetMatrixLayoutMode req tt mode) req).targets.map
        (fun t => t.target) = req.targets.map (fun t => t.target) := by
  induction l with
  | nil =>
    intro req
    rfl
  | cons a rest ih =>
    intro req
    simp only [List.foldl_cons]
    rw [ih]
    show List.map (fun t => t.target) (List.modify _ a req.targets) = _
    apply modify_map_target
    intro t
    rfl

/-- The passes from the check for several targets to the matrix layout: the
sink gains the diagnostics of the first three, in order, and the target of the
request is the inferred one when there is one. -/
theorem outputPasses_eq (q : OptionsParser) (m : SlangMatrixLayoutMode) :
    (outputPasses q m).requestImpl.mSink =
      q.requestImpl.mSink.diagnoseAll
        (multipleTargetsDiagnostics q.rawOutputPaths q.requestImpl.targets ++
          associationDiagnostics q.rawEntryPoints q.rawOutputPaths ++
          targetDiagnostics q.chosenTarget q.rawOutputPaths) ∧
    (outputPasses q m).requestImpl.targets.map (fun t => t.target) =
      (match inferredTarget q.chosenTarget q.rawOutputPaths with
       | some t => [t]
       | none => q.requestImpl.targets.map (fun t => t.target)) := by
  obtain ⟨c1, c2, c3, c4, c5⟩ := checkOutputPathsAndTargets_eq q
  obtain ⟨r1, r2⟩ := reconcileOutputPaths_eq (checkOutputPathsAndTargets q)
  rw [c1, c3, c4, c5] at r1
  rw [c2, c4, c5] at r2
  have s1 := (applyTargetFlags_step (reconcileOutputPaths (checkOutputPathsAndTargets q)))
  have t1 : (applyTargetFlags (reconcileOutputPaths (checkOutputPathsAndTargets q))
      ).requestImpl.mSink = (reconcileOutputPaths (checkOutputPathsAndTargets q)).requestImpl.mSink ∧
      (applyTargetFlags (reconcileOutputPaths (checkOutputPathsAndTargets q))
        ).requestImpl.targets.map (fun t => t.target) =
      (reconcileOutputPaths (checkOutputPathsAndTargets q)).requestImpl.targets.map
        (fun t => t.target) := by
    unfold applyTargetFlags
    split
    · refine ⟨rfl, ?_⟩
      show List.map (fun t : TargetRequest => t.target) (List.modify _ 0 _) = _
      apply modify_map_target
      intro t
      rfl
    · exact ⟨rfl, rfl⟩
  have t2 : ∀ p : OptionsParser, (applyMatrixLayoutMode p m).requestImpl.mSink =
      p.requestImpl.mSink ∧
      (applyMatrixLayoutMode p m).requestImpl.targets.map (fun t => t.target) =
        p.requestImpl.targets.map (fun t => t.target) := by
    intro p
    unfold applyMatrixLayoutMode
    split
    · exact ⟨(foldl_spSetTargetMatrixLayoutMode m _ _).2.2,
        foldl_spSetTargetMatrixLayoutMode_targets m _ _⟩
    · exact ⟨rfl, rfl⟩
  unfold outputPasses
  rw [(t2 _).1, (t2 _).2, t1.1, t1.2, r1, r2, ← diagnoseAll_append, List.append_assoc]
  refine ⟨rfl, ?_⟩
  split <;> rfl

theorem any_translationUnit_congr (es fs : List RawEntryPoint)
    (h : fs.map (fun e => e.translationUnitIndex) = es.map (fun e => e.translationUnitIndex)) :
    fs.any (fun entryPoint => entryPoint.translationUnitIndex == -1) =
      es.any (fun entryPoint => entryPoint.translationUnitIndex == -1) := by
  have h1 : ∀ l : List RawEntryPoint,
      l.any (fun entryPoint => entryPoint.translationUnitIndex == -1) =
        (l.map (fun e => e.translationUnitIndex)).any (fun i => i == -1) := by
    intro l
    induction l with
    | nil => rfl
    | cons a rest ih => simp only [List.any_cons, List.map_cons, ih]
  rw [h1 fs, h1 es, h]

theorem attachTranslationUnits_eq (p : OptionsParser) :
    attachTranslationUnits p =
      if (p.rawEntryPoints.any (fun entryPoint => entryPoint.translationUnitIndex == -1) = true) ∧
          p.translationUnitCount ≠ 1 then
        .returned .SLANG_FAIL
          (OptionsParser.diagnose
            { p with rawEntryPoints := p.rawEntryPoints.map backfillTranslationUnit }
            .multipleTranslationUnitsNeedEntryPoints)
      else
        .continued { p with rawEntryPoints := p.rawEntryPoints.map backfillTranslationUnit } :=
  rfl

/-- The rest of `resolve` once profile backfill has continued with parser
`q`: it returns when no entry point reads outside the output paths; the sink
gains the diagnostics `outputDiagnostics q`; the result is `SLANG_OK` or
`SLANG_FAIL`, and `SLANG_OK` exactly with no error in the sink; the entry
points are those of `q` after the association of one path with one entry
point and after translation-unit backfill; the request gets the inferred
target, and the entry points unless translation-unit backfill fails. -/
theorem resolve_after_profiles (p0 : OptionsParser) (m : SlangMatrixLayoutMode)
    (q : OptionsParser) (hq : applyProfiles (beforeProfileBackfill p0) = .continued q)
    (hb : ∀ e ∈ (outputPasses q m).rawEntryPoints,
      e.outputPathIndex < (q.rawOutputPaths.length : Int)) :
    ∃ r p1, resolve p0 m = some (r, p1) ∧
      p1.requestImpl.mSink = q.requestImpl.mSink.diagnoseAll (outputDiagnostics q) ∧
      (r = .SLANG_OK ∨ r = .SLANG_FAIL) ∧
      (r = .SLANG_OK ↔ p1.requestImpl.mSink.errorCount = 0) ∧
      p1.rawEntryPoints = (outputPasses q m).rawEntryPoints.map backfillTranslationUnit ∧
      p1.rawOutputPaths = q.rawOutputPaths ∧
      p1.requestImpl.targets.map (fun t => t.target) =
        (match inferredTarget q.chosenTarget q.rawOutputPaths with
         | some t => [t]
         | none => q.requestImpl.targets.map (fun t => t.target)) ∧
      (translationUnitDiagnostics q.rawEntryPoints q.translationUnitCount = [] →
        p1.requestImpl.entryPoints = q.requestImpl.entryPoints ++
          p1.rawEntryPoints.map (registeredEntryPoint q.rawOutputPaths)) ∧
      (translationUnitDiagnostics q.rawEntryPoints q.translationUnitCount ≠ [] →
        p1.requestImpl.entryPoints = q.requestImpl.entryPoints) := by
  have hstep := outputPasses_step q m
  obtain ⟨hsink, htargets⟩ := outputPasses_eq q m
  have hany := any_translationUnit_congr q.rawEntryPoints (outputPasses q m).rawEntryPoints
    hstep.units
  have hres : resolve p0 m =
      match attachTranslationUnits (outputPasses q m) with
      | .returned r q => some (r, q)
      | .continued q =>
        match placeEntryPoints q.rawEntryPoints q with
        | none => none
        | some q =>
          some (if q.requestImpl.mSink.GetErrorCount = 0 then .SLANG_OK else .SLANG_FAIL, q) := by
    rw [resolve_eq]
    have h1 : applyProfiles (addImplicitEntryPoints
        { p0 with requestImpl := spSetCompileFlags p0.requestImpl p0.flags }) = .continued q := hq
    rw [h1]
  have hcond : ((outputPasses q m).rawEntryPoints.any
      (fun entryPoint => entryPoint.translationUnitIndex == -1) = true ∧
      (outputPasses q m).translationUnitCount ≠ 1) ↔
      ((q.rawEntryPoints.any (fun entryPoint => entryPoint.translationUnitIndex == -1) = true) ∧
        q.translationUnitCount ≠ 1) := by
    rw [hany, hstep.translationUnitCount]
  rw [attachTranslationUnits_eq] at hres
  by_cases hfail : (q.rawEntryPoints.any
      (fun entryPoint => entryPoint.translationUnitIndex == -1) = true) ∧
      q.translationUnitCount ≠ 1
  · have hd : translationUnitDiagnostics q.rawEntryPoints q.translationUnitCount =
        [.multipleTranslationUnitsNeedEntryPoints] := by
      unfold translationUnitDiagnostics
      rw [if_pos hfail]
    rw [if_pos (hcond.mpr hfail)] at hres
    refine ⟨_, _, hres, ?_, Or.inr rfl, ?_, rfl, hstep.rawOutputPaths, htargets, ?_, ?_⟩
    · show (outputPasses q m).requestImpl.mSink.diagnose _ = _
      rw [hsink]
      unfold outputDiagnostics
      rw [hd]
      simp only [diagnoseAll_append]
      rfl
    · constructor
      · intro h
        cases h
      · intro h
        exfalso
        revert h
        show ((outputPasses q m).requestImpl.mSink.diagnose
          .multipleTranslationUnitsNeedEntryPoints).errorCount = 0 → False
        simp [DiagnosticSink.diagnose, Diagnostic.isError]
    · intro h
      rw [hd] at h
      cases h
    · intro _
      exact hstep.requestEntryPoints
  · have hd : translationUnitDiagnostics q.rawEntryPoints q.translationUnitCount = [] := by
      unfold translationUnitDiagnostics
      rw [if_neg hfail]
    rw [if_neg (fun h => hfail (hcond.mp h))] at hres
    simp only at hres
    obtain ⟨p1, hp1⟩ := placeEntryPoints_isSome
      ((outputPasses q m).rawEntryPoints.map backfillTranslationUnit)
      { outputPasses q m with
        rawEntryPoints := (outputPasses q m).rawEntryPoints.map backfillTranslationUnit } (by
        intro e he
        simp only [List.mem_map] at he
        obtain ⟨e0, he0, rfl⟩ := he
        have := hb e0 he0
        show _ < ((outputPasses q m).rawOutputPaths.length : Int)
        rw [hstep.rawOutputPaths]
        unfold backfillTranslationUnit
        split <;> exact this)
    have hp1eq := placeEntryPoints_some _ _ _ hp1
    rw [hp1] at hres
    simp only at hres
    have hsink1 : p1.requestImpl.mSink = q.requestImpl.mSink.diagnoseAll (outputDiagnostics q) := by
      rw [hp1eq]
      show (outputPasses q m).requestImpl.mSink = _
      rw [hsink]
      unfold outputDiagnostics
      rw [hd, List.append_nil]
    refine ⟨_, p1, hres, hsink1, ?_, ?_, ?_, ?_, ?_, ?_, ?_⟩
    · by_cases h0 : p1.requestImpl.mSink.GetErrorCount = 0
      · left
        rw [if_pos h0]
      · right
        rw [if_neg h0]
    · by_cases h0 : p1.requestImpl.mSink.GetErrorCount = 0
      · rw [if_pos h0]
        exact ⟨fun _ => h0, fun _ => rfl⟩
      · rw [if_neg h0]
        constructor
        · intro h
          cases h
        · intro h
          exact absurd h h0
    · rw [hp1eq]
    · rw [hp1eq]
      exact hstep.rawOutputPaths
    · rw [hp1eq]
      exact htargets
    · intro _
      rw [hp1eq]
      show (outputPasses q m).requestImpl.entryPoints ++
        List.map (registeredEntryPoint (outputPasses q m).rawOutputPaths) _ = _
      rw [hstep.requestEntryPoints, hstep.rawOutputPaths]
    · intro h
      exact absurd hd h

theorem outputPasses_bound (q : OptionsParser) (m : SlangMatrixLayoutMode)
    (h : ∀ e ∈ q.rawEntryPoints, e.outputPathIndex < (q.rawOutputPaths.length : Int)) :
    ∀ e ∈ (outputPasses q m).rawEntryPoints,
      e.outputPathIndex < (q.rawOutputPaths.length : Int) := by
  rw [outputPasses_rawEntryPoints]
  split
  · rename_i h1
    apply modify_zero_forall _ _ _ h
    intro a
    show (0 : Int) < _
    rw [h1.2]
    decide
  · exact h

/-- What profile backfill leaves of the parser `p0` of the scan when it
continues with parser `q`. -/
theorem continued_frame (p0 q : OptionsParser)
    (hq : applyProfiles (beforeProfileBackfill p0) = .continued q) :
    q.rawOutputPaths = p0.rawOutputPaths ∧ q.chosenTarget = p0.chosenTarget ∧
    q.requestImpl.targets = p0.requestImpl.targets ∧
    q.translationUnitCount = p0.translationUnitCount ∧
    q.requestImpl.mSink = p0.requestImpl.mSink ∧
    q.requestImpl.entryPoints = p0.requestImpl.entryPoints ∧
    q.rawEntryPoints = (beforeProfileBackfill p0).rawEntryPoints.map (fun e =>
      if e.profileID = .SLANG_PROFILE_UNKNOWN then
        { e with profileID := p0.currentProfileID }
      else e) ∧
    ((∀ e ∈ p0.rawEntryPoints, e.outputPathIndex < (p0.rawOutputPaths.length : Int)) →
      ∀ e ∈ q.rawEntryPoints, e.outputPathIndex < (q.rawOutputPaths.length : Int)) := by
  have hqeq := (applyProfiles_continued _ _ hq).1
  have h0 := beforeProfileBackfill_eq p0
  have e1 : q.rawOutputPaths = p0.rawOutputPaths := by rw [hqeq, h0]
  have e2 : q.rawEntryPoints = (beforeProfileBackfill p0).rawEntryPoints.map (fun e =>
      if e.profileID = .SLANG_PROFILE_UNKNOWN then
        { e with profileID := p0.currentProfileID }
      else e) := by
    rw [hqeq]
    have : (beforeProfileBackfill p0).currentProfileID = p0.currentProfileID := by rw [h0]
    simp only [this]
  refine ⟨e1, by rw [hqeq, h0], by rw [hqeq, h0]; rfl, by rw [hqeq, h0], by rw [hqeq, h0]; rfl,
    by rw [hqeq, h0]; rfl, e2, ?_⟩
  intro hb e he
  rw [e2, h0] at he
  rw [e1]
  simp only [List.mem_map] at he
  obtain ⟨e0, he0, rfl⟩ := he
  have hb0 : e0.outputPathIndex < (p0.rawOutputPaths.length : Int) := by
    split at he0
    · simp only [implicitEntryPointsFor, List.mem_map] at he0
      obtain ⟨u, _, rfl⟩ := he0
      simp only [implicitEntryPoint]
      omega
    · exact hb e0 he0
  split <;> exact hb0

theorem filter_multipleTargetsDiagnostics (k : Diagnostic → Bool)
    (hk : k .explicitOutputPathsAndMultipleTargets = false) (outputs : List RawOutputPath)
    (targets : List TargetRequest) :
    (multipleTargetsDiagnostics outputs targets).filter k = [] := by
  unfold multipleTargetsDiagnostics
  split
  · simp [hk]
  · rfl

theorem filter_translationUnitDiagnostics (k : Diagnostic → Bool)
    (hk : k .multipleTranslationUnitsNeedEntryPoints = false) (entries : List RawEntryPoint)
    (count : Int) : (translationUnitDiagnostics entries count).filter k = [] := by
  unfold translationUnitDiagnostics
  split
  · simp [hk]
  · rfl

theorem filter_associationDiagnostics (k : Diagnostic → Bool)
    (hk1 : ∀ a b, k (.tooManyOutputPathsSpecified a b) = false)
    (hk2 : ∀ name, k (.noOutputPathSpecifiedForEntryPoint name) = false)
    (entries : List RawEntryPoint) (outputs : List RawOutputPath) :
    (associationDiagnostics entries outputs).filter k = [] := by
  unfold associationDiagnostics
  split
  · rfl
  · split
    · rfl
    · split
      · simp [hk1]
      · split
        · simp [hk2]
        · rfl

theorem filter_targetDiagnostics (k : Diagnostic → Bool)
    (hk1 : ∀ path, k (.cannotDeduceOutputFormatFromPath path) = false)
    (hk2 : ∀ a b, k (.outputPathsImplyDifferentFormats a b) = false)
    (chosenTarget : SlangCompileTarget) (outputs : List RawOutputPath) :
    (targetDiagnostics chosenTarget outputs).filter k = [] := by
  have body : ∀ first : RawOutputPath,
      (match outputs.find? (fun o : RawOutputPath =>
          o.target == SlangCompileTarget.SLANG_TARGET_UNKNOWN) with
        | some rawOutputPath =>
          [Diagnostic.cannotDeduceOutputFormatFromPath rawOutputPath.path]
        | none =>
          match outputs.find? (fun o : RawOutputPath => o.target != first.target) with
          | some rawOutputPath =>
            [Diagnostic.outputPathsImplyDifferentFormats first.path rawOutputPath.path]
          | none => []).filter k = [] := by
    intro first
    split
    · simp [hk1]
    · split
      · simp [hk2]
      · rfl
  unfold targetDiagnostics
  split
  · rfl
  · split
    · exact body _
    · exact body _
    · rfl

/-- Each kind of output diagnostic comes from one pass only. -/
theorem outputDiagnostics_filter (q : OptionsParser) :
    (outputDiagnostics q).filter Diagnostic.isTooManyOutputPaths =
      (associationDiagnostics q.rawEntryPoints q.rawOutputPaths).filter
        Diagnostic.isTooManyOutputPaths ∧
    (outputDiagnostics q).filter Diagnostic.isMissingOutputPath =
      (associationDiagnostics q.rawEntryPoints q.rawOutputPaths).filter
        Diagnostic.isMissingOutputPath ∧
    (outputDiagnostics q).filter Diagnostic.isCannotInferTarget =
      (targetDiagnostics q.chosenTarget q.rawOutputPaths).filter
        Diagnostic.isCannotInferTarget ∧
    (outputDiagnostics q).filter Diagnostic.isInconsistentTargets =
      (targetDiagnostics q.chosenTarget q.rawOutputPaths).filter
        Diagnostic.isInconsistentTargets := by
  unfold outputDiagnostics
  simp only [List.filter_append]
  refine ⟨?_, ?_, ?_, ?_⟩
  · rw [filter_multipleTargetsDiagnostics _ rfl, filter_translationUnitDiagnostics _ rfl,
      filter_targetDiagnostics _ (fun _ => rfl) (fun _ _ => rfl)]
    simp
  · rw [filter_multipleTargetsDiagnostics _ rfl, filter_translationUnitDiagnostics _ rfl,
      filter_targetDiagnostics _ (fun _ => rfl) (fun _ _ => rfl)]
    simp
  · rw [filter_multipleTargetsDiagnostics _ rfl, filter_translationUnitDiagnostics _ rfl,
      filter_associationDiagnostics _ (fun _ _ => rfl) (fun _ => rfl)]
    simp
  · rw [filter_multipleTargetsDiagnostics _ rfl, filter_translationUnitDiagnostics _ rfl,
      filter_associationDiagnostics _ (fun _ _ => rfl) (fun _ => rfl)]
    simp

/-- An error among the output diagnostics makes the result `SLANG_FAIL`. -/
theorem fail_of_error (sink : DiagnosticSink) (ds : List Diagnostic) (r : SlangResult)
    (hr : r = .SLANG_OK ∨ r = .SLANG_FAIL)
    (hiff : r = .SLANG_OK ↔ (sink.diagnoseAll ds).errorCount = 0)
    (d : Diagnostic) (hd : d ∈ ds) (herr : d.isError = true) : r = .SLANG_FAIL := by
  rcases hr with h | h
  · have := diagnoseAll_errorCount_pos ds sink d hd herr
    have h0 := hiff.mp h
    omega
  · exact h

/-- The frame of every claim about the output passes: `resolve` returns, the
sink gains `outputDiagnostics q`, and an error among them makes the result
`SLANG_FAIL`. -/
theorem resolve_outputs (p0 : OptionsParser) (m : SlangMatrixLayoutMode) (q : OptionsParser)
    (hq : applyProfiles (beforeProfileBackfill p0) = .continued q)
    (hb : ∀ e ∈ q.rawEntryPoints, e.outputPathIndex < (q.rawOutputPaths.length : Int)) :
    ∃ r p1, resolve p0 m = some (r, p1) ∧
      p1.requestImpl.mSink.diagnostics =
        q.requestImpl.mSink.diagnostics ++ outputDiagnostics q ∧
      (∀ d ∈ outputDiagnostics q, d.isError = true → r = .SLANG_FAIL) ∧
      p1.requestImpl.targets.map (fun t => t.target) =
        (match inferredTarget q.chosenTarget q.rawOutputPaths with
         | some t => [t]
         | none => q.requestImpl.targets.map (fun t => t.target)) := by
  obtain ⟨r, p1, hres, hsink, hr, hiff, _, _, htargets, _, _⟩ :=
    resolve_after_profiles p0 m q hq (outputPasses_bound q m hb)
  refine ⟨r, p1, hres, ?_, ?_, htargets⟩
  · rw [hsink, diagnoseAll_diagnostics]
  · intro d hd herr
    rw [hsink] at hiff
    exact fail_of_error _ _ r hr hiff d hd herr

theorem associationDiagnostics_tooMany (entries : List RawEntryPoint)
    (outputs : List RawOutputPath) :
    (associationDiagnostics entries outputs).filter Diagnostic.isTooManyOutputPaths =
      if outputs.length > entries.length then
        [.tooManyOutputPathsSpecified outputs.length entries.length]
      else [] := by
  unfold associationDiagnostics
  split
  · rename_i h0
    rw [if_neg (by omega)]
    rfl
  · split
    · rename_i h1
      rw [if_neg (by omega)]
      rfl
    · split
      · rfl
      · split <;> rfl

theorem associationDiagnostics_missing (entries : List RawEntryPoint)
    (outputs : List RawOutputPath) (h1 : 1 < outputs.length) (h2 : 1 < entries.length)
    (h3 : ¬ outputs.length > entries.length)
    (h4 : ∃ e ∈ entries, e.outputPathIndex < 0) :
    ∃ pre e post, entries = pre ++ e :: post ∧ (∀ x ∈ pre, ¬ x.outputPathIndex < 0) ∧
      e.outputPathIndex < 0 ∧
      associationDiagnostics entries outputs = [.noOutputPathSpecifiedForEntryPoint e.name] := by
  cases hfind : entries.find? (fun entryPoint => decide (entryPoint.outputPathIndex < 0)) with
  | none =>
    obtain ⟨e, he, hlt⟩ := h4
    have := List.find?_eq_none.mp hfind e he
    simp only [decide_eq_true_eq] at this
    exact absurd hlt this
  | some e =>
    obtain ⟨hp, pre, post, hsplit, hpre⟩ := List.find?_eq_some.mp hfind
    refine ⟨pre, e, post, hsplit, ?_, by simpa using hp, ?_⟩
    · intro x hx
      have := hpre x hx
      simpa using this
    · unfold associationDiagnostics
      rw [if_neg (by omega), if_neg (by omega), if_neg h3, hfind]

/-- Target consistency when the chosen target is `SLANG_TARGET_NONE` or
`SLANG_TARGET_UNKNOWN` and there is an output path: the two searches. -/
theorem targetDiagnostics_inferring (chosenTarget : SlangCompileTarget) (first : RawOutputPath)
    (rest : List RawOutputPath)
    (hc : chosenTarget = .SLANG_TARGET_NONE ∨ chosenTarget = .SLANG_TARGET_UNKNOWN) :
    targetDiagnostics chosenTarget (first :: rest) =
      (match (first :: rest).find? (fun o => o.target == .SLANG_TARGET_UNKNOWN) with
       | some rawOutputPath => [.cannotDeduceOutputFormatFromPath rawOutputPath.path]
       | none =>
         match (first :: rest).find? (fun o => o.target != first.target) with
         | some rawOutputPath =>
           [.outputPathsImplyDifferentFormats first.path rawOutputPath.path]
         | none => []) ∧
    inferredTarget chosenTarget (first :: rest) =
      (match (first :: rest).find? (fun o => o.target == .SLANG_TARGET_UNKNOWN) with
       | some _ => none
       | none => some first.target) := by
  rcases hc with rfl | rfl <;> exact ⟨rfl, rfl⟩

theorem targetDiagnostics_explicit (chosenTarget : SlangCompileTarget)
    (outputs : List RawOutputPath)
    (h1 : chosenTarget ≠ .SLANG_TARGET_NONE) (h2 : chosenTarget ≠ .SLANG_TARGET_UNKNOWN) :
    targetDiagnostics chosenTarget outputs = [] ∧ inferredTarget chosenTarget outputs = none := by
  cases outputs with
  | nil => exact ⟨rfl, rfl⟩
  | cons first rest =>
    cases chosenTarget <;> first | exact ⟨rfl, rfl⟩ | exact absurd rfl h1 | exact absurd rfl h2

theorem targetDiagnostics_consistent (chosenTarget t : SlangCompileTarget)
    (outputs : List RawOutputPath)
    (hc : chosenTarget = .SLANG_TARGET_NONE ∨ chosenTarget = .SLANG_TARGET_UNKNOWN)
    (hne : outputs ≠ []) (hall : ∀ o ∈ outputs, o.target = t)
    (ht : t ≠ .SLANG_TARGET_UNKNOWN) :
    targetDiagnostics chosenTarget outputs = [] ∧
      inferredTarget chosenTarget outputs = some t := by
  cases outputs with
  | nil => exact absurd rfl hne
  | cons first rest =>
    obtain ⟨h1, h2⟩ := targetDiagnostics_inferring chosenTarget first rest hc
    have f1 : (first :: rest).find? (fun o => o.target == .SLANG_TARGET_UNKNOWN) = none := by
      apply List.find?_eq_none.mpr
      intro x hx
      rw [hall x hx]
      simpa using ht
    have f2 : (first :: rest).find? (fun o => o.target != first.target) = none := by
      apply List.find?_eq_none.mpr
      intro x hx
      rw [hall x hx, hall first (List.mem_cons_self _ _)]
      simp
    rw [h1, h2, f1, f2]
    exact ⟨rfl, by rw [hall first (List.mem_cons_self _ _)]⟩

theorem targetDiagnostics_unknown (chosenTarget : SlangCompileTarget)
    (outputs : List RawOutputPath)
    (hc : chosenTarget = .SLANG_TARGET_NONE ∨ chosenTarget = .SLANG_TARGET_UNKNOWN)
    (hex : ∃ o ∈ outputs, o.target = .SLANG_TARGET_UNKNOWN) :
    ∃ pre o post, outputs = pre ++ o :: post ∧
      (∀ x ∈ pre, x.target ≠ .SLANG_TARGET_UNKNOWN) ∧ o.target = .SLANG_TARGET_UNKNOWN ∧
      targetDiagnostics chosenTarget outputs = [.cannotDeduceOutputFormatFromPath o.path] ∧
      inferredTarget chosenTarget outputs = none := by
  cases outputs with
  | nil =>
    obtain ⟨o, ho, _⟩ := hex
    exact absurd ho (List.not_mem_nil _)
  | cons first rest =>
    obtain ⟨h1, h2⟩ := targetDiagnostics_inferring chosenTarget first rest hc
    cases hfind : (first :: rest).find? (fun o => o.target == .SLANG_TARGET_UNKNOWN) with
    | none =>
      obtain ⟨o, ho, hu⟩ := hex
      have := List.find?_eq_none.mp hfind o ho
      simp only [beq_iff_eq] at this
      exact absurd hu this
    | some o =>
      obtain ⟨hp, pre, post, hsplit, hpre⟩ := List.find?_eq_some.mp hfind
      rw [hfind] at h1 h2
      refine ⟨pre, o, post, hsplit, ?_, by simpa using hp, h1, h2⟩
      intro x hx
      have := hpre x hx
      simpa using this

theorem targetDiagnostics_inconsistent (chosenTarget : SlangCompileTarget)
    (outputs : List RawOutputPath)
    (hc : chosenTarget = .SLANG_TARGET_NONE ∨ chosenTarget = .SLANG_TARGET_UNKNOWN)
    (hknown : ∀ o ∈ outputs, o.target ≠ .SLANG_TARGET_UNKNOWN)
    (hdiff : ∃ a ∈ outputs, ∃ b ∈ outputs, a.target ≠ b.target) :
    ∃ first pre o post, outputs = first :: (pre ++ o :: post) ∧
      (∀ x ∈ pre, x.target = first.target) ∧ o.target ≠ first.target ∧
      targetDiagnostics chosenTarget outputs =
        [.outputPathsImplyDifferentFormats first.path o.path] ∧
      inferredTarget chosenTarget outputs = some first.target := by
  cases outputs with
  | nil =>
    obtain ⟨a, ha, _⟩ := hdiff
    exact absurd ha (List.not_mem_nil _)
  | cons first rest =>
    obtain ⟨h1, h2⟩ := targetDiagnostics_inferring chosenTarget first rest hc
    have f1 : (first :: rest).find? (fun o => o.target == .SLANG_TARGET_UNKNOWN) = none := by
      apply List.find?_eq_none.mpr
      intro x hx
      simpa using hknown x hx
    have hfirst : (first :: rest).find? (fun o => o.target != first.target) =
        rest.find? (fun o => o.target != first.target) := by
      rw [List.find?_cons_of_neg]
      simp
    rw [f1] at h1 h2
    simp only at h1 h2
    rw [hfirst] at h1
    cases hfind : rest.find? (fun o => o.target != first.target) with
    | none =>
      exfalso
      have hsame : ∀ x ∈ first :: rest, x.target = first.target := by
        intro x hx
        rcases List.mem_cons.mp hx with rfl | hx
        · rfl
        · have := List.find?_eq_none.mp hfind x hx
          simpa using this
      obtain ⟨a, ha, b, hb, hab⟩ := hdiff
      exact hab ((hsame a ha).trans (hsame b hb).symm)
    | some o =>
      obtain ⟨hp, pre, post, hsplit, hpre⟩ := List.find?_eq_some.mp hfind
      rw [hfind] at h1
      refine ⟨first, pre, o, post, by rw [hsplit], ?_, by simpa using hp, h1, h2⟩
      intro x hx
      have := hpre x hx
      simpa using this

theorem parseArgs_target_eq (spFindProfile : String → SlangProfileID) (arg name : String)
    (t : SlangCompileTarget) (harg : arg = "-backend" ∨ arg = "-target")
    (hname : codeGenTargetNames.lookup name = some t) (rest : List String)
    (p : OptionsParser) (m : SlangMatrixLayoutMode) :
    parseArgs spFindProfile (arg :: name :: rest) p m =
      parseArgs spFindProfile rest
        { p with chosenTarget := t, requestImpl := spSetCodeGenTarget p.requestImpl t } m := by
  rcases harg with rfl | rfl
  · rw [parseArgs.eq_def]
    simp [hname]
  · rw [parseArgs.eq_def]
    simp [hname]

theorem PlainStep.of_eq (p q : OptionsParser) (hs : SameTracked p q)
    (h1 : q.chosenTarget = p.chosenTarget)
    (h2 : q.requestImpl.targets = p.requestImpl.targets) : PlainStep p q :=
  ⟨hs, h1, h2⟩

/-- The loop reads one plain item and goes on with the tokens after it; the
fields the later passes read are unchanged. -/
theorem parseArgs_plain (spFindProfile : String → SlangProfileID) (i : CommandLineItem)
    (hwf : i.WellFormed spFindProfile) (hplain : i.isPlain = true) (p : OptionsParser)
    (m : SlangMatrixLayoutMode) :
    ∃ p1 m1, PlainStep p p1 ∧ ∀ rest, parseArgs spFindProfile (i.tokens ++ rest) p m =
      parseArgs spFindProfile rest p1 m1 := by
  cases i with
  | flag arg =>
    have harg : arg ∈ simpleFlags := hwf
    simp only [simpleFlags, List.mem_cons, List.mem_singleton, List.not_mem_nil, or_false]
      at harg
    rcases harg with rfl | rfl | rfl | rfl | rfl | rfl | rfl | rfl
    · refine ⟨{ p with flags := p.flags ||| SLANG_COMPILE_FLAG_NO_MANGLING }, m,
        ⟨⟨rfl, rfl, rfl, rfl, rfl, rfl, rfl, rfl, rfl, rfl, rfl⟩, rfl, rfl⟩, fun rest => ?_⟩
      simp only [CommandLineItem.tokens, List.singleton_append]
      rw [parseArgs.eq_def]
      simp
    · refine ⟨{ p with flags := p.flags ||| SLANG_COMPILE_FLAG_NO_CODEGEN }, m,
        ⟨⟨rfl, rfl, rfl, rfl, rfl, rfl, rfl, rfl, rfl, rfl, rfl⟩, rfl, rfl⟩, fun rest => ?_⟩
      simp only [CommandLineItem.tokens, List.singleton_append]
      rw [parseArgs.eq_def]
      simp
    · refine ⟨{ p with requestImpl := { p.requestImpl with shouldDumpIR := true } }, m,
        ⟨⟨rfl, rfl, rfl, rfl, rfl, rfl, rfl, rfl, rfl, rfl, rfl⟩, rfl, rfl⟩, fun rest => ?_⟩
      simp only [CommandLineItem.tokens, List.singleton_append]
      rw [parseArgs.eq_def]
      simp
    · refine ⟨{ p with requestImpl := { p.requestImpl with shouldValidateIR := true } }, m,
        ⟨⟨rfl, rfl, rfl, rfl, rfl, rfl, rfl, rfl, rfl, rfl, rfl⟩, rfl, rfl⟩, fun rest => ?_⟩
      simp only [CommandLineItem.tokens, List.singleton_append]
      rw [parseArgs.eq_def]
      simp
    · refine ⟨{ p with requestImpl := { p.requestImpl with shouldSkipCodegen := true } }, m,
        ⟨⟨rfl, rfl, rfl, rfl, rfl, rfl, rfl, rfl, rfl, rfl, rfl⟩, rfl, rfl⟩, fun rest => ?_⟩
      simp only [CommandLineItem.tokens, List.singleton_append]
      rw [parseArgs.eq_def]
      simp
    · refine ⟨{ p with targetFlags :=
          p.targetFlags ||| SLANG_TARGET_FLAG_PARAMETER_BLOCKS_USE_REGISTER_SPACES }, m,
        ⟨⟨rfl, rfl, rfl, rfl, rfl, rfl, rfl, rfl, rfl, rfl, rfl⟩, rfl, rfl⟩, fun rest => ?_⟩
      simp only [CommandLineItem.tokens, List.singleton_append]
      rw [parseArgs.eq_def]
      simp
    · refine ⟨p, .kMatrixLayoutMode_RowMajor,
        ⟨⟨rfl, rfl, rfl, rfl, rfl, rfl, rfl, rfl, rfl, rfl, rfl⟩, rfl, rfl⟩, fun rest => ?_⟩
      simp only [CommandLineItem.tokens, List.singleton_append]
      rw [parseArgs.eq_def]
      simp
    · refine ⟨p, .kMatrixLayoutMode_ColumnMajor,
        ⟨⟨rfl, rfl, rfl, rfl, rfl, rfl, rfl, rfl, rfl, rfl, rfl⟩, rfl, rfl⟩, fun rest => ?_⟩
      simp only [CommandLineItem.tokens, List.singleton_append]
      rw [parseArgs.eq_def]
      simp
  | passThrough name =>
    obtain ⟨passThrough, ht⟩ := Option.isSome_iff_exists.mp hwf
    refine ⟨{ p with requestImpl := spSetPassThrough p.requestImpl passThrough }, m,
      ⟨⟨rfl, rfl, rfl, rfl, rfl, rfl, rfl, rfl, rfl, rfl, rfl⟩, rfl, rfl⟩, fun rest => ?_⟩
    simp only [CommandLineItem.tokens, List.cons_append, List.nil_append]
    rw [parseArgs.eq_def]
    simp [ht]
  | joined arg =>
    obtain ⟨h0, h1, h2⟩ := hwf
    rcases h1 with h1 | h1
    · obtain ⟨n1, n2, n3, n4, n5, n6, n7, n8, n9, n10, n11, n12, n13, n14, n15⟩ :=
        named_options_second_char arg 'D' h1 (Or.inl rfl)
      obtain ⟨kv, hkv⟩ : ∃ kv, kv = splitDefine (String.mk (arg.data.drop 2)) := ⟨_, rfl⟩
      refine ⟨{ p with requestImpl := spAddPreprocessorDefine p.requestImpl kv.1 kv.2 }, m,
        ⟨⟨rfl, rfl, rfl, rfl, rfl, rfl, rfl, rfl, rfl, rfl, rfl⟩, rfl, rfl⟩, fun rest => ?_⟩
      simp only [CommandLineItem.tokens, List.singleton_append]
      rw [parseArgs.eq_def]
      simp [h0, h1, h2, n1, n2, n3, n4, n5, n6, n7, n8, n9, n10, n11, hkv]
    · obtain ⟨n1, n2, n3, n4, n5, n6, n7, n8, n9, n10, n11, n12, n13, n14, n15⟩ :=
        named_options_second_char arg 'I' h1 (Or.inr rfl)
      refine ⟨{ p with requestImpl := spAddSearchPath p.requestImpl ⟨arg.data.drop 2⟩ }, m,
        ⟨⟨rfl, rfl, rfl, rfl, rfl, rfl, rfl, rfl, rfl, rfl, rfl⟩, rfl, rfl⟩, fun rest => ?_⟩
      simp only [CommandLineItem.tokens, List.singleton_append]
      rw [parseArgs.eq_def]
      simp [h0, h1, h2, n1, n2, n3, n4, n5, n6, n7, n8, n9, n10, n11]
  | spaced arg value =>
    have harg : arg = "-D" ∨ arg = "-I" := hwf
    rcases harg with rfl | rfl
    · obtain ⟨kv, hkv⟩ : ∃ kv, kv = splitDefine value := ⟨_, rfl⟩
      refine ⟨{ p with requestImpl := spAddPreprocessorDefine p.requestImpl kv.1 kv.2 }, m,
        ⟨⟨rfl, rfl, rfl, rfl, rfl, rfl, rfl, rfl, rfl, rfl, rfl⟩, rfl, rfl⟩, fun rest => ?_⟩
      simp only [CommandLineItem.tokens, List.cons_append, List.nil_append]
      rw [parseArgs.eq_def]
      simp [hkv]
    · refine ⟨{ p with requestImpl := spAddSearchPath p.requestImpl value }, m,
        ⟨⟨rfl, rfl, rfl, rfl, rfl, rfl, rfl, rfl, rfl, rfl, rfl⟩, rfl, rfl⟩, fun rest => ?_⟩
      simp only [CommandLineItem.tokens, List.cons_append, List.nil_append]
      rw [parseArgs.eq_def]
      simp
  | target _ _ => cases hplain
  | profile _ => cases hplain
  | entry _ => cases hplain
  | output _ => cases hplain
  | input _ => cases hplain

theorem addInputPath_ok_of_classifies (p : OptionsParser) (path : String)
    (hreq : p.requestImpl.translationUnits.length = p.rawTranslationUnits.length)
    (hc : EndsWith path ".slang" = true ∨
      (findSourceLanguageFromPath path).1 ≠ .SLANG_SOURCE_LANGUAGE_UNKNOWN) :
    ∃ p1, addInputPath p path = some (.SLANG_OK, p1) := by
  cases hs : EndsWith path ".slang" with
  | true =>
    by_cases hnone : p.slangTranslationUnit = -1
    · exact ⟨_, addInputPath_slang_first p path hs hnone hreq⟩
    · exact ⟨_, addInputPath_slang_next p path hs hnone⟩
  | false =>
    rcases hc with hc | hc
    · rw [hs] at hc
      cases hc
    · exact ⟨_, addInputPath_foreign p path (findSourceLanguageFromPath path).1
        (findSourceLanguageFromPath path).2 hs rfl hc hreq⟩

/-- The loop reads one well-formed item and goes on with the tokens after it,
for any relation the steps of the loop keep. -/
theorem item_sound (spFindProfile : String → SlangProfileID)
    (R : List CommandLineItem → OptionsParser → Prop) (hR : ItemClosed spFindProfile R)
    (i : CommandLineItem) (hwf : i.WellFormed spFindProfile) (done : List CommandLineItem)
    (p : OptionsParser) (m : SlangMatrixLayoutMode) (h : R done p) :
    ∃ p1 m1, R (done ++ [i]) p1 ∧
      ∀ rest, parseArgs spFindProfile (i.tokens ++ rest) p m =
        parseArgs spFindProfile rest p1 m1 := by
  cases hi : i.isPlain with
  | true =>
    obtain ⟨p1, m1, hs, heq⟩ := parseArgs_plain spFindProfile i hwf hi p m
    exact ⟨p1, m1, hR.plain done p p1 i h hs hi, heq⟩
  | false =>
    cases i with
    | flag _ => cases hi
    | passThrough _ => cases hi
    | joined _ => cases hi
    | spaced _ _ => cases hi
    | target arg name =>
      obtain ⟨t, ht⟩ := Option.isSome_iff_exists.mp hwf.2
      exact ⟨_, m, hR.target done p arg name t h ht,
        fun rest => parseArgs_target_eq spFindProfile arg name t hwf.1 ht rest p m⟩
    | profile name =>
      exact ⟨_, m, hR.profile done p name h hwf,
        fun rest => parseArgs_profile spFindProfile name hwf rest p m⟩
    | entry name =>
      exact ⟨_, m, hR.entry done p name h,
        fun rest => parseArgs_entry spFindProfile name rest p m⟩
    | output path =>
      exact ⟨_, m, hR.output done p path h,
        fun rest => parseArgs_output spFindProfile path rest p m⟩
    | input path =>
      obtain ⟨p1, hp1⟩ := addInputPath_ok_of_classifies p path (hR.units done p h) hwf.2
      refine ⟨p1, m, hR.input done p p1 path h hp1, fun rest => ?_⟩
      simp only [CommandLineItem.tokens, List.singleton_append]
      rw [parseArgs_input spFindProfile path rest p m hwf.1, hp1]

/-- The loop reads a list of well-formed items and goes on with the tokens
after them, for any relation the steps of the loop keep. -/
theorem items_sound (spFindProfile : String → SlangProfileID)
    (R : List CommandLineItem → OptionsParser → Prop) (hR : ItemClosed spFindProfile R)
    (items : List CommandLineItem) :
    ∀ (done : List CommandLineItem) (p : OptionsParser) (m : SlangMatrixLayoutMode),
      R done p → (∀ i ∈ items, i.WellFormed spFindProfile) →
      ∃ p1 m1, R (done ++ items) p1 ∧
        ∀ rest, parseArgs spFindProfile (tokensOf items ++ rest) p m =
          parseArgs spFindProfile rest p1 m1 := by
  induction items with
  | nil =>
    intro done p m h _
    exact ⟨p, m, by simpa using h, fun rest => rfl⟩
  | cons i rest ih =>
    intro done p m h hwf
    obtain ⟨p1, m1, h1, heq1⟩ :=
      item_sound spFindProfile R hR i (hwf i (List.mem_cons_self _ _)) done p m h
    obtain ⟨p2, m2, h2, heq2⟩ :=
      ih (done ++ [i]) p1 m1 h1 (fun j hj => hwf j (List.mem_cons_of_mem _ hj))
    refine ⟨p2, m2, by simpa using h2, fun tail => ?_⟩
    simp only [tokensOf, List.flatMap_cons, List.append_assoc]
    rw [heq1]
    exact heq2 tail

theorem inputs_complete (spFindProfile : String → SlangProfileID)
    (R : List CommandLineItem → OptionsParser → Prop) (hR : ItemClosed spFindProfile R)
    (paths : List String) :
    ∀ (done : List CommandLineItem) (p p1 : OptionsParser), R done p →
      addInputPaths paths p = some (.SLANG_OK, p1) →
      R (done ++ paths.map CommandLineItem.input) p1 ∧
      ∀ path ∈ paths, EndsWith path ".slang" = true ∨
        (findSourceLanguageFromPath path).1 ≠ .SLANG_SOURCE_LANGUAGE_UNKNOWN := by
  induction paths with
  | nil =>
    intro done p p1 ht h
    simp only [addInputPaths, Option.some.injEq, Prod.mk.injEq, true_and] at h
    subst h
    exact ⟨by simpa using ht, fun _ h => absurd h (List.not_mem_nil _)⟩
  | cons path rest ih =>
    intro done p p1 ht h
    simp only [addInputPaths] at h
    split at h
    · exact absurd h (by simp)
    · rename_i q hq
      have hc := addInputPath_ok_classifies p q path hq
      obtain ⟨g1, g2⟩ := ih (done ++ [.input path]) q p1 (hR.input done p q path ht hq) h
      refine ⟨by simpa using g1, ?_⟩
      intro x hx
      rcases List.mem_cons.mp hx with rfl | hx
      · exact hc
      · exact g2 x hx
    · rename_i r q hne hq
      simp only [Option.some.injEq, Prod.mk.injEq] at h
      exact absurd h.1 hne

theorem complete_step_of {spFindProfile : String → SlangProfileID}
    {R : List CommandLineItem → OptionsParser → Prop} {done : List CommandLineItem}
    {i : CommandLineItem} {args cursor : List String} {p1 : OptionsParser}
    (wf : i.WellFormed spFindProfile) (hargs : args = i.tokens ++ cursor)
    (hrec : ∃ items, Reads spFindProfile cursor items ∧ R ((done ++ [i]) ++ items) p1) :
    ∃ items, Reads spFindProfile args items ∧ R (done ++ items) p1 := by
  obtain ⟨items, hr, ht⟩ := hrec
  exact ⟨i :: items, Reads_cons wf hargs hr, by simpa using ht⟩

/-- Every command line the loop reads to the end is made of items, for any
relation the steps of the loop keep. -/
theorem reads_complete (spFindProfile : String → SlangProfileID)
    (R : List CommandLineItem → OptionsParser → Prop) (hR : ItemClosed spFindProfile R)
    (args : List String) (p : OptionsParser) (m : SlangMatrixLayoutMode) :
    ∀ (done : List CommandLineItem) (p1 : OptionsParser) (m1 : SlangMatrixLayoutMode),
      R done p → parseArgs spFindProfile args p m = .finished p1 m1 →
      ∃ items, Reads spFindProfile args items ∧ R (done ++ items) p1 := by
  induction args, p, m using parseArgs.induct spFindProfile
  all_goals (intro done p1 m1 ht h)
  all_goals (try unfold parseArgs at h)
  all_goals (try simp only [*, if_true, if_false, not_false_eq_true, not_true_eq_false] at h)
  all_goals (try (cases h; done))
  case case1 =>
    injection h with h1 h2
    subst h1
    exact ⟨[], Reads_nil _, by simpa using ht⟩
  case case2 =>
    have ih := ‹∀ (done : List CommandLineItem) (p1 : OptionsParser)
      (m1 : SlangMatrixLayoutMode), R done _ → _ = _ → _›
    refine complete_step_of (i := .flag _) ?_ rfl ?_
    · simp [CommandLineItem.WellFormed, simpleFlags]
    · refine ih _ _ _ ?_ h
      refine hR.plain _ _ _ _ ht ?_ ?_
      · exact ⟨⟨rfl, rfl, rfl, rfl, rfl, rfl, rfl, rfl, rfl, rfl, rfl⟩, rfl, rfl⟩
      · rfl
  case case3 =>
    have ih := ‹∀ (done : List CommandLineItem) (p1 : OptionsParser)
      (m1 : SlangMatrixLayoutMode), R done _ → _ = _ → _›
    refine complete_step_of (i := .flag _) ?_ rfl ?_
    · simp [CommandLineItem.WellFormed, simpleFlags]
    · refine ih _ _ _ ?_ h
      refine hR.plain _ _ _ _ ht ?_ ?_
      · exact ⟨⟨rfl, rfl, rfl, rfl, rfl, rfl, rfl, rfl, rfl, rfl, rfl⟩, rfl, rfl⟩
      · rfl
  case case4 =>
    have ih := ‹∀ (done : List CommandLineItem) (p1 : OptionsParser)
      (m1 : SlangMatrixLayoutMode), R done _ → _ = _ → _›
    refine complete_step_of (i := .flag _) ?_ rfl ?_
    · simp [CommandLineItem.WellFormed, simpleFlags]
    · refine ih _ _ _ ?_ h
      refine hR.plain _ _ _ _ ht ?_ ?_
      · exact ⟨⟨rfl, rfl, rfl, rfl, rfl, rfl, rfl, rfl, rfl, rfl, rfl⟩, rfl, rfl⟩
      · rfl
  case case5 =>
    have ih := ‹∀ (done : List CommandLineItem) (p1 : OptionsParser)
      (m1 : SlangMatrixLayoutMode), R done _ → _ = _ → _›
    refine complete_step_of (i := .flag _) ?_ rfl ?_
    · simp [CommandLineItem.WellFormed, simpleFlags]
    · refine ih _ _ _ ?_ h
      refine hR.plain _ _ _ _ ht ?_ ?_
      · exact ⟨⟨rfl, rfl, rfl, rfl, rfl, rfl, rfl, rfl, rfl, rfl, rfl⟩, rfl, rfl⟩
      · rfl
  case case6 =>
    have ih := ‹∀ (done : List CommandLineItem) (p1 : OptionsParser)
      (m1 : SlangMatrixLayoutMode), R done _ → _ = _ → _›
    refine complete_step_of (i := .flag _) ?_ rfl ?_
    · simp [CommandLineItem.WellFormed, simpleFlags]
    · refine ih _ _ _ ?_ h
      refine hR.plain _ _ _ _ ht ?_ ?_
      · exact ⟨⟨rfl, rfl, rfl, rfl, rfl, rfl, rfl, rfl, rfl, rfl, rfl⟩, rfl, rfl⟩
      · rfl
  case case7 =>
    have ih := ‹∀ (done : List CommandLineItem) (p1 : OptionsParser)
      (m1 : SlangMatrixLayoutMode), R done _ → _ = _ → _›
    refine complete_step_of (i := .flag _) ?_ rfl ?_
    · simp [CommandLineItem.WellFormed, simpleFlags]
    · refine ih _ _ _ ?_ h
      refine hR.plain _ _ _ _ ht ?_ ?_
      · exact ⟨⟨rfl, rfl, rfl, rfl, rfl, rfl, rfl, rfl, rfl, rfl, rfl⟩, rfl, rfl⟩
      · rfl
  case case27 =>
    have ih := ‹∀ (done : List CommandLineItem) (p1 : OptionsParser)
      (m1 : SlangMatrixLayoutMode), R done _ → _ = _ → _›
    refine complete_step_of (i := .flag _) ?_ rfl ?_
    · simp [CommandLineItem.WellFormed, simpleFlags]
    · refine ih _ _ _ ?_ h
      refine hR.plain _ _ _ _ ht ?_ ?_
      · exact ⟨⟨rfl, rfl, rfl, rfl, rfl, rfl, rfl, rfl, rfl, rfl, rfl⟩, rfl, rfl⟩
      · rfl
  case case28 =>
    have ih := ‹∀ (done : List CommandLineItem) (p1 : OptionsParser)
      (m1 : SlangMatrixLayoutMode), R done _ → _ = _ → _›
    refine complete_step_of (i := .flag _) ?_ rfl ?_
    · simp [CommandLineItem.WellFormed, simpleFlags]
    · refine ih _ _ _ ?_ h
      refine hR.plain _ _ _ _ ht ?_ ?_
      · exact ⟨⟨rfl, rfl, rfl, rfl, rfl, rfl, rfl, rfl, rfl, rfl, rfl⟩, rfl, rfl⟩
      · rfl
  case case10 =>
    have ih := ‹∀ (done : List CommandLineItem) (p1 : OptionsParser)
      (m1 : SlangMatrixLayoutMode), R done _ → _ = _ → _›
    have hname := ‹List.lookup _ codeGenTargetNames = some _›
    have harg := ‹_ = "-backend" ∨ _ = "-target"›
    refine complete_step_of (i := .target _ _) ⟨harg, ?_⟩ rfl ?_
    · rw [hname]
      rfl
    · refine ih _ _ _ ?_ h
      exact hR.target _ _ _ _ _ ht hname
  case case12 =>
    have hu : spFindProfile _ = SlangProfileID.SLANG_PROFILE_UNKNOWN :=
      ‹_ = SlangProfileID.SLANG_PROFILE_UNKNOWN›
    rw [if_pos hu] at h
    cases h
  case case13 =>
    have ih := ‹∀ (done : List CommandLineItem) (p1 : OptionsParser)
      (m1 : SlangMatrixLayoutMode), R done _ → _ = _ → _›
    have hne : ¬ spFindProfile _ = SlangProfileID.SLANG_PROFILE_UNKNOWN :=
      ‹¬ _ = SlangProfileID.SLANG_PROFILE_UNKNOWN›
    refine complete_step_of (i := .profile _) hne rfl ?_
    refine ih _ _ _ ?_ h
    exact hR.profile _ _ _ ht hne
  case case15 =>
    have ih := ‹∀ (done : List CommandLineItem) (p1 : OptionsParser)
      (m1 : SlangMatrixLayoutMode), R done _ → _ = _ → _›
    refine complete_step_of (i := .entry _) trivial rfl ?_
    refine ih _ _ _ ?_ h
    exact hR.entry _ _ _ ht
  case case18 =>
    have ih := ‹∀ (done : List CommandLineItem) (p1 : OptionsParser)
      (m1 : SlangMatrixLayoutMode), R done _ → _ = _ → _›
    have hname := ‹List.lookup _ passThroughNames = some _›
    refine complete_step_of (i := .passThrough _) ?_ rfl ?_
    · show (List.lookup _ passThroughNames).isSome = true
      rw [hname]
      rfl
    · refine ih _ _ _ ?_ h
      refine hR.plain _ _ _ _ ht ?_ ?_
      · exact ⟨⟨rfl, rfl, rfl, rfl, rfl, rfl, rfl, rfl, rfl, rfl, rfl⟩, rfl, rfl⟩
      · rfl
  case case20 =>
    have ih := ‹∀ (done : List CommandLineItem) (p1 : OptionsParser)
      (m1 : SlangMatrixLayoutMode), R done _ → _ = _ → _›
    have harg := two_char_option _ _ ‹_ = some '-'› ‹_ = some 'D'› ‹List.drop 2 _ = []›
    refine complete_step_of (i := .spaced _ _) ?_ rfl ?_
    · show _ = "-D" ∨ _ = "-I"
      rw [harg]
      decide
    · refine ih _ _ _ ?_ h
      refine hR.plain _ _ _ _ ht ?_ ?_
      · exact ⟨⟨rfl, rfl, rfl, rfl, rfl, rfl, rfl, rfl, rfl, rfl, rfl⟩, rfl, rfl⟩
      · rfl
  case case21 =>
    have ih := ‹∀ (done : List CommandLineItem) (p1 : OptionsParser)
      (m1 : SlangMatrixLayoutMode), R done _ → _ = _ → _›
    refine complete_step_of (i := .joined _) ?_ rfl ?_
    · exact ⟨‹_ = some '-'›, by simp [‹_ = some 'D'›], ‹¬ List.drop 2 _ = []›⟩
    · refine ih _ _ _ ?_ h
      refine hR.plain _ _ _ _ ht ?_ ?_
      · exact ⟨⟨rfl, rfl, rfl, rfl, rfl, rfl, rfl, rfl, rfl, rfl, rfl⟩, rfl, rfl⟩
      · rfl
  case case23 =>
    have ih := ‹∀ (done : List CommandLineItem) (p1 : OptionsParser)
      (m1 : SlangMatrixLayoutMode), R done _ → _ = _ → _›
    rw [if_neg (by decide)] at h
    have harg := two_char_option _ _ ‹_ = some '-'› ‹_ = some 'I'› ‹List.drop 2 _ = []›
    refine complete_step_of (i := .spaced _ _) ?_ rfl ?_
    · show _ = "-D" ∨ _ = "-I"
      rw [harg]
      decide
    · refine ih _ _ _ ?_ h
      refine hR.plain _ _ _ _ ht ?_ ?_
      · exact ⟨⟨rfl, rfl, rfl, rfl, rfl, rfl, rfl, rfl, rfl, rfl, rfl⟩, rfl, rfl⟩
      · rfl
  case case24 =>
    have ih := ‹∀ (done : List CommandLineItem) (p1 : OptionsParser)
      (m1 : SlangMatrixLayoutMode), R done _ → _ = _ → _›
    rw [if_neg (by decide)] at h
    refine complete_step_of (i := .joined _) ?_ rfl ?_
    · exact ⟨‹_ = some '-'›, by simp [‹_ = some 'I'›], ‹¬ List.drop 2 _ = []›⟩
    · refine ih _ _ _ ?_ h
      refine hR.plain _ _ _ _ ht ?_ ?_
      · exact ⟨⟨rfl, rfl, rfl, rfl, rfl, rfl, rfl, rfl, rfl, rfl, rfl⟩, rfl, rfl⟩
      · rfl
  case case26 =>
    have ih := ‹∀ (done : List CommandLineItem) (p1 : OptionsParser)
      (m1 : SlangMatrixLayoutMode), R done _ → _ = _ → _›
    refine complete_step_of (i := .output _) trivial rfl ?_
    refine ih _ _ _ ?_ h
    exact hR.output _ _ _ ht
  case case30 =>
    injection h with h1 h2
    subst h1
    obtain ⟨ht1, hok⟩ := inputs_complete spFindProfile R hR _ _ _ _ ht
      ‹addInputPaths _ _ = some _›
    exact ⟨_, Or.inr ⟨[], _, rfl, rfl, fun _ hi => absurd hi (List.not_mem_nil _), hok⟩,
      by simpa using ht1⟩
  case case34 =>
    have ih := ‹∀ (done : List CommandLineItem) (p1 : OptionsParser)
      (m1 : SlangMatrixLayoutMode), R done _ → _ = _ → _›
    have hadd := ‹addInputPath _ _ = some _›
    have hok := addInputPath_ok_classifies _ _ _ hadd
    refine complete_step_of (i := .input _) ⟨‹¬ _ = some '-'›, hok⟩ rfl ?_
    exact ih _ _ _ (hR.input _ _ _ _ ht hadd) h

theorem addOutputPath_rawOutputPaths (p : OptionsParser) (path : String) :
    (addOutputPath p path).rawOutputPaths =
      if EndsWith path ".slang-module" then p.rawOutputPaths
      else p.rawOutputPaths ++ [{ path := path, target := impliedTarget path }] := by
  cases hc : EndsWith path ".slang-module" with
  | true =>
    rw [addOutputPath_container p path hc]
    simp
  | false =>
    simp only [addOutputPath, impliedTarget, hc]
    split
    · simp [addOutputPathWithTarget]
    · simp [addOutputPathWithTarget]

theorem outputRecords_append_output (items : List CommandLineItem) (path : String) :
    outputRecords (items ++ [.output path]) =
      if EndsWith path ".slang-module" then outputRecords items
      else outputRecords items ++ [{ path := path, target := impliedTarget path }] := by
  unfold outputRecords outputPathsOf
  rw [List.filterMap_append]
  cases hc : EndsWith path ".slang-module" <;> simp [hc]

theorem TracksTargets_new (req : CompileRequest) :
    TracksTargets req.targets [] { requestImpl := req, flags := req.compileFlags } :=
  ⟨rfl, rfl, rfl⟩

/-- An item that is no `-target`, `-backend` or `-o`, read by a step that
leaves the chosen target, the targets and the output paths alone. -/
theorem TracksTargets_other {targets0 : List TargetRequest} {items : List CommandLineItem}
    {p q : OptionsParser} (ht : TracksTargets targets0 items p) (i : CommandLineItem)
    (i1 : targetsOf [i] = []) (i2 : outputPathsOf [i] = [])
    (h1 : q.chosenTarget = p.chosenTarget)
    (h2 : q.requestImpl.targets = p.requestImpl.targets)
    (h3 : q.rawOutputPaths = p.rawOutputPaths) :
    TracksTargets targets0 (items ++ [i]) q := by
  have e1 : targetsOf (items ++ [i]) = targetsOf items := by
    simp only [targetsOf, List.filterMap_append] at i1 ⊢
    rw [i1, List.append_nil]
  have e2 : outputPathsOf (items ++ [i]) = outputPathsOf items := by
    simp only [outputPathsOf, List.filterMap_append] at i2 ⊢
    rw [i2, List.append_nil]
  refine ⟨?_, ?_, ?_⟩
  · rw [h1, ht.chosen, chosenTargetOf, chosenTargetOf, e1]
  · rw [h2, ht.targets, chosenTargetOf, chosenTargetOf, e1]
  · rw [h3, ht.outputs, outputRecords, outputRecords, e2]

theorem TracksTargets_target {targets0 : List TargetRequest} {items : List CommandLineItem}
    {p : OptionsParser} (ht : TracksTargets targets0 items p) (arg name : String)
    (t : SlangCompileTarget) (hname : codeGenTargetNames.lookup name = some t) :
    TracksTargets targets0 (items ++ [.target arg name])
      { p with chosenTarget := t, requestImpl := spSetCodeGenTarget p.requestImpl t } := by
  have e1 : targetsOf (items ++ [.target arg name]) = targetsOf items ++ [t] := by
    simp [targetsOf, List.filterMap_append, hname]
  have e2 : outputPathsOf (items ++ [.target arg name]) = outputPathsOf items := by
    simp [outputPathsOf, List.filterMap_append]
  have e3 : chosenTargetOf (items ++ [.target arg name]) = t := by
    simp [chosenTargetOf, e1]
  refine ⟨?_, ?_, ?_⟩
  · rw [e3]
  · rw [e3, e1]
    simp [spSetCodeGenTarget]
  · show p.rawOutputPaths = _
    rw [ht.outputs, outputRecords, outputRecords, e2]

theorem TracksTargets_output {targets0 : List TargetRequest} {items : List CommandLineItem}
    {p : OptionsParser} (ht : TracksTargets targets0 items p) (path : String) :
    TracksTargets targets0 (items ++ [.output path]) (addOutputPath p path) := by
  have e1 : targetsOf (items ++ [.output path]) = targetsOf items := by
    simp [targetsOf, List.filterMap_append]
  obtain ⟨_, _, f3, _, _, _, f7⟩ := addOutputPath_frame p path
  refine ⟨?_, ?_, ?_⟩
  · rw [f7, ht.chosen, chosenTargetOf, chosenTargetOf, e1]
  · rw [f3, ht.targets, chosenTargetOf, chosenTargetOf, e1]
  · rw [addOutputPath_rawOutputPaths, outputRecords_append_output, ht.outputs]

theorem Scanned_new (spFindProfile : String → SlangProfileID) (req : CompileRequest)
    (hreq : req.translationUnits = []) :
    Scanned spFindProfile req.targets [] { requestImpl := req, flags := req.compileFlags } :=
  ⟨Tracks_new spFindProfile req hreq, TracksTargets_new req⟩

theorem isPlain_histories (i : CommandLineItem) (hi : i.isPlain = true) :
    profileNames [i] = [] ∧ entryNames [i] = [] ∧ outputPathsOf [i] = [] ∧
    inputPathsOf [i] = [] ∧ targetsOf [i] = [] := by
  cases i <;> first | exact ⟨rfl, rfl, rfl, rfl, rfl⟩ | cases hi

theorem ItemClosed_Scanned (spFindProfile : String → SlangProfileID)
    (targets0 : List TargetRequest) :
    ItemClosed spFindProfile (Scanned spFindProfile targets0) := by
  refine ⟨?_, ?_, ?_, ?_, ?_, ?_, ?_⟩
  · intro items p h
    exact h.1.inv.request_units
  · intro items p q i h hs hi
    obtain ⟨i1, i2, i3, i4, i5⟩ := isPlain_histories i hi
    exact ⟨hs.same.tracks h.1 i i1 i2 i3 i4,
      TracksTargets_other h.2 i i5 i3 hs.chosenTarget hs.targets hs.same.rawOutputPaths⟩
  · intro items p arg name t h hname
    refine ⟨?_, TracksTargets_target h.2 arg name t hname⟩
    refine SameTracked.tracks ?_ h.1 _ ?_ ?_ ?_ ?_
    · exact ⟨rfl, rfl, rfl, rfl, rfl, rfl, rfl, rfl, rfl, rfl, rfl⟩
    all_goals rfl
  · intro items p name h hne
    exact ⟨Tracks_profile h.1 name hne, TracksTargets_other h.2 _ rfl rfl rfl rfl rfl⟩
  · intro items p name h
    exact ⟨Tracks_entry h.1 name, TracksTargets_other h.2 _ rfl rfl rfl rfl rfl⟩
  · intro items p path h
    exact ⟨Tracks_output h.1 path, TracksTargets_output h.2 path⟩
  · intro items p p1 path h hadd
    have hok := addInputPath_ok_classifies p p1 path hadd
    obtain ⟨p2, h2, ht2, -⟩ := Tracks_input h.1 path hok
    rw [hadd] at h2
    injection h2 with h2
    injection h2 with _ h2
    subst h2
    obtain ⟨_, f2, _, f4, _, _, f7, _⟩ := addInputPath_frame p path _ p1 hadd
    exact ⟨ht2, TracksTargets_other h.2 _ rfl rfl f7 f2 f4⟩

/-- The scan of a command line made of well-formed items, from a new parser:
it reads the whole line, and the parser is the one the items describe. -/
theorem scanned_items (spFindProfile : String → SlangProfileID) (req : CompileRequest)
    (items : List CommandLineItem) (hreq : req.translationUnits = [])
    (hwf : ∀ i ∈ items, i.WellFormed spFindProfile) :
    ∃ p m, parseArgs spFindProfile (tokensOf items)
        { requestImpl := req, flags := req.compileFlags }
        .SLANG_MATRIX_LAYOUT_MODE_UNKNOWN = .finished p m ∧
      Scanned spFindProfile req.targets items p ∧ p.requestImpl.mSink = req.mSink ∧
      p.requestImpl.entryPoints = req.entryPoints ∧
      p.rawEntryPoints = entryRecords spFindProfile [] items := by
  obtain ⟨p, m, hscan, _, h1, h2, h3⟩ := scan_items spFindProfile req items hreq hwf
  obtain ⟨p1, m1, hs, heq⟩ := items_sound spFindProfile _
    (ItemClosed_Scanned spFindProfile req.targets) items []
    { requestImpl := req, flags := req.compileFlags } .SLANG_MATRIX_LAYOUT_MODE_UNKNOWN
    (Scanned_new spFindProfile req hreq) hwf
  have := heq []
  simp only [List.append_nil] at this
  rw [hscan, parseArgs.eq_def] at this
  injection this with e1 e2
  subst e1
  exact ⟨p, m, hscan, by simpa using hs, h1, h2, h3⟩

/-- A scan that reads the whole command line from a new parser: the command
line is made of items, and the parser is the one the items describe. -/
theorem scanned_finished (spFindProfile : String → SlangProfileID) (req : CompileRequest)
    (args : List String) (p : OptionsParser) (m : SlangMatrixLayoutMode)
    (hreq : req.translationUnits = [])
    (hscan : parseArgs spFindProfile args { requestImpl := req, flags := req.compileFlags }
      .SLANG_MATRIX_LAYOUT_MODE_UNKNOWN = .finished p m) :
    ∃ items, Reads spFindProfile args items ∧ Scanned spFindProfile req.targets items p ∧
      p.requestImpl.mSink = req.mSink ∧ p.requestImpl.entryPoints = req.entryPoints := by
  obtain ⟨items, hr, hs⟩ := reads_complete spFindProfile _
    (ItemClosed_Scanned spFindProfile req.targets) args _ _ [] p m
    (Scanned_new spFindProfile req hreq) hscan
  obtain ⟨_, _, _, h1, h2⟩ := scan_finished spFindProfile req args p m hreq hscan
  exact ⟨items, hr, by simpa using hs, h1, h2⟩

/-- A list of units whose unit `i` carries index `i` is determined by the
languages and implicit profiles of its units. -/
theorem units_eq (l : List RawTranslationUnit)
    (h : l.map (fun u => u.translationUnitIndex) = (List.range l.length).map Int.ofNat) :
    l = ((l.map (fun u => (u.sourceLanguage, u.implicitProfile))).enum).map numberedUnit := by
  apply List.ext_getElem
  · simp
  · intro n h1 h2
    have hlen1 : n < (l.map (fun u => u.translationUnitIndex)).length := by simpa using h1
    have hlen2 : n < ((List.range l.length).map Int.ofNat).length := by simpa using h1
    have hidx : (l.map (fun u => u.translationUnitIndex))[n] =
        ((List.range l.length).map Int.ofNat)[n] := by
      simp only [h]
    simp only [List.getElem_map, List.getElem_range] at hidx
    simp only [List.getElem_map, List.getElem_enum, numberedUnit]
    have hn : ((n : Nat) : Int) = l[n].translationUnitIndex := hidx.symm
    rw [hn]

theorem applyProfiles_known (q : OptionsParser)
    (h : ∀ e ∈ q.rawEntryPoints, e.profileID ≠ .SLANG_PROFILE_UNKNOWN) :
    applyProfiles q = .continued q := by
  rcases applyProfiles_cases q with ⟨⟨e, he, hu⟩, _⟩ | ⟨⟨e, he, hu⟩, _⟩ | ⟨_, _, happ⟩
  · exact absurd hu (h e he)
  · exact absurd hu (h e he)
  · rw [happ]
    have hmap : q.rawEntryPoints.map (fun e =>
        if e.profileID = .SLANG_PROFILE_UNKNOWN then { e with profileID := q.currentProfileID }
        else e) = q.rawEntryPoints := by
      conv_rhs => rw [← List.map_id q.rawEntryPoints]
      apply List.map_congr_left
      intro e he
      rw [if_neg (h e he)]
      rfl
    rw [hmap]

/-- The scan of a command line made of well-formed items, from a new parser,
and the parser profile backfill starts from. -/
theorem parse_items_state (spFindProfile : String → SlangProfileID) (req : CompileRequest)
    (items : List CommandLineItem) (hreq : req.translationUnits = [])
    (hwf : ∀ i ∈ items, i.WellFormed spFindProfile) :
    ∃ p m, parseArgs spFindProfile (tokensOf items)
        { requestImpl := req, flags := req.compileFlags }
        .SLANG_MATRIX_LAYOUT_MODE_UNKNOWN = .finished p m ∧
      ({ requestImpl := req } : OptionsParser).parse spFindProfile (tokensOf items) =
        resolve p m ∧
      (beforeProfileBackfill p).rawEntryPoints = entryPointsOf spFindProfile items ∧
      (beforeProfileBackfill p).rawOutputPaths = outputRecords items ∧
      (beforeProfileBackfill p).chosenTarget = chosenTargetOf items ∧
      (beforeProfileBackfill p).requestImpl.targets =
        (if targetsOf items = [] then req.targets
         else [{ target := chosenTargetOf items }]) ∧
      (beforeProfileBackfill p).requestImpl.mSink = req.mSink ∧
      (beforeProfileBackfill p).requestImpl.entryPoints = req.entryPoints ∧
      (beforeProfileBackfill p).translationUnitCount =
        ((expectedUnits (inputPathsOf items)).length : Int) ∧
      (beforeProfileBackfill p).currentProfileID = lastProfile spFindProfile items ∧
      (beforeProfileBackfill p).profileOptionCount = ((profileNames items).length : Int) ∧
      (lastProfile spFindProfile items = .SLANG_PROFILE_UNKNOWN ↔ profileNames items = []) ∧
      (∀ e ∈ (beforeProfileBackfill p).rawEntryPoints,
        e.outputPathIndex < ((beforeProfileBackfill p).rawOutputPaths.length : Int)) := by
  obtain ⟨p, m, hscan, hs, h1, h2, h3⟩ := scanned_items spFindProfile req items hreq hwf
  have hparse := parse_of_finished spFindProfile req (tokensOf items) p m hscan
  have h0 := beforeProfileBackfill_eq p
  have hunits : p.rawTranslationUnits = unitRecords items := by
    have := units_eq p.rawTranslationUnits hs.1.inv.unit_index
    rw [hs.1.units] at this
    exact this
  have hcount : p.translationUnitCount = ((expectedUnits (inputPathsOf items)).length : Int) := by
    rw [hs.1.inv.unit_count, ← hs.1.units, List.length_map]
  have hentries : (beforeProfileBackfill p).rawEntryPoints = entryPointsOf spFindProfile items := by
    rw [h0]
    simp only [entryPointsOf, h3, hs.1.profile, hunits]
  have hnone : lastProfile spFindProfile items = .SLANG_PROFILE_UNKNOWN ↔
      profileNames items = [] := by
    rw [← hs.1.profile, hs.1.inv.profile_count.2, hs.1.profileCount, ← List.length_eq_zero]
    omega
  refine ⟨p, m, hscan, hparse, hentries, ?_, ?_, ?_, ?_, ?_, ?_, ?_, ?_, hnone, ?_⟩
  · rw [h0]
    exact hs.2.outputs
  · rw [h0]
    exact hs.2.chosen
  · rw [h0]
    exact hs.2.targets
  · rw [h0]
    exact h1
  · rw [h0]
    exact h2
  · rw [h0]
    exact hcount
  · rw [h0]
    exact hs.1.profile
  · rw [h0]
    exact hs.1.profileCount
  · intro e he
    rw [h0] at he ⊢
    simp only at he ⊢
    split at he
    · simp only [implicitEntryPointsFor, List.mem_map] at he
      obtain ⟨u, _, rfl⟩ := he
      simp only [implicitEntryPoint]
      omega
    · exact (hs.1.inv.entry_output e he).2

theorem translationUnitDiagnostics_single (e : RawEntryPoint) (count : Int) :
    translationUnitDiagnostics [e] count =
      if e.translationUnitIndex = -1 ∧ count ≠ 1 then [.multipleTranslationUnitsNeedEntryPoints]
      else [] := by
  simp [translationUnitDiagnostics]

/-- One entry point and one output path after profile backfill: what the
later passes do. -/
theorem single_output_single_entry_state (p0 : OptionsParser) (m : SlangMatrixLayoutMode)
    (q : OptionsParser) (e : RawEntryPoint) (o : RawOutputPath)
    (hq : applyProfiles (beforeProfileBackfill p0) = .continued q)
    (he : q.rawEntryPoints = [e]) (ho : q.rawOutputPaths = [o]) :
    (outputPasses q m).rawEntryPoints = [{ e with outputPathIndex := 0 }] ∧
    ∃ r p1 ds, resolve p0 m = some (r, p1) ∧
      p1.requestImpl.mSink.diagnostics = q.requestImpl.mSink.diagnostics ++ ds ∧
      ds.filter Diagnostic.isTooManyOutputPaths = [] ∧
      ds.filter Diagnostic.isMissingOutputPath = [] ∧
      p1.rawEntryPoints = [backfillTranslationUnit { e with outputPathIndex := 0 }] ∧
      p1.requestImpl.entryPoints = q.requestImpl.entryPoints ++
        (if e.translationUnitIndex = -1 ∧ q.translationUnitCount ≠ 1 then []
         else [{ translationUnitIndex := (backfillTranslationUnit e).translationUnitIndex
                 name := e.name
                 profile := e.profileID
                 outputPath := o.path }]) := by
  have hentries : (outputPasses q m).rawEntryPoints = [{ e with outputPathIndex := 0 }] := by
    rw [outputPasses_rawEntryPoints, he, ho]
    rfl
  refine ⟨hentries, ?_⟩
  obtain ⟨r, p1, hres, hsink, _, _, hes, _, _, hreg, hnot⟩ :=
    resolve_after_profiles p0 m q hq (by
      intro e1 he1
      rw [hentries] at he1
      rw [List.mem_singleton.mp he1, ho]
      show (0 : Int) < 1
      decide)
  have hassoc : associationDiagnostics q.rawEntryPoints q.rawOutputPaths = [] := by
    rw [he, ho]
    rfl
  obtain ⟨f1, f2, _, _⟩ := outputDiagnostics_filter q
  refine ⟨r, p1, outputDiagnostics q, hres, ?_, ?_, ?_, ?_, ?_⟩
  · rw [hsink, diagnoseAll_diagnostics]
  · rw [f1, hassoc]
    rfl
  · rw [f2, hassoc]
    rfl
  · rw [hes, hentries]
    rfl
  · rw [he, translationUnitDiagnostics_single] at hreg hnot
    by_cases hc : e.translationUnitIndex = -1 ∧ q.translationUnitCount ≠ 1
    · rw [if_pos hc] at hnot ⊢
      rw [hnot (by simp), List.append_nil]
    · rw [if_neg hc] at hreg ⊢
      rw [hreg rfl, hes, hentries, ho]
      simp only [List.map_cons, List.map_nil, registeredEntryPoint, backfillTranslationUnit]
      split <;> rfl

/-- One entry point and one output path on a command line of well-formed
items: what `parse` returns. -/
theorem single_output_single_entry_items (spFindProfile : String → SlangProfileID)
    (req : CompileRequest) (items : List CommandLineItem) (e : RawEntryPoint) (path : String)
    (hreq : req.translationUnits = [])
    (hwf : ∀ i ∈ items, i.WellFormed spFindProfile)
    (he : entryPointsOf spFindProfile items = [e]) (ho : outputPathsOf items = [path])
    (hprofile : e.profileID = .SLANG_PROFILE_UNKNOWN → profileNames items ≠ []) :
    ∃ r p1 ds, ({ requestImpl := req } : OptionsParser).parse spFindProfile (tokensOf items) =
        some (r, p1) ∧
      p1.requestImpl.mSink.diagnostics = req.mSink.diagnostics ++ ds ∧
      ds.filter Diagnostic.isTooManyOutputPaths = [] ∧
      ds.filter Diagnostic.isMissingOutputPath = [] ∧
      p1.rawEntryPoints.map (fun x => (x.name, x.outputPathIndex)) = [(e.name, 0)] ∧
      p1.requestImpl.entryPoints = req.entryPoints ++
        (if e.translationUnitIndex = -1 ∧ (expectedUnits (inputPathsOf items)).length ≠ 1
         then []
         else [{ translationUnitIndex := (backfillTranslationUnit e).translationUnitIndex
                 name := e.name
                 profile :=
                   if e.profileID = .SLANG_PROFILE_UNKNOWN then lastProfile spFindProfile items
                   else e.profileID
                 outputPath := path }]) := by
  obtain ⟨p, m, _, hparse, hentries, houts, _, _, hsink, hreg, hcount, hcur, _, hnone, _⟩ :=
    parse_items_state spFindProfile req items hreq hwf
  rw [he] at hentries
  have houts1 : (beforeProfileBackfill p).rawOutputPaths =
      [{ path := path, target := impliedTarget path }] := by
    rw [houts, outputRecords, ho]
    rfl
  rcases applyProfiles_cases (beforeProfileBackfill p) with
    ⟨⟨x, hx, hxu⟩, hcu, _⟩ | ⟨_, _, _, hlen, _⟩ | ⟨_, _, happ⟩
  · rw [hentries, List.mem_singleton] at hx
    subst hx
    rw [hcur] at hcu
    exact absurd (hnone.mp hcu) (hprofile hxu)
  · rw [hentries] at hlen
    exact absurd hlen (Nat.lt_irrefl 1)
  · rw [hentries] at happ
    obtain ⟨_, r, p1, ds, hres, hds, f1, f2, hes, hregs⟩ :=
      single_output_single_entry_state p m _ _ _ happ rfl houts1
    refine ⟨r, p1, ds, hparse.trans hres, ?_, f1, f2, ?_, ?_⟩
    · rw [hds]
      show (beforeProfileBackfill p).requestImpl.mSink.diagnostics ++ ds = _
      rw [hsink]
    · rw [hes]
      simp only [List.map_cons, List.map_nil, backfillTranslationUnit]
      split <;> split <;> rfl
    · rw [hregs]
      show (beforeProfileBackfill p).requestImpl.entryPoints ++ _ = _
      rw [hreg, hcur]
      by_cases hu : e.profileID = .SLANG_PROFILE_UNKNOWN
      · simp only [if_pos hu]
        simp only [backfillTranslationUnit]
        by_cases h1 : e.translationUnitIndex = -1 <;>
          simp [h1, hcount]
      · simp only [if_neg hu]
        simp only [backfillTranslationUnit]
        by_cases h1 : e.translationUnitIndex = -1 <;>
          simp [h1, hcount]
theorem wellFormed_x_hlsl (spFindProfile : String → SlangProfileID) :
    (CommandLineItem.input "x.hlsl").WellFormed spFindProfile :=
  wellFormed_input _ _ (by decide) (by decide)

theorem wellFormed_x_frag (spFindProfile : String → SlangProfileID) :
    (CommandLineItem.input "x.frag").WellFormed spFindProfile :=
  wellFormed_input _ _ (by decide) (by decide)

theorem outputPathsOf_output (path : String) (h : EndsWith path ".slang-module" = false) :
    outputPathsOf [.output path] = [path] := by
  simp [outputPathsOf, h]

theorem entryPointsOf_entry_then_output (spFindProfile : String → SlangProfileID)
    (name n path : String) :
    entryPointsOf spFindProfile [.input "x.hlsl", .profile n, .entry name, .output path] =
      [{ name := name, profileID := spFindProfile n, translationUnitIndex := 0,
         outputPathIndex := -1 }] := by
  have t : touchedUnit ["x.hlsl"] = 0 := by decide
  simp [entryPointsOf, entryRecords, lastProfile, profileNames, inputPathsOf, outputPathsOf, t]

theorem entryPointsOf_output_then_entry (spFindProfile : String → SlangProfileID)
    (name n path : String) (h : EndsWith path ".slang-module" = false) :
    entryPointsOf spFindProfile [.output path, .input "x.hlsl", .profile n, .entry name] =
      [{ name := name, profileID := spFindProfile n, translationUnitIndex := 0,
         outputPathIndex := 0 }] := by
  have t : touchedUnit ["x.hlsl"] = 0 := by decide
  simp [entryPointsOf, entryRecords, lastProfile, profileNames, inputPathsOf, outputPathsOf, t, h]

theorem entryPointsOf_implicit (spFindProfile : String → SlangProfileID) (path : String) :
    entryPointsOf spFindProfile [.input "x.frag", .output path] =
      [{ name := "main", profileID := .GLSL_Fragment, translationUnitIndex := 0,
         outputPathIndex := -1 }] := by
  have t : unitRecords [.input "x.frag", .output path] =
      [{ sourceLanguage := .SLANG_SOURCE_LANGUAGE_GLSL, implicitProfile := .GLSL_Fragment,
         translationUnitIndex := 0 }] := by
    have i : inputPathsOf [.input "x.frag", .output path] = ["x.frag"] := rfl
    rw [unitRecords, i]
    decide
  simp [entryPointsOf, entryRecords, lastProfile, profileNames, t, implicitEntryPointsFor,
    implicitEntryPoint]
/-- C11: one entry point and one output path that is not a container path.
(1) For every parser `q` that profile backfill continues with, with the one
entry point `e` and the one output path `o`: output association sets the
`outputPathIndex` of `e` to 0 whatever it was, `parse` returns, the
diagnostics it adds hold neither `tooManyOutputPathsSpecified` nor
`noOutputPathSpecifiedForEntryPoint`, the entry point it returns has
`outputPathIndex` 0, and the request gains the one entry point of `e` with the
`outputPath` of `o`, or no entry point at all when translation-unit backfill
fails (`e` has no unit and the units are not exactly one).
(2) The same from a command line of well-formed items whose entry points at
the start of profile backfill are `[e]` (the record of the one `-entry`, or
the one implicit entry point) and whose `-o` paths outside containers are
`[path]`, wherever the `-o` stands, when `e` has a profile or a `-profile`
was given.
(3) So `x.hlsl -profile N -entry NAME -o P`, `-o P x.hlsl -profile N -entry
NAME` and `x.frag -o P`, with `N` known and `P` no container path, all end
with the entry point at `outputPathIndex` 0 and registered with the output
path `P`, and without one of the two diagnostics. -/
theorem single_output_single_entry (spFindProfile : String → SlangProfileID) :
    (∀ (p0 : OptionsParser) (m : SlangMatrixLayoutMode) (q : OptionsParser)
        (e : RawEntryPoint) (o : RawOutputPath),
      applyProfiles (beforeProfileBackfill p0) = .continued q →
      q.rawEntryPoints = [e] → q.rawOutputPaths = [o] →
      (outputPasses q m).rawEntryPoints = [{ e with outputPathIndex := 0 }] ∧
      ∃ r p1 ds, resolve p0 m = some (r, p1) ∧
        p1.requestImpl.mSink.diagnostics = q.requestImpl.mSink.diagnostics ++ ds ∧
        ds.filter Diagnostic.isTooManyOutputPaths = [] ∧
        ds.filter Diagnostic.isMissingOutputPath = [] ∧
        p1.rawEntryPoints = [backfillTranslationUnit { e with outputPathIndex := 0 }] ∧
        p1.requestImpl.entryPoints = q.requestImpl.entryPoints ++
          (if e.translationUnitIndex = -1 ∧ q.translationUnitCount ≠ 1 then []
           else [{ translationUnitIndex := (backfillTranslationUnit e).translationUnitIndex
                   name := e.name
                   profile := e.profileID
                   outputPath := o.path }])) ∧
    (∀ (req : CompileRequest) (items : List CommandLineItem) (e : RawEntryPoint)
        (path : String),
      req.translationUnits = [] → (∀ i ∈ items, i.WellFormed spFindProfile) →
      entryPointsOf spFindProfile items = [e] → outputPathsOf items = [path] →
      (e.profileID = .SLANG_PROFILE_UNKNOWN → profileNames items ≠ []) →
      ∃ r p1 ds, ({ requestImpl := req } : OptionsParser).parse spFindProfile (tokensOf items) =
          some (r, p1) ∧
        p1.requestImpl.mSink.diagnostics = req.mSink.diagnostics ++ ds ∧
        ds.filter Diagnostic.isTooManyOutputPaths = [] ∧
        ds.filter Diagnostic.isMissingOutputPath = [] ∧
        p1.rawEntryPoints.map (fun x => (x.name, x.outputPathIndex)) = [(e.name, 0)] ∧
        p1.requestImpl.entryPoints = req.entryPoints ++
          (if e.translationUnitIndex = -1 ∧ (expectedUnits (inputPathsOf items)).length ≠ 1
           then []
           else [{ translationUnitIndex := (backfillTranslationUnit e).translationUnitIndex
                   name := e.name
                   profile :=
                     if e.profileID = .SLANG_PROFILE_UNKNOWN then
                       lastProfile spFindProfile items
                     else e.profileID
                   outputPath := path }])) ∧
    (∀ name n path : String, spFindProfile n ≠ .SLANG_PROFILE_UNKNOWN →
      EndsWith path ".slang-module" = false →
      (∃ r p1, ({} : OptionsParser).parse spFindProfile
          ["x.hlsl", "-profile", n, "-entry", name, "-o", path] = some (r, p1) ∧
        p1.rawEntryPoints.map (fun x => (x.name, x.outputPathIndex)) = [(name, 0)] ∧
        p1.requestImpl.entryPoints =
          [{ translationUnitIndex := 0, name := name, profile := spFindProfile n,
             outputPath := path }] ∧
        p1.requestImpl.mSink.diagnostics.filter Diagnostic.isTooManyOutputPaths = [] ∧
        p1.requestImpl.mSink.diagnostics.filter Diagnostic.isMissingOutputPath = []) ∧
      (∃ r p1, ({} : OptionsParser).parse spFindProfile
          ["-o", path, "x.hlsl", "-profile", n, "-entry", name] = some (r, p1) ∧
        p1.rawEntryPoints.map (fun x => (x.name, x.outputPathIndex)) = [(name, 0)] ∧
        p1.requestImpl.entryPoints =
          [{ translationUnitIndex := 0, name := name, profile := spFindProfile n,
             outputPath := path }] ∧
        p1.requestImpl.mSink.diagnostics.filter Diagnostic.isTooManyOutputPaths = [] ∧
        p1.requestImpl.mSink.diagnostics.filter Diagnostic.isMissingOutputPath = []) ∧
      (∃ r p1, ({} : OptionsParser).parse spFindProfile ["x.frag", "-o", path] = some (r, p1) ∧
        p1.rawEntryPoints.map (fun x => (x.name, x.outputPathIndex)) = [("main", 0)] ∧
        p1.requestImpl.entryPoints =
          [{ translationUnitIndex := 0, name := "main", profile := .GLSL_Fragment,
             outputPath := path }] ∧
        p1.requestImpl.mSink.diagnostics.filter Diagnostic.isTooManyOutputPaths = [] ∧
        p1.requestImpl.mSink.diagnostics.filter Diagnostic.isMissingOutputPath = [])) := by
  refine ⟨?_, ?_, ?_⟩
  · intro p0 m q e o hq he ho
    exact single_output_single_entry_state p0 m q e o hq he ho
  · intro req items e path hreq hwf he ho hprofile
    exact single_output_single_entry_items spFindProfile req items e path hreq hwf he ho hprofile
  · intro name n path hn hpath
    refine ⟨?_, ?_, ?_⟩
    · obtain ⟨r, p1, ds, hparse, hds, f1, f2, hes, hreg⟩ :=
        single_output_single_entry_items spFindProfile {}
          [.input "x.hlsl", .profile n, .entry name, .output path] _ path rfl (by
            intro i hi
            simp only [List.mem_cons, List.mem_singleton, List.not_mem_nil, or_false] at hi
            rcases hi with rfl | rfl | rfl | rfl
            · exact wellFormed_x_hlsl _
            · exact hn
            · trivial
            · trivial)
          (entryPointsOf_entry_then_output spFindProfile name n path)
          (by simp [outputPathsOf, hpath])
          (fun h => absurd h hn)
      refine ⟨r, p1, hparse, hes, ?_, ?_, ?_⟩
      · rw [hreg]
        simp [backfillTranslationUnit, hn]
      · rw [hds]
        exact f1
      · rw [hds]
        exact f2
    · obtain ⟨r, p1, ds, hparse, hds, f1, f2, hes, hreg⟩ :=
        single_output_single_entry_items spFindProfile {}
          [.output path, .input "x.hlsl", .profile n, .entry name] _ path rfl (by
            intro i hi
            simp only [List.mem_cons, List.mem_singleton, List.not_mem_nil, or_false] at hi
            rcases hi with rfl | rfl | rfl | rfl
            · trivial
            · exact wellFormed_x_hlsl _
            · exact hn
            · trivial)
          (entryPointsOf_output_then_entry spFindProfile name n path hpath)
          (by simp [outputPathsOf, hpath])
          (fun h => absurd h hn)
      refine ⟨r, p1, hparse, hes, ?_, ?_, ?_⟩
      · rw [hreg]
        simp [backfillTranslationUnit, hn]
      · rw [hds]
        exact f1
      · rw [hds]
        exact f2
    · obtain ⟨r, p1, ds, hparse, hds, f1, f2, hes, hreg⟩ :=
        single_output_single_entry_items spFindProfile {}
          [.input "x.frag", .output path] _ path rfl (by
            intro i hi
            simp only [List.mem_cons, List.mem_singleton, List.not_mem_nil, or_false] at hi
            rcases hi with rfl | rfl
            · exact wellFormed_x_frag _
            · trivial)
          (entryPointsOf_implicit spFindProfile path)
          (by simp [outputPathsOf, hpath])
          (fun h => absurd h (by decide))
      refine ⟨r, p1, hparse, hes, ?_, ?_, ?_⟩
      · rw [hreg]
        simp [backfillTranslationUnit]
      · rw [hds]
        exact f1
      · rw [hds]
        exact f2

/-- C11, at a parser with the entry point `main` of unit 0, read before any
`-o`, and the output path `x.spv`: profile backfill continues with it, and
the theorem applies. -/
theorem single_output_single_entry_witness :
    applyProfiles (beforeProfileBackfill
      { rawEntryPoints := [{ name := "main", profileID := .registered 1,
                             translationUnitIndex := 0 }]
        rawOutputPaths := [{ path := "x.spv", target := .SLANG_SPIRV }]
        translationUnitCount := 1 }) = .continued
      { rawEntryPoints := [{ name := "main", profileID := .registered 1,
                             translationUnitIndex := 0 }]
        rawOutputPaths := [{ path := "x.spv", target := .SLANG_SPIRV }]
        translationUnitCount := 1 } ∧
    ∃ r p1 ds, resolve
        { rawEntryPoints := [{ name := "main", profileID := .registered 1,
                               translationUnitIndex := 0 }]
          rawOutputPaths := [{ path := "x.spv", target := .SLANG_SPIRV }]
          translationUnitCount := 1 } .SLANG_MATRIX_LAYOUT_MODE_UNKNOWN = some (r, p1) ∧
      p1.requestImpl.mSink.diagnostics = [] ++ ds ∧
      ds.filter Diagnostic.isTooManyOutputPaths = [] ∧
      ds.filter Diagnostic.isMissingOutputPath = [] ∧
      p1.rawEntryPoints = [{ name := "main", profileID := .registered 1,
                             translationUnitIndex := 0, outputPathIndex := 0 }] ∧
      p1.requestImpl.entryPoints =
        [{ translationUnitIndex := 0, name := "main", profile := .registered 1,
           outputPath := "x.spv" }] :=
  ⟨by decide, ((single_output_single_entry exampleProfiles).1
    { rawEntryPoints := [{ name := "main", profileID := .registered 1,
                           translationUnitIndex := 0 }]
      rawOutputPaths := [{ path := "x.spv", target := .SLANG_SPIRV }]
      translationUnitCount := 1 } .SLANG_MATRIX_LAYOUT_MODE_UNKNOWN
    { rawEntryPoints := [{ name := "main", profileID := .registered 1,
                           translationUnitIndex := 0 }]
      rawOutputPaths := [{ path := "x.spv", target := .SLANG_SPIRV }]
      translationUnitCount := 1 }
    { name := "main", profileID := .registered 1, translationUnitIndex := 0 }
    { path := "x.spv", target := .SLANG_SPIRV } (by decide) rfl rfl).2⟩

/-- A scan of any token list that finishes, followed by a profile backfill
that continues with `q`: `parse` returns, and what `q` holds and what the
later passes diagnose. -/
theorem parse_reaches_outputs (spFindProfile : String → SlangProfileID) (req : CompileRequest)
    (args : List String) (p : OptionsParser) (m : SlangMatrixLayoutMode) (q : OptionsParser)
    (hreq : req.translationUnits = [])
    (hscan : parseArgs spFindProfile args { requestImpl := req, flags := req.compileFlags }
      .SLANG_MATRIX_LAYOUT_MODE_UNKNOWN = .finished p m)
    (hq : applyProfiles (beforeProfileBackfill p) = .continued q) :
    ∃ items r p1, Reads spFindProfile args items ∧
      ({ requestImpl := req } : OptionsParser).parse spFindProfile args = some (r, p1) ∧
      q.rawOutputPaths = outputRecords items ∧
      q.chosenTarget = chosenTargetOf items ∧
      q.requestImpl.targets =
        (if targetsOf items = [] then req.targets else [{ target := chosenTargetOf items }]) ∧
      p1.requestImpl.mSink.diagnostics = req.mSink.diagnostics ++ outputDiagnostics q ∧
      (∀ d ∈ outputDiagnostics q, d.isError = true → r = .SLANG_FAIL) ∧
      p1.requestImpl.targets.map (fun t => t.target) =
        (match inferredTarget q.chosenTarget q.rawOutputPaths with
         | some t => [t]
         | none => q.requestImpl.targets.map (fun t => t.target)) := by
  obtain ⟨items, hreads, hs, hsink, _⟩ := scanned_finished spFindProfile req args p m hreq hscan
  obtain ⟨c1, c2, c3, _, c5, _, _, c8⟩ := continued_frame p q hq
  obtain ⟨r, p1, hres, hds, hfail, htargets⟩ := resolve_outputs p m q hq
    (c8 (fun e he => (hs.1.inv.entry_output e he).2))
  refine ⟨items, r, p1, hreads,
    (parse_of_finished spFindProfile req args p m hscan).trans hres, ?_, ?_, ?_, ?_,
    hfail, htargets⟩
  · rw [c1]
    exact hs.2.outputs
  · rw [c2]
    exact hs.2.chosen
  · rw [c3]
    exact hs.2.targets
  · rw [hds, c5, hsink]

/-- A command line of well-formed items whose entry points all have a
profile at the start of profile backfill: `parse` returns, and what the
later passes diagnose, in terms of the items. -/
theorem parse_items_outputs (spFindProfile : String → SlangProfileID) (req : CompileRequest)
    (items : List CommandLineItem) (hreq : req.translationUnits = [])
    (hwf : ∀ i ∈ items, i.WellFormed spFindProfile)
    (hknown : ∀ e ∈ entryPointsOf spFindProfile items, e.profileID ≠ .SLANG_PROFILE_UNKNOWN) :
    ∃ r p1 ds, ({ requestImpl := req } : OptionsParser).parse spFindProfile (tokensOf items) =
        some (r, p1) ∧
      ds = multipleTargetsDiagnostics (outputRecords items)
            (if targetsOf items = [] then req.targets
             else [{ target := chosenTargetOf items }]) ++
          associationDiagnostics (entryPointsOf spFindProfile items) (outputRecords items) ++
          targetDiagnostics (chosenTargetOf items) (outputRecords items) ++
          translationUnitDiagnostics (entryPointsOf spFindProfile items)
            ((expectedUnits (inputPathsOf items)).length : Int) ∧
      p1.requestImpl.mSink.diagnostics = req.mSink.diagnostics ++ ds ∧
      (∀ d ∈ ds, d.isError = true → r = .SLANG_FAIL) ∧
      (r = .SLANG_OK ∨ r = .SLANG_FAIL) ∧
      (r = .SLANG_OK ↔ p1.requestImpl.mSink.errorCount = 0) ∧
      p1.requestImpl.targets.map (fun t => t.target) =
        (match inferredTarget (chosenTargetOf items) (outputRecords items) with
         | some t => [t]
         | none => (if targetsOf items = [] then req.targets
             else [{ target := chosenTargetOf items }]).map (fun t => t.target)) ∧
      p1.requestImpl.mSink = req.mSink.diagnoseAll ds ∧
      p1.rawEntryPoints.map (fun e => e.name) =
        (entryPointsOf spFindProfile items).map (fun e => e.name) ∧
      p1.rawOutputPaths = outputRecords items := by
  obtain ⟨p, m, _, hparse, hentries, houts, hchosen, htargets, hsink, _, hcount, _, _, _, hb⟩ :=
    parse_items_state spFindProfile req items hreq hwf
  have hq : applyProfiles (beforeProfileBackfill p) = .continued (beforeProfileBackfill p) := by
    apply applyProfiles_known
    rw [hentries]
    exact hknown
  have hb1 : ∀ e ∈ (outputPasses (beforeProfileBackfill p) m).rawEntryPoints,
      e.outputPathIndex < ((beforeProfileBackfill p).rawOutputPaths.length : Int) := by
    intro e he
    rw [outputPasses_rawEntryPoints] at he
    split at he
    · rename_i h
      obtain ⟨x, hx⟩ := List.length_eq_one.mp h.1
      rw [hx] at he
      rw [List.mem_singleton.mp he, h.2]
      show (0 : Int) < 1
      decide
    · exact hb e he
  obtain ⟨r, p1, hres, hs, hr, hiff, hes, hpaths, ht, _, _⟩ :=
    resolve_after_profiles p m _ hq hb1
  have hd : outputDiagnostics (beforeProfileBackfill p) =
      multipleTargetsDiagnostics (outputRecords items)
          (if targetsOf items = [] then req.targets
           else [{ target := chosenTargetOf items }]) ++
        associationDiagnostics (entryPointsOf spFindProfile items) (outputRecords items) ++
        targetDiagnostics (chosenTargetOf items) (outputRecords items) ++
        translationUnitDiagnostics (entryPointsOf spFindProfile items)
          ((expectedUnits (inputPathsOf items)).length : Int) := by
    simp only [outputDiagnostics, hentries, houts, hchosen, htargets, hcount]
  refine ⟨r, p1, _, hparse.trans hres, rfl, ?_, ?_, hr, hiff, ?_, ?_, ?_, hpaths.trans houts⟩
  · rw [hs, diagnoseAll_diagnostics, hsink, hd]
  · intro d hmem herr
    rw [← hd] at hmem
    rw [hs] at hiff
    exact fail_of_error _ _ r hr hiff d hmem herr
  · rw [ht, hchosen, houts, htargets]
  · rw [hs, hsink, hd]
  · rw [hes, outputPasses_rawEntryPoints, hentries, List.map_map]
    have hname : (fun e : RawEntryPoint => e.name) ∘ backfillTranslationUnit =
        fun e : RawEntryPoint => e.name := by
      funext e
      simp only [Function.comp, backfillTranslationUnit]
      split <;> rfl
    rw [hname]
    split
    · cases entryPointsOf spFindProfile items <;> rfl
    · rfl

theorem wellFormed_input_decide (spFindProfile : String → SlangProfileID) (path : String)
    (h1 : path.data.head? ≠ some '-')
    (h2 : (EndsWith path ".slang" ||
      decide ((findSourceLanguageFromPath path).1 ≠ .SLANG_SOURCE_LANGUAGE_UNKNOWN)) = true) :
    (CommandLineItem.input path).WellFormed spFindProfile := by
  apply wellFormed_input _ _ h1
  simpa using h2

/-- A command line of well-formed items whose entry points all have a
profile at the start of profile backfill: the scan finishes and profile
backfill continues with the parser it started from. -/
theorem items_reach_outputs (spFindProfile : String → SlangProfileID) (req : CompileRequest)
    (items : List CommandLineItem) (hreq : req.translationUnits = [])
    (hwf : ∀ i ∈ items, i.WellFormed spFindProfile)
    (hknown : ∀ e ∈ entryPointsOf spFindProfile items, e.profileID ≠ .SLANG_PROFILE_UNKNOWN) :
    ∃ p m, parseArgs spFindProfile (tokensOf items)
        { requestImpl := req, flags := req.compileFlags }
        .SLANG_MATRIX_LAYOUT_MODE_UNKNOWN = .finished p m ∧
      applyProfiles (beforeProfileBackfill p) = .continued (beforeProfileBackfill p) ∧
      (beforeProfileBackfill p).rawEntryPoints = entryPointsOf spFindProfile items ∧
      (beforeProfileBackfill p).rawOutputPaths = outputRecords items ∧
      (beforeProfileBackfill p).chosenTarget = chosenTargetOf items := by
  obtain ⟨p, m, hscan, _, hentries, houts, hchosen, _⟩ :=
    parse_items_state spFindProfile req items hreq hwf
  refine ⟨p, m, hscan, ?_, hentries, houts, hchosen⟩
  apply applyProfiles_known
  rw [hentries]
  exact hknown

theorem entryPointsOf_slang_only (spFindProfile : String → SlangProfileID) :
    entryPointsOf spFindProfile [.input "a.slang", .output "x.spv"] = [] := by
  have u : unitRecords [.input "a.slang", .output "x.spv"] =
      [{ sourceLanguage := .SLANG_SOURCE_LANGUAGE_SLANG
         implicitProfile := .SLANG_PROFILE_UNKNOWN, translationUnitIndex := 0 }] := by
    decide
  simp [entryPointsOf, entryRecords, u, implicitEntryPointsFor]

theorem wellFormed_slang_only (spFindProfile : String → SlangProfileID) :
    ∀ i ∈ [CommandLineItem.input "a.slang", .output "x.spv"], i.WellFormed spFindProfile := by
  intro i hi
  simp only [List.mem_cons, List.mem_singleton, List.not_mem_nil, or_false] at hi
  rcases hi with rfl | rfl
  · exact wellFormed_input_decide _ _ (by decide) (by decide)
  · trivial
/-- C12: `tooManyOutputPathsSpecified` (TooManyOutputPaths).  After a scan of
any token list that finishes, from a new parser on a request without
translation units, and a profile backfill that continues with the parser `q`,
`parse` returns; the output paths of `q` are the `-o` paths of the command
line outside containers, in order; among the diagnostics `parse` adds,
`tooManyOutputPathsSpecified` occurs exactly when `q` has more output paths
than entry points, then once, with the number of output paths and the number
of entry points in this order; and the result is then `SLANG_FAIL`.  So
`a.slang -o x.spv` has no entry point and one output path: the result is
`SLANG_FAIL` and the one diagnostic is `tooManyOutputPathsSpecified 1 0`. -/
theorem too_many_output_paths_iff (spFindProfile : String → SlangProfileID) :
    (∀ (req : CompileRequest) (args : List String) (p : OptionsParser)
        (m : SlangMatrixLayoutMode) (q : OptionsParser),
      req.translationUnits = [] →
      parseArgs spFindProfile args { requestImpl := req, flags := req.compileFlags }
        .SLANG_MATRIX_LAYOUT_MODE_UNKNOWN = .finished p m →
      applyProfiles (beforeProfileBackfill p) = .continued q →
      ∃ items r p1 ds, Reads spFindProfile args items ∧
        q.rawOutputPaths.map (fun o => o.path) = outputPathsOf items ∧
        ({ requestImpl := req } : OptionsParser).parse spFindProfile args = some (r, p1) ∧
        p1.requestImpl.mSink.diagnostics = req.mSink.diagnostics ++ ds ∧
        ds.filter Diagnostic.isTooManyOutputPaths =
          (if q.rawOutputPaths.length > q.rawEntryPoints.length then
            [.tooManyOutputPathsSpecified q.rawOutputPaths.length q.rawEntryPoints.length]
           else []) ∧
        (q.rawOutputPaths.length > q.rawEntryPoints.length → r = .SLANG_FAIL)) ∧
    (∃ p1, ({} : OptionsParser).parse spFindProfile ["a.slang", "-o", "x.spv"] =
        some (.SLANG_FAIL, p1) ∧
      p1.requestImpl.mSink.diagnostics = [.tooManyOutputPathsSpecified 1 0]) := by
  constructor
  · intro req args p m q hreq hscan hq
    obtain ⟨items, r, p1, hreads, hparse, houts, _, _, hds, hfail, _⟩ :=
      parse_reaches_outputs spFindProfile req args p m q hreq hscan hq
    have hfilter := (outputDiagnostics_filter q).1
    rw [associationDiagnostics_tooMany] at hfilter
    refine ⟨items, r, p1, outputDiagnostics q, hreads, ?_, hparse, hds, hfilter, ?_⟩
    · rw [houts, outputRecords, List.map_map]
      exact List.map_id _
    · intro hgt
      rw [if_pos hgt] at hfilter
      have hmem : Diagnostic.tooManyOutputPathsSpecified q.rawOutputPaths.length
          q.rawEntryPoints.length ∈ (outputDiagnostics q).filter
            Diagnostic.isTooManyOutputPaths := by
        rw [hfilter]
        exact List.mem_singleton.mpr rfl
      exact hfail _ (List.mem_filter.mp hmem).1 rfl
  · have e1 := entryPointsOf_slang_only spFindProfile
    obtain ⟨r, p1, ds, hparse, hdef, hds, hfail, _⟩ := parse_items_outputs spFindProfile {}
      [.input "a.slang", .output "x.spv"] rfl (wellFormed_slang_only spFindProfile) (by
        rw [e1]
        intro e he
        cases he)
    rw [e1] at hdef
    have hd : ds = [.tooManyOutputPathsSpecified 1 0] := by
      rw [hdef]
      decide
    have hr : r = .SLANG_FAIL := by
      apply hfail (.tooManyOutputPathsSpecified 1 0) _ rfl
      rw [hd]
      exact List.mem_singleton.mpr rfl
    subst hr
    refine ⟨p1, hparse, ?_⟩
    rw [hds, hd]
    rfl

/-- C12, at `a.slang -o x.spv`: the scan finishes, profile backfill
continues (there is no entry point), and the theorem applies. -/
theorem too_many_output_paths_iff_witness :
    ({} : CompileRequest).translationUnits = [] ∧
    ∃ p m, parseArgs exampleProfiles ["a.slang", "-o", "x.spv"]
        { requestImpl := {}, flags := ({} : CompileRequest).compileFlags }
        .SLANG_MATRIX_LAYOUT_MODE_UNKNOWN = .finished p m ∧
      applyProfiles (beforeProfileBackfill p) = .continued (beforeProfileBackfill p) ∧
      ∃ items r p1 ds, Reads exampleProfiles ["a.slang", "-o", "x.spv"] items ∧
        (beforeProfileBackfill p).rawOutputPaths.map (fun o => o.path) = outputPathsOf items ∧
        ({ requestImpl := {} } : OptionsParser).parse exampleProfiles
          ["a.slang", "-o", "x.spv"] = some (r, p1) ∧
        p1.requestImpl.mSink.diagnostics = ({} : CompileRequest).mSink.diagnostics ++ ds ∧
        ds.filter Diagnostic.isTooManyOutputPaths =
          (if (beforeProfileBackfill p).rawOutputPaths.length >
              (beforeProfileBackfill p).rawEntryPoints.length then
            [.tooManyOutputPathsSpecified (beforeProfileBackfill p).rawOutputPaths.length
              (beforeProfileBackfill p).rawEntryPoints.length]
           else []) ∧
        ((beforeProfileBackfill p).rawOutputPaths.length >
          (beforeProfileBackfill p).rawEntryPoints.length → r = .SLANG_FAIL) := by
  obtain ⟨p, m, hscan, hq, _⟩ := items_reach_outputs exampleProfiles {}
    [.input "a.slang", .output "x.spv"] rfl (wellFormed_slang_only _) (by
      rw [entryPointsOf_slang_only]
      intro e he
      cases he)
  exact ⟨rfl, p, m, hscan, hq, (too_many_output_paths_iff exampleProfiles).1 {}
    ["a.slang", "-o", "x.spv"] p m _ rfl hscan hq⟩

theorem entryPointsOf_two_frag (spFindProfile : String → SlangProfileID) :
    entryPointsOf spFindProfile
        [.input "a.frag", .input "b.frag", .output "x.spv", .output "y.spv"] =
      [{ name := "main", profileID := .GLSL_Fragment, translationUnitIndex := 0 },
       { name := "main", profileID := .GLSL_Fragment, translationUnitIndex := 1 }] := by
  have u : unitRecords [.input "a.frag", .input "b.frag", .output "x.spv", .output "y.spv"] =
      [{ sourceLanguage := .SLANG_SOURCE_LANGUAGE_GLSL
         implicitProfile := .GLSL_Fragment, translationUnitIndex := 0 },
       { sourceLanguage := .SLANG_SOURCE_LANGUAGE_GLSL
         implicitProfile := .GLSL_Fragment, translationUnitIndex := 1 }] := by
    decide
  simp [entryPointsOf, entryRecords, u, implicitEntryPointsFor, implicitEntryPoint, lastProfile,
    profileNames]

theorem wellFormed_two_frag (spFindProfile : String → SlangProfileID) :
    ∀ i ∈ [CommandLineItem.input "a.frag", .input "b.frag", .output "x.spv", .output "y.spv"],
      i.WellFormed spFindProfile := by
  intro i hi
  simp only [List.mem_cons, List.mem_singleton, List.not_mem_nil, or_false] at hi
  rcases hi with rfl | rfl | rfl | rfl
  · exact wellFormed_input_decide _ _ (by decide) (by decide)
  · exact wellFormed_input_decide _ _ (by decide) (by decide)
  · trivial
  · trivial

theorem known_two_frag (spFindProfile : String → SlangProfileID) :
    ∀ e ∈ entryPointsOf spFindProfile
        [.input "a.frag", .input "b.frag", .output "x.spv", .output "y.spv"],
      e.profileID ≠ .SLANG_PROFILE_UNKNOWN := by
  rw [entryPointsOf_two_frag]
  decide

/-- C13: `noOutputPathSpecifiedForEntryPoint` (MissingOutputPath).  After a
scan of any token list that finishes, from a new parser on a request without
translation units, and a profile backfill that continues with the parser `q`:
when `q` has more than one output path, more than one entry point, not more
output paths than entry points, and an entry point without output path
(`outputPathIndex < 0`), `parse` returns `SLANG_FAIL`, and among the
diagnostics it adds `noOutputPathSpecifiedForEntryPoint` occurs exactly once,
with the name of the first entry point of `q` without output path.  So
`a.frag b.frag -o x.spv -o y.spv` fails, with the one diagnostic
`noOutputPathSpecifiedForEntryPoint "main"`. -/
theorem missing_output_path_names_first (spFindProfile : String → SlangProfileID) :
    (∀ (req : CompileRequest) (args : List String) (p : OptionsParser)
        (m : SlangMatrixLayoutMode) (q : OptionsParser),
      req.translationUnits = [] →
      parseArgs spFindProfile args { requestImpl := req, flags := req.compileFlags }
        .SLANG_MATRIX_LAYOUT_MODE_UNKNOWN = .finished p m →
      applyProfiles (beforeProfileBackfill p) = .continued q →
      1 < q.rawOutputPaths.length → 1 < q.rawEntryPoints.length →
      ¬ q.rawOutputPaths.length > q.rawEntryPoints.length →
      (∃ e ∈ q.rawEntryPoints, e.outputPathIndex < 0) →
      ∃ p1 ds pre e post,
        ({ requestImpl := req } : OptionsParser).parse spFindProfile args =
          some (.SLANG_FAIL, p1) ∧
        p1.requestImpl.mSink.diagnostics = req.mSink.diagnostics ++ ds ∧
        q.rawEntryPoints = pre ++ e :: post ∧ (∀ x ∈ pre, ¬ x.outputPathIndex < 0) ∧
        e.outputPathIndex < 0 ∧
        ds.filter Diagnostic.isMissingOutputPath =
          [.noOutputPathSpecifiedForEntryPoint e.name]) ∧
    (∃ p1, ({} : OptionsParser).parse spFindProfile
        ["a.frag", "b.frag", "-o", "x.spv", "-o", "y.spv"] = some (.SLANG_FAIL, p1) ∧
      p1.requestImpl.mSink.diagnostics = [.noOutputPathSpecifiedForEntryPoint "main"]) := by
  constructor
  · intro req args p m q hreq hscan hq h1 h2 h3 h4
    obtain ⟨items, r, p1, _, hparse, _, _, _, hds, hfail, _⟩ :=
      parse_reaches_outputs spFindProfile req args p m q hreq hscan hq
    obtain ⟨pre, e, post, hsplit, hpre, he, hassoc⟩ :=
      associationDiagnostics_missing q.rawEntryPoints q.rawOutputPaths h1 h2 h3 h4
    have hfilter := (outputDiagnostics_filter q).2.1
    rw [hassoc] at hfilter
    have hfilter1 : (outputDiagnostics q).filter Diagnostic.isMissingOutputPath =
        [.noOutputPathSpecifiedForEntryPoint e.name] := hfilter
    have hmem : Diagnostic.noOutputPathSpecifiedForEntryPoint e.name ∈
        (outputDiagnostics q).filter Diagnostic.isMissingOutputPath := by
      rw [hfilter1]
      exact List.mem_singleton.mpr rfl
    have hr : r = .SLANG_FAIL := hfail _ (List.mem_filter.mp hmem).1 rfl
    subst hr
    exact ⟨p1, outputDiagnostics q, pre, e, post, hparse, hds, hsplit, hpre, he, hfilter1⟩
  · obtain ⟨r, p1, ds, hparse, hdef, hds, hfail, _⟩ := parse_items_outputs spFindProfile {}
      [.input "a.frag", .input "b.frag", .output "x.spv", .output "y.spv"] rfl
      (wellFormed_two_frag spFindProfile) (known_two_frag spFindProfile)
    rw [entryPointsOf_two_frag] at hdef
    have hd : ds = [.noOutputPathSpecifiedForEntryPoint "main"] := by
      rw [hdef]
      decide
    have hr : r = .SLANG_FAIL := by
      apply hfail (.noOutputPathSpecifiedForEntryPoint "main") _ rfl
      rw [hd]
      exact List.mem_singleton.mpr rfl
    subst hr
    refine ⟨p1, hparse, ?_⟩
    rw [hds, hd]
    rfl

/-- C13, at `a.frag b.frag -o x.spv -o y.spv`: the scan finishes, profile
backfill continues with two entry points without output path and two output
paths, and the theorem applies. -/
theorem missing_output_path_names_first_witness :
    ({} : CompileRequest).translationUnits = [] ∧
    ∃ p m, parseArgs exampleProfiles ["a.frag", "b.frag", "-o", "x.spv", "-o", "y.spv"]
        { requestImpl := {}, flags := ({} : CompileRequest).compileFlags }
        .SLANG_MATRIX_LAYOUT_MODE_UNKNOWN = .finished p m ∧
      applyProfiles (beforeProfileBackfill p) = .continued (beforeProfileBackfill p) ∧
      1 < (beforeProfileBackfill p).rawOutputPaths.length ∧
      1 < (beforeProfileBackfill p).rawEntryPoints.length ∧
      ¬ (beforeProfileBackfill p).rawOutputPaths.length >
        (beforeProfileBackfill p).rawEntryPoints.length ∧
      (∃ e ∈ (beforeProfileBackfill p).rawEntryPoints, e.outputPathIndex < 0) ∧
      ∃ p1 ds pre e post,
        ({ requestImpl := {} } : OptionsParser).parse exampleProfiles
          ["a.frag", "b.frag", "-o", "x.spv", "-o", "y.spv"] = some (.SLANG_FAIL, p1) ∧
        p1.requestImpl.mSink.diagnostics = ({} : CompileRequest).mSink.diagnostics ++ ds ∧
        (beforeProfileBackfill p).rawEntryPoints = pre ++ e :: post ∧
        (∀ x ∈ pre, ¬ x.outputPathIndex < 0) ∧ e.outputPathIndex < 0 ∧
        ds.filter Diagnostic.isMissingOutputPath =
          [.noOutputPathSpecifiedForEntryPoint e.name] := by
  obtain ⟨p, m, hscan, hq, hentries, houts, _⟩ := items_reach_outputs exampleProfiles {}
    [.input "a.frag", .input "b.frag", .output "x.spv", .output "y.spv"] rfl
    (wellFormed_two_frag _) (known_two_frag _)
  rw [entryPointsOf_two_frag] at hentries
  have ho : outputRecords
      [.input "a.frag", .input "b.frag", .output "x.spv", .output "y.spv"] =
      [{ path := "x.spv", target := .SLANG_SPIRV },
       { path := "y.spv", target := .SLANG_SPIRV }] := by
    decide
  rw [ho] at houts
  have h1 : 1 < (beforeProfileBackfill p).rawOutputPaths.length := by
    rw [houts]
    exact Nat.lt_succ_self 1
  have h2 : 1 < (beforeProfileBackfill p).rawEntryPoints.length := by
    rw [hentries]
    exact Nat.lt_succ_self 1
  have h3 : ¬ (beforeProfileBackfill p).rawOutputPaths.length >
      (beforeProfileBackfill p).rawEntryPoints.length := by
    rw [houts, hentries]
    exact Nat.lt_irrefl 2
  have h4 : ∃ e ∈ (beforeProfileBackfill p).rawEntryPoints, e.outputPathIndex < 0 := by
    rw [hentries]
    exact ⟨_, List.mem_cons_self _ _, by decide⟩
  exact ⟨rfl, p, m, hscan, hq, h1, h2, h3, h4,
    (missing_output_path_names_first exampleProfiles).1 {}
      ["a.frag", "b.frag", "-o", "x.spv", "-o", "y.spv"] p m _ rfl hscan hq h1 h2 h3 h4⟩

theorem entryPointsOf_input_output (spFindProfile : String → SlangProfileID)
    (input path : String) :
    entryPointsOf spFindProfile [.input input, .output path] =
      implicitEntryPointsFor .SLANG_PROFILE_UNKNOWN (unitRecords [.input input]) := by
  simp [entryPointsOf, entryRecords, lastProfile, profileNames, unitRecords, inputPathsOf]

theorem wellFormed_input_output (spFindProfile : String → SlangProfileID) (input path : String)
    (h : (CommandLineItem.input input).WellFormed spFindProfile) :
    ∀ i ∈ [CommandLineItem.input input, .output path], i.WellFormed spFindProfile := by
  intro i hi
  simp only [List.mem_cons, List.mem_singleton, List.not_mem_nil, or_false] at hi
  rcases hi with rfl | rfl
  · exact h
  · trivial

/-- C14: target inference from output paths that agree.  After a scan of any
token list that finishes, from a new parser on a request without translation
units, and a profile backfill that continues with the parser `q`: the output
paths of `q` are the `-o` paths of the command line outside containers, each
with the target its suffix implies, and the chosen target of `q` is that of
the last `-target` or `-backend`, `SLANG_TARGET_NONE` without one; `parse`
returns; and when the chosen target is `SLANG_TARGET_NONE`, there is an
output path and every output path has the target `t`, other than
`SLANG_TARGET_UNKNOWN`, the request ends with the one target `t`, and
`parse` adds neither `cannotDeduceOutputFormatFromPath` nor
`outputPathsImplyDifferentFormats`.  So `x.frag -o a.spv` ends with the
target `SLANG_SPIRV` and no diagnostic. -/
theorem consistent_output_targets_set_target (spFindProfile : String → SlangProfileID) :
    (∀ (req : CompileRequest) (args : List String) (p : OptionsParser)
        (m : SlangMatrixLayoutMode) (q : OptionsParser) (t : SlangCompileTarget),
      req.translationUnits = [] →
      parseArgs spFindProfile args { requestImpl := req, flags := req.compileFlags }
        .SLANG_MATRIX_LAYOUT_MODE_UNKNOWN = .finished p m →
      applyProfiles (beforeProfileBackfill p) = .continued q →
      q.chosenTarget = .SLANG_TARGET_NONE → q.rawOutputPaths ≠ [] →
      (∀ o ∈ q.rawOutputPaths, o.target = t) → t ≠ .SLANG_TARGET_UNKNOWN →
      ∃ items r p1 ds, Reads spFindProfile args items ∧
        q.rawOutputPaths = outputRecords items ∧
        q.chosenTarget = chosenTargetOf items ∧
        ({ requestImpl := req } : OptionsParser).parse spFindProfile args = some (r, p1) ∧
        p1.requestImpl.mSink.diagnostics = req.mSink.diagnostics ++ ds ∧
        p1.requestImpl.targets.map (fun x => x.target) = [t] ∧
        ds.filter Diagnostic.isCannotInferTarget = [] ∧
        ds.filter Diagnostic.isInconsistentTargets = []) ∧
    (∃ r p1, ({} : OptionsParser).parse spFindProfile ["x.frag", "-o", "a.spv"] =
        some (r, p1) ∧
      p1.requestImpl.targets.map (fun x => x.target) = [.SLANG_SPIRV] ∧
      p1.requestImpl.mSink.diagnostics = []) := by
  constructor
  · intro req args p m q t hreq hscan hq hc hne hall ht
    obtain ⟨items, r, p1, hreads, hparse, houts, hchosen, _, hds, _, htargets⟩ :=
      parse_reaches_outputs spFindProfile req args p m q hreq hscan hq
    obtain ⟨hnone, hinf⟩ :=
      targetDiagnostics_consistent q.chosenTarget t q.rawOutputPaths (Or.inl hc) hne hall ht
    obtain ⟨_, _, f3, f4⟩ := outputDiagnostics_filter q
    refine ⟨items, r, p1, outputDiagnostics q, hreads, houts, hchosen, hparse, hds, ?_, ?_, ?_⟩
    · rw [htargets, hinf]
    · rw [f3, hnone]
      rfl
    · rw [f4, hnone]
      rfl
  · have e1 : entryPointsOf spFindProfile [.input "x.frag", .output "a.spv"] =
        [{ name := "main", profileID := .GLSL_Fragment, translationUnitIndex := 0 }] := by
      rw [entryPointsOf_input_output]
      decide
    obtain ⟨r, p1, ds, hparse, hdef, hds, _, _, _, htargets, _⟩ :=
      parse_items_outputs spFindProfile {} [.input "x.frag", .output "a.spv"] rfl
        (wellFormed_input_output _ _ _ (wellFormed_x_frag _)) (by
          rw [e1]
          decide)
    rw [e1] at hdef
    refine ⟨r, p1, hparse, ?_, ?_⟩
    · rw [htargets]
      decide
    · rw [hds, hdef]
      decide

/-- C14, at `x.frag -o a.spv`: the scan finishes, profile backfill
continues, no target was chosen, the one output path implies `SLANG_SPIRV`,
and the theorem applies. -/
theorem consistent_output_targets_set_target_witness :
    ({} : CompileRequest).translationUnits = [] ∧
    ∃ p m, parseArgs exampleProfiles ["x.frag", "-o", "a.spv"]
        { requestImpl := {}, flags := ({} : CompileRequest).compileFlags }
        .SLANG_MATRIX_LAYOUT_MODE_UNKNOWN = .finished p m ∧
      applyProfiles (beforeProfileBackfill p) = .continued (beforeProfileBackfill p) ∧
      (beforeProfileBackfill p).chosenTarget = .SLANG_TARGET_NONE ∧
      (beforeProfileBackfill p).rawOutputPaths ≠ [] ∧
      (∀ o ∈ (beforeProfileBackfill p).rawOutputPaths, o.target = .SLANG_SPIRV) ∧
      SlangCompileTarget.SLANG_SPIRV ≠ .SLANG_TARGET_UNKNOWN ∧
      ∃ items r p1 ds, Reads exampleProfiles ["x.frag", "-o", "a.spv"] items ∧
        (beforeProfileBackfill p).rawOutputPaths = outputRecords items ∧
        (beforeProfileBackfill p).chosenTarget = chosenTargetOf items ∧
        ({ requestImpl := {} } : OptionsParser).parse exampleProfiles
          ["x.frag", "-o", "a.spv"] = some (r, p1) ∧
        p1.requestImpl.mSink.diagnostics = ({} : CompileRequest).mSink.diagnostics ++ ds ∧
        p1.requestImpl.targets.map (fun x => x.target) = [.SLANG_SPIRV] ∧
        ds.filter Diagnostic.isCannotInferTarget = [] ∧
        ds.filter Diagnostic.isInconsistentTargets = [] := by
  have e1 : entryPointsOf exampleProfiles [.input "x.frag", .output "a.spv"] =
      [{ name := "main", profileID := .GLSL_Fragment, translationUnitIndex := 0 }] := by
    decide
  obtain ⟨p, m, hscan, hq, _, houts, hchosen⟩ := items_reach_outputs exampleProfiles {}
    [.input "x.frag", .output "a.spv"] rfl
    (wellFormed_input_output _ _ _ (wellFormed_x_frag _)) (by
      rw [e1]
      decide)
  have ho : outputRecords [.input "x.frag", .output "a.spv"] =
      [{ path := "a.spv", target := .SLANG_SPIRV }] := by
    decide
  rw [ho] at houts
  have h1 : (beforeProfileBackfill p).chosenTarget = .SLANG_TARGET_NONE := by
    rw [hchosen]
    decide
  have h2 : (beforeProfileBackfill p).rawOutputPaths ≠ [] := by
    rw [houts]
    exact List.cons_ne_nil _ _
  have h3 : ∀ o ∈ (beforeProfileBackfill p).rawOutputPaths, o.target = .SLANG_SPIRV := by
    rw [houts]
    decide
  exact ⟨rfl, p, m, hscan, hq, h1, h2, h3, by decide,
    (consistent_output_targets_set_target exampleProfiles).1 {}
      ["x.frag", "-o", "a.spv"] p m _ .SLANG_SPIRV rfl hscan hq h1 h2 h3 (by decide)⟩

theorem unitRecords_foreign_input (path : String) (language : SlangSourceLanguage)
    (profile : SlangProfileID) (hs : EndsWith path ".slang" = false)
    (hf : findSourceLanguageFromPath path = (language, profile)) :
    unitRecords [.input path] =
      [{ sourceLanguage := language, implicitProfile := profile, translationUnitIndex := 0 }] := by
  simp [unitRecords, inputPathsOf, expectedUnits, hs, hf, numberedUnit, List.enum, List.enumFrom]

theorem entryPointsOf_foreign_input_output (spFindProfile : String → SlangProfileID)
    (input path : String) (language : SlangSourceLanguage) (profile : SlangProfileID)
    (hs : EndsWith input ".slang" = false)
    (hf : findSourceLanguageFromPath input = (language, profile))
    (hl : language ≠ .SLANG_SOURCE_LANGUAGE_SLANG) :
    entryPointsOf spFindProfile [.input input, .output path] =
      [{ name := "main", profileID := profile, translationUnitIndex := 0 }] := by
  rw [entryPointsOf_input_output, unitRecords_foreign_input input language profile hs hf]
  simp [implicitEntryPointsFor, implicitEntryPoint, hl]

/-- A foreign input whose suffix implies a stage profile, then `-o a.hlsl`:
`parse` succeeds, the target is `SLANG_HLSL` and nothing is diagnosed. -/
theorem stage_input_output_hlsl (spFindProfile : String → SlangProfileID) (input : String)
    (h1 : input.data.head? ≠ some '-')
    (h2 : ∃ entry ∈ glslProfileEntries, EndsWith input entry.1 = true) :
    ∃ p1, ({} : OptionsParser).parse spFindProfile [input, "-o", "a.hlsl"] =
        some (.SLANG_OK, p1) ∧
      p1.requestImpl.targets.map (fun t => t.target) = [.SLANG_HLSL] ∧
      p1.requestImpl.mSink.diagnostics = [] := by
  obtain ⟨entry, hentry, hends⟩ := h2
  have hmem : (entry.1, SlangSourceLanguage.SLANG_SOURCE_LANGUAGE_GLSL, entry.2) ∈
      foreignSuffixes := by
    simp only [glslProfileEntries, List.mem_cons, List.mem_singleton, List.not_mem_nil,
      or_false] at hentry
    rcases hentry with rfl | rfl | rfl | rfl | rfl <;> decide
  obtain ⟨hs, hf, hl⟩ := findSourceLanguageFromPath_of_suffix input _ hmem hends
  have hprofile : entry.2 ≠ .SLANG_PROFILE_UNKNOWN := by
    simp only [glslProfileEntries, List.mem_cons, List.mem_singleton, List.not_mem_nil,
      or_false] at hentry
    rcases hentry with rfl | rfl | rfl | rfl | rfl <;> decide
  have e1 := entryPointsOf_foreign_input_output spFindProfile input "a.hlsl" _ _ hs hf
    (by decide)
  have hwf : (CommandLineItem.input input).WellFormed spFindProfile :=
    wellFormed_input _ _ h1 (Or.inr (by
      rw [hf]
      exact hl))
  obtain ⟨r, p1, ds, hparse, hdef, hds, _, _, hiff, htargets, hsink, _⟩ :=
    parse_items_outputs spFindProfile {} [.input input, .output "a.hlsl"] rfl
      (wellFormed_input_output _ _ _ hwf) (by
        rw [e1]
        intro e he
        rw [List.mem_singleton.mp he]
        exact hprofile)
  rw [e1] at hdef
  have hout : outputRecords [.input input, .output "a.hlsl"] =
      [{ path := "a.hlsl", target := .SLANG_HLSL }] := by
    have hrec : outputRecords [.output "a.hlsl"] =
        [{ path := "a.hlsl", target := .SLANG_HLSL }] := by
      decide
    exact hrec
  have hchosen : chosenTargetOf [.input input, .output "a.hlsl"] = .SLANG_TARGET_NONE := rfl
  have htar : targetsOf [.input input, .output "a.hlsl"] = [] := rfl
  have hunits : ((expectedUnits (inputPathsOf [.input input, .output "a.hlsl"])).length : Int)
      = 1 := by
    have : inputPathsOf [.input input, .output "a.hlsl"] = [input] := rfl
    rw [this]
    simp [expectedUnits, hs]
  rw [hout, hchosen, htar, hunits] at hdef
  have hnil : ds = [] := by
    rw [hdef]
    simp [multipleTargetsDiagnostics, associationDiagnostics, targetDiagnostics,
      translationUnitDiagnostics]
  have hr : r = .SLANG_OK := by
    rw [hiff, hsink, hnil]
    rfl
  subst hr
  refine ⟨p1, hparse, ?_, ?_⟩
  · rw [htargets, hout, hchosen]
    rfl
  · rw [hds, hnil]
    rfl

/-- A foreign input whose suffix implies no profile, then `-o a.hlsl`:
`parse` stops at profile backfill with `noProfileSpecified`, and the request
has no target. -/
theorem plain_input_output_hlsl (spFindProfile : String → SlangProfileID) (input : String)
    (h1 : input.data.head? ≠ some '-')
    (h2 : EndsWith input ".hlsl" = true ∨ EndsWith input ".fx" = true ∨
      EndsWith input ".glsl" = true) :
    ∃ p1, ({} : OptionsParser).parse spFindProfile [input, "-o", "a.hlsl"] =
        some (.SLANG_E_INVALID_ARG, p1) ∧
      p1.requestImpl.targets = [] ∧
      p1.requestImpl.mSink.diagnostics = [.noProfileSpecified] := by
  have hex : ∃ language, language ≠ SlangSourceLanguage.SLANG_SOURCE_LANGUAGE_UNKNOWN ∧
      language ≠ .SLANG_SOURCE_LANGUAGE_SLANG ∧ EndsWith input ".slang" = false ∧
      findSourceLanguageFromPath input = (language, .SLANG_PROFILE_UNKNOWN) := by
    rcases h2 with h | h | h
    · obtain ⟨hs, hf, hl⟩ := findSourceLanguageFromPath_of_suffix input
        (".hlsl", .SLANG_SOURCE_LANGUAGE_HLSL, .SLANG_PROFILE_UNKNOWN) (by decide) h
      exact ⟨_, hl, by decide, hs, hf⟩
    · obtain ⟨hs, hf, hl⟩ := findSourceLanguageFromPath_of_suffix input
        (".fx", .SLANG_SOURCE_LANGUAGE_HLSL, .SLANG_PROFILE_UNKNOWN) (by decide) h
      exact ⟨_, hl, by decide, hs, hf⟩
    · obtain ⟨hs, hf, hl⟩ := findSourceLanguageFromPath_of_suffix input
        (".glsl", .SLANG_SOURCE_LANGUAGE_GLSL, .SLANG_PROFILE_UNKNOWN) (by decide) h
      exact ⟨_, hl, by decide, hs, hf⟩
  obtain ⟨language, hl, hl2, hs, hf⟩ := hex
  have e1 := entryPointsOf_foreign_input_output spFindProfile input "a.hlsl" _ _ hs hf hl2
  have hwf : (CommandLineItem.input input).WellFormed spFindProfile :=
    wellFormed_input _ _ h1 (Or.inr (by
      rw [hf]
      exact hl))
  obtain ⟨p, m, _, hparse, hentries, _, _, htargets, hsink, _, _, hcur, _, _, _⟩ :=
    parse_items_state spFindProfile {} [.input input, .output "a.hlsl"] rfl
      (wellFormed_input_output _ _ _ hwf)
  rw [e1] at hentries
  rcases applyProfiles_cases (beforeProfileBackfill p) with
    ⟨_, _, happ⟩ | ⟨_, hcu, _⟩ | ⟨hno, _, _⟩
  · refine ⟨_, hparse.trans (resolve_returned p m _ _ happ), ?_, ?_⟩
    · show (beforeProfileBackfill p).requestImpl.targets = []
      rw [htargets]
      rfl
    · show (beforeProfileBackfill p).requestImpl.mSink.diagnostics ++ [_] = _
      rw [hsink]
      rfl
  · rw [hcur] at hcu
    exact absurd rfl hcu
  · exfalso
    apply hno
    rw [hentries, hcur]
    exact ⟨⟨_, List.mem_singleton.mpr rfl, rfl⟩, rfl⟩
/-- C15, as stated, fails at the input `a.hlsl`, which has the recognised
foreign suffix `.hlsl` (language HLSL, no implied profile): `parse` on
`a.hlsl -o a.hlsl` returns `SLANG_E_INVALID_ARG` with the one diagnostic
`noProfileSpecified`, and the request has no target. -/
theorem output_hlsl_with_hlsl_input_sets_no_target :
    EndsWith "a.hlsl" ".hlsl" = true ∧
    findSourceLanguageFromPath "a.hlsl" =
      (.SLANG_SOURCE_LANGUAGE_HLSL, .SLANG_PROFILE_UNKNOWN) ∧
    ∃ p1, ({} : OptionsParser).parse exampleProfiles ["a.hlsl", "-o", "a.hlsl"] =
        some (.SLANG_E_INVALID_ARG, p1) ∧
      p1.requestImpl.targets = [] ∧
      p1.requestImpl.mSink.diagnostics = [.noProfileSpecified] :=
  ⟨by decide, by decide,
    plain_input_output_hlsl exampleProfiles "a.hlsl" (by decide) (Or.inl (by decide))⟩

/-- C15, amended: for every input path `F` (a token that does not start with
`-`) that ends in one of the suffixes of `findGlslProfileFromPath` (`.frag`,
`.geom`, `.tesc`, `.tese`, `.comp`: the foreign suffixes that imply a stage
profile), `parse` on the tokens `F -o a.hlsl` succeeds, the request ends with
the one target `SLANG_HLSL` and nothing is diagnosed; and for every input
path `F` that ends in `.hlsl`, `.fx` or `.glsl`, `parse` on the same tokens
returns `SLANG_E_INVALID_ARG` with the one diagnostic `noProfileSpecified`
and the request has no target. -/
theorem output_hlsl_infers_target (spFindProfile : String → SlangProfileID) :
    (∀ F : String, F.data.head? ≠ some '-' →
      (∃ entry ∈ glslProfileEntries, EndsWith F entry.1 = true) →
      ∃ p1, ({} : OptionsParser).parse spFindProfile [F, "-o", "a.hlsl"] =
          some (.SLANG_OK, p1) ∧
        p1.requestImpl.targets.map (fun t => t.target) = [.SLANG_HLSL] ∧
        p1.requestImpl.mSink.diagnostics = []) ∧
    (∀ F : String, F.data.head? ≠ some '-' →
      (EndsWith F ".hlsl" = true ∨ EndsWith F ".fx" = true ∨ EndsWith F ".glsl" = true) →
      ∃ p1, ({} : OptionsParser).parse spFindProfile [F, "-o", "a.hlsl"] =
          some (.SLANG_E_INVALID_ARG, p1) ∧
        p1.requestImpl.targets = [] ∧
        p1.requestImpl.mSink.diagnostics = [.noProfileSpecified]) :=
  ⟨fun F h1 h2 => stage_input_output_hlsl spFindProfile F h1 h2,
   fun F h1 h2 => plain_input_output_hlsl spFindProfile F h1 h2⟩

/-- C15, amended, at the input `x.frag`: it does not start with `-`, it ends
in `.frag`, and `parse` on `x.frag -o a.hlsl` succeeds with the target
`SLANG_HLSL`. -/
theorem output_hlsl_infers_target_witness :
    ("x.frag" : String).data.head? ≠ some '-' ∧
    (∃ entry ∈ glslProfileEntries, EndsWith "x.frag" entry.1 = true) ∧
    ∃ p1, ({} : OptionsParser).parse exampleProfiles ["x.frag", "-o", "a.hlsl"] =
        some (.SLANG_OK, p1) ∧
      p1.requestImpl.targets.map (fun t => t.target) = [.SLANG_HLSL] ∧
      p1.requestImpl.mSink.diagnostics = [] :=
  ⟨by decide, ⟨(".frag", .GLSL_Fragment), by decide, by decide⟩,
    (output_hlsl_infers_target exampleProfiles).1 "x.frag" (by decide)
      ⟨(".frag", .GLSL_Fragment), by decide, by decide⟩⟩

theorem entryPointsOf_x_frag_output (spFindProfile : String → SlangProfileID) (path : String) :
    entryPointsOf spFindProfile [.input "x.frag", .output path] =
      [{ name := "main", profileID := .GLSL_Fragment, translationUnitIndex := 0 }] :=
  entryPointsOf_foreign_input_output spFindProfile "x.frag" path .SLANG_SOURCE_LANGUAGE_GLSL
    .GLSL_Fragment (by decide) (by decide) (by decide)

theorem known_x_frag_output (spFindProfile : String → SlangProfileID) (path : String) :
    ∀ e ∈ entryPointsOf spFindProfile [.input "x.frag", .output path],
      e.profileID ≠ .SLANG_PROFILE_UNKNOWN := by
  rw [entryPointsOf_x_frag_output]
  decide

/-- C16: `cannotDeduceOutputFormatFromPath` (CannotInferTargetFromPath).
After a scan of any token list that finishes, from a new parser on a request
without translation units, and a profile backfill that continues with the
parser `q`: the output paths of `q` are the `-o` paths of the command line
outside containers, each with the target its suffix implies, and the chosen
target of `q` is that of the last `-target` or `-backend`,
`SLANG_TARGET_NONE` without one; when the chosen target is
`SLANG_TARGET_NONE` and some output path has the target
`SLANG_TARGET_UNKNOWN`, `parse` returns `SLANG_FAIL`; among the diagnostics
it adds, `cannotDeduceOutputFormatFromPath` occurs exactly once, with the
first output path of unknown target, and `outputPathsImplyDifferentFormats`
does not occur; and the targets of the request are those `q` had.  So
`x.frag -o a.foo` fails with the one diagnostic
`cannotDeduceOutputFormatFromPath "a.foo"` and the request has no target. -/
theorem cannot_infer_target_names_first (spFindProfile : String → SlangProfileID) :
    (∀ (req : CompileRequest) (args : List String) (p : OptionsParser)
        (m : SlangMatrixLayoutMode) (q : OptionsParser),
      req.translationUnits = [] →
      parseArgs spFindProfile args { requestImpl := req, flags := req.compileFlags }
        .SLANG_MATRIX_LAYOUT_MODE_UNKNOWN = .finished p m →
      applyProfiles (beforeProfileBackfill p) = .continued q →
      q.chosenTarget = .SLANG_TARGET_NONE →
      (∃ o ∈ q.rawOutputPaths, o.target = .SLANG_TARGET_UNKNOWN) →
      ∃ items p1 ds pre o post, Reads spFindProfile args items ∧
        q.rawOutputPaths = outputRecords items ∧
        q.chosenTarget = chosenTargetOf items ∧
        ({ requestImpl := req } : OptionsParser).parse spFindProfile args =
          some (.SLANG_FAIL, p1) ∧
        p1.requestImpl.mSink.diagnostics = req.mSink.diagnostics ++ ds ∧
        q.rawOutputPaths = pre ++ o :: post ∧
        (∀ x ∈ pre, x.target ≠ .SLANG_TARGET_UNKNOWN) ∧
        o.target = .SLANG_TARGET_UNKNOWN ∧
        ds.filter Diagnostic.isCannotInferTarget =
          [.cannotDeduceOutputFormatFromPath o.path] ∧
        ds.filter Diagnostic.isInconsistentTargets = [] ∧
        p1.requestImpl.targets.map (fun t => t.target) =
          q.requestImpl.targets.map (fun t => t.target)) ∧
    (∃ p1, ({} : OptionsParser).parse spFindProfile ["x.frag", "-o", "a.foo"] =
        some (.SLANG_FAIL, p1) ∧
      p1.requestImpl.mSink.diagnostics = [.cannotDeduceOutputFormatFromPath "a.foo"] ∧
      p1.requestImpl.targets = []) := by
  constructor
  · intro req args p m q hreq hscan hq hc hex
    obtain ⟨items, r, p1, hreads, hparse, houts, hchosen, _, hds, hfail, htargets⟩ :=
      parse_reaches_outputs spFindProfile req args p m q hreq hscan hq
    obtain ⟨pre, o, post, hsplit, hpre, ho, hdiag, hinf⟩ :=
      targetDiagnostics_unknown q.chosenTarget q.rawOutputPaths (Or.inl hc) hex
    obtain ⟨_, _, f3, f4⟩ := outputDiagnostics_filter q
    rw [hdiag] at f3 f4
    have f3a : (outputDiagnostics q).filter Diagnostic.isCannotInferTarget =
        [.cannotDeduceOutputFormatFromPath o.path] := f3
    have f4a : (outputDiagnostics q).filter Diagnostic.isInconsistentTargets = [] := f4
    have hmem : Diagnostic.cannotDeduceOutputFormatFromPath o.path ∈
        (outputDiagnostics q).filter Diagnostic.isCannotInferTarget := by
      rw [f3a]
      exact List.mem_singleton.mpr rfl
    have hr : r = .SLANG_FAIL := hfail _ (List.mem_filter.mp hmem).1 rfl
    subst hr
    refine ⟨items, p1, outputDiagnostics q, pre, o, post, hreads, houts, hchosen, hparse, hds,
      hsplit, hpre, ho, f3a, f4a, ?_⟩
    rw [htargets, hinf]
  · obtain ⟨r, p1, ds, hparse, hdef, hds, hfail, _, _, htargets, _⟩ :=
      parse_items_outputs spFindProfile {} [.input "x.frag", .output "a.foo"] rfl
        (wellFormed_input_output _ _ _ (wellFormed_x_frag _)) (known_x_frag_output _ _)
    rw [entryPointsOf_x_frag_output] at hdef
    have hd : ds = [.cannotDeduceOutputFormatFromPath "a.foo"] := by
      rw [hdef]
      decide
    have hr : r = .SLANG_FAIL := by
      apply hfail (.cannotDeduceOutputFormatFromPath "a.foo") _ rfl
      rw [hd]
      exact List.mem_singleton.mpr rfl
    subst hr
    refine ⟨p1, hparse, ?_, ?_⟩
    · rw [hds, hd]
      rfl
    · have ht : p1.requestImpl.targets.map (fun t => t.target) = [] := by
        rw [htargets]
        decide
      exact List.map_eq_nil_iff.mp ht

/-- C16, at `x.frag -o a.foo`: the scan finishes, profile backfill
continues, no target was chosen, the one output path implies no target, and
the theorem applies. -/
theorem cannot_infer_target_names_first_witness :
    ({} : CompileRequest).translationUnits = [] ∧
    ∃ p m, parseArgs exampleProfiles ["x.frag", "-o", "a.foo"]
        { requestImpl := {}, flags := ({} : CompileRequest).compileFlags }
        .SLANG_MATRIX_LAYOUT_MODE_UNKNOWN = .finished p m ∧
      applyProfiles (beforeProfileBackfill p) = .continued (beforeProfileBackfill p) ∧
      (beforeProfileBackfill p).chosenTarget = .SLANG_TARGET_NONE ∧
      (∃ o ∈ (beforeProfileBackfill p).rawOutputPaths, o.target = .SLANG_TARGET_UNKNOWN) ∧
      ∃ items p1 ds pre o post, Reads exampleProfiles ["x.frag", "-o", "a.foo"] items ∧
        (beforeProfileBackfill p).rawOutputPaths = outputRecords items ∧
        (beforeProfileBackfill p).chosenTarget = chosenTargetOf items ∧
        ({ requestImpl := {} } : OptionsParser).parse exampleProfiles
          ["x.frag", "-o", "a.foo"] = some (.SLANG_FAIL, p1) ∧
        p1.requestImpl.mSink.diagnostics = ({} : CompileRequest).mSink.diagnostics ++ ds ∧
        (beforeProfileBackfill p).rawOutputPaths = pre ++ o :: post ∧
        (∀ x ∈ pre, x.target ≠ .SLANG_TARGET_UNKNOWN) ∧
        o.target = .SLANG_TARGET_UNKNOWN ∧
        ds.filter Diagnostic.isCannotInferTarget =
          [.cannotDeduceOutputFormatFromPath o.path] ∧
        ds.filter Diagnostic.isInconsistentTargets = [] ∧
        p1.requestImpl.targets.map (fun t => t.target) =
          (beforeProfileBackfill p).requestImpl.targets.map (fun t => t.target) := by
  obtain ⟨p, m, hscan, hq, _, houts, hchosen⟩ := items_reach_outputs exampleProfiles {}
    [.input "x.frag", .output "a.foo"] rfl
    (wellFormed_input_output _ _ _ (wellFormed_x_frag _)) (known_x_frag_output _ _)
  have ho : outputRecords [.input "x.frag", .output "a.foo"] =
      [{ path := "a.foo", target := .SLANG_TARGET_UNKNOWN }] := by
    decide
  rw [ho] at houts
  have h1 : (beforeProfileBackfill p).chosenTarget = .SLANG_TARGET_NONE := by
    rw [hchosen]
    decide
  have h2 : ∃ o ∈ (beforeProfileBackfill p).rawOutputPaths,
      o.target = .SLANG_TARGET_UNKNOWN := by
    rw [houts]
    exact ⟨_, List.mem_singleton.mpr rfl, rfl⟩
  exact ⟨rfl, p, m, hscan, hq, h1, h2,
    (cannot_infer_target_names_first exampleProfiles).1 {}
      ["x.frag", "-o", "a.foo"] p m _ rfl hscan hq h1 h2⟩

theorem entryPointsOf_outputs_then_entries (spFindProfile : String → SlangProfileID)
    (n e1 e2 : String) :
    entryPointsOf spFindProfile
        [.output "a.hlsl", .output "b.spv", .input "x.hlsl", .profile n, .entry e1,
         .entry e2] =
      [{ name := e1, profileID := spFindProfile n, translationUnitIndex := 0,
         outputPathIndex := 1 },
       { name := e2, profileID := spFindProfile n, translationUnitIndex := 0,
         outputPathIndex := 1 }] := by
  have t : touchedUnit ["x.hlsl"] = 0 := by decide
  have o1 : EndsWith "a.hlsl" ".slang-module" = false := by decide
  have o2 : EndsWith "b.spv" ".slang-module" = false := by decide
  simp [entryPointsOf, entryRecords, lastProfile, profileNames, inputPathsOf, outputPathsOf, t,
    o1, o2]

theorem wellFormed_outputs_then_entries (spFindProfile : String → SlangProfileID)
    (n e1 e2 : String) (hn : spFindProfile n ≠ .SLANG_PROFILE_UNKNOWN) :
    ∀ i ∈ [CommandLineItem.output "a.hlsl", .output "b.spv", .input "x.hlsl", .profile n,
        .entry e1, .entry e2], i.WellFormed spFindProfile := by
  intro i hi
  simp only [List.mem_cons, List.mem_singleton, List.not_mem_nil, or_false] at hi
  rcases hi with rfl | rfl | rfl | rfl | rfl | rfl
  · trivial
  · trivial
  · exact wellFormed_x_hlsl _
  · exact hn
  · trivial
  · trivial

theorem known_outputs_then_entries (spFindProfile : String → SlangProfileID)
    (n e1 e2 : String) (hn : spFindProfile n ≠ .SLANG_PROFILE_UNKNOWN) :
    ∀ e ∈ entryPointsOf spFindProfile
        [.output "a.hlsl", .output "b.spv", .input "x.hlsl", .profile n, .entry e1,
         .entry e2], e.profileID ≠ .SLANG_PROFILE_UNKNOWN := by
  rw [entryPointsOf_outputs_then_entries]
  intro e he
  simp only [List.mem_cons, List.mem_singleton, List.not_mem_nil, or_false] at he
  rcases he with rfl | rfl
  · exact hn
  · exact hn

theorem outputRecords_hlsl_spv (n e1 e2 : String) :
    outputRecords [.output "a.hlsl", .output "b.spv", .input "x.hlsl", .profile n, .entry e1,
        .entry e2] =
      [{ path := "a.hlsl", target := .SLANG_HLSL },
       { path := "b.spv", target := .SLANG_SPIRV }] := by
  have h : outputRecords [.output "a.hlsl", .output "b.spv"] =
      [{ path := "a.hlsl", target := .SLANG_HLSL },
       { path := "b.spv", target := .SLANG_SPIRV }] := by
    decide
  exact h

/-- C17: `outputPathsImplyDifferentFormats` (InconsistentOutputTargets).
After a scan of any token list that finishes, from a new parser on a request
without translation units, and a profile backfill that continues with the
parser `q`: the output paths of `q` are the `-o` paths of the command line
outside containers, each with the target its suffix implies, and the chosen
target of `q` is that of the last `-target` or `-backend`,
`SLANG_TARGET_NONE` without one; when the chosen target is
`SLANG_TARGET_NONE`, no output path has the target `SLANG_TARGET_UNKNOWN`
and two output paths have different targets, `parse` returns `SLANG_FAIL`;
among the diagnostics it adds, `outputPathsImplyDifferentFormats` occurs
exactly once, with the first output path and the first output path after it
whose target differs from that of the first, and
`cannotDeduceOutputFormatFromPath` does not occur.  So
`-o a.hlsl -o b.spv x.hlsl -profile N -entry E1 -entry E2`, with `N` known,
fails with the one diagnostic
`outputPathsImplyDifferentFormats "a.hlsl" "b.spv"`. -/
theorem inconsistent_output_targets_names_first (spFindProfile : String → SlangProfileID) :
    (∀ (req : CompileRequest) (args : List String) (p : OptionsParser)
        (m : SlangMatrixLayoutMode) (q : OptionsParser),
      req.translationUnits = [] →
      parseArgs spFindProfile args { requestImpl := req, flags := req.compileFlags }
        .SLANG_MATRIX_LAYOUT_MODE_UNKNOWN = .finished p m →
      applyProfiles (beforeProfileBackfill p) = .continued q →
      q.chosenTarget = .SLANG_TARGET_NONE →
      (∀ o ∈ q.rawOutputPaths, o.target ≠ .SLANG_TARGET_UNKNOWN) →
      (∃ a ∈ q.rawOutputPaths, ∃ b ∈ q.rawOutputPaths, a.target ≠ b.target) →
      ∃ items p1 ds first pre o post, Reads spFindProfile args items ∧
        q.rawOutputPaths = outputRecords items ∧
        q.chosenTarget = chosenTargetOf items ∧
        ({ requestImpl := req } : OptionsParser).parse spFindProfile args =
          some (.SLANG_FAIL, p1) ∧
        p1.requestImpl.mSink.diagnostics = req.mSink.diagnostics ++ ds ∧
        q.rawOutputPaths = first :: (pre ++ o :: post) ∧
        (∀ x ∈ pre, x.target = first.target) ∧ o.target ≠ first.target ∧
        ds.filter Diagnostic.isInconsistentTargets =
          [.outputPathsImplyDifferentFormats first.path o.path] ∧
        ds.filter Diagnostic.isCannotInferTarget = []) ∧
    (∀ n e1 e2 : String, spFindProfile n ≠ .SLANG_PROFILE_UNKNOWN →
      ∃ p1, ({} : OptionsParser).parse spFindProfile
          ["-o", "a.hlsl", "-o", "b.spv", "x.hlsl", "-profile", n, "-entry", e1, "-entry", e2] =
          some (.SLANG_FAIL, p1) ∧
        p1.rawEntryPoints.map (fun e => e.name) = [e1, e2] ∧
        p1.requestImpl.mSink.diagnostics =
          [.outputPathsImplyDifferentFormats "a.hlsl" "b.spv"]) := by
  constructor
  · intro req args p m q hreq hscan hq hc hknown hdiff
    obtain ⟨items, r, p1, hreads, hparse, houts, hchosen, _, hds, hfail, _⟩ :=
      parse_reaches_outputs spFindProfile req args p m q hreq hscan hq
    obtain ⟨first, pre, o, post, hsplit, hpre, ho, hdiag, _⟩ :=
      targetDiagnostics_inconsistent q.chosenTarget q.rawOutputPaths (Or.inl hc) hknown hdiff
    obtain ⟨_, _, f3, f4⟩ := outputDiagnostics_filter q
    rw [hdiag] at f3 f4
    have f3a : (outputDiagnostics q).filter Diagnostic.isCannotInferTarget = [] := f3
    have f4a : (outputDiagnostics q).filter Diagnostic.isInconsistentTargets =
        [.outputPathsImplyDifferentFormats first.path o.path] := f4
    have hmem : Diagnostic.outputPathsImplyDifferentFormats first.path o.path ∈
        (outputDiagnostics q).filter Diagnostic.isInconsistentTargets := by
      rw [f4a]
      exact List.mem_singleton.mpr rfl
    have hr : r = .SLANG_FAIL := hfail _ (List.mem_filter.mp hmem).1 rfl
    subst hr
    exact ⟨items, p1, outputDiagnostics q, first, pre, o, post, hreads, houts, hchosen, hparse,
      hds, hsplit, hpre, ho, f4a, f3a⟩
  · intro n e1 e2 hn
    obtain ⟨r, p1, ds, hparse, hdef, hds, hfail, _, _, _, _, hnames, _⟩ :=
      parse_items_outputs spFindProfile {}
        [.output "a.hlsl", .output "b.spv", .input "x.hlsl", .profile n, .entry e1, .entry e2]
        rfl (wellFormed_outputs_then_entries _ n e1 e2 hn)
        (known_outputs_then_entries _ n e1 e2 hn)
    rw [entryPointsOf_outputs_then_entries] at hnames
    rw [entryPointsOf_outputs_then_entries, outputRecords_hlsl_spv] at hdef
    have hd : ds = [.outputPathsImplyDifferentFormats "a.hlsl" "b.spv"] := by
      rw [hdef]
      have h1 : chosenTargetOf [.output "a.hlsl", .output "b.spv", .input "x.hlsl",
          .profile n, .entry e1, .entry e2] = .SLANG_TARGET_NONE := rfl
      have h2 : targetsOf [.output "a.hlsl", .output "b.spv", .input "x.hlsl",
          .profile n, .entry e1, .entry e2] = [] := rfl
      have h3 : inputPathsOf [.output "a.hlsl", .output "b.spv", .input "x.hlsl",
          .profile n, .entry e1, .entry e2] = ["x.hlsl"] := rfl
      have h4 : ((expectedUnits ["x.hlsl"]).length : Int) = 1 := by decide
      rw [h1, h2, h3, h4]
      simp [multipleTargetsDiagnostics, associationDiagnostics, targetDiagnostics,
        translationUnitDiagnostics]
    have hr : r = .SLANG_FAIL := by
      apply hfail (.outputPathsImplyDifferentFormats "a.hlsl" "b.spv") _ rfl
      rw [hd]
      exact List.mem_singleton.mpr rfl
    subst hr
    refine ⟨p1, hparse, ?_, ?_⟩
    · exact hnames
    · rw [hds, hd]
      rfl

/-- C17, at `-o a.hlsl -o b.spv x.hlsl -profile ps_5_0 -entry f -entry g`:
the scan finishes, profile backfill continues, no target was chosen, the
output paths imply `SLANG_HLSL` and `SLANG_SPIRV`, and the theorem applies. -/
theorem inconsistent_output_targets_names_first_witness :
    ({} : CompileRequest).translationUnits = [] ∧
    ∃ p m, parseArgs exampleProfiles
        ["-o", "a.hlsl", "-o", "b.spv", "x.hlsl", "-profile", "ps_5_0", "-entry", "f",
         "-entry", "g"]
        { requestImpl := {}, flags := ({} : CompileRequest).compileFlags }
        .SLANG_MATRIX_LAYOUT_MODE_UNKNOWN = .finished p m ∧
      applyProfiles (beforeProfileBackfill p) = .continued (beforeProfileBackfill p) ∧
      (beforeProfileBackfill p).chosenTarget = .SLANG_TARGET_NONE ∧
      (∀ o ∈ (beforeProfileBackfill p).rawOutputPaths, o.target ≠ .SLANG_TARGET_UNKNOWN) ∧
      (∃ a ∈ (beforeProfileBackfill p).rawOutputPaths,
        ∃ b ∈ (beforeProfileBackfill p).rawOutputPaths, a.target ≠ b.target) ∧
      ∃ items p1 ds first pre o post, Reads exampleProfiles
          ["-o", "a.hlsl", "-o", "b.spv", "x.hlsl", "-profile", "ps_5_0", "-entry", "f",
           "-entry", "g"] items ∧
        (beforeProfileBackfill p).rawOutputPaths = outputRecords items ∧
        (beforeProfileBackfill p).chosenTarget = chosenTargetOf items ∧
        ({ requestImpl := {} } : OptionsParser).parse exampleProfiles
          ["-o", "a.hlsl", "-o", "b.spv", "x.hlsl", "-profile", "ps_5_0", "-entry", "f",
           "-entry", "g"] = some (.SLANG_FAIL, p1) ∧
        p1.requestImpl.mSink.diagnostics = ({} : CompileRequest).mSink.diagnostics ++ ds ∧
        (beforeProfileBackfill p).rawOutputPaths = first :: (pre ++ o :: post) ∧
        (∀ x ∈ pre, x.target = first.target) ∧ o.target ≠ first.target ∧
        ds.filter Diagnostic.isInconsistentTargets =
          [.outputPathsImplyDifferentFormats first.path o.path] ∧
        ds.filter Diagnostic.isCannotInferTarget = [] := by
  have hn : exampleProfiles "ps_5_0" ≠ .SLANG_PROFILE_UNKNOWN := by decide
  obtain ⟨p, m, hscan, hq, _, houts, hchosen⟩ := items_reach_outputs exampleProfiles {}
    [.output "a.hlsl", .output "b.spv", .input "x.hlsl", .profile "ps_5_0", .entry "f",
     .entry "g"] rfl
    (wellFormed_outputs_then_entries _ _ _ _ hn) (known_outputs_then_entries _ _ _ _ hn)
  rw [outputRecords_hlsl_spv] at houts
  have h1 : (beforeProfileBackfill p).chosenTarget = .SLANG_TARGET_NONE := by
    rw [hchosen]
    decide
  have h2 : ∀ o ∈ (beforeProfileBackfill p).rawOutputPaths,
      o.target ≠ .SLANG_TARGET_UNKNOWN := by
    rw [houts]
    decide
  have h3 : ∃ a ∈ (beforeProfileBackfill p).rawOutputPaths,
      ∃ b ∈ (beforeProfileBackfill p).rawOutputPaths, a.target ≠ b.target := by
    rw [houts]
    decide
  exact ⟨rfl, p, m, hscan, hq, h1, h2, h3,
    (inconsistent_output_targets_names_first exampleProfiles).1 {}
      ["-o", "a.hlsl", "-o", "b.spv", "x.hlsl", "-profile", "ps_5_0", "-entry", "f",
       "-entry", "g"] p m _ rfl hscan hq h1 h2 h3⟩

theorem addInputPaths_returned_diagnostic (paths : List String) :
    ∀ (p : OptionsParser) (r : SlangResult) (p1 : OptionsParser),
      addInputPaths paths p = some (r, p1) → r ≠ .SLANG_OK →
      ∃ (sink : DiagnosticSink) (d : Diagnostic),
        d.isOutputDiagnostic = false ∧ p1.requestImpl.mSink = sink.diagnose d := by
  induction paths with
  | nil =>
    intro p r p1 h hr
    simp only [addInputPaths, Option.some.injEq, Prod.mk.injEq] at h
    exact absurd h.1.symm hr
  | cons path rest ih =>
    intro p r p1 h hr
    cases hstep : addInputPath p path with
    | none =>
      simp only [addInputPaths, hstep] at h
      exact absurd h (by simp)
    | some rq =>
      obtain ⟨r0, q⟩ := rq
      obtain ⟨_, _, _, _, _, _, _, _, _, hsink⟩ := addInputPath_frame _ _ _ _ hstep
      rcases hsink with ⟨h1, _⟩ | ⟨h1, h2⟩
      · subst h1
        simp only [addInputPaths, hstep] at h
        exact ih _ r p1 h hr
      · subst h1
        simp only [addInputPaths, hstep, Option.some.injEq, Prod.mk.injEq] at h
        obtain ⟨_, rfl⟩ := h
        exact ⟨_, .cannotDeduceSourceLanguage path, rfl, h2⟩

/-- A scan that returns early has just given the sink a diagnostic that is
not one of the output diagnostics. -/
theorem parseArgs_returned_diagnostic (spFindProfile : String → SlangProfileID)
    (args : List String) (p : OptionsParser) (m : SlangMatrixLayoutMode) :
    ∀ (r : SlangResult) (p1 : OptionsParser),
      parseArgs spFindProfile args p m = .returned r p1 →
      ∃ (sink : DiagnosticSink) (d : Diagnostic),
        d.isOutputDiagnostic = false ∧ p1.requestImpl.mSink = sink.diagnose d := by
  induction args, p, m using parseArgs.induct spFindProfile
  all_goals (try unfold parseArgs)
  all_goals (try simp only [*, if_true, if_false, not_false_eq_true, not_true_eq_false])
  all_goals (try assumption)
  all_goals try (
    intro r p1 h
    cases h
    done)
  all_goals try (
    intro r p1 h
    cases h
    refine ⟨_, _, ?_, rfl⟩
    rfl)
  case case12 =>
    intro r p1 h
    rw [if_pos ‹spFindProfile _ = SlangProfileID.SLANG_PROFILE_UNKNOWN›] at h
    cases h
    refine ⟨_, _, ?_, rfl⟩
    rfl
  case case31 =>
    intro r p1 h
    cases h
    exact addInputPaths_returned_diagnostic _ _ _ _ ‹addInputPaths _ _ = some _›
      ‹_ = SlangResult.SLANG_OK → False›
  case case35 =>
    intro r p1 h
    cases h
    obtain ⟨_, _, _, _, _, _, _, _, _, hsink⟩ :=
      addInputPath_frame _ _ _ _ ‹addInputPath _ _ = some _›
    rcases hsink with ⟨h1, _⟩ | ⟨_, h2⟩
    · exact absurd h1 ‹_ = SlangResult.SLANG_OK → False›
    · exact ⟨_, .cannotDeduceSourceLanguage _, rfl, h2⟩
/-- The passes after the loop leave `chosenTarget` alone. -/
theorem resolve_chosenTarget (p : OptionsParser) (m : SlangMatrixLayoutMode) (r : SlangResult)
    (p1 : OptionsParser) (h : resolve p m = some (r, p1)) :
    p1.chosenTarget = p.chosenTarget := by
  rcases resolve_some_cases p m r p1 h with h1 | ⟨q, hq, h2⟩ | ⟨q, q2, hq, h2, h3, _⟩
  · obtain ⟨_, hp | hp⟩ := applyProfiles_returned _ _ _ h1
    · rw [hp, addImplicitEntryPoints_eq]
      rfl
    · rw [hp, addImplicitEntryPoints_eq]
      rfl
  · have c1 := (continued_frame p q hq).2.1
    have c2 := (outputPasses_step q m).chosenTarget
    rw [attachTranslationUnits_eq] at h2
    split at h2
    · cases h2
      exact c2.trans c1
    · cases h2
  · have c1 := (continued_frame p q hq).2.1
    have c2 := (outputPasses_step q m).chosenTarget
    rw [attachTranslationUnits_eq] at h2
    split at h2
    · cases h2
    · cases h2
      rw [placeEntryPoints_some _ _ _ h3]
      exact c2.trans c1

/-- The loop keeps the target of the request in step with `chosenTarget`:
once a target other than `SLANG_TARGET_NONE` is chosen, it is the one target
of the request. -/
theorem ScanClosed_chosenTarget : ScanClosed (fun p =>
    p.chosenTarget ≠ .SLANG_TARGET_NONE →
      p.requestImpl.targets.map (fun t => t.target) = [p.chosenTarget]) where
  flags := fun _ _ h => h
  targetFlags := fun _ _ h => h
  request := fun p r h _ _ ht _ hc => by
    show r.targets.map (fun t => t.target) = [p.chosenTarget]
    rw [ht]
    exact h hc
  target := fun _ _ _ _ => rfl
  profile := fun _ _ h _ => h
  entry := fun _ _ h => h
  output := fun p path h hc => by
    obtain ⟨_, _, f3, _, _, _, f7⟩ := addOutputPath_frame p path
    rw [f7] at hc ⊢
    rw [f3]
    exact h hc
  input := fun p path r p1 h hstep hc => by
    obtain ⟨_, f2, _, _, _, _, f7, _⟩ := addInputPath_frame p path r p1 hstep
    rw [f7] at hc ⊢
    rw [f2]
    exact h hc
  diagnose := fun _ _ h => h

theorem isOutputDiagnostic_of_target (d : Diagnostic)
    (h : d.isCannotInferTarget = true ∨ d.isInconsistentTargets = true) :
    d.isOutputDiagnostic = true := by
  cases d <;> first | rfl | (rcases h with h | h <;> cases h)

theorem diagnose_inj (s1 s2 : DiagnosticSink) (d1 d2 : Diagnostic)
    (h : s1.diagnose d1 = s2.diagnose d2) : d1 = d2 := by
  have h1 : (s1.diagnose d1).diagnostics = (s2.diagnose d2).diagnostics := by rw [h]
  simp only [DiagnosticSink.diagnose] at h1
  have h2 := List.append_inj_right' h1 rfl
  exact List.singleton_inj.mp h2

theorem lookup_mem {α β : Type} [BEq α] [LawfulBEq α] (l : List (α × β)) (a : α) (b : β)
    (h : l.lookup a = some b) : b ∈ l.map Prod.snd := by
  induction l with
  | nil => cases h
  | cons x rest ih =>
    obtain ⟨k, v⟩ := x
    by_cases hk : a == k
    · simp only [List.lookup, hk, Option.some.injEq] at h
      rw [← h]
      exact List.mem_cons_self _ _
    · simp only [List.lookup, hk] at h
      exact List.mem_cons_of_mem _ (ih h)

theorem targetsOf_known (items : List CommandLineItem) :
    ∀ t ∈ targetsOf items, t ≠ .SLANG_TARGET_UNKNOWN := by
  intro t ht
  simp only [targetsOf, List.mem_filterMap] at ht
  obtain ⟨i, _, hi⟩ := ht
  cases i with
  | target arg name =>
    have hmem := lookup_mem codeGenTargetNames name t hi
    have key : ∀ x ∈ codeGenTargetNames.map Prod.snd,
        x ≠ SlangCompileTarget.SLANG_TARGET_UNKNOWN := by
      decide
    exact key t hmem
  | _ => cases hi

theorem chosenTargetOf_known (items : List CommandLineItem) :
    chosenTargetOf items ≠ .SLANG_TARGET_UNKNOWN := by
  unfold chosenTargetOf
  split
  · rename_i t ht
    exact targetsOf_known items t (List.mem_of_getLast?_eq_some ht)
  · decide

theorem filter_singleton_not_output (k : Diagnostic → Bool) (d : Diagnostic)
    (hk : ∀ x, k x = true → x.isOutputDiagnostic = true) (hd : d.isOutputDiagnostic = false) :
    [d].filter k = [] := by
  cases hb : k d with
  | false => simp [List.filter, hb]
  | true =>
    rw [hk d hb] at hd
    cases hd

theorem filter_singleton_profile (k : Diagnostic → Bool) (d : Diagnostic)
    (hk : ∀ x, k x = true → x.isOutputDiagnostic = true) (hd : d.isProfileDiagnostic = true) :
    [d].filter k = [] := by
  apply filter_singleton_not_output k d hk
  cases d <;> first | rfl | cases hd

/-- What `parse` does with the chosen target, on any token list: it returns;
when the parser it returns has a chosen target other than
`SLANG_TARGET_NONE`, this is the one target of the request and `parse` has
diagnosed neither `cannotDeduceOutputFormatFromPath` nor
`outputPathsImplyDifferentFormats`; and after a scan that finished the chosen
target is that of the scan, the target of the last `-target` or `-backend` of
the command line. -/
theorem parse_explicit_target (spFindProfile : String → SlangProfileID) (req : CompileRequest)
    (args : List String) (hreq : req.translationUnits = []) :
    ∃ r p1 ds, ({ requestImpl := req } : OptionsParser).parse spFindProfile args =
        some (r, p1) ∧
      p1.requestImpl.mSink.diagnostics = req.mSink.diagnostics ++ ds ∧
      (p1.chosenTarget ≠ .SLANG_TARGET_NONE →
        p1.requestImpl.targets.map (fun t => t.target) = [p1.chosenTarget] ∧
        ds.filter Diagnostic.isCannotInferTarget = [] ∧
        ds.filter Diagnostic.isInconsistentTargets = []) ∧
      (∀ p m, parseArgs spFindProfile args { requestImpl := req, flags := req.compileFlags }
          .SLANG_MATRIX_LAYOUT_MODE_UNKNOWN = .finished p m →
        p1.chosenTarget = p.chosenTarget ∧
        ∃ items, Reads spFindProfile args items ∧ p.chosenTarget = chosenTargetOf items) := by
  have k1 : ∀ x : Diagnostic, x.isCannotInferTarget = true → x.isOutputDiagnostic = true :=
    fun x h => isOutputDiagnostic_of_target x (Or.inl h)
  have k2 : ∀ x : Diagnostic, x.isInconsistentTargets = true → x.isOutputDiagnostic = true :=
    fun x h => isOutputDiagnostic_of_target x (Or.inr h)
  obtain ⟨r, p1, hparse⟩ := parse_isSome spFindProfile req args hreq
  have hpost := parseArgs_closed _ ScanClosed_chosenTarget spFindProfile args
    { requestImpl := req, flags := req.compileFlags } .SLANG_MATRIX_LAYOUT_MODE_UNKNOWN
    (fun hc => absurd rfl hc)
  rcases parse_some_cases spFindProfile { requestImpl := req } args r p1 hparse with
    hret | ⟨p, m, hscan, hres⟩
  · have hret1 : parseArgs spFindProfile args { requestImpl := req, flags := req.compileFlags }
        .SLANG_MATRIX_LAYOUT_MODE_UNKNOWN = .returned r p1 := hret
    rw [hret1] at hpost
    obtain ⟨_, hI, ⟨d, _, hsink⟩, _⟩ := hpost
    obtain ⟨sink, d1, hk, hsink1⟩ := parseArgs_returned_diagnostic spFindProfile args _ _ r p1 hret1
    have hd : d = d1 := diagnose_inj _ _ _ _ (hsink.symm.trans hsink1)
    subst hd
    refine ⟨r, p1, [d], hparse, ?_, ?_, ?_⟩
    · rw [hsink]
      rfl
    · intro hc
      exact ⟨hI hc, filter_singleton_not_output _ d k1 hk, filter_singleton_not_output _ d k2 hk⟩
    · intro p m hfin
      rw [hret1] at hfin
      cases hfin
  · have hscan1 : parseArgs spFindProfile args { requestImpl := req, flags := req.compileFlags }
        .SLANG_MATRIX_LAYOUT_MODE_UNKNOWN = .finished p m := hscan
    rw [hscan1] at hpost
    obtain ⟨hI, _, _⟩ := hpost
    obtain ⟨items, hreads, hs, hsink, _⟩ :=
      scanned_finished spFindProfile req args p m hreq hscan1
    have hct := resolve_chosenTarget p m r p1 hres
    have hlast : ∀ p2 m2, parseArgs spFindProfile args
        { requestImpl := req, flags := req.compileFlags }
        .SLANG_MATRIX_LAYOUT_MODE_UNKNOWN = .finished p2 m2 →
        p1.chosenTarget = p2.chosenTarget ∧
        ∃ items, Reads spFindProfile args items ∧ p2.chosenTarget = chosenTargetOf items := by
      intro p2 m2 hfin
      rw [hscan1] at hfin
      cases hfin
      exact ⟨hct, items, hreads, hs.2.chosen⟩
    have hq0 := beforeProfileBackfill_eq p
    have hreturned : ∀ d : Diagnostic, d.isProfileDiagnostic = true →
        applyProfiles (beforeProfileBackfill p) =
          .returned .SLANG_E_INVALID_ARG ((beforeProfileBackfill p).diagnose d) →
        ∃ r p1 ds, ({ requestImpl := req } : OptionsParser).parse spFindProfile args =
            some (r, p1) ∧
          p1.requestImpl.mSink.diagnostics = req.mSink.diagnostics ++ ds ∧
          (p1.chosenTarget ≠ .SLANG_TARGET_NONE →
            p1.requestImpl.targets.map (fun t => t.target) = [p1.chosenTarget] ∧
            ds.filter Diagnostic.isCannotInferTarget = [] ∧
            ds.filter Diagnostic.isInconsistentTargets = []) ∧
          (∀ p m, parseArgs spFindProfile args
              { requestImpl := req, flags := req.compileFlags }
              .SLANG_MATRIX_LAYOUT_MODE_UNKNOWN = .finished p m →
            p1.chosenTarget = p.chosenTarget ∧
            ∃ items, Reads spFindProfile args items ∧
              p.chosenTarget = chosenTargetOf items) := by
      intro d hd happ
      have hres1 := resolve_returned p m _ _ happ
      rw [hres] at hres1
      simp only [Option.some.injEq, Prod.mk.injEq] at hres1
      obtain ⟨_, hp1⟩ := hres1
      have e1 : p1.requestImpl.mSink = req.mSink.diagnose d := by
        rw [hp1, hq0, ← hsink]
        rfl
      have e2 : p1.requestImpl.targets = p.requestImpl.targets := by
        rw [hp1, hq0]
        rfl
      refine ⟨r, p1, [d], hparse, ?_, ?_, hlast⟩
      · rw [e1]
        rfl
      · intro hc
        refine ⟨?_, filter_singleton_profile _ d k1 hd, filter_singleton_profile _ d k2 hd⟩
        rw [e2, hct]
        rw [hct] at hc
        exact hI hc
    cases happ : applyProfiles (beforeProfileBackfill p) with
    | returned r0 q =>
      obtain ⟨hr0, hq | hq⟩ := applyProfiles_returned _ _ _ happ
      · rw [hr0, hq] at happ
        exact hreturned .noProfileSpecified rfl happ
      · rw [hr0, hq] at happ
        exact hreturned .multipleEntryPointsNeedMulitpleProfiles rfl happ
    | continued q =>
      obtain ⟨_, c2, c3, _, c5, _, _, c8⟩ := continued_frame p q happ
      obtain ⟨r1, p2, hres1, hds, _, htargets⟩ := resolve_outputs p m q happ
        (c8 (fun e he => (hs.1.inv.entry_output e he).2))
      rw [hres] at hres1
      simp only [Option.some.injEq, Prod.mk.injEq] at hres1
      obtain ⟨rfl, rfl⟩ := hres1
      refine ⟨r, p1, outputDiagnostics q, hparse, ?_, ?_, hlast⟩
      · rw [hds, c5, hsink]
      · intro hc
        rw [hct] at hc ⊢
        have hu : p.chosenTarget ≠ .SLANG_TARGET_UNKNOWN := by
          rw [hs.2.chosen]
          exact chosenTargetOf_known items
        have hc1 := hc
        rw [← c2] at hc1 hu
        obtain ⟨t1, t2⟩ := targetDiagnostics_explicit _ q.rawOutputPaths hc1 hu
        obtain ⟨_, _, f3, f4⟩ := outputDiagnostics_filter q
        refine ⟨?_, ?_, ?_⟩
        · rw [htargets, t2]
          show List.map (fun t : TargetRequest => t.target) _ = _
          rw [c3, hI hc]
        · rw [f3, t1]
          rfl
        · rw [f4, t1]
          rfl
theorem wellFormed_target_frag_output (spFindProfile : String → SlangProfileID)
    (name path : String) (h : (codeGenTargetNames.lookup name).isSome = true) :
    ∀ i ∈ [CommandLineItem.target "-target" name, .input "x.frag", .output path],
      i.WellFormed spFindProfile := by
  intro i hi
  simp only [List.mem_cons, List.mem_singleton, List.not_mem_nil, or_false] at hi
  rcases hi with rfl | rfl | rfl
  · exact ⟨Or.inr rfl, h⟩
  · exact wellFormed_x_frag _
  · trivial

theorem entryPointsOf_target_frag_output (spFindProfile : String → SlangProfileID)
    (name path : String) :
    entryPointsOf spFindProfile [.target "-target" name, .input "x.frag", .output path] =
      [{ name := "main", profileID := .GLSL_Fragment, translationUnitIndex := 0 }] := by
  have h := entryPointsOf_x_frag_output spFindProfile path
  simp only [entryPointsOf, entryRecords, lastProfile, profileNames, unitRecords, inputPathsOf,
    List.filterMap_cons, List.filterMap_nil, List.nil_append, List.append_nil,
    List.cons_append] at h ⊢
  exact h

/-- C18, as stated, fails at `-target none`: `none` is a name of the table,
for the target `SLANG_TARGET_NONE`; `parse` on
`-target none x.frag -o a.foo` fails with the one diagnostic
`cannotDeduceOutputFormatFromPath "a.foo"`, and `parse` on
`-target none x.frag -o a.hlsl` ends with the target `SLANG_HLSL`, not the
one named. -/
theorem target_none_is_cross_checked :
    codeGenTargetNames.lookup "none" = some .SLANG_TARGET_NONE ∧
    (∃ p1, ({} : OptionsParser).parse exampleProfiles
        ["-target", "none", "x.frag", "-o", "a.foo"] = some (.SLANG_FAIL, p1) ∧
      p1.requestImpl.mSink.diagnostics = [.cannotDeduceOutputFormatFromPath "a.foo"]) ∧
    (∃ r p1, ({} : OptionsParser).parse exampleProfiles
        ["-target", "none", "x.frag", "-o", "a.hlsl"] = some (r, p1) ∧
      p1.requestImpl.targets.map (fun t => t.target) = [.SLANG_HLSL]) := by
  refine ⟨by decide, ?_, ?_⟩
  · obtain ⟨r, p1, ds, hparse, hdef, hds, hfail, _⟩ :=
      parse_items_outputs exampleProfiles {}
        [.target "-target" "none", .input "x.frag", .output "a.foo"] rfl
        (wellFormed_target_frag_output _ _ _ (by decide)) (by
          rw [entryPointsOf_target_frag_output]
          decide)
    rw [entryPointsOf_target_frag_output] at hdef
    have hd : ds = [.cannotDeduceOutputFormatFromPath "a.foo"] := by
      rw [hdef]
      decide
    have hr : r = .SLANG_FAIL := by
      apply hfail (.cannotDeduceOutputFormatFromPath "a.foo") _ rfl
      rw [hd]
      exact List.mem_singleton.mpr rfl
    subst hr
    refine ⟨p1, hparse, ?_⟩
    rw [hds, hd]
    rfl
  · obtain ⟨r, p1, ds, hparse, _, _, _, _, _, htargets, _⟩ :=
      parse_items_outputs exampleProfiles {}
        [.target "-target" "none", .input "x.frag", .output "a.hlsl"] rfl
        (wellFormed_target_frag_output _ _ _ (by decide)) (by
          rw [entryPointsOf_target_frag_output]
          decide)
    refine ⟨r, p1, hparse, ?_⟩
    rw [htargets]
    decide

/-- C18, amended: for every token list, on a new parser over a request
without translation units, `parse` returns; when the parser it returns has a
chosen target other than `SLANG_TARGET_NONE` (the scan read a `-target` or
`-backend` with a name of the table, and the last one it read named a target
other than `none`), this is the one target of the request, and among the
diagnostics `parse` has added there is neither
`cannotDeduceOutputFormatFromPath` nor `outputPathsImplyDifferentFormats`;
after a scan that reads the whole command line the chosen target is that of
the scan, the target of the last `-target` or `-backend` of the command
line.  So `-target hlsl x.frag -o P` ends with the one target `SLANG_HLSL`
and without one of the two diagnostics, whatever the path `P`. -/
theorem explicit_target_trusted (spFindProfile : String → SlangProfileID) :
    (∀ (req : CompileRequest) (args : List String), req.translationUnits = [] →
      ∃ r p1 ds, ({ requestImpl := req } : OptionsParser).parse spFindProfile args =
          some (r, p1) ∧
        p1.requestImpl.mSink.diagnostics = req.mSink.diagnostics ++ ds ∧
        (p1.chosenTarget ≠ .SLANG_TARGET_NONE →
          p1.requestImpl.targets.map (fun t => t.target) = [p1.chosenTarget] ∧
          ds.filter Diagnostic.isCannotInferTarget = [] ∧
          ds.filter Diagnostic.isInconsistentTargets = []) ∧
        (∀ p m, parseArgs spFindProfile args { requestImpl := req, flags := req.compileFlags }
            .SLANG_MATRIX_LAYOUT_MODE_UNKNOWN = .finished p m →
          p1.chosenTarget = p.chosenTarget ∧
          ∃ items, Reads spFindProfile args items ∧ p.chosenTarget = chosenTargetOf items)) ∧
    (∀ path : String, ∃ r p1,
      ({} : OptionsParser).parse spFindProfile ["-target", "hlsl", "x.frag", "-o", path] =
        some (r, p1) ∧
      p1.requestImpl.targets.map (fun t => t.target) = [.SLANG_HLSL] ∧
      p1.requestImpl.mSink.diagnostics.filter Diagnostic.isCannotInferTarget = [] ∧
      p1.requestImpl.mSink.diagnostics.filter Diagnostic.isInconsistentTargets = []) := by
  constructor
  · intro req args hreq
    exact parse_explicit_target spFindProfile req args hreq
  · intro path
    obtain ⟨r, p1, ds, hparse, hds, htrust, hlast⟩ :=
      parse_explicit_target spFindProfile {} ["-target", "hlsl", "x.frag", "-o", path] rfl
    obtain ⟨p, m, hscan, hs, _⟩ := scanned_items spFindProfile {}
      [.target "-target" "hlsl", .input "x.frag", .output path] rfl
      (wellFormed_target_frag_output _ _ _ (by decide))
    obtain ⟨hp1, _⟩ := hlast p m hscan
    have hlookup : chosenTargetOf [.target "-target" "hlsl"] = .SLANG_HLSL := by decide
    have hchosen : p1.chosenTarget = .SLANG_HLSL := by
      rw [hp1, hs.2.chosen]
      exact hlookup
    obtain ⟨t1, t2, t3⟩ := htrust (by
      rw [hchosen]
      decide)
    refine ⟨r, p1, hparse, ?_, ?_, ?_⟩
    · rw [t1, hchosen]
    · rw [hds]
      exact t2
    · rw [hds]
      exact t3

/-- C18, amended, at `-target hlsl x.frag -o a.foo` on a new request. -/
theorem explicit_target_trusted_witness :
    ({} : CompileRequest).translationUnits = [] ∧
    ∃ r p1 ds, ({ requestImpl := {} } : OptionsParser).parse exampleProfiles
        ["-target", "hlsl", "x.frag", "-o", "a.foo"] = some (r, p1) ∧
      p1.requestImpl.mSink.diagnostics = ({} : CompileRequest).mSink.diagnostics ++ ds ∧
      (p1.chosenTarget ≠ .SLANG_TARGET_NONE →
        p1.requestImpl.targets.map (fun t => t.target) = [p1.chosenTarget] ∧
        ds.filter Diagnostic.isCannotInferTarget = [] ∧
        ds.filter Diagnostic.isInconsistentTargets = []) ∧
      (∀ p m, parseArgs exampleProfiles ["-target", "hlsl", "x.frag", "-o", "a.foo"]
          { requestImpl := {}, flags := ({} : CompileRequest).compileFlags }
          .SLANG_MATRIX_LAYOUT_MODE_UNKNOWN = .finished p m →
        p1.chosenTarget = p.chosenTarget ∧
        ∃ items, Reads exampleProfiles ["-target", "hlsl", "x.frag", "-o", "a.foo"] items ∧
          p.chosenTarget = chosenTargetOf items) :=
  ⟨rfl, (explicit_target_trusted exampleProfiles).1 {}
    ["-target", "hlsl", "x.frag", "-o", "a.foo"] rfl⟩

theorem addOutputPath_appends (p : OptionsParser) (path : String)
    (h : EndsWith path ".slang-module" = false) :
    addOutputPath p path =
      { p with rawOutputPaths :=
          p.rawOutputPaths ++ [{ path := path, target := impliedTarget path }] } := by
  obtain ⟨target, ht⟩ := addOutputPath_not_container p path h
  have hr := addOutputPath_rawOutputPaths p path
  rw [h, ht] at hr
  simp only [addOutputPathWithTarget, Bool.false_eq_true, if_false] at hr
  have hrec := List.append_inj_right' hr rfl
  simp only [List.cons.injEq, RawOutputPath.mk.injEq, and_true, true_and] at hrec
  rw [ht, addOutputPathWithTarget, hrec]

theorem entryRecords_congr (spFindProfile : String → SlangProfileID)
    (items : List CommandLineItem) :
    ∀ d1 d2 : List CommandLineItem, inputPathsOf d1 = inputPathsOf d2 →
      outputPathsOf d1 = outputPathsOf d2 → profileNames d1 = profileNames d2 →
      entryRecords spFindProfile d1 items = entryRecords spFindProfile d2 items := by
  induction items with
  | nil =>
    intro d1 d2 _ _ _
    rfl
  | cons i rest ih =>
    intro d1 d2 h1 h2 h3
    have hrest := ih (d1 ++ [i]) (d2 ++ [i])
      (by simp only [inputPathsOf, List.filterMap_append] at h1 ⊢; rw [h1])
      (by simp only [outputPathsOf, List.filterMap_append] at h2 ⊢; rw [h2])
      (by simp only [profileNames, List.filterMap_append] at h3 ⊢; rw [h3])
    simp only [entryRecords, hrest, lastProfile, h1, h2, h3]

theorem entryRecords_container (spFindProfile : String → SlangProfileID) (path : String)
    (h : EndsWith path ".slang-module" = true) (post : List CommandLineItem) :
    ∀ (pre done : List CommandLineItem),
      entryRecords spFindProfile done (pre ++ .output path :: post) =
        entryRecords spFindProfile done (pre ++ post) := by
  intro pre
  induction pre with
  | nil =>
    intro done
    simp only [List.nil_append, entryRecords]
    apply entryRecords_congr
    · simp [inputPathsOf, List.filterMap_append]
    · simp [outputPathsOf, List.filterMap_append, h]
    · simp [profileNames, List.filterMap_append]
  | cons i rest ih =>
    intro done
    show _ ++ entryRecords spFindProfile (done ++ [i]) (rest ++ .output path :: post) =
      _ ++ entryRecords spFindProfile (done ++ [i]) (rest ++ post)
    rw [ih]

theorem outputRecords_container (path : String) (h : EndsWith path ".slang-module" = true)
    (pre post : List CommandLineItem) :
    outputRecords (pre ++ .output path :: post) = outputRecords (pre ++ post) := by
  simp [outputRecords, outputPathsOf, List.filterMap_append, h]

/-- An `-o` with a container path anywhere on a command line of well-formed
items: the scan ends with the entry points and the output paths it ends with
when the option is left out. -/
theorem container_output_frame (spFindProfile : String → SlangProfileID) (req : CompileRequest)
    (pre post : List CommandLineItem) (path : String) (hreq : req.translationUnits = [])
    (hpre : ∀ i ∈ pre, i.WellFormed spFindProfile)
    (hpost : ∀ i ∈ post, i.WellFormed spFindProfile)
    (h : EndsWith path ".slang-module" = true) :
    ∃ p1 m1 p2 m2,
      parseArgs spFindProfile (tokensOf pre ++ "-o" :: path :: tokensOf post)
        { requestImpl := req, flags := req.compileFlags }
        .SLANG_MATRIX_LAYOUT_MODE_UNKNOWN = .finished p1 m1 ∧
      parseArgs spFindProfile (tokensOf pre ++ tokensOf post)
        { requestImpl := req, flags := req.compileFlags }
        .SLANG_MATRIX_LAYOUT_MODE_UNKNOWN = .finished p2 m2 ∧
      p1.rawEntryPoints = p2.rawEntryPoints ∧ p1.rawOutputPaths = p2.rawOutputPaths := by
  obtain ⟨p1, m1, hscan1, hs1, _, _, he1⟩ := scanned_items spFindProfile req
    (pre ++ .output path :: post) hreq (by
      intro i hi
      rw [List.mem_append, List.mem_cons] at hi
      rcases hi with hi | rfl | hi
      · exact hpre i hi
      · trivial
      · exact hpost i hi)
  obtain ⟨p2, m2, hscan2, hs2, _, _, he2⟩ := scanned_items spFindProfile req
    (pre ++ post) hreq (by
      intro i hi
      rw [List.mem_append] at hi
      rcases hi with hi | hi
      · exact hpre i hi
      · exact hpost i hi)
  have t1 : tokensOf (pre ++ .output path :: post) =
      tokensOf pre ++ "-o" :: path :: tokensOf post := by
    simp [tokensOf, CommandLineItem.tokens]
  have t2 : tokensOf (pre ++ post) = tokensOf pre ++ tokensOf post := by
    simp [tokensOf]
  rw [t1] at hscan1
  rw [t2] at hscan2
  refine ⟨p1, m1, p2, m2, hscan1, hscan2, ?_, ?_⟩
  · rw [he1, he2, entryRecords_container spFindProfile path h]
  · rw [hs1.2.outputs, hs2.2.outputs, outputRecords_container path h]
/-- C19: `-o P`.  The option calls `addOutputPath` on `P` and goes on with
the next token.  When `P` ends in `.slang-module`, `addOutputPath` sets the
container format and the container output path of the request to `P` and
changes nothing else: the list of output paths is the same.  Otherwise it
appends one record to the end of the list of output paths, `P` with the
target its suffix implies (`SLANG_TARGET_UNKNOWN` when no `CASE` applies),
and changes nothing else.  And on a command line of well-formed items, an
`-o` with a path that ends in `.slang-module`, wherever it stands, changes
neither the entry points the scan ends with (so no `outputPathIndex` of a
later `-entry`) nor the output paths it ends with (so not their number). -/
theorem container_output_kept_apart (spFindProfile : String → SlangProfileID) :
    (∀ (path : String) (rest : List String) (p : OptionsParser) (m : SlangMatrixLayoutMode),
      parseArgs spFindProfile ("-o" :: path :: rest) p m =
        parseArgs spFindProfile rest (addOutputPath p path) m) ∧
    (∀ (p : OptionsParser) (path : String), EndsWith path ".slang-module" = true →
      addOutputPath p path =
        { p with requestImpl :=
            { p.requestImpl with
              containerFormat := .SLANG_CONTAINER_FORMAT_SLANG_MODULE
              containerOutputPath := path } }) ∧
    (∀ (p : OptionsParser) (path : String), EndsWith path ".slang-module" = false →
      addOutputPath p path =
        { p with rawOutputPaths :=
            p.rawOutputPaths ++ [{ path := path, target := impliedTarget path }] }) ∧
    (∀ (req : CompileRequest) (pre post : List CommandLineItem) (path : String),
      req.translationUnits = [] → (∀ i ∈ pre, i.WellFormed spFindProfile) →
      (∀ i ∈ post, i.WellFormed spFindProfile) → EndsWith path ".slang-module" = true →
      ∃ p1 m1 p2 m2,
        parseArgs spFindProfile (tokensOf pre ++ "-o" :: path :: tokensOf post)
          { requestImpl := req, flags := req.compileFlags }
          .SLANG_MATRIX_LAYOUT_MODE_UNKNOWN = .finished p1 m1 ∧
        parseArgs spFindProfile (tokensOf pre ++ tokensOf post)
          { requestImpl := req, flags := req.compileFlags }
          .SLANG_MATRIX_LAYOUT_MODE_UNKNOWN = .finished p2 m2 ∧
        p1.rawEntryPoints = p2.rawEntryPoints ∧ p1.rawOutputPaths = p2.rawOutputPaths) :=
  ⟨fun path rest p m => parseArgs_output spFindProfile path rest p m,
   fun p path h => addOutputPath_container p path h,
   fun p path h => addOutputPath_appends p path h,
   fun req pre post path hreq hpre hpost h =>
     container_output_frame spFindProfile req pre post path hreq hpre hpost h⟩

/-- C19, at the path `lib.slang-module` on a new parser: it ends in
`.slang-module`, and `addOutputPath` sets the container format and path and
leaves the list of output paths empty. -/
theorem container_output_kept_apart_witness :
    EndsWith "lib.slang-module" ".slang-module" = true ∧
    addOutputPath {} "lib.slang-module" =
      { requestImpl :=
          { containerFormat := .SLANG_CONTAINER_FORMAT_SLANG_MODULE
            containerOutputPath := "lib.slang-module" } } :=
  ⟨by decide,
    (container_output_kept_apart exampleProfiles).2.1 {} "lib.slang-module" (by decide)⟩

theorem span_no_eq (l : List Char) (h : '=' ∉ l) :
    l.span (fun c => c != '=') = (l, []) := by
  rw [List.span_eq_take_drop]
  have h1 : ∀ c ∈ l, (c != '=') = true := by
    intro c hc
    simp only [bne_iff_ne, ne_eq]
    intro hce
    exact h (hce ▸ hc)
  rw [List.takeWhile_eq_self_iff.mpr h1, List.dropWhile_eq_nil_iff.mpr h1]

theorem span_first_eq (l r : List Char) (h : '=' ∉ l) :
    (l ++ '=' :: r).span (fun c => c != '=') = (l, '=' :: r) := by
  rw [List.span_eq_take_drop]
  induction l with
  | nil => simp [List.takeWhile, List.dropWhile]
  | cons a rest ih =>
    have ha : (a != '=') = true := by
      simp only [bne_iff_ne, ne_eq]
      intro hae
      exact h (hae ▸ List.mem_cons_self _ _)
    have hrest : '=' ∉ rest := fun hm => h (List.mem_cons_of_mem _ hm)
    have := ih hrest
    simp only [Prod.mk.injEq] at this
    simp only [List.cons_append, List.takeWhile, List.dropWhile, ha]
    show (a :: List.takeWhile (fun c => c != '=') (rest ++ '=' :: r),
      List.dropWhile (fun c => c != '=') (rest ++ '=' :: r)) = _
    rw [this.1, this.2]

/-- The define `splitDefine` finds in a string: without `=` the string itself
with the empty value; otherwise the part before the first `=` with the part
after it. -/
theorem splitDefine_spec :
    (∀ s : String, '=' ∉ s.data → splitDefine s = (s, "")) ∧
    (∀ name value : String, '=' ∉ name.data →
      splitDefine (name ++ "=" ++ value) = (name, value)) := by
  constructor
  · intro s h
    simp only [splitDefine, span_no_eq s.data h]
  · intro name value h
    have hd : (name ++ "=" ++ value).data = name.data ++ '=' :: value.data := by
      simp [String.data_append]
    simp only [splitDefine, hd, span_first_eq name.data value.data h]

theorem parseArgs_define_spaced (spFindProfile : String → SlangProfileID) (s : String)
    (rest : List String) (p : OptionsParser) (m : SlangMatrixLayoutMode) :
    parseArgs spFindProfile ("-D" :: s :: rest) p m =
      parseArgs spFindProfile rest
        { p with requestImpl :=
            spAddPreprocessorDefine p.requestImpl (splitDefine s).1 (splitDefine s).2 } m := by
  rw [parseArgs.eq_def]
  simp

theorem parseArgs_define_joined (spFindProfile : String → SlangProfileID) (s : String)
    (hs : s ≠ "") (rest : List String) (p : OptionsParser) (m : SlangMatrixLayoutMode) :
    parseArgs spFindProfile (("-D" ++ s) :: rest) p m =
      parseArgs spFindProfile rest
        { p with requestImpl :=
            spAddPreprocessorDefine p.requestImpl (splitDefine s).1 (splitDefine s).2 } m := by
  have hd : ("-D" ++ s).data = '-' :: 'D' :: s.data := by
    simp [String.data_append]
  have hne : s.data ≠ [] := by
    intro h
    apply hs
    cases s
    simp only at h
    subst h
    rfl
  have hopt : ∀ t : String, t.data[1]? ≠ some 'D' → ¬ ("-D" ++ s) = t := by
    intro t ht heq
    apply ht
    rw [← heq, hd]
    simp
  rw [parseArgs.eq_def]
  simp only [hd, List.head?_cons, if_true, List.drop_succ_cons, List.drop_zero, hne, if_false,
    List.getElem?_cons_succ, List.getElem?_cons_zero,
    hopt "-no-mangle" (by decide), hopt "-no-codegen" (by decide), hopt "-dump-ir" (by decide),
    hopt "-validate-ir" (by decide), hopt "-skip-codegen" (by decide),
    hopt "-parameter-blocks-use-register-spaces" (by decide), hopt "-backend" (by decide),
    hopt "-target" (by decide), hopt "-profile" (by decide), hopt "-entry" (by decide),
    hopt "-pass-through" (by decide), or_self]
/-- After the tokens of well-formed items, `-D s` and `-Ds` give `parse` the
same result. -/
theorem parse_define_forms (spFindProfile : String → SlangProfileID) (req : CompileRequest)
    (pre : List CommandLineItem) (post : List String) (s : String)
    (hreq : req.translationUnits = []) (hpre : ∀ i ∈ pre, i.WellFormed spFindProfile)
    (hs : s ≠ "") :
    ({ requestImpl := req } : OptionsParser).parse spFindProfile
        (tokensOf pre ++ "-D" :: s :: post) =
      ({ requestImpl := req } : OptionsParser).parse spFindProfile
        (tokensOf pre ++ ("-D" ++ s) :: post) := by
  obtain ⟨p1, m1, _, _, _, hstep⟩ := parseArgs_items spFindProfile pre []
    { requestImpl := req, flags := req.compileFlags } .SLANG_MATRIX_LAYOUT_MODE_UNKNOWN
    (Tracks_new spFindProfile req hreq) hpre
  have h1 := hstep ("-D" :: s :: post)
  have h2 := hstep (("-D" ++ s) :: post)
  rw [parseArgs_define_spaced] at h1
  rw [parseArgs_define_joined spFindProfile s hs] at h2
  unfold OptionsParser.parse
  simp only
  rw [h1, h2]

/-- C20: the two forms of `-D`.  For every string `s` other than the empty
one, wherever the loop reads the token `-D` as an option (any parser `p`, any
layout mode `m`, any tokens `rest` after it), the tokens `-D`, `s` and the one
token `-D` followed by `s` leave the loop in the same state: both go on with
`rest` from `p` with the define `splitDefine s` added to the request.  This
define has the part of `s` before its first `=` as name and the part after it
as value, and `s` as name with the empty value when `s` has no `=`.  So after
the tokens of well-formed items, on a new parser over a request without
translation units, `parse` returns the same result code and the same parser
(so the same diagnostics) for the two forms, whatever follows; and
`-D FOO=1` and `-DFOO=1` both return with the one define `("FOO", "1")`. -/
theorem define_forms_agree (spFindProfile : String → SlangProfileID) :
    (∀ (s : String) (rest : List String) (p : OptionsParser) (m : SlangMatrixLayoutMode),
      s ≠ "" →
      parseArgs spFindProfile ("-D" :: s :: rest) p m =
        parseArgs spFindProfile (("-D" ++ s) :: rest) p m ∧
      parseArgs spFindProfile ("-D" :: s :: rest) p m =
        parseArgs spFindProfile rest
          { p with requestImpl :=
              spAddPreprocessorDefine p.requestImpl (splitDefine s).1 (splitDefine s).2 } m) ∧
    (∀ s : String, '=' ∉ s.data → splitDefine s = (s, "")) ∧
    (∀ name value : String, '=' ∉ name.data →
      splitDefine (name ++ "=" ++ value) = (name, value)) ∧
    (∀ (req : CompileRequest) (pre : List CommandLineItem) (post : List String) (s : String),
      req.translationUnits = [] → (∀ i ∈ pre, i.WellFormed spFindProfile) → s ≠ "" →
      ({ requestImpl := req } : OptionsParser).parse spFindProfile
          (tokensOf pre ++ "-D" :: s :: post) =
        ({ requestImpl := req } : OptionsParser).parse spFindProfile
          (tokensOf pre ++ ("-D" ++ s) :: post)) ∧
    (∃ r p1, ({} : OptionsParser).parse spFindProfile ["-D", "FOO=1"] = some (r, p1) ∧
      ({} : OptionsParser).parse spFindProfile ["-DFOO=1"] = some (r, p1) ∧
      p1.requestImpl.preprocessorDefinitions = [("FOO", "1")]) := by
  refine ⟨?_, splitDefine_spec.1, splitDefine_spec.2, ?_, ?_⟩
  · intro s rest p m hs
    rw [parseArgs_define_spaced, parseArgs_define_joined spFindProfile s hs]
    exact ⟨rfl, rfl⟩
  · intro req pre post s hreq hpre hs
    exact parse_define_forms spFindProfile req pre post s hreq hpre hs
  · have hsplit : splitDefine "FOO=1" = ("FOO", "1") := by decide
    have h1 : parseArgs spFindProfile ["-D", "FOO=1"] { requestImpl := {}, flags := 0 }
        .SLANG_MATRIX_LAYOUT_MODE_UNKNOWN =
        .finished { requestImpl := { preprocessorDefinitions := [("FOO", "1")] } }
          .SLANG_MATRIX_LAYOUT_MODE_UNKNOWN := by
      rw [parseArgs_define_spaced, hsplit]
      rfl
    have h2 := parse_define_forms spFindProfile {} [] [] "FOO=1" rfl
      (fun i hi => absurd hi (List.not_mem_nil i)) (by decide)
    have h3 : ({} : OptionsParser).parse spFindProfile ["-D", "FOO=1"] =
        some (.SLANG_OK, { requestImpl := { preprocessorDefinitions := [("FOO", "1")] } }) := by
      unfold OptionsParser.parse
      simp only
      rw [h1]
      decide
    refine ⟨_, _, h3, ?_, rfl⟩
    rw [← h3]
    exact h2.symm

/-- C20, at `s = FOO=1` on a new parser with no token after the option: the
string is not empty, and the two forms leave the loop in the same state. -/
theorem define_forms_agree_witness :
    ("FOO=1" : String) ≠ "" ∧
    parseArgs exampleProfiles ["-D", "FOO=1"] {} .SLANG_MATRIX_LAYOUT_MODE_UNKNOWN =
      parseArgs exampleProfiles ["-D" ++ "FOO=1"] {} .SLANG_MATRIX_LAYOUT_MODE_UNKNOWN ∧
    parseArgs exampleProfiles ["-D", "FOO=1"] {} .SLANG_MATRIX_LAYOUT_MODE_UNKNOWN =
      parseArgs exampleProfiles []
        { requestImpl := { preprocessorDefinitions := [("FOO", "1")] } }
        .SLANG_MATRIX_LAYOUT_MODE_UNKNOWN :=
  ⟨by decide, (define_forms_agree exampleProfiles).1 "FOO=1" [] {}
    .SLANG_MATRIX_LAYOUT_MODE_UNKNOWN (by decide)⟩

theorem missingArgument_eq (p : OptionsParser) (option : String) :
    missingArgument p option =
      .returned .SLANG_FAIL (p.diagnose (.expectedArgumentForOption option)) := rfl

/-- A flag that takes a value, as the last token: the loop returns with
`expectedArgumentForOption` for the flag. -/
theorem parseArgs_value_flag_last (spFindProfile : String → SlangProfileID) (f : String)
    (hf : f ∈ ["-target", "-backend", "-profile", "-entry", "-pass-through", "-D", "-I", "-o"])
    (p : OptionsParser) (m : SlangMatrixLayoutMode) :
    parseArgs spFindProfile [f] p m =
      .returned .SLANG_FAIL (p.diagnose (.expectedArgumentForOption f)) := by
  simp only [List.mem_cons, List.mem_singleton, List.not_mem_nil, or_false] at hf
  rcases hf with rfl | rfl | rfl | rfl | rfl | rfl | rfl | rfl
  all_goals
    rw [parseArgs.eq_def]
    simp [missingArgument_eq]
/-- After the tokens of well-formed items, a flag that takes a value, as the
last token: `parse` returns `SLANG_FAIL` with the parser of the scan so far
and the one diagnostic `expectedArgumentForOption`. -/
theorem parse_value_flag_last (spFindProfile : String → SlangProfileID) (req : CompileRequest)
    (items : List CommandLineItem) (p : OptionsParser) (m : SlangMatrixLayoutMode) (f : String)
    (hreq : req.translationUnits = [])
    (hscan : parseArgs spFindProfile (tokensOf items)
      { requestImpl := req, flags := req.compileFlags }
      .SLANG_MATRIX_LAYOUT_MODE_UNKNOWN = .finished p m)
    (hwf : ∀ i ∈ items, i.WellFormed spFindProfile)
    (hf : f ∈ ["-target", "-backend", "-profile", "-entry", "-pass-through", "-D", "-I", "-o"]) :
    ({ requestImpl := req } : OptionsParser).parse spFindProfile (tokensOf items ++ [f]) =
        some (.SLANG_FAIL, p.diagnose (.expectedArgumentForOption f)) ∧
      (p.diagnose (.expectedArgumentForOption f)).requestImpl.mSink.diagnostics =
        req.mSink.diagnostics ++ [.expectedArgumentForOption f] := by
  obtain ⟨p1, m1, _, hsink, _, hstep⟩ := parseArgs_items spFindProfile items []
    { requestImpl := req, flags := req.compileFlags } .SLANG_MATRIX_LAYOUT_MODE_UNKNOWN
    (Tracks_new spFindProfile req hreq) hwf
  have h0 := hstep []
  rw [List.append_nil, hscan] at h0
  have h1 : parseArgs spFindProfile [] p1 m1 = .finished p1 m1 := by
    rw [parseArgs.eq_def]
  rw [h1] at h0
  cases h0
  constructor
  · unfold OptionsParser.parse
    simp only
    rw [hstep [f], parseArgs_value_flag_last spFindProfile f hf]
  · show (p.requestImpl.mSink.diagnose _).diagnostics = _
    rw [hsink]
    rfl

/-- C21: a flag that takes a value, as the last token.  For every flag `f`
among `-target`, `-backend`, `-profile`, `-entry`, `-pass-through`, `-D`,
`-I`, `-o` and every token list `pre` whose scan, from a new parser on a
request without translation units, finishes with the parser `p` and reads no
`--` option (`pre` is the tokens of well-formed items), `parse` on `pre`
followed by `f` returns `SLANG_FAIL` with the parser `p` of the scan changed
only in that the sink has received `expectedArgumentForOption f`: exactly one
diagnostic is added, and no pass after the loop has run.  The token lists
whose scan finishes are the tokens of well-formed items, or such tokens, then
`--`, then input paths.  So `parse` on the one token `-I` returns
`SLANG_FAIL` with `expectedArgumentForOption "-I"` on a new parser. -/
theorem missing_argument_last_flag (spFindProfile : String → SlangProfileID) :
    (∀ (req : CompileRequest) (pre : List String) (p : OptionsParser)
        (m : SlangMatrixLayoutMode) (f : String),
      req.translationUnits = [] →
      parseArgs spFindProfile pre { requestImpl := req, flags := req.compileFlags }
        .SLANG_MATRIX_LAYOUT_MODE_UNKNOWN = .finished p m →
      (∃ items : List CommandLineItem, (∀ i ∈ items, i.WellFormed spFindProfile) ∧
        pre = tokensOf items) →
      f ∈ ["-target", "-backend", "-profile", "-entry", "-pass-through", "-D", "-I", "-o"] →
      ({ requestImpl := req } : OptionsParser).parse spFindProfile (pre ++ [f]) =
          some (.SLANG_FAIL, p.diagnose (.expectedArgumentForOption f)) ∧
        (p.diagnose (.expectedArgumentForOption f)).requestImpl.mSink.diagnostics =
          req.mSink.diagnostics ++ [.expectedArgumentForOption f] ∧
        (p.diagnose (.expectedArgumentForOption f)).rawEntryPoints = p.rawEntryPoints ∧
        (p.diagnose (.expectedArgumentForOption f)).requestImpl.entryPoints =
          req.entryPoints) ∧
    (∀ (req : CompileRequest) (pre : List String) (p : OptionsParser)
        (m : SlangMatrixLayoutMode),
      req.translationUnits = [] →
      parseArgs spFindProfile pre { requestImpl := req, flags := req.compileFlags }
        .SLANG_MATRIX_LAYOUT_MODE_UNKNOWN = .finished p m →
      (∃ items : List CommandLineItem, (∀ i ∈ items, i.WellFormed spFindProfile) ∧
        pre = tokensOf items) ∨
      (∃ (items : List CommandLineItem) (paths : List String),
        (∀ i ∈ items, i.WellFormed spFindProfile) ∧
        pre = tokensOf items ++ "--" :: paths)) ∧
    ({} : OptionsParser).parse spFindProfile ["-I"] =
      some (.SLANG_FAIL,
        ({} : OptionsParser).diagnose (.expectedArgumentForOption "-I")) := by
  refine ⟨?_, ?_, ?_⟩
  · intro req pre p m f hreq hscan hitems hf
    obtain ⟨items, hwf, rfl⟩ := hitems
    obtain ⟨h1, h2⟩ := parse_value_flag_last spFindProfile req items p m f hreq hscan hwf hf
    refine ⟨h1, h2, rfl, ?_⟩
    obtain ⟨_, _, _, _, hents⟩ :=
      scanned_finished spFindProfile req (tokensOf items) p m hreq hscan
    exact hents
  · intro req pre p m hreq hscan
    obtain ⟨items, hreads, _⟩ := scanned_finished spFindProfile req pre p m hreq hscan
    rcases hreads with ⟨h1, h2⟩ | ⟨pre1, paths, h1, _, h3, _⟩
    · exact Or.inl ⟨items, h2, h1⟩
    · exact Or.inr ⟨pre1, paths, h3, h1⟩
  · exact (parse_value_flag_last spFindProfile {} [] {} .SLANG_MATRIX_LAYOUT_MODE_UNKNOWN "-I"
      rfl (by rw [parseArgs.eq_def]; rfl) (fun i hi => absurd hi (List.not_mem_nil i))
      (by decide)).1

/-- C21, at `x.frag` followed by `-o`: the scan of `x.frag` finishes, and
`parse` on `x.frag -o` fails with `expectedArgumentForOption "-o"`. -/
theorem missing_argument_last_flag_witness :
    ({} : CompileRequest).translationUnits = [] ∧
    (∃ items : List CommandLineItem, (∀ i ∈ items, i.WellFormed exampleProfiles) ∧
      ["x.frag"] = tokensOf items) ∧
    "-o" ∈ ["-target", "-backend", "-profile", "-entry", "-pass-through", "-D", "-I", "-o"] ∧
    ∃ p m, parseArgs exampleProfiles ["x.frag"]
        { requestImpl := {}, flags := ({} : CompileRequest).compileFlags }
        .SLANG_MATRIX_LAYOUT_MODE_UNKNOWN = .finished p m ∧
      ({ requestImpl := {} } : OptionsParser).parse exampleProfiles (["x.frag"] ++ ["-o"]) =
          some (.SLANG_FAIL, p.diagnose (.expectedArgumentForOption "-o")) ∧
        (p.diagnose (.expectedArgumentForOption "-o")).requestImpl.mSink.diagnostics =
          ({} : CompileRequest).mSink.diagnostics ++ [.expectedArgumentForOption "-o"] ∧
        (p.diagnose (.expectedArgumentForOption "-o")).rawEntryPoints = p.rawEntryPoints ∧
        (p.diagnose (.expectedArgumentForOption "-o")).requestImpl.entryPoints =
          ({} : CompileRequest).entryPoints := by
  have hwf : ∀ i ∈ [CommandLineItem.input "x.frag"], i.WellFormed exampleProfiles := by
    intro i hi
    rw [List.mem_singleton.mp hi]
    exact wellFormed_x_frag _
  obtain ⟨p, m, hscan, _⟩ := scanned_items exampleProfiles {} [.input "x.frag"] rfl hwf
  exact ⟨rfl, ⟨[.input "x.frag"], hwf, rfl⟩, by decide, p, m, hscan,
    (missing_argument_last_flag exampleProfiles).1 {} ["x.frag"] p m "-o" rfl hscan
      ⟨[.input "x.frag"], hwf, rfl⟩ (by decide)⟩

theorem foldl_inputPaths_stuck (paths : List String)
    (acc : Option (SlangResult × OptionsParser))
    (h : ∀ q, acc ≠ some (.SLANG_OK, q)) :
    paths.foldl (fun acc path =>
      match acc with
      | some (.SLANG_OK, q) => addInputPath q path
      | other => other) acc = acc := by
  induction paths with
  | nil => rfl
  | cons path rest ih =>
    simp only [List.foldl_cons]
    exact ih

theorem foldInputPaths_nil (p : OptionsParser) :
    foldInputPaths [] p = some (.SLANG_OK, p) := rfl

theorem foldInputPaths_ok (path : String) (rest : List String) (p p1 : OptionsParser)
    (h : addInputPath p path = some (.SLANG_OK, p1)) :
    foldInputPaths (path :: rest) p = foldInputPaths rest p1 := by
  simp only [foldInputPaths, List.foldl_cons, h]

theorem foldInputPaths_fail (path : String) (rest : List String) (p p1 : OptionsParser)
    (r : SlangResult) (h : addInputPath p path = some (r, p1)) (hr : r ≠ .SLANG_OK) :
    foldInputPaths (path :: rest) p = some (r, p1) := by
  simp only [foldInputPaths, List.foldl_cons, h]
  apply foldl_inputPaths_stuck
  intro q hq
  simp only [Option.some.injEq, Prod.mk.injEq] at hq
  exact hr hq.1

theorem foldInputPaths_none (path : String) (rest : List String) (p : OptionsParser)
    (h : addInputPath p path = none) :
    foldInputPaths (path :: rest) p = none := by
  simp only [foldInputPaths, List.foldl_cons, h]
  apply foldl_inputPaths_stuck
  intro q hq
  cases hq

/-- The loop of the `--` branch is the fold of the specification. -/
theorem addInputPaths_eq_fold (paths : List String) :
    ∀ p : OptionsParser, addInputPaths paths p = foldInputPaths paths p := by
  induction paths with
  | nil =>
    intro p
    rfl
  | cons path rest ih =>
    intro p
    cases hstep : addInputPath p path with
    | none =>
      rw [foldInputPaths_none path rest p hstep]
      simp only [addInputPaths, hstep]
    | some rq =>
      obtain ⟨r, q⟩ := rq
      by_cases hr : r = .SLANG_OK
      · subst hr
        rw [foldInputPaths_ok path rest p q hstep, ← ih q]
        simp only [addInputPaths, hstep]
      · rw [foldInputPaths_fail path rest p q r hstep hr]
        cases r
        · exact absurd rfl hr
        · simp only [addInputPaths, hstep]
        · simp only [addInputPaths, hstep]

theorem parseArgs_terminator (spFindProfile : String → SlangProfileID) (rest : List String)
    (p : OptionsParser) (m : SlangMatrixLayoutMode) :
    parseArgs spFindProfile ("--" :: rest) p m =
      match addInputPaths rest p with
      | none => .asserted
      | some (.SLANG_OK, p1) => .finished p1 m
      | some (r, p1) => .returned r p1 := by
  rw [parseArgs.eq_def]
  simp
/-- C22: the terminator `--`.  Wherever the loop reads `--` as an option (any
parser `p`, any layout mode `m`), with any tokens `rest` after it, the scan
ends as the fold of `addInputPath` over `rest` from `p` says: with the parser
of the fold when every call succeeded, with the result and the parser of the
first failing call otherwise; no token of `rest` is read as an option.  The
fold starts from `p`, goes on with the parser of a successful call, and stops
at a failing call.  So `parse` on `-- -x` fails with the one diagnostic
`cannotDeduceSourceLanguage "-x"`, and `parse` on `-- -entry.hlsl` returns
with one HLSL translation unit of the source file `-entry.hlsl` and no entry
point named by an `-entry` option. -/
theorem terminator_reads_input_paths (spFindProfile : String → SlangProfileID) :
    (∀ (rest : List String) (p : OptionsParser) (m : SlangMatrixLayoutMode),
      parseArgs spFindProfile ("--" :: rest) p m =
        match foldInputPaths rest p with
        | none => .asserted
        | some (.SLANG_OK, p1) => .finished p1 m
        | some (r, p1) => .returned r p1) ∧
    (∀ p : OptionsParser, foldInputPaths [] p = some (.SLANG_OK, p)) ∧
    (∀ (path : String) (rest : List String) (p p1 : OptionsParser),
      addInputPath p path = some (.SLANG_OK, p1) →
      foldInputPaths (path :: rest) p = foldInputPaths rest p1) ∧
    (∀ (path : String) (rest : List String) (p p1 : OptionsParser) (r : SlangResult),
      addInputPath p path = some (r, p1) → r ≠ .SLANG_OK →
      foldInputPaths (path :: rest) p = some (r, p1)) ∧
    (∃ p1, ({} : OptionsParser).parse spFindProfile ["--", "-x"] = some (.SLANG_FAIL, p1) ∧
      p1.requestImpl.mSink.diagnostics = [.cannotDeduceSourceLanguage "-x"] ∧
      p1.requestImpl.translationUnits = []) ∧
    (∃ r p1, ({} : OptionsParser).parse spFindProfile ["--", "-entry.hlsl"] = some (r, p1) ∧
      p1.requestImpl.translationUnits =
        [{ sourceLanguage := .SLANG_SOURCE_LANGUAGE_HLSL, sourceFiles := ["-entry.hlsl"] }] ∧
      p1.rawEntryPoints.map (fun e => e.name) = ["main"] ∧
      ∀ d ∈ p1.requestImpl.mSink.diagnostics, d ≠ .unknownCommandLineOption "-entry.hlsl") := by
  refine ⟨?_, foldInputPaths_nil, foldInputPaths_ok, foldInputPaths_fail, ?_, ?_⟩
  · intro rest p m
    rw [parseArgs_terminator, addInputPaths_eq_fold]
  · have hstep : addInputPath ({ requestImpl := {}, flags := 0 } : OptionsParser) "-x" =
        some (.SLANG_FAIL,
          ({ ({ requestImpl := {}, flags := 0 } : OptionsParser) with
              inputPathCount := 1 } : OptionsParser).diagnose
            (.cannotDeduceSourceLanguage "-x")) :=
      addInputPath_unknown _ "-x" (by decide) (by decide)
    have hscan : parseArgs spFindProfile ["--", "-x"] { requestImpl := {}, flags := 0 }
        .SLANG_MATRIX_LAYOUT_MODE_UNKNOWN = .returned .SLANG_FAIL
          (({ ({ requestImpl := {}, flags := 0 } : OptionsParser) with
              inputPathCount := 1 } : OptionsParser).diagnose
            (.cannotDeduceSourceLanguage "-x")) := by
      rw [parseArgs_terminator]
      simp only [addInputPaths, hstep]
    have hparse : ({} : OptionsParser).parse spFindProfile ["--", "-x"] =
        some (.SLANG_FAIL,
          (({ ({ requestImpl := {}, flags := 0 } : OptionsParser) with
              inputPathCount := 1 } : OptionsParser).diagnose
            (.cannotDeduceSourceLanguage "-x"))) := by
      unfold OptionsParser.parse
      simp only
      rw [hscan]
    exact ⟨_, hparse, rfl, rfl⟩
  · have hstep := addInputPath_foreign ({ requestImpl := {}, flags := 0 } : OptionsParser)
      "-entry.hlsl" .SLANG_SOURCE_LANGUAGE_HLSL .SLANG_PROFILE_UNKNOWN (by decide) (by decide)
      (by decide) rfl
    have hscan : parseArgs spFindProfile ["--", "-entry.hlsl"] { requestImpl := {}, flags := 0 }
        .SLANG_MATRIX_LAYOUT_MODE_UNKNOWN = .finished
          { requestImpl :=
              { translationUnits :=
                  [{ sourceLanguage := .SLANG_SOURCE_LANGUAGE_HLSL
                     sourceFiles := ["-entry.hlsl"] }] }
            inputPathCount := 1
            translationUnitCount := 1
            currentTranslationUnitIndex := 0
            rawTranslationUnits :=
              [{ sourceLanguage := .SLANG_SOURCE_LANGUAGE_HLSL
                 implicitProfile := .SLANG_PROFILE_UNKNOWN
                 translationUnitIndex := 0 }] }
          .SLANG_MATRIX_LAYOUT_MODE_UNKNOWN := by
      rw [parseArgs_terminator]
      simp only [addInputPaths, hstep]
      rfl
    have hres : ∃ r p1, resolve
          { requestImpl :=
              { translationUnits :=
                  [{ sourceLanguage := .SLANG_SOURCE_LANGUAGE_HLSL
                     sourceFiles := ["-entry.hlsl"] }] }
            inputPathCount := 1
            translationUnitCount := 1
            currentTranslationUnitIndex := 0
            rawTranslationUnits :=
              [{ sourceLanguage := .SLANG_SOURCE_LANGUAGE_HLSL
                 implicitProfile := .SLANG_PROFILE_UNKNOWN
                 translationUnitIndex := 0 }] }
          .SLANG_MATRIX_LAYOUT_MODE_UNKNOWN = some (r, p1) ∧
        p1.requestImpl.translationUnits =
          [{ sourceLanguage := .SLANG_SOURCE_LANGUAGE_HLSL
             sourceFiles := ["-entry.hlsl"] }] ∧
        p1.rawEntryPoints.map (fun e => e.name) = ["main"] ∧
        ∀ d ∈ p1.requestImpl.mSink.diagnostics,
          d ≠ .unknownCommandLineOption "-entry.hlsl" := by
      rcases applyProfiles_cases (beforeProfileBackfill
          { requestImpl :=
              { translationUnits :=
                  [{ sourceLanguage := .SLANG_SOURCE_LANGUAGE_HLSL
                     sourceFiles := ["-entry.hlsl"] }] }
            inputPathCount := 1
            translationUnitCount := 1
            currentTranslationUnitIndex := 0
            rawTranslationUnits :=
              [{ sourceLanguage := .SLANG_SOURCE_LANGUAGE_HLSL
                 implicitProfile := .SLANG_PROFILE_UNKNOWN
                 translationUnitIndex := 0 }] }) with
        ⟨_, _, happ⟩ | ⟨_, hcu, _⟩ | ⟨hno, _, _⟩
      · exact ⟨_, _, resolve_returned _ _ _ _ happ, by decide, by decide, by decide⟩
      · exact absurd (by decide) hcu
      · exact absurd (by decide) hno
    obtain ⟨r, p1, hres, h1, h2, h3⟩ := hres
    refine ⟨r, p1, ?_, h1, h2, h3⟩
    unfold OptionsParser.parse
    simp only
    rw [hscan]
    exact hres

/-- C22, at the tokens `-x y.hlsl` after `--` on a new parser: `addInputPath`
fails on `-x`, and the fold stops there, before `y.hlsl`. -/
theorem terminator_reads_input_paths_witness :
    addInputPath {} "-x" = some (.SLANG_FAIL,
      ({ inputPathCount := 1 } : OptionsParser).diagnose (.cannotDeduceSourceLanguage "-x")) ∧
    SlangResult.SLANG_FAIL ≠ .SLANG_OK ∧
    foldInputPaths ["-x", "y.hlsl"] {} = some (.SLANG_FAIL,
      ({ inputPathCount := 1 } : OptionsParser).diagnose (.cannotDeduceSourceLanguage "-x")) :=
  ⟨addInputPath_unknown {} "-x" (by decide) (by decide), by decide,
    (terminator_reads_input_paths exampleProfiles).2.2.2.1 "-x" ["y.hlsl"] {}
      (({ inputPathCount := 1 } : OptionsParser).diagnose (.cannotDeduceSourceLanguage "-x"))
      .SLANG_FAIL (addInputPath_unknown {} "-x" (by decide) (by decide)) (by decide)⟩

/-- A token that starts with `-`, is none of the option strings and has
neither `D` nor `I` as its second character: the loop returns with
`unknownCommandLineOption`, whatever follows. -/
theorem parseArgs_unknown_option (spFindProfile : String → SlangProfileID) (arg : String)
    (rest : List String) (p : OptionsParser) (m : SlangMatrixLayoutMode)
    (h0 : arg.data.head? = some '-')
    (hnot : arg ∉ ["-no-mangle", "-no-codegen", "-dump-ir", "-validate-ir", "-skip-codegen",
      "-parameter-blocks-use-register-spaces", "-backend", "-target", "-profile", "-entry",
      "-pass-through", "-o", "-matrix-layout-row-major", "-matrix-layout-column-major", "--"])
    (hD : arg.data[1]? ≠ some 'D') (hI : arg.data[1]? ≠ some 'I') :
    parseArgs spFindProfile (arg :: rest) p m =
      .returned .SLANG_FAIL (p.diagnose (.unknownCommandLineOption arg)) := by
  simp only [List.mem_cons, List.mem_singleton, List.not_mem_nil, or_false, not_or] at hnot
  obtain ⟨n1, n2, n3, n4, n5, n6, n7, n8, n9, n10, n11, n12, n13, n14, n15⟩ := hnot
  rw [parseArgs.eq_def]
  simp [h0, n1, n2, n3, n4, n5, n6, n7, n8, n9, n10, n11, n12, n13, n14, n15, hD, hI]

/-- After the tokens of well-formed items, an unknown option: `parse` returns
`SLANG_FAIL` with the parser of the scan so far and the one diagnostic
`unknownCommandLineOption`, whatever follows. -/
theorem parse_unknown_option (spFindProfile : String → SlangProfileID) (req : CompileRequest)
    (items : List CommandLineItem) (p : OptionsParser) (m : SlangMatrixLayoutMode)
    (arg : String) (rest : List String)
    (hreq : req.translationUnits = [])
    (hscan : parseArgs spFindProfile (tokensOf items)
      { requestImpl := req, flags := req.compileFlags }
      .SLANG_MATRIX_LAYOUT_MODE_UNKNOWN = .finished p m)
    (hwf : ∀ i ∈ items, i.WellFormed spFindProfile)
    (h0 : arg.data.head? = some '-')
    (hnot : arg ∉ ["-no-mangle", "-no-codegen", "-dump-ir", "-validate-ir", "-skip-codegen",
      "-parameter-blocks-use-register-spaces", "-backend", "-target", "-profile", "-entry",
      "-pass-through", "-o", "-matrix-layout-row-major", "-matrix-layout-column-major", "--"])
    (hD : arg.data[1]? ≠ some 'D') (hI : arg.data[1]? ≠ some 'I') :
    ({ requestImpl := req } : OptionsParser).parse spFindProfile
        (tokensOf items ++ arg :: rest) =
        some (.SLANG_FAIL, p.diagnose (.unknownCommandLineOption arg)) ∧
      (p.diagnose (.unknownCommandLineOption arg)).requestImpl.mSink.diagnostics =
        req.mSink.diagnostics ++ [.unknownCommandLineOption arg] ∧
      (p.diagnose (.unknownCommandLineOption arg)).requestImpl.entryPoints =
        req.entryPoints := by
  obtain ⟨p1, m1, _, hsink, hents, hstep⟩ := parseArgs_items spFindProfile items []
    { requestImpl := req, flags := req.compileFlags } .SLANG_MATRIX_LAYOUT_MODE_UNKNOWN
    (Tracks_new spFindProfile req hreq) hwf
  have h1 := hstep []
  rw [List.append_nil, hscan] at h1
  have h2 : parseArgs spFindProfile [] p1 m1 = .finished p1 m1 := by
    rw [parseArgs.eq_def]
  rw [h2] at h1
  cases h1
  refine ⟨?_, ?_, ?_⟩
  · unfold OptionsParser.parse
    simp only
    rw [hstep (arg :: rest), parseArgs_unknown_option spFindProfile arg rest p m h0 hnot hD hI]
  · show (p.requestImpl.mSink.diagnose _).diagnostics = _
    rw [hsink]
    rfl
  · exact hents
/-- C23: an unknown option.  Wherever the loop reads as an option (any parser
`p`, any layout mode `m`) a token that starts with `-`, is none of the option
strings the loop compares with and has neither `D` nor `I` as its second
character, it returns `SLANG_FAIL` at once, with `p` changed only in that the
sink has received `unknownCommandLineOption` for the token, whatever tokens
follow.  So after the tokens of well-formed items whose scan, from a new
parser on a request without translation units, finishes with the parser `p`,
`parse` returns `SLANG_FAIL` with `p` and this one diagnostic: the units, the
entry points, the output paths, the profile and the flags are those of `p`,
no pass after the loop has run and the request has gained no entry point.
And `parse` on `x.frag -bogus y.unknown` fails with the one diagnostic
`unknownCommandLineOption "-bogus"`, no diagnostic for `y.unknown`, and no
entry point. -/
theorem unknown_option_stops_at_once (spFindProfile : String → SlangProfileID) :
    (∀ (arg : String) (rest : List String) (p : OptionsParser) (m : SlangMatrixLayoutMode),
      arg.data.head? = some '-' →
      arg ∉ ["-no-mangle", "-no-codegen", "-dump-ir", "-validate-ir", "-skip-codegen",
        "-parameter-blocks-use-register-spaces", "-backend", "-target", "-profile", "-entry",
        "-pass-through", "-o", "-matrix-layout-row-major", "-matrix-layout-column-major",
        "--"] →
      arg.data[1]? ≠ some 'D' → arg.data[1]? ≠ some 'I' →
      parseArgs spFindProfile (arg :: rest) p m =
        .returned .SLANG_FAIL (p.diagnose (.unknownCommandLineOption arg))) ∧
    (∀ (req : CompileRequest) (items : List CommandLineItem) (p : OptionsParser)
        (m : SlangMatrixLayoutMode) (arg : String) (rest : List String),
      req.translationUnits = [] →
      parseArgs spFindProfile (tokensOf items) { requestImpl := req, flags := req.compileFlags }
        .SLANG_MATRIX_LAYOUT_MODE_UNKNOWN = .finished p m →
      (∀ i ∈ items, i.WellFormed spFindProfile) →
      arg.data.head? = some '-' →
      arg ∉ ["-no-mangle", "-no-codegen", "-dump-ir", "-validate-ir", "-skip-codegen",
        "-parameter-blocks-use-register-spaces", "-backend", "-target", "-profile", "-entry",
        "-pass-through", "-o", "-matrix-layout-row-major", "-matrix-layout-column-major",
        "--"] →
      arg.data[1]? ≠ some 'D' → arg.data[1]? ≠ some 'I' →
      ∃ p1, ({ requestImpl := req } : OptionsParser).parse spFindProfile
          (tokensOf items ++ arg :: rest) = some (.SLANG_FAIL, p1) ∧
        p1 = p.diagnose (.unknownCommandLineOption arg) ∧
        p1.requestImpl.mSink.diagnostics =
          req.mSink.diagnostics ++ [.unknownCommandLineOption arg] ∧
        p1.requestImpl.entryPoints = req.entryPoints ∧
        p1.requestImpl.translationUnits = p.requestImpl.translationUnits ∧
        p1.rawTranslationUnits = p.rawTranslationUnits ∧
        p1.rawEntryPoints = p.rawEntryPoints ∧
        p1.rawOutputPaths = p.rawOutputPaths ∧
        p1.currentProfileID = p.currentProfileID ∧
        p1.flags = p.flags ∧ p1.targetFlags = p.targetFlags) ∧
    (∃ p1, ({} : OptionsParser).parse spFindProfile ["x.frag", "-bogus", "y.unknown"] =
        some (.SLANG_FAIL, p1) ∧
      p1.requestImpl.mSink.diagnostics = [.unknownCommandLineOption "-bogus"] ∧
      p1.rawEntryPoints = [] ∧ p1.requestImpl.entryPoints = []) := by
  refine ⟨?_, ?_, ?_⟩
  · intro arg rest p m h0 hnot hD hI
    exact parseArgs_unknown_option spFindProfile arg rest p m h0 hnot hD hI
  · intro req items p m arg rest hreq hscan hwf h0 hnot hD hI
    obtain ⟨h1, h2, h3⟩ :=
      parse_unknown_option spFindProfile req items p m arg rest hreq hscan hwf h0 hnot hD hI
    exact ⟨_, h1, rfl, h2, h3, rfl, rfl, rfl, rfl, rfl, rfl, rfl⟩
  · have hwf : ∀ i ∈ [CommandLineItem.input "x.frag"], i.WellFormed spFindProfile := by
      intro i hi
      rw [List.mem_singleton.mp hi]
      exact wellFormed_x_frag _
    obtain ⟨p, m, hscan, _, _, _, hrec⟩ := scanned_items spFindProfile {} [.input "x.frag"]
      rfl hwf
    obtain ⟨h1, h2, h3⟩ := parse_unknown_option spFindProfile {} [.input "x.frag"] p m
      "-bogus" ["y.unknown"] rfl hscan hwf (by decide) (by decide) (by decide) (by decide)
    refine ⟨_, h1, h2, ?_, h3⟩
    show p.rawEntryPoints = []
    rw [hrec]
    rfl

/-- C23, at the token `-bogus` before `y.unknown` on a new parser: it starts
with `-`, is none of the option strings, its second character is `b`, and the
loop returns with `unknownCommandLineOption "-bogus"`. -/
theorem unknown_option_stops_at_once_witness :
    ("-bogus" : String).data.head? = some '-' ∧
    "-bogus" ∉ ["-no-mangle", "-no-codegen", "-dump-ir", "-validate-ir", "-skip-codegen",
      "-parameter-blocks-use-register-spaces", "-backend", "-target", "-profile", "-entry",
      "-pass-through", "-o", "-matrix-layout-row-major", "-matrix-layout-column-major",
      "--"] ∧
    ("-bogus" : String).data[1]? ≠ some 'D' ∧ ("-bogus" : String).data[1]? ≠ some 'I' ∧
    parseArgs exampleProfiles ["-bogus", "y.unknown"] {} .SLANG_MATRIX_LAYOUT_MODE_UNKNOWN =
      .returned .SLANG_FAIL
        (({} : OptionsParser).diagnose (.unknownCommandLineOption "-bogus")) :=
  ⟨by decide, by decide, by decide, by decide,
    (unknown_option_stops_at_once exampleProfiles).1 "-bogus" ["y.unknown"] {}
      .SLANG_MATRIX_LAYOUT_MODE_UNKNOWN (by decide) (by decide) (by decide) (by decide)⟩

theorem associationDiagnostics_isError (entries : List RawEntryPoint)
    (outputs : List RawOutputPath) :
    ∀ d ∈ associationDiagnostics entries outputs, d.isError = true := by
  intro d hd
  unfold associationDiagnostics at hd
  split at hd
  · cases hd
  · split at hd
    · cases hd
    · split at hd
      · rw [List.mem_singleton.mp hd]
        rfl
      · split at hd
        · rw [List.mem_singleton.mp hd]
          rfl
        · cases hd

/-- When output association diagnoses nothing although there is an output
path: one entry point with one output path, or output paths that do not
outnumber the entry points, each of which has an output path. -/
theorem associationDiagnostics_nil (entries : List RawEntryPoint)
    (outputs : List RawOutputPath) (h : associationDiagnostics entries outputs = [])
    (hne : outputs ≠ []) :
    (entries.length = 1 ∧ outputs.length = 1) ∨
    (¬ outputs.length > entries.length ∧ ∀ e ∈ entries, ¬ e.outputPathIndex < 0) := by
  unfold associationDiagnostics at h
  split at h
  · rename_i h0
    exact absurd (List.length_eq_zero.mp h0) hne
  · split at h
    · rename_i h1
      exact Or.inl h1
    · split at h
      · cases h
      · rename_i h2
        split at h
        · cases h
        · rename_i hfind
          refine Or.inr ⟨h2, ?_⟩
          intro e he hlt
          have := List.find?_eq_none.mp hfind e he
          simp only [decide_eq_true_eq] at this
          exact this hlt

theorem no_error_of_errorCount (sink : DiagnosticSink) (ds : List Diagnostic)
    (h : (sink.diagnoseAll ds).errorCount = 0) : ∀ d ∈ ds, d.isError = false := by
  intro d hd
  cases herr : d.isError with
  | false => rfl
  | true =>
    have := diagnoseAll_errorCount_pos ds sink d hd herr
    omega

theorem backfillTranslationUnit_fields (e : RawEntryPoint) :
    (backfillTranslationUnit e).translationUnitIndex ≠ -1 ∧
    (backfillTranslationUnit e).outputPathIndex = e.outputPathIndex ∧
    (backfillTranslationUnit e).name = e.name ∧
    (backfillTranslationUnit e).profileID = e.profileID := by
  unfold backfillTranslationUnit
  split
  · rename_i h
    exact ⟨h, rfl, rfl, rfl⟩
  · refine ⟨?_, rfl, rfl, rfl⟩
    show (0 : Int) ≠ -1
    decide

/-- The passes after the loop leave `translationUnitCount` alone. -/
theorem resolve_translationUnitCount (p : OptionsParser) (m : SlangMatrixLayoutMode)
    (r : SlangResult) (p1 : OptionsParser) (h : resolve p m = some (r, p1)) :
    p1.translationUnitCount = p.translationUnitCount := by
  rcases resolve_some_cases p m r p1 h with h1 | ⟨q, hq, h2⟩ | ⟨q, q2, hq, h2, h3, _⟩
  · obtain ⟨_, hp | hp⟩ := applyProfiles_returned _ _ _ h1
    · rw [hp, addImplicitEntryPoints_eq]
      rfl
    · rw [hp, addImplicitEntryPoints_eq]
      rfl
  · have c1 := (continued_frame p q hq).2.2.2.1
    have c2 := (outputPasses_step q m).translationUnitCount
    rw [attachTranslationUnits_eq] at h2
    split at h2
    · cases h2
      exact c2.trans c1
    · cases h2
  · have c1 := (continued_frame p q hq).2.2.2.1
    have c2 := (outputPasses_step q m).translationUnitCount
    rw [attachTranslationUnits_eq] at h2
    split at h2
    · cases h2
    · cases h2
      rw [placeEntryPoints_some _ _ _ h3]
      exact c2.trans c1

/-- What a successful `parse` has gone through, from a new parser on a
request without translation units: the scan has finished, profile backfill
has continued, no later pass has diagnosed an error, and the entry points
have been placed in the request. -/
theorem parse_success_state (spFindProfile : String → SlangProfileID) (req : CompileRequest)
    (args : List String) (p1 : OptionsParser) (hreq : req.translationUnits = [])
    (h : ({ requestImpl := req } : OptionsParser).parse spFindProfile args =
      some (.SLANG_OK, p1)) :
    ∃ p m q items, parseArgs spFindProfile args
        { requestImpl := req, flags := req.compileFlags }
        .SLANG_MATRIX_LAYOUT_MODE_UNKNOWN = .finished p m ∧
      Reads spFindProfile args items ∧
      applyProfiles (beforeProfileBackfill p) = .continued q ∧
      p1.rawOutputPaths = q.rawOutputPaths ∧
      q.rawOutputPaths = outputRecords items ∧
      q.translationUnitCount = p.translationUnitCount ∧
      p1.rawEntryPoints = (outputPasses q m).rawEntryPoints.map backfillTranslationUnit ∧
      (∀ d ∈ outputDiagnostics q, d.isError = false) ∧
      (∀ e ∈ (outputPasses q m).rawEntryPoints,
        e.outputPathIndex < (q.rawOutputPaths.length : Int)) ∧
      p1.requestImpl.entryPoints = req.entryPoints ++
        p1.rawEntryPoints.map (registeredEntryPoint q.rawOutputPaths) ∧
      ScanInv p ∧ p1.translationUnitCount = q.translationUnitCount := by
  rcases parse_some_cases spFindProfile { requestImpl := req } args .SLANG_OK p1 h with
    hret | ⟨p, m, hscan, hres⟩
  · rcases parseArgs_ScanInv spFindProfile args { requestImpl := req, flags := req.compileFlags }
      .SLANG_MATRIX_LAYOUT_MODE_UNKNOWN (ScanInv_new req hreq) with
      ⟨p2, m2, h2, _⟩ | ⟨p2, h2, _⟩
    · have hret1 : parseArgs spFindProfile args
          { requestImpl := req, flags := req.compileFlags }
          .SLANG_MATRIX_LAYOUT_MODE_UNKNOWN = .returned .SLANG_OK p1 := hret
      rw [h2] at hret1
      cases hret1
    · have hret1 : parseArgs spFindProfile args
          { requestImpl := req, flags := req.compileFlags }
          .SLANG_MATRIX_LAYOUT_MODE_UNKNOWN = .returned .SLANG_OK p1 := hret
      rw [h2] at hret1
      cases hret1
  · have hscan1 : parseArgs spFindProfile args { requestImpl := req, flags := req.compileFlags }
        .SLANG_MATRIX_LAYOUT_MODE_UNKNOWN = .finished p m := hscan
    obtain ⟨items, hreads, hs, hsink, hents⟩ :=
      scanned_finished spFindProfile req args p m hreq hscan1
    cases happ : applyProfiles (beforeProfileBackfill p) with
    | returned r0 q =>
      have hres1 := resolve_returned p m _ _ happ
      rw [hres] at hres1
      obtain ⟨hr0, _⟩ := applyProfiles_returned _ _ _ happ
      simp only [Option.some.injEq, Prod.mk.injEq] at hres1
      rw [hr0] at hres1
      exact absurd hres1.1 (by decide)
    | continued q =>
      obtain ⟨c1, _, _, c4, _, c6, _, c8⟩ := continued_frame p q happ
      have hb := outputPasses_bound q m (c8 (fun e he => (hs.1.inv.entry_output e he).2))
      obtain ⟨r1, p2, hres1, hsink1, _, hiff, hes, houts, _, hreg, _⟩ :=
        resolve_after_profiles p m q happ hb
      rw [hres] at hres1
      simp only [Option.some.injEq, Prod.mk.injEq] at hres1
      obtain ⟨rfl, rfl⟩ := hres1
      have hzero := hiff.mp rfl
      rw [hsink1] at hzero
      have hnoerr := no_error_of_errorCount _ _ hzero
      have hunits : translationUnitDiagnostics q.rawEntryPoints q.translationUnitCount = [] := by
        cases hd : translationUnitDiagnostics q.rawEntryPoints q.translationUnitCount with
        | nil => rfl
        | cons d rest =>
          exfalso
          have hmem : d ∈ outputDiagnostics q := by
            unfold outputDiagnostics
            rw [hd]
            simp
          have hd1 : d = .multipleTranslationUnitsNeedEntryPoints := by
            unfold translationUnitDiagnostics at hd
            split at hd
            · simp only [List.cons.injEq] at hd
              exact hd.1.symm
            · cases hd
          have := hnoerr d hmem
          rw [hd1] at this
          cases this
      refine ⟨p, m, q, items, hscan1, hreads, happ, houts, ?_, c4, hes, hnoerr, hb, ?_,
        hs.1.inv, ?_⟩
      · rw [c1]
        exact hs.2.outputs
      · rw [hreg hunits, c6, hents]
      · rw [resolve_translationUnitCount p m _ _ hres, c4]

/-- Where the indices of the entry points come from when profile backfill
continues with parser `q`: from an entry point of the scan, or, when the scan
recorded none, from a translation unit, without output path. -/
theorem continued_indices (p q : OptionsParser)
    (hq : applyProfiles (beforeProfileBackfill p) = .continued q) :
    ∀ e ∈ q.rawEntryPoints,
      (∃ e0 ∈ p.rawEntryPoints, e.translationUnitIndex = e0.translationUnitIndex ∧
        e.outputPathIndex = e0.outputPathIndex) ∨
      (p.rawEntryPoints = [] ∧ e.outputPathIndex = -1 ∧
        ∃ u ∈ p.rawTranslationUnits, e.translationUnitIndex = u.translationUnitIndex) := by
  intro e he
  obtain ⟨_, _, _, _, _, _, c7, _⟩ := continued_frame p q hq
  rw [c7, List.mem_map] at he
  obtain ⟨e1, he1, rfl⟩ := he
  have hfields : ∀ x : RawEntryPoint,
      (if x.profileID = .SLANG_PROFILE_UNKNOWN then
        { x with profileID := p.currentProfileID } else x).translationUnitIndex =
        x.translationUnitIndex ∧
      (if x.profileID = .SLANG_PROFILE_UNKNOWN then
        { x with profileID := p.currentProfileID } else x).outputPathIndex =
        x.outputPathIndex := by
    intro x
    split <;> exact ⟨rfl, rfl⟩
  rw [(hfields e1).1, (hfields e1).2]
  rw [beforeProfileBackfill_eq] at he1
  simp only at he1
  split at he1
  · rename_i hnil
    simp only [implicitEntryPointsFor, List.mem_map, List.mem_filter] at he1
    obtain ⟨u, ⟨hu, _⟩, rfl⟩ := he1
    exact Or.inr ⟨hnil, rfl, u, hu, rfl⟩
  · exact Or.inl ⟨e1, he1, rfl, rfl⟩

theorem unit_index_mem (p : OptionsParser) (h : ScanInv p) :
    ∀ u ∈ p.rawTranslationUnits,
      0 ≤ u.translationUnitIndex ∧ u.translationUnitIndex < p.translationUnitCount := by
  intro u hu
  have hmem : u.translationUnitIndex ∈
      p.rawTranslationUnits.map (fun u => u.translationUnitIndex) :=
    List.mem_map_of_mem _ hu
  rw [h.unit_index, List.mem_map] at hmem
  obtain ⟨n, hn, hn1⟩ := hmem
  rw [List.mem_range] at hn
  rw [← hn1, h.unit_count]
  constructor
  · exact Int.ofNat_nonneg n
  · exact Int.ofNat_lt.mpr hn

/-- The indices of the entry points when profile backfill continues with
parser `q` after a scan with `ScanInv`: every output path index is `-1` or
the index of an output path, and every unit index is `-1` or the index of a
unit. -/
theorem continued_bounds (p q : OptionsParser) (hinv : ScanInv p)
    (hq : applyProfiles (beforeProfileBackfill p) = .continued q) :
    ∀ e ∈ q.rawEntryPoints,
      (-1 ≤ e.outputPathIndex ∧ e.outputPathIndex < (q.rawOutputPaths.length : Int)) ∧
      (e.translationUnitIndex = -1 ∨
        (0 ≤ e.translationUnitIndex ∧ e.translationUnitIndex < q.translationUnitCount)) := by
  intro e he
  obtain ⟨c1, _, _, c4, _⟩ := continued_frame p q hq
  rw [c1, c4]
  rcases continued_indices p q hq e he with ⟨e0, he0, h1, h2⟩ | ⟨_, h2, u, hu, h1⟩
  · rw [h1, h2]
    refine ⟨hinv.entry_output e0 he0, ?_⟩
    rw [hinv.unit_count]
    exact hinv.entry_unit e0 he0
  · rw [h1, h2]
    refine ⟨⟨Int.le_refl _, ?_⟩, Or.inr (unit_index_mem p hinv u hu)⟩
    have : (0 : Int) ≤ (p.rawOutputPaths.length : Int) := Int.ofNat_nonneg _
    omega

/-- Where an entry point comes from after output association: from an entry
point of `q`, with the same unit, and with the same output path index or, for
one entry point with one output path, with the index 0. -/
theorem outputPasses_entries (q : OptionsParser) (m : SlangMatrixLayoutMode) :
    ∀ e ∈ (outputPasses q m).rawEntryPoints, ∃ e0 ∈ q.rawEntryPoints,
      e.translationUnitIndex = e0.translationUnitIndex ∧
      ((e.outputPathIndex = e0.outputPathIndex ∧
          ¬ (q.rawEntryPoints.length = 1 ∧ q.rawOutputPaths.length = 1)) ∨
        (q.rawEntryPoints.length = 1 ∧ q.rawOutputPaths.length = 1 ∧
          e.outputPathIndex = 0)) := by
  intro e he
  rw [outputPasses_rawEntryPoints] at he
  split at he
  · rename_i hc
    obtain ⟨x, hx⟩ := List.length_eq_one.mp hc.1
    rw [hx] at he
    have he1 : e = { x with outputPathIndex := 0 } := List.mem_singleton.mp he
    refine ⟨x, ?_, ?_, Or.inr ⟨hc.1, hc.2, ?_⟩⟩
    · rw [hx]
      exact List.mem_singleton.mpr rfl
    · rw [he1]
    · rw [he1]
  · rename_i hc
    exact ⟨e, he, rfl, Or.inl ⟨rfl, hc⟩⟩

theorem associationDiagnostics_nil_of_no_error (q : OptionsParser)
    (h : ∀ d ∈ outputDiagnostics q, d.isError = false) :
    associationDiagnostics q.rawEntryPoints q.rawOutputPaths = [] := by
  cases hd : associationDiagnostics q.rawEntryPoints q.rawOutputPaths with
  | nil => rfl
  | cons d rest =>
    exfalso
    have hmem : d ∈ associationDiagnostics q.rawEntryPoints q.rawOutputPaths := by
      rw [hd]
      exact List.mem_cons_self _ _
    have herr := associationDiagnostics_isError _ _ d hmem
    have hmem1 : d ∈ outputDiagnostics q := by
      unfold outputDiagnostics
      simp only [List.mem_append]
      exact Or.inl (Or.inl (Or.inr hmem))
    rw [h d hmem1] at herr
    cases herr

/-- The association fields of the entry points after a successful `parse`:
every entry point has a unit; with an output path every entry point has the
index of an output path; without one every entry point has the output path
index `-1`. -/
theorem success_indices (spFindProfile : String → SlangProfileID) (req : CompileRequest)
    (args : List String) (p1 : OptionsParser) (hreq : req.translationUnits = [])
    (h : ({ requestImpl := req } : OptionsParser).parse spFindProfile args =
      some (.SLANG_OK, p1)) :
    (∀ e ∈ p1.rawEntryPoints, e.translationUnitIndex ≠ -1) ∧
    (p1.rawOutputPaths ≠ [] → ∀ e ∈ p1.rawEntryPoints,
      0 ≤ e.outputPathIndex ∧ e.outputPathIndex < (p1.rawOutputPaths.length : Int)) ∧
    (p1.rawOutputPaths = [] → ∀ e ∈ p1.rawEntryPoints, e.outputPathIndex = -1) := by
  obtain ⟨p, m, q, items, _, _, happ, houts, _, _, hes, hnoerr, hb, _, hinv, _⟩ :=
    parse_success_state spFindProfile req args p1 hreq h
  have hassoc := associationDiagnostics_nil_of_no_error q hnoerr
  rw [hes, houts]
  refine ⟨?_, ?_, ?_⟩
  · intro e he
    rw [List.mem_map] at he
    obtain ⟨e1, _, rfl⟩ := he
    exact (backfillTranslationUnit_fields e1).1
  · intro hne e he
    rw [List.mem_map] at he
    obtain ⟨e1, he1, rfl⟩ := he
    rw [(backfillTranslationUnit_fields e1).2.1]
    refine ⟨?_, hb e1 he1⟩
    obtain ⟨e0, he0, _, ⟨hidx, hc⟩ | ⟨_, _, hidx⟩⟩ := outputPasses_entries q m e1 he1
    · rcases associationDiagnostics_nil _ _ hassoc hne with h1 | ⟨_, h2⟩
      · exact absurd h1 hc
      · rw [hidx]
        exact Int.not_lt.mp (h2 e0 he0)
    · rw [hidx]
  · intro hnil e he
    rw [List.mem_map] at he
    obtain ⟨e1, he1, rfl⟩ := he
    rw [(backfillTranslationUnit_fields e1).2.1]
    obtain ⟨e0, he0, _, ⟨hidx, _⟩ | ⟨_, hlen, _⟩⟩ := outputPasses_entries q m e1 he1
    · obtain ⟨⟨hlow, hup⟩, _⟩ := continued_bounds p q hinv happ e0 he0
      rw [hnil] at hup
      rw [hidx]
      have : ((([] : List RawOutputPath).length : Nat) : Int) = 0 := rfl
      omega
    · rw [hnil] at hlen
      cases hlen
theorem parse_x_frag_spv (spFindProfile : String → SlangProfileID) :
    ∃ p1, ({} : OptionsParser).parse spFindProfile ["x.frag", "-o", "a.spv"] =
      some (.SLANG_OK, p1) := by
  obtain ⟨r, p1, ds, hparse, hdef, _, _, _, hiff, _, hsink, _⟩ :=
    parse_items_outputs spFindProfile {} [.input "x.frag", .output "a.spv"] rfl
      (wellFormed_input_output _ _ _ (wellFormed_x_frag _)) (known_x_frag_output _ _)
  rw [entryPointsOf_x_frag_output] at hdef
  have hnil : ds = [] := by
    rw [hdef]
    decide
  have hr : r = .SLANG_OK := by
    rw [hiff, hsink, hnil]
    rfl
  subst hr
  exact ⟨p1, hparse⟩

theorem parse_shader_frag :
    ∃ p1, ({} : OptionsParser).parse exampleProfiles ["shader.frag"] = some (.SLANG_OK, p1) ∧
      p1.rawEntryPoints =
        [{ name := "main", profileID := .GLSL_Fragment, translationUnitIndex := 0,
           outputPathIndex := -1 }] ∧
      p1.rawOutputPaths = [] ∧ p1.requestImpl.mSink.diagnostics = [] :=
  ⟨_, rfl, rfl, rfl, rfl⟩

/-- C24, as stated, fails at the one input `shader.frag`: `parse` returns
`SLANG_OK`, nothing is diagnosed, and the one entry point `main` still has
the output path index `-1`. -/
theorem success_with_unresolved_output_index :
    ∃ p1, ({} : OptionsParser).parse exampleProfiles ["shader.frag"] = some (.SLANG_OK, p1) ∧
      p1.rawEntryPoints =
        [{ name := "main", profileID := .GLSL_Fragment, translationUnitIndex := 0,
           outputPathIndex := -1 }] ∧
      p1.rawOutputPaths = [] ∧ p1.requestImpl.mSink.diagnostics = [] :=
  parse_shader_frag

/-- C24, amended: for every token list, when `parse`, from a new parser on a
request without translation units, returns `SLANG_OK`, the scan has read the
whole command line, the output paths of the parser are the `-o` paths of the
command line outside containers, and no entry point has the unit index `-1`;
when the command line has such an `-o` path, no entry point has the output
path index `-1`; when it has none, every entry point has the output path
index `-1`. -/
theorem success_resolves_entry_points (spFindProfile : String → SlangProfileID)
    (req : CompileRequest) (args : List String) (p1 : OptionsParser)
    (hreq : req.translationUnits = [])
    (h : ({ requestImpl := req } : OptionsParser).parse spFindProfile args =
      some (.SLANG_OK, p1)) :
    ∃ items, Reads spFindProfile args items ∧
      p1.rawOutputPaths.map (fun o => o.path) = outputPathsOf items ∧
      (∀ e ∈ p1.rawEntryPoints, e.translationUnitIndex ≠ -1) ∧
      (outputPathsOf items ≠ [] → ∀ e ∈ p1.rawEntryPoints, e.outputPathIndex ≠ -1) ∧
      (outputPathsOf items = [] → ∀ e ∈ p1.rawEntryPoints, e.outputPathIndex = -1) := by
  obtain ⟨_, _, q, items, _, hreads, _, houts, hq, _⟩ :=
    parse_success_state spFindProfile req args p1 hreq h
  obtain ⟨h1, h2, h3⟩ := success_indices spFindProfile req args p1 hreq h
  have hpaths : p1.rawOutputPaths.map (fun o => o.path) = outputPathsOf items := by
    rw [houts, hq, outputRecords, List.map_map]
    exact List.map_id _
  refine ⟨items, hreads, hpaths, h1, ?_, ?_⟩
  · intro hne e he
    have hne1 : p1.rawOutputPaths ≠ [] := by
      intro hnil
      rw [hnil] at hpaths
      exact hne hpaths.symm
    have := (h2 hne1 e he).1
    omega
  · intro hnil
    apply h3
    rw [hnil] at hpaths
    exact List.map_eq_nil_iff.mp hpaths

/-- C24, amended, at `x.frag -o a.spv` on a new request: `parse` returns
`SLANG_OK`, and the theorem applies to the parser it returns. -/
theorem success_resolves_entry_points_witness :
    ({} : CompileRequest).translationUnits = [] ∧
    ∃ p1, ({ requestImpl := {} } : OptionsParser).parse exampleProfiles
        ["x.frag", "-o", "a.spv"] = some (.SLANG_OK, p1) ∧
      ∃ items, Reads exampleProfiles ["x.frag", "-o", "a.spv"] items ∧
        p1.rawOutputPaths.map (fun o => o.path) = outputPathsOf items ∧
        (∀ e ∈ p1.rawEntryPoints, e.translationUnitIndex ≠ -1) ∧
        (outputPathsOf items ≠ [] → ∀ e ∈ p1.rawEntryPoints, e.outputPathIndex ≠ -1) ∧
        (outputPathsOf items = [] → ∀ e ∈ p1.rawEntryPoints, e.outputPathIndex = -1) := by
  obtain ⟨p1, hparse⟩ := parse_x_frag_spv exampleProfiles
  exact ⟨rfl, p1, hparse, success_resolves_entry_points exampleProfiles {}
    ["x.frag", "-o", "a.spv"] p1 rfl hparse⟩

theorem EntryUnitsInRange_of_ScanInv (p : OptionsParser) (h : ScanInv p) :
    EntryUnitsInRange p := by
  intro e he hne
  rw [h.unit_count]
  rcases h.entry_unit e he with h1 | h1
  · exact absurd h1 hne
  · exact h1

theorem EntryUnitsInRange_of_units {p q : OptionsParser}
    (h1 : q.rawEntryPoints.map (fun e => e.translationUnitIndex) =
      p.rawEntryPoints.map (fun e => e.translationUnitIndex))
    (h2 : q.translationUnitCount = p.translationUnitCount)
    (h : EntryUnitsInRange p) : EntryUnitsInRange q := by
  intro e he hne
  have hmem : e.translationUnitIndex ∈
      q.rawEntryPoints.map (fun e => e.translationUnitIndex) :=
    List.mem_map_of_mem _ he
  rw [h1, List.mem_map] at hmem
  obtain ⟨e0, he0, heq⟩ := hmem
  rw [h2, ← heq]
  rw [← heq] at hne
  exact h e0 he0 hne

theorem EntryUnitsInRange_of_step {p q : OptionsParser} (hstep : OutputStep p q)
    (h : EntryUnitsInRange p) : EntryUnitsInRange q :=
  EntryUnitsInRange_of_units hstep.units hstep.translationUnitCount h

theorem EntryUnitsInRange_before (p : OptionsParser) (h : ScanInv p) :
    EntryUnitsInRange (beforeProfileBackfill p) := by
  intro e he _
  rw [beforeProfileBackfill_eq] at he ⊢
  simp only at he ⊢
  split at he
  · simp only [implicitEntryPointsFor, List.mem_map, List.mem_filter] at he
    obtain ⟨u, ⟨hu, _⟩, rfl⟩ := he
    exact unit_index_mem p h u hu
  · rename_i hne
    exact EntryUnitsInRange_of_ScanInv p h e he ‹_›

theorem EntryUnitsInRange_continued (p q : OptionsParser) (h : ScanInv p)
    (hq : applyProfiles (beforeProfileBackfill p) = .continued q) :
    EntryUnitsInRange q := by
  intro e he hne
  rcases (continued_bounds p q h hq e he).2 with h1 | h1
  · exact absurd h1 hne
  · exact h1

/-- Translation-unit backfill that continues keeps the unit indices in
range. -/
theorem EntryUnitsInRange_attach (p q : OptionsParser) (h : EntryUnitsInRange p)
    (hq : attachTranslationUnits p = .continued q) : EntryUnitsInRange q := by
  obtain ⟨hq1, hcount⟩ := attachTranslationUnits_continued p q hq
  intro e he hne
  rw [hq1] at he ⊢
  simp only [List.mem_map] at he ⊢
  obtain ⟨e0, he0, rfl⟩ := he
  by_cases h0 : e0.translationUnitIndex ≠ -1
  · rw [if_pos h0] at hne ⊢
    exact h e0 he0 h0
  · rw [if_neg h0]
    have h1 : e0.translationUnitIndex = -1 := by
      by_contra hc
      exact h0 hc
    rw [hcount ⟨e0, he0, h1⟩]
    refine ⟨Int.le_refl 0, ?_⟩
    show (0 : Int) < 1
    decide

/-- Translation-unit backfill that returns: the unit indices are in range
unless there is no unit at all, and then every entry point has the index
0. -/
theorem EntryUnitsInRange_attach_returned (p q : OptionsParser) (r : SlangResult)
    (h : EntryUnitsInRange p) (hcount : 0 ≤ p.translationUnitCount)
    (hq : attachTranslationUnits p = .returned r q) :
    r = .SLANG_FAIL ∧
    (EntryUnitsInRange q ∨
      (q.translationUnitCount = 0 ∧ q.rawEntryPoints ≠ [] ∧
        ∀ e ∈ q.rawEntryPoints, e.translationUnitIndex = 0)) := by
  rw [attachTranslationUnits_eq] at hq
  split at hq
  · rename_i hc
    cases hq
    refine ⟨rfl, ?_⟩
    by_cases h0 : p.translationUnitCount = 0
    · refine Or.inr ⟨h0, ?_, ?_⟩
      · show p.rawEntryPoints.map backfillTranslationUnit ≠ []
        intro hnil
        have := List.map_eq_nil_iff.mp hnil
        rw [this] at hc
        simp at hc
      · intro e he
        have he1 : e ∈ p.rawEntryPoints.map backfillTranslationUnit := he
        rw [List.mem_map] at he1
        obtain ⟨e0, he0, rfl⟩ := he1
        unfold backfillTranslationUnit
        split
        · rename_i hne
          have := h e0 he0 hne
          omega
        · rfl
    · refine Or.inl ?_
      intro e he hne
      have he1 : e ∈ p.rawEntryPoints.map backfillTranslationUnit := he
      rw [List.mem_map] at he1
      obtain ⟨e0, he0, rfl⟩ := he1
      show 0 ≤ (backfillTranslationUnit e0).translationUnitIndex ∧
        (backfillTranslationUnit e0).translationUnitIndex < p.translationUnitCount
      unfold backfillTranslationUnit
      split
      · rename_i hne0
        exact h e0 he0 hne0
      · refine ⟨Int.le_refl 0, ?_⟩
        show (0 : Int) < p.translationUnitCount
        omega
  · cases hq
/-- The unit indices in the parser `parse` returns, from a new parser on a
request without translation units: in range, unless translation-unit backfill
has failed with no unit at all. -/
theorem parse_units_in_range (spFindProfile : String → SlangProfileID) (req : CompileRequest)
    (args : List String) (r : SlangResult) (p1 : OptionsParser)
    (hreq : req.translationUnits = [])
    (h : ({ requestImpl := req } : OptionsParser).parse spFindProfile args = some (r, p1)) :
    EntryUnitsInRange p1 ∨
    (r = .SLANG_FAIL ∧ p1.translationUnitCount = 0 ∧ p1.rawEntryPoints ≠ [] ∧
      ∀ e ∈ p1.rawEntryPoints, e.translationUnitIndex = 0) := by
  have hinv0 := parseArgs_ScanInv spFindProfile args
    { requestImpl := req, flags := req.compileFlags } .SLANG_MATRIX_LAYOUT_MODE_UNKNOWN
    (ScanInv_new req hreq)
  rcases parse_some_cases spFindProfile { requestImpl := req } args r p1 h with
    hret | ⟨p, m, hscan, hres⟩
  · have hret1 : parseArgs spFindProfile args { requestImpl := req, flags := req.compileFlags }
        .SLANG_MATRIX_LAYOUT_MODE_UNKNOWN = .returned r p1 := hret
    rcases hinv0 with ⟨p2, m2, h2, _⟩ | ⟨p2, h2, hinv, _⟩
    · rw [h2] at hret1
      cases hret1
    · rw [h2] at hret1
      cases hret1
      exact Or.inl (EntryUnitsInRange_of_ScanInv _ hinv)
  · have hscan1 : parseArgs spFindProfile args { requestImpl := req, flags := req.compileFlags }
        .SLANG_MATRIX_LAYOUT_MODE_UNKNOWN = .finished p m := hscan
    have hinv : ScanInv p := by
      rcases hinv0 with ⟨p2, m2, h2, hinv, _⟩ | ⟨p2, h2, _⟩
      · rw [h2] at hscan1
        cases hscan1
        exact hinv
      · rw [h2] at hscan1
        cases hscan1
    rcases resolve_some_cases p m r p1 hres with h1 | ⟨q, hq, h2⟩ | ⟨q, q2, hq, h2, h3, _⟩
    · obtain ⟨_, hp | hp⟩ := applyProfiles_returned _ _ _ h1
      · rw [hp]
        exact Or.inl (EntryUnitsInRange_before p hinv)
      · rw [hp]
        exact Or.inl (EntryUnitsInRange_before p hinv)
    · have hq1 : applyProfiles (beforeProfileBackfill p) = .continued q := hq
      have hrange := EntryUnitsInRange_of_step (outputPasses_step q m)
        (EntryUnitsInRange_continued p q hinv hq1)
      have hcount : 0 ≤ (outputPasses q m).translationUnitCount := by
        rw [(outputPasses_step q m).translationUnitCount,
          (continued_frame p q hq1).2.2.2.1, hinv.unit_count]
        exact Int.ofNat_nonneg _
      obtain ⟨hr, hcases⟩ :=
        EntryUnitsInRange_attach_returned (outputPasses q m) p1 r hrange hcount h2
      rcases hcases with hc | hc
      · exact Or.inl hc
      · exact Or.inr ⟨hr, hc⟩
    · have hq1 : applyProfiles (beforeProfileBackfill p) = .continued q := hq
      have hrange := EntryUnitsInRange_attach (outputPasses q m) q2
        (EntryUnitsInRange_of_step (outputPasses_step q m)
          (EntryUnitsInRange_continued p q hinv hq1)) h2
      rw [placeEntryPoints_some _ _ _ h3]
      exact Or.inl hrange

theorem entryPointsOf_profile_entry :
    entryPointsOf exampleProfiles [.profile "ps_5_0", .entry "main"] =
      [{ name := "main", profileID := .registered 1 }] := by
  decide

theorem parse_entry_without_unit :
    ∃ p1, ({} : OptionsParser).parse exampleProfiles ["-profile", "ps_5_0", "-entry", "main"] =
        some (.SLANG_FAIL, p1) ∧
      p1.rawEntryPoints =
        [{ name := "main", profileID := .registered 1, translationUnitIndex := 0 }] ∧
      p1.translationUnitCount = 0 := by
  have hwf : ∀ i ∈ [CommandLineItem.profile "ps_5_0", .entry "main"],
      i.WellFormed exampleProfiles := by
    intro i hi
    simp only [List.mem_cons, List.mem_singleton, List.not_mem_nil, or_false] at hi
    rcases hi with rfl | rfl
    · show exampleProfiles "ps_5_0" ≠ .SLANG_PROFILE_UNKNOWN
      decide
    · trivial
  obtain ⟨p, m, _, hparse, hentries, houts, _, _, _, _, hcount, _, _, _, hb⟩ :=
    parse_items_state exampleProfiles {} [.profile "ps_5_0", .entry "main"] rfl hwf
  rw [entryPointsOf_profile_entry] at hentries
  have houts1 : (beforeProfileBackfill p).rawOutputPaths = [] := by
    rw [houts]
    decide
  have hcount1 : (beforeProfileBackfill p).translationUnitCount = 0 := by
    rw [hcount]
    decide
  have hq : applyProfiles (beforeProfileBackfill p) = .continued (beforeProfileBackfill p) := by
    apply applyProfiles_known
    rw [hentries]
    decide
  have hpass : (outputPasses (beforeProfileBackfill p) m).rawEntryPoints =
      [{ name := "main", profileID := .registered 1 }] := by
    rw [outputPasses_rawEntryPoints, hentries, houts1]
    rfl
  obtain ⟨r, p1, hres, hsink, hr, hiff, hes, _⟩ :=
    resolve_after_profiles p m _ hq (by
      intro e he
      rw [hpass] at he
      rw [List.mem_singleton.mp he, houts1]
      decide)
  have hmem : Diagnostic.multipleTranslationUnitsNeedEntryPoints ∈
      outputDiagnostics (beforeProfileBackfill p) := by
    have ht : translationUnitDiagnostics (beforeProfileBackfill p).rawEntryPoints
        (beforeProfileBackfill p).translationUnitCount =
        [.multipleTranslationUnitsNeedEntryPoints] := by
      rw [hentries, hcount1]
      decide
    unfold outputDiagnostics
    rw [ht]
    simp
  have hfail : r = .SLANG_FAIL :=
    fail_of_error _ _ r hr (hsink ▸ hiff) _ hmem (by decide)
  have hc := resolve_translationUnitCount p m r p1 hres
  refine ⟨p1, ?_, ?_, ?_⟩
  · have ht : tokensOf [CommandLineItem.profile "ps_5_0", .entry "main"] =
        ["-profile", "ps_5_0", "-entry", "main"] := by decide
    rw [← ht, hparse, hres, hfail]
  · rw [hes, hpass]
    rfl
  · rw [hc]
    rw [beforeProfileBackfill_eq] at hcount1
    exact hcount1

/-- C25, as stated, fails at `-profile ps_5_0 -entry main` on a new request:
`parse` returns `SLANG_FAIL`, and in the parser it returns the entry point
`main` has the unit index `0` although `translationUnitCount` is `0`. -/
theorem failure_with_unit_index_out_of_range :
    ∃ p1, ({} : OptionsParser).parse exampleProfiles ["-profile", "ps_5_0", "-entry", "main"] =
        some (.SLANG_FAIL, p1) ∧
      p1.rawEntryPoints =
        [{ name := "main", profileID := .registered 1, translationUnitIndex := 0 }] ∧
      p1.translationUnitCount = 0 ∧
      ¬ EntryUnitsInRange p1 := by
  obtain ⟨p1, hparse, hentries, hcount⟩ := parse_entry_without_unit
  refine ⟨p1, hparse, hentries, hcount, ?_⟩
  intro h
  have h1 := h { name := "main", profileID := .registered 1, translationUnitIndex := 0 }
    (by rw [hentries]; exact List.mem_singleton.mpr rfl) (by decide)
  rw [hcount] at h1
  exact absurd h1.2 (by decide)

/-- C25, amended: on a request without translation units, in the parser the
argument loop ends with, in the parser before profile backfill, in the parser
profile backfill leaves, in the parser the output passes leave and in the
parser translation-unit backfill leaves when it goes on, each entry point
whose `translationUnitIndex` is not `-1` has `0 ≤ translationUnitIndex <
translationUnitCount`.  `parse` returns, and the same holds in the parser it
returns, with success or with failure, except in the one state translation-unit
backfill returns `SLANG_FAIL` from when there is no translation unit at all:
there `translationUnitCount` is `0`, there are entry points, and every one of
them has the unit index `0`. -/
theorem resolved_unit_index_in_range (spFindProfile : String → SlangProfileID)
    (req : CompileRequest) (args : List String) (hreq : req.translationUnits = []) :
    (∀ p m, parseArgs spFindProfile args { requestImpl := req, flags := req.compileFlags }
        .SLANG_MATRIX_LAYOUT_MODE_UNKNOWN = .finished p m →
      EntryUnitsInRange p ∧ EntryUnitsInRange (beforeProfileBackfill p) ∧
      ∀ q, applyProfiles (beforeProfileBackfill p) = .continued q →
        EntryUnitsInRange q ∧ EntryUnitsInRange (outputPasses q m) ∧
        ∀ q2, attachTranslationUnits (outputPasses q m) = .continued q2 →
          EntryUnitsInRange q2) ∧
    (∃ r p1, ({ requestImpl := req } : OptionsParser).parse spFindProfile args = some (r, p1)) ∧
    (∀ r p1, ({ requestImpl := req } : OptionsParser).parse spFindProfile args = some (r, p1) →
      (EntryUnitsInRange p1 ∨
        (r = .SLANG_FAIL ∧ p1.translationUnitCount = 0 ∧ p1.rawEntryPoints ≠ [] ∧
          ∀ e ∈ p1.rawEntryPoints, e.translationUnitIndex = 0)) ∧
      (r = .SLANG_OK → EntryUnitsInRange p1) ∧
      (0 < p1.translationUnitCount → EntryUnitsInRange p1)) := by
  refine ⟨?_, parse_isSome spFindProfile req args hreq, ?_⟩
  · intro p m hscan
    have hinv : ScanInv p := by
      rcases parseArgs_ScanInv spFindProfile args
        { requestImpl := req, flags := req.compileFlags } .SLANG_MATRIX_LAYOUT_MODE_UNKNOWN
        (ScanInv_new req hreq) with ⟨p2, m2, h2, hinv, _⟩ | ⟨p2, h2, _⟩
      · rw [h2] at hscan
        cases hscan
        exact hinv
      · rw [h2] at hscan
        cases hscan
    refine ⟨EntryUnitsInRange_of_ScanInv p hinv, EntryUnitsInRange_before p hinv, ?_⟩
    intro q hq
    have h1 := EntryUnitsInRange_continued p q hinv hq
    have h2 := EntryUnitsInRange_of_step (outputPasses_step q m) h1
    exact ⟨h1, h2, fun q2 hq2 => EntryUnitsInRange_attach (outputPasses q m) q2 h2 hq2⟩
  · intro r p1 h
    have hcases := parse_units_in_range spFindProfile req args r p1 hreq h
    refine ⟨hcases, ?_, ?_⟩
    · intro hr
      rcases hcases with hc | ⟨hf, _⟩
      · exact hc
      · rw [hr] at hf
        cases hf
    · intro hpos
      rcases hcases with hc | ⟨_, h0, _⟩
      · exact hc
      · rw [h0] at hpos
        exact absurd hpos (by decide)

/-- C25, amended, at `shader.frag` on a new request: `parse` returns
`SLANG_OK`, and the unit index `0` of the entry point `main` is below the
`translationUnitCount` of the parser it returns. -/
theorem resolved_unit_index_in_range_witness :
    ({} : CompileRequest).translationUnits = [] ∧
    ∃ p1, ({ requestImpl := {} } : OptionsParser).parse exampleProfiles ["shader.frag"] =
        some (.SLANG_OK, p1) ∧ EntryUnitsInRange p1 := by
  obtain ⟨p1, hparse, _⟩ := parse_shader_frag
  exact ⟨rfl, p1, hparse,
    ((resolved_unit_index_in_range exampleProfiles {} ["shader.frag"] rfl).2.2
      .SLANG_OK p1 hparse).2.1 rfl⟩

/-- C26: what the code does at the one input `shader.vert` on a new request.
No entry of the table of `findGlslProfileFromPath` ends the path, so
`findSourceLanguageFromPath` answers the unknown language, and `parse`
returns `SLANG_FAIL` with the one diagnostic `cannotDeduceSourceLanguage`,
without a translation unit and without an entry point; at `shader.frag` it
returns `SLANG_OK` with the one entry point `main` of the fragment profile. -/
theorem vert_input_has_unknown_language :
    findGlslProfileFromPath "shader.vert" = .SLANG_PROFILE_UNKNOWN ∧
    findSourceLanguageFromPath "shader.vert" =
      (.SLANG_SOURCE_LANGUAGE_UNKNOWN, .SLANG_PROFILE_UNKNOWN) ∧
    (∃ p1, ({} : OptionsParser).parse exampleProfiles ["shader.vert"] = some (.SLANG_FAIL, p1) ∧
      p1.rawEntryPoints = [] ∧ p1.rawTranslationUnits = [] ∧
      p1.requestImpl.entryPoints = [] ∧
      p1.requestImpl.mSink.diagnostics = [.cannotDeduceSourceLanguage "shader.vert"]) ∧
    (∃ p1, ({} : OptionsParser).parse exampleProfiles ["shader.frag"] = some (.SLANG_OK, p1) ∧
      p1.rawEntryPoints =
        [{ name := "main", profileID := .GLSL_Fragment, translationUnitIndex := 0 }]) := by
  refine ⟨by decide, by decide, ⟨_, rfl, rfl, rfl, rfl, rfl⟩, ?_⟩
  obtain ⟨p1, h1, h2, _⟩ := parse_shader_frag
  exact ⟨p1, h1, h2⟩

theorem entryPointsOf_two_frag_one_output (spFindProfile : String → SlangProfileID) :
    entryPointsOf spFindProfile [.input "a.frag", .input "b.frag", .output "x.foo"] =
      [{ name := "main", profileID := .GLSL_Fragment, translationUnitIndex := 0 },
       { name := "main", profileID := .GLSL_Fragment, translationUnitIndex := 1 }] := by
  have u : unitRecords [.input "a.frag", .input "b.frag", .output "x.foo"] =
      [{ sourceLanguage := .SLANG_SOURCE_LANGUAGE_GLSL
         implicitProfile := .GLSL_Fragment, translationUnitIndex := 0 },
       { sourceLanguage := .SLANG_SOURCE_LANGUAGE_GLSL
         implicitProfile := .GLSL_Fragment, translationUnitIndex := 1 }] := by
    decide
  simp [entryPointsOf, entryRecords, u, implicitEntryPointsFor, implicitEntryPoint, lastProfile,
    profileNames]

theorem wellFormed_two_frag_one_output (spFindProfile : String → SlangProfileID) :
    ∀ i ∈ [CommandLineItem.input "a.frag", .input "b.frag", .output "x.foo"],
      i.WellFormed spFindProfile := by
  intro i hi
  simp only [List.mem_cons, List.mem_singleton, List.not_mem_nil, or_false] at hi
  rcases hi with rfl | rfl | rfl
  · exact wellFormed_input_decide _ _ (by decide) (by decide)
  · exact wellFormed_input_decide _ _ (by decide) (by decide)
  · trivial

/-- At `a.frag b.frag -o x.foo` on a new request `parse` returns `SLANG_FAIL`
after two diagnostics. -/
theorem parse_two_frag_one_output (spFindProfile : String → SlangProfileID) :
    ∃ p1, ({} : OptionsParser).parse spFindProfile ["a.frag", "b.frag", "-o", "x.foo"] =
        some (.SLANG_FAIL, p1) ∧
      p1.requestImpl.mSink.diagnostics =
        [.noOutputPathSpecifiedForEntryPoint "main", .cannotDeduceOutputFormatFromPath "x.foo"] ∧
      p1.requestImpl.mSink.errorCount = 2 := by
  obtain ⟨r, p1, ds, hparse, hdef, hds, hfail, _, _, _, hsink, _⟩ :=
    parse_items_outputs spFindProfile {}
      [.input "a.frag", .input "b.frag", .output "x.foo"] rfl
      (wellFormed_two_frag_one_output spFindProfile)
      (by rw [entryPointsOf_two_frag_one_output]; decide)
  rw [entryPointsOf_two_frag_one_output] at hdef
  have hd : ds = [.noOutputPathSpecifiedForEntryPoint "main",
      .cannotDeduceOutputFormatFromPath "x.foo"] := by
    rw [hdef]
    decide
  have hr : r = .SLANG_FAIL := by
    apply hfail (.noOutputPathSpecifiedForEntryPoint "main") _ rfl
    rw [hd]
    exact List.mem_cons_self _ _
  subst hr
  refine ⟨p1, hparse, ?_, ?_⟩
  · rw [hds, hd]
    rfl
  · rw [hsink, hd]
    rfl

/-- A return from inside the argument loop, from a new parser on a request
without translation units, is the result of `parse`, with `SLANG_FAIL`, after
exactly one diagnostic, an error. -/
theorem parse_scan_failure (spFindProfile : String → SlangProfileID) (req : CompileRequest)
    (args : List String) (r : SlangResult) (p1 : OptionsParser)
    (hreq : req.translationUnits = [])
    (hscan : parseArgs spFindProfile args { requestImpl := req, flags := req.compileFlags }
      .SLANG_MATRIX_LAYOUT_MODE_UNKNOWN = .returned r p1) :
    ({ requestImpl := req } : OptionsParser).parse spFindProfile args = some (r, p1) ∧
      r = .SLANG_FAIL ∧
      ∃ d, d.isError = true ∧
        p1.requestImpl.mSink.diagnostics = req.mSink.diagnostics ++ [d] ∧
        p1.requestImpl.mSink.errorCount = req.mSink.errorCount + 1 := by
  have hparse : ({ requestImpl := req } : OptionsParser).parse spFindProfile args =
      some (r, p1) := by
    show (match parseArgs spFindProfile args { requestImpl := req, flags := req.compileFlags }
        .SLANG_MATRIX_LAYOUT_MODE_UNKNOWN with
      | .asserted => none
      | .returned r p => some (r, p)
      | .finished p m => resolve p m) = _
    rw [hscan]
  rcases parseArgs_ScanInv spFindProfile args
    { requestImpl := req, flags := req.compileFlags } .SLANG_MATRIX_LAYOUT_MODE_UNKNOWN
    (ScanInv_new req hreq) with ⟨p2, m2, h2, _⟩ | ⟨p2, h2, _, ⟨d, herr, hsink⟩, _⟩
  · rw [h2] at hscan
    cases hscan
  · rw [h2] at hscan
    cases hscan
    refine ⟨hparse, rfl, d, herr, ?_, ?_⟩
    · rw [hsink]
      rfl
    · rw [hsink]
      show (if d.isError then req.mSink.errorCount + 1 else req.mSink.errorCount) = _
      rw [if_pos herr]

/-- A return from profile backfill after a scan that finishes, from a new
parser on a request without translation units, is the result of `parse`, with
`SLANG_E_INVALID_ARG`, after exactly one diagnostic. -/
theorem parse_profile_failure (spFindProfile : String → SlangProfileID) (req : CompileRequest)
    (args : List String) (p : OptionsParser) (m : SlangMatrixLayoutMode) (r : SlangResult)
    (q : OptionsParser) (hreq : req.translationUnits = [])
    (hscan : parseArgs spFindProfile args { requestImpl := req, flags := req.compileFlags }
      .SLANG_MATRIX_LAYOUT_MODE_UNKNOWN = .finished p m)
    (hq : applyProfiles (beforeProfileBackfill p) = .returned r q) :
    ({ requestImpl := req } : OptionsParser).parse spFindProfile args = some (r, q) ∧
      r = .SLANG_E_INVALID_ARG ∧
      ∃ d, (d = .noProfileSpecified ∨ d = .multipleEntryPointsNeedMulitpleProfiles) ∧
        q.requestImpl.mSink.diagnostics = req.mSink.diagnostics ++ [d] ∧
        q.requestImpl.mSink.errorCount = req.mSink.errorCount + 1 := by
  have hparse := (parse_of_finished spFindProfile req args p m hscan).trans
    (resolve_returned p m r q hq)
  obtain ⟨_, _, _, hsink, _⟩ := scanned_finished spFindProfile req args p m hreq hscan
  have hsink1 : (beforeProfileBackfill p).requestImpl.mSink = req.mSink := by
    rw [beforeProfileBackfill_eq]
    exact hsink
  obtain ⟨hr, hcases⟩ := applyProfiles_returned _ _ _ hq
  refine ⟨hparse, hr, ?_⟩
  rcases hcases with h | h
  · refine ⟨_, Or.inl rfl, ?_, ?_⟩
    · rw [h, (diagnose_fields _ _).2.2.2.2.2.2.2.2, hsink1]
    · rw [h]
      show ((beforeProfileBackfill p).requestImpl.mSink.diagnose .noProfileSpecified).errorCount
        = _
      rw [hsink1]
      rfl
  · refine ⟨_, Or.inr rfl, ?_, ?_⟩
    · rw [h, (diagnose_fields _ _).2.2.2.2.2.2.2.2, hsink1]
    · rw [h]
      show ((beforeProfileBackfill p).requestImpl.mSink.diagnose
        .multipleEntryPointsNeedMulitpleProfiles).errorCount = _
      rw [hsink1]
      rfl

/-- When the diagnostics `parse` adds hold a profile diagnostic, it is the
only one. -/
theorem parse_profile_diagnostic_alone (spFindProfile : String → SlangProfileID)
    (req : CompileRequest) (args : List String) (r : SlangResult) (p1 : OptionsParser)
    (ds : List Diagnostic) (hreq : req.translationUnits = [])
    (h : ({ requestImpl := req } : OptionsParser).parse spFindProfile args = some (r, p1))
    (hds : p1.requestImpl.mSink.diagnostics = req.mSink.diagnostics ++ ds)
    (hprof : ∃ d ∈ ds, d.isProfileDiagnostic = true) : ds.length = 1 := by
  rcases parse_some_cases spFindProfile { requestImpl := req } args r p1 h with
    hret | ⟨p, m, hscan, hres⟩
  · obtain ⟨_, _, d, _, hd, _⟩ := parse_scan_failure spFindProfile req args r p1 hreq hret
    rw [hd] at hds
    rw [← List.append_cancel_left hds]
    rfl
  · have hscan1 : parseArgs spFindProfile args { requestImpl := req, flags := req.compileFlags }
        .SLANG_MATRIX_LAYOUT_MODE_UNKNOWN = .finished p m := hscan
    cases happ : applyProfiles (beforeProfileBackfill p) with
    | returned r0 q =>
      obtain ⟨hparse, _, d, _, hd, _⟩ :=
        parse_profile_failure spFindProfile req args p m r0 q hreq hscan1 happ
      rw [h] at hparse
      cases hparse
      rw [hd] at hds
      rw [← List.append_cancel_left hds]
      rfl
    | continued q =>
      obtain ⟨_, _, hs, hsink, _⟩ := scanned_finished spFindProfile req args p m hreq hscan1
      obtain ⟨r1, p2, ds1, hres1, hd1, hno, _⟩ := resolve_continued p m q
        (fun e he => (hs.1.inv.entry_output e he).2) happ
      rw [hres] at hres1
      cases hres1
      rw [hsink, hds] at hd1
      have heq := List.append_cancel_left hd1
      obtain ⟨d, hd, hp⟩ := hprof
      rw [heq] at hd
      rw [hno d hd] at hp
      cases hp
/-- C27: one resolution can diagnose more than one error before it returns
failure: at `a.frag b.frag -o x.foo` on a new request `parse` returns
`SLANG_FAIL` after exactly the two diagnostics
`noOutputPathSpecifiedForEntryPoint "main"` (MissingOutputPath) and
`cannotDeduceOutputFormatFromPath "x.foo"` (CannotInferTargetFromPath), in
that order.  On a request without translation units, every return from inside
the argument loop is the result of `parse`, `SLANG_FAIL`, and has added
exactly one diagnostic, an error; every return from profile backfill
(`noProfileSpecified`, NoProfileSpecified, or
`multipleEntryPointsNeedMulitpleProfiles`, AmbiguousProfileAssignment) is the
result of `parse`, `SLANG_E_INVALID_ARG`, and has added exactly that one
diagnostic; and whenever the diagnostics `parse` has added hold one of these
two, it is the only one. -/
theorem several_errors_only_after_profiles (spFindProfile : String → SlangProfileID) :
    (∃ p1, ({} : OptionsParser).parse spFindProfile ["a.frag", "b.frag", "-o", "x.foo"] =
        some (.SLANG_FAIL, p1) ∧
      p1.requestImpl.mSink.diagnostics =
        [.noOutputPathSpecifiedForEntryPoint "main", .cannotDeduceOutputFormatFromPath "x.foo"] ∧
      p1.requestImpl.mSink.errorCount = 2) ∧
    (∀ (req : CompileRequest) (args : List String), req.translationUnits = [] →
      (∀ r p1, parseArgs spFindProfile args { requestImpl := req, flags := req.compileFlags }
          .SLANG_MATRIX_LAYOUT_MODE_UNKNOWN = .returned r p1 →
        ({ requestImpl := req } : OptionsParser).parse spFindProfile args = some (r, p1) ∧
        r = .SLANG_FAIL ∧
        ∃ d, d.isError = true ∧
          p1.requestImpl.mSink.diagnostics = req.mSink.diagnostics ++ [d] ∧
          p1.requestImpl.mSink.errorCount = req.mSink.errorCount + 1) ∧
      (∀ p m r q, parseArgs spFindProfile args { requestImpl := req, flags := req.compileFlags }
          .SLANG_MATRIX_LAYOUT_MODE_UNKNOWN = .finished p m →
        applyProfiles (beforeProfileBackfill p) = .returned r q →
        ({ requestImpl := req } : OptionsParser).parse spFindProfile args = some (r, q) ∧
        r = .SLANG_E_INVALID_ARG ∧
        ∃ d, (d = .noProfileSpecified ∨ d = .multipleEntryPointsNeedMulitpleProfiles) ∧
          q.requestImpl.mSink.diagnostics = req.mSink.diagnostics ++ [d] ∧
          q.requestImpl.mSink.errorCount = req.mSink.errorCount + 1) ∧
      (∀ r p1 ds,
        ({ requestImpl := req } : OptionsParser).parse spFindProfile args = some (r, p1) →
        p1.requestImpl.mSink.diagnostics = req.mSink.diagnostics ++ ds →
        (∃ d ∈ ds, d = .noProfileSpecified ∨ d = .multipleEntryPointsNeedMulitpleProfiles) →
        ds.length = 1)) := by
  refine ⟨parse_two_frag_one_output spFindProfile, ?_⟩
  intro req args hreq
  refine ⟨fun r p1 h => parse_scan_failure spFindProfile req args r p1 hreq h,
    fun p m r q h hq => parse_profile_failure spFindProfile req args p m r q hreq h hq, ?_⟩
  intro r p1 ds h hds ⟨d, hd, hcases⟩
  apply parse_profile_diagnostic_alone spFindProfile req args r p1 ds hreq h hds
  refine ⟨d, hd, ?_⟩
  rcases hcases with rfl | rfl <;> rfl

/-- C27, at `-bogus` and at `x.hlsl` on a new request: the argument loop
returns from `-bogus` with `unknownCommandLineOption`, profile backfill returns
after `x.hlsl` with `noProfileSpecified`, and the theorem applies to both. -/
theorem several_errors_only_after_profiles_witness :
    ({} : CompileRequest).translationUnits = [] ∧
    parseArgs exampleProfiles ["-bogus"]
        { requestImpl := {}, flags := ({} : CompileRequest).compileFlags }
        .SLANG_MATRIX_LAYOUT_MODE_UNKNOWN =
      .returned .SLANG_FAIL (({} : OptionsParser).diagnose (.unknownCommandLineOption "-bogus")) ∧
    (({ requestImpl := {} } : OptionsParser).parse exampleProfiles ["-bogus"] =
        some (.SLANG_FAIL, ({} : OptionsParser).diagnose (.unknownCommandLineOption "-bogus")) ∧
      SlangResult.SLANG_FAIL = .SLANG_FAIL ∧
      ∃ d, d.isError = true ∧
        (({} : OptionsParser).diagnose
            (.unknownCommandLineOption "-bogus")).requestImpl.mSink.diagnostics =
          ({} : CompileRequest).mSink.diagnostics ++ [d] ∧
        (({} : OptionsParser).diagnose
            (.unknownCommandLineOption "-bogus")).requestImpl.mSink.errorCount =
          ({} : CompileRequest).mSink.errorCount + 1) ∧
    ∃ p m, parseArgs exampleProfiles ["x.hlsl"]
        { requestImpl := {}, flags := ({} : CompileRequest).compileFlags }
        .SLANG_MATRIX_LAYOUT_MODE_UNKNOWN = .finished p m ∧
      applyProfiles (beforeProfileBackfill p) =
        .returned .SLANG_E_INVALID_ARG ((beforeProfileBackfill p).diagnose .noProfileSpecified) ∧
      ({ requestImpl := {} } : OptionsParser).parse exampleProfiles ["x.hlsl"] =
        some (.SLANG_E_INVALID_ARG, (beforeProfileBackfill p).diagnose .noProfileSpecified) ∧
      SlangResult.SLANG_E_INVALID_ARG = .SLANG_E_INVALID_ARG ∧
      ∃ d, (d = .noProfileSpecified ∨ d = .multipleEntryPointsNeedMulitpleProfiles) ∧
        ((beforeProfileBackfill p).diagnose .noProfileSpecified).requestImpl.mSink.diagnostics =
          ({} : CompileRequest).mSink.diagnostics ++ [d] ∧
        ((beforeProfileBackfill p).diagnose .noProfileSpecified).requestImpl.mSink.errorCount =
          ({} : CompileRequest).mSink.errorCount + 1 := by
  have hbogus : parseArgs exampleProfiles ["-bogus"]
      { requestImpl := {}, flags := ({} : CompileRequest).compileFlags }
      .SLANG_MATRIX_LAYOUT_MODE_UNKNOWN =
      .returned .SLANG_FAIL
        (({} : OptionsParser).diagnose (.unknownCommandLineOption "-bogus")) :=
    parseArgs_unknown_option exampleProfiles "-bogus" [] _ _ (by decide) (by decide)
      (by decide) (by decide)
  obtain ⟨p, m, hscan, _, hentries, _, _, _, _, _, _, hcur, _⟩ :=
    parse_items_state exampleProfiles {} [.input "x.hlsl"] rfl
      (by
        intro i hi
        rw [List.mem_singleton.mp hi]
        exact wellFormed_input_decide _ _ (by decide) (by decide))
  have hscan1 : parseArgs exampleProfiles ["x.hlsl"]
      { requestImpl := {}, flags := ({} : CompileRequest).compileFlags }
      .SLANG_MATRIX_LAYOUT_MODE_UNKNOWN = .finished p m := hscan
  have he : entryPointsOf exampleProfiles [.input "x.hlsl"] =
      [{ name := "main", profileID := .SLANG_PROFILE_UNKNOWN, translationUnitIndex := 0 }] := by
    decide
  have hl : lastProfile exampleProfiles [.input "x.hlsl"] = .SLANG_PROFILE_UNKNOWN := by
    decide
  rw [he] at hentries
  rw [hl] at hcur
  have hq : applyProfiles (beforeProfileBackfill p) =
      .returned .SLANG_E_INVALID_ARG ((beforeProfileBackfill p).diagnose .noProfileSpecified) := by
    rcases applyProfiles_cases (beforeProfileBackfill p) with ⟨_, _, h⟩ | ⟨_, h, _⟩ | ⟨h, _⟩
    · exact h
    · exact absurd hcur h
    · exact absurd ⟨⟨_, by rw [hentries]; exact List.mem_singleton.mpr rfl, rfl⟩, hcur⟩ h
  have hthm := (several_errors_only_after_profiles exampleProfiles).2
  exact ⟨rfl, hbogus, (hthm {} ["-bogus"] rfl).1 _ _ hbogus, p, m, hscan1, hq,
    (hthm {} ["x.hlsl"] rfl).2.1 p m _ _ hscan1 hq⟩

theorem parse_x_frag_spv_outputs (spFindProfile : String → SlangProfileID) :
    ∃ p1, ({} : OptionsParser).parse spFindProfile ["x.frag", "-o", "a.spv"] =
        some (.SLANG_OK, p1) ∧
      p1.rawOutputPaths = [{ path := "a.spv", target := .SLANG_SPIRV }] := by
  obtain ⟨r, p1, ds, hparse, hdef, _, _, _, hiff, _, hsink, _, hpaths⟩ :=
    parse_items_outputs spFindProfile {} [.input "x.frag", .output "a.spv"] rfl
      (wellFormed_input_output _ _ _ (wellFormed_x_frag _)) (known_x_frag_output _ _)
  rw [entryPointsOf_x_frag_output] at hdef
  have hnil : ds = [] := by
    rw [hdef]
    decide
  have hr : r = .SLANG_OK := by
    rw [hiff, hsink, hnil]
    rfl
  subst hr
  refine ⟨p1, hparse, ?_⟩
  rw [hpaths]
  decide

/-- C28: output paths on success.  For every token list, when `parse`, from a
new parser on a request without translation units, returns `SLANG_OK`, the
scan has read the whole command line, the output paths of the parser are the
`-o` paths of the command line outside containers, and the request has
gained, in order, one entry point for each entry point of the parser; and
when the command line has at least one such `-o` path, every entry point has
an output path index from 0 up to, not including, the number of output paths,
the output path at this index exists, and the entry point is registered with
the path of that output path as its `outputPath`. -/
theorem success_output_paths_in_range (spFindProfile : String → SlangProfileID)
    (req : CompileRequest) (args : List String) (p1 : OptionsParser)
    (hreq : req.translationUnits = [])
    (h : ({ requestImpl := req } : OptionsParser).parse spFindProfile args =
      some (.SLANG_OK, p1)) :
    ∃ items, Reads spFindProfile args items ∧
      p1.rawOutputPaths.map (fun o => o.path) = outputPathsOf items ∧
      p1.requestImpl.entryPoints = req.entryPoints ++
        p1.rawEntryPoints.map (registeredEntryPoint p1.rawOutputPaths) ∧
      (outputPathsOf items ≠ [] →
        ∀ e ∈ p1.rawEntryPoints,
          0 ≤ e.outputPathIndex ∧ e.outputPathIndex < ((outputPathsOf items).length : Int) ∧
          e.outputPathIndex < (p1.rawOutputPaths.length : Int) ∧
          ∃ o, p1.rawOutputPaths[e.outputPathIndex.toNat]? = some o ∧
            registeredEntryPoint p1.rawOutputPaths e =
              { translationUnitIndex := e.translationUnitIndex, name := e.name,
                profile := e.profileID, outputPath := o.path }) := by
  obtain ⟨_, _, q, items, _, hreads, _, houts, hq, _, _, _, _, hreg, _⟩ :=
    parse_success_state spFindProfile req args p1 hreq h
  obtain ⟨_, h2, _⟩ := success_indices spFindProfile req args p1 hreq h
  have hpaths : p1.rawOutputPaths.map (fun o => o.path) = outputPathsOf items := by
    rw [houts, hq, outputRecords, List.map_map]
    exact List.map_id _
  refine ⟨items, hreads, hpaths, ?_, ?_⟩
  · rw [hreg, houts]
  · intro hsome e he
    have hne : p1.rawOutputPaths ≠ [] := by
      intro hnil
      rw [hnil] at hpaths
      exact hsome hpaths.symm
    obtain ⟨hlow, hup⟩ := h2 hne e he
    have hlt : e.outputPathIndex.toNat < p1.rawOutputPaths.length := by
      omega
    have hlen : (outputPathsOf items).length = p1.rawOutputPaths.length := by
      rw [← hpaths, List.length_map]
    refine ⟨hlow, ?_, hup, p1.rawOutputPaths[e.outputPathIndex.toNat], ?_, ?_⟩
    · rw [hlen]
      exact hup
    · exact List.getElem?_eq_getElem hlt
    · simp only [registeredEntryPoint, ge_iff_le, hlow, if_true, List.getElem?_eq_getElem hlt]

/-- C28, at `x.frag -o a.spv` on a new request: `parse` returns `SLANG_OK`,
the command line has the one `-o` path `a.spv`, and the theorem applies. -/
theorem success_output_paths_in_range_witness :
    ({} : CompileRequest).translationUnits = [] ∧
    ∃ p1, ({ requestImpl := {} } : OptionsParser).parse exampleProfiles
        ["x.frag", "-o", "a.spv"] = some (.SLANG_OK, p1) ∧
      ∃ items, Reads exampleProfiles ["x.frag", "-o", "a.spv"] items ∧
        outputPathsOf items = ["a.spv"] ∧
        ∀ e ∈ p1.rawEntryPoints,
          0 ≤ e.outputPathIndex ∧ e.outputPathIndex < ((outputPathsOf items).length : Int) ∧
          e.outputPathIndex < (p1.rawOutputPaths.length : Int) ∧
          ∃ o, p1.rawOutputPaths[e.outputPathIndex.toNat]? = some o ∧
            registeredEntryPoint p1.rawOutputPaths e =
              { translationUnitIndex := e.translationUnitIndex, name := e.name,
                profile := e.profileID, outputPath := o.path } := by
  obtain ⟨p1, hparse, hpaths⟩ := parse_x_frag_spv_outputs exampleProfiles
  obtain ⟨items, hreads, hmap, _, hall⟩ := success_output_paths_in_range exampleProfiles {}
    ["x.frag", "-o", "a.spv"] p1 rfl hparse
  have hout : outputPathsOf items = ["a.spv"] := by
    rw [← hmap, hpaths]
    rfl
  exact ⟨rfl, p1, hparse, items, hreads, hout, hall (by rw [hout]; exact List.cons_ne_nil _ _)⟩

end Slang
